import Mathlib

/-!
# MESI bus, caches and main memory of the four-core simulator

A shallow embedding of `CacheController.c`, `BusController.c` and `MainMemory.c`.

* The C globals (the four registered caches, the bus variables, the bus queue, the
  main-memory array and its counters, the function-local `static` flags) are the
  fields of one record, `Sim`; every C function becomes a function on that record.
* Arrays are total functions on `Nat`; a cell outside the C array's bounds is a cell
  the C program does not own.  `gTransactionStatePerCore` is read and written through
  `state_get` / `state_set`, which leave the array alone for an index outside `0..3`.
* Machine integers are `Nat`; counters wrap explicitly.
* Output parameters become results: a callback that writes through a pointer returns
  the new value next to its `bool`.
* File output (`bustrace`, dumps) is not part of the embedding.
-/

namespace MultiCore

/-! ## Constants and types (`CacheController.h`, `BusController.h`, `sim.h`) -/

def NUM_OF_CORES : Nat := 4
def CACHE_SIZE : Nat := 256
def BLOCK_SIZE : Nat := 4
def NUM_BLOCKS : Nat := CACHE_SIZE / BLOCK_SIZE

/-- The MESI protocol states, in the order of the C enum (`MESIState`). -/
inductive MESIState where
  | MESI_STATE_INVALID
  | MESI_STATE_SHARED
  | MESI_STATE_EXCLUSIVE
  | MESI_STATE_MODIFIED
  deriving DecidableEq, Repr

/-- The bus commands, in the order of the C enum. -/
inductive cmd_on_the_bus where
  | no_cmd
  | busRd
  | busRdX
  | flush
  deriving DecidableEq, Repr

/-- The states of a core's bus transaction (`state_of_transaction`); `finally_` is the C
enumerator `finally`, a reserved word here. -/
inductive state_of_transaction where
  | idle
  | wait_cmd
  | operation
  | finally_
  deriving DecidableEq, Repr

/-- Values of `Bus_transaction_caller`: `core0..core3` are `0..3`. -/
def main_memory : Nat := 4
def invalid_caller : Nat := 0xFFFF

/-- The record `bus_transaction`. -/
structure bus_transaction where
  original_caller : Nat
  origid : Nat
  bus_cmd : cmd_on_the_bus
  bus_addr : Nat
  bus_data : Nat
  bus_shared : Bool
  deriving DecidableEq, Repr

/-- One TSRAM line: a 12-bit tag and the MESI state. -/
structure TSRAMLine where
  tag : Nat
  mesi : MESIState
  deriving DecidableEq, Repr

/-- The hit and miss counters of a cache (`tracking_info`). -/
structure tracking_info where
  read_hits : Nat
  read_misses : Nat
  write_hits : Nat
  write_misses : Nat
  deriving DecidableEq, Repr

/-- The record `Cache_Data`: `tsram` has `NUM_BLOCKS` lines, `dram` has `CACHE_SIZE` words. -/
structure Cache_Data where
  id : Nat
  tsram : Nat → TSRAMLine
  dram : Nat → Nat
  tracking : tracking_info

/-! The bit fields of `CacheAddressInfo`: offset is bits 1:0, index bits 7:2, tag bits 19:8. -/

def fields_offset (address : Nat) : Nat := address % 4
def fields_index (address : Nat) : Nat := (address / 4) % 64
def fields_tag (address : Nat) : Nat := (address / 256) % 4096

/-- The assignment `address.fields.offset = gBusAddrOffset` on the union `MemoryAddress`:
the two low bits of the address are replaced. -/
def set_offset (address : Nat) (off : Nat) : Nat := (address / 4) * 4 + off % 4

/-- The C globals of the bus, the caches and the main memory. -/
structure Sim where
  cache : Nat → Cache_Data
  gIsBusTransactionActive : Bool
  gTransactionStatePerCore : Nat → state_of_transaction
  gOngoingTransaction : bus_transaction
  gBusAddrOffset : Nat
  iterationCount : Nat
  /-- The bus queue, `head_of_queue` first and `tail_of_queue` last. -/
  queue : List bus_transaction
  is_first_access_shared : Bool
  mainMemory : Nat → Nat
  numOfCycles : Nat
  gIsMemoryBusy : Bool
  miss_occurred_read : Bool
  miss_occurred_write : Bool

/-! ## `CacheController.c`: the MESI state machine -/

/-- The function `flush_data`: the cache puts its word on the bus and signs the transaction. -/
def flush_data (c : Cache_Data) (t : bus_transaction) : bus_transaction :=
  { t with
    bus_data := c.dram (fields_index t.bus_addr * BLOCK_SIZE + fields_offset t.bus_addr)
    bus_cmd := cmd_on_the_bus.flush
    origid := c.id }

def MSEI_invalid (_c : Cache_Data) (t : bus_transaction) : MESIState × bus_transaction :=
  (MESIState.MESI_STATE_INVALID, t)

def MSEI_shared (_c : Cache_Data) (t : bus_transaction) : MESIState × bus_transaction :=
  if t.bus_cmd = cmd_on_the_bus.busRdX then (MESIState.MESI_STATE_INVALID, t)
  else (MESIState.MESI_STATE_SHARED, t)

def MSEI_exclusive (_c : Cache_Data) (t : bus_transaction) : MESIState × bus_transaction :=
  if t.bus_cmd = cmd_on_the_bus.busRd then (MESIState.MESI_STATE_SHARED, t)
  else if t.bus_cmd = cmd_on_the_bus.busRdX then (MESIState.MESI_STATE_INVALID, t)
  else (MESIState.MESI_STATE_EXCLUSIVE, t)

def MSEI_modified (c : Cache_Data) (t : bus_transaction) : MESIState × bus_transaction :=
  if t.bus_cmd = cmd_on_the_bus.busRd then (MESIState.MESI_STATE_SHARED, flush_data c t)
  else if t.bus_cmd = cmd_on_the_bus.busRdX then (MESIState.MESI_STATE_INVALID, flush_data c t)
  else if t.bus_cmd = cmd_on_the_bus.flush then (MESIState.MESI_STATE_MODIFIED, flush_data c t)
  else (MESIState.MESI_STATE_MODIFIED, t)

/-- The table `state_handler`, indexed by the current MESI state. -/
def state_handler (m : MESIState) (c : Cache_Data) (t : bus_transaction) :
    MESIState × bus_transaction :=
  match m with
  | MESIState.MESI_STATE_INVALID => MSEI_invalid c t
  | MESIState.MESI_STATE_SHARED => MSEI_shared c t
  | MESIState.MESI_STATE_EXCLUSIVE => MSEI_exclusive c t
  | MESIState.MESI_STATE_MODIFIED => MSEI_modified c t

/-- The assignment `tsram[index].mesi = m`. -/
def set_mesi (c : Cache_Data) (index : Nat) (m : MESIState) : Cache_Data :=
  { c with tsram := Function.update c.tsram index { tag := (c.tsram index).tag, mesi := m } }

/-- The assignment `tsram[index].tag = tag`. -/
def set_tag (c : Cache_Data) (index : Nat) (tag : Nat) : Cache_Data :=
  { c with tsram := Function.update c.tsram index { tag := tag, mesi := (c.tsram index).mesi } }

/-- The assignment `dram[i].data = w`. -/
def set_dram (c : Cache_Data) (i : Nat) (w : Nat) : Cache_Data :=
  { c with dram := Function.update c.dram i w }

def is_block_valid_and_matching (line : TSRAMLine) (tag : Nat) : Bool :=
  decide (line.tag = tag) && decide (line.mesi ≠ MESIState.MESI_STATE_INVALID)

/-- The callback `shared_or_modified_handler`: the result and the new value of `*is_modified`. -/
def shared_or_modified_handler (c : Cache_Data) (t : bus_transaction) (is_modified : Bool) :
    Bool × Bool :=
  if c.id = t.origid then (false, is_modified)
  else
    let line := c.tsram (fields_index t.bus_addr)
    (is_block_valid_and_matching line (fields_tag t.bus_addr),
      if line.mesi = MESIState.MESI_STATE_MODIFIED then true else is_modified)

/-- The function `snooped_transaction`; `index` stands for the pointer `tsram_line`. -/
def snooped_transaction (c : Cache_Data) (index : Nat) (t : bus_transaction) (c_addr : Nat)
    (address_offset : Nat) : Cache_Data × bus_transaction × Bool :=
  if (c.tsram index).tag ≠ fields_tag c_addr ∨
      (c.tsram index).mesi = MESIState.MESI_STATE_INVALID then (c, t, false)
  else
    let r := state_handler (c.tsram index).mesi c t
    if address_offset = BLOCK_SIZE - 1 ∨ (c.tsram index).mesi ≠ MESIState.MESI_STATE_MODIFIED then
      (set_mesi c index r.1, r.2, true)
    else (c, r.2, true)

/-- The callback `snooping_handler`. -/
def snooping_handler (c : Cache_Data) (t : bus_transaction) (address_offset : Nat) :
    Cache_Data × bus_transaction × Bool :=
  if c.id = t.original_caller ∧ t.bus_cmd ≠ cmd_on_the_bus.flush then (c, t, false)
  else snooped_transaction c (fields_index t.bus_addr) t t.bus_addr address_offset

/-- The callback `cache_response_handle`: the cache, the new `*address_offset`, the result. -/
def cache_response_handle (c : Cache_Data) (t : bus_transaction) (address_offset : Nat) :
    Cache_Data × Nat × Bool :=
  if c.id = t.origid ∧ t.bus_cmd ≠ cmd_on_the_bus.flush then (c, address_offset, false)
  else if c.id = t.origid ∧ t.bus_cmd = cmd_on_the_bus.flush then
    if address_offset = BLOCK_SIZE - 1 then (c, address_offset, true)
    else (c, (address_offset + 1) % 256, false)
  else
    let index := fields_index t.bus_addr
    let c1 := set_tag c index (fields_tag t.bus_addr)
    let c2 :=
      if t.bus_cmd = cmd_on_the_bus.flush then
        set_dram c1 (fields_index t.bus_addr * BLOCK_SIZE + fields_offset t.bus_addr) t.bus_data
      else c1
    if address_offset = BLOCK_SIZE - 1 then
      (set_mesi c2 index
          (if t.bus_shared then MESIState.MESI_STATE_SHARED else MESIState.MESI_STATE_EXCLUSIVE),
        address_offset, true)
    else (c2, (address_offset + 1) % 256, false)

/-! ## `MainMemory.c` -/

/-- The function `initialize_memory_transaction`. -/
def initialize_memory_transaction (s : Sim) (direct_transaction : Bool) : Sim :=
  if !s.gIsMemoryBusy then
    { s with gIsMemoryBusy := true, numOfCycles := if direct_transaction then 16 else 0 }
  else s

/-- The function `process_memory_command`: memory answers a read, or stores a flushed word. -/
def process_memory_command (s : Sim) (t : bus_transaction) : Sim × bus_transaction :=
  if t.bus_cmd = cmd_on_the_bus.busRd ∨ t.bus_cmd = cmd_on_the_bus.busRdX then
    (s, { t with origid := main_memory, bus_cmd := cmd_on_the_bus.flush,
                 bus_data := s.mainMemory t.bus_addr })
  else if t.bus_cmd = cmd_on_the_bus.flush then
    ({ s with mainMemory := Function.update s.mainMemory t.bus_addr t.bus_data }, t)
  else (s, t)

/-- The memory callback `bus_transaction_handler`. -/
def bus_transaction_handler (s : Sim) (t : bus_transaction) (direct_transaction : Bool) :
    Sim × bus_transaction × Bool :=
  if t.bus_cmd = cmd_on_the_bus.no_cmd then (s, t, false)
  else
    let s1 := initialize_memory_transaction s direct_transaction
    if 16 ≤ s1.numOfCycles then
      let r := process_memory_command s1 t
      let s2 := if s1.numOfCycles = 19 then { r.1 with gIsMemoryBusy := false } else r.1
      ({ s2 with numOfCycles := (s2.numOfCycles + 1) % 2 ^ 32 }, r.2, true)
    else
      ({ s1 with numOfCycles := (s1.numOfCycles + 1) % 2 ^ 32 }, t, false)

/-! ## `BusController.c` -/

/-- A read of `gTransactionStatePerCore[i]`: the array has `NUM_OF_CORES` entries. -/
def state_get (a : Nat → state_of_transaction) (i : Nat) : Option state_of_transaction :=
  if i < NUM_OF_CORES then some (a i) else none

/-- The assignment `gTransactionStatePerCore[i] = v`. -/
def state_set (a : Nat → state_of_transaction) (i : Nat) (v : state_of_transaction) :
    Nat → state_of_transaction :=
  if i < NUM_OF_CORES then Function.update a i v else a

def is_queue_empty (s : Sim) : Bool := s.queue.isEmpty

/-- The function `queue_enqueue`: the new item becomes `head_of_queue`. -/
def queue_enqueue (s : Sim) (t : bus_transaction) : Sim :=
  { s with queue := t :: s.queue }

/-- The function `queue_dequeue`: the item at `tail_of_queue` leaves the queue. -/
def queue_dequeue (s : Sim) : Option (bus_transaction × Sim) :=
  match s.queue.getLast? with
  | none => none
  | some t => some (t, { s with queue := s.queue.dropLast })

/-- The function `AddTransaction_to_bus`. -/
def AddTransaction_to_bus (s : Sim) (t : bus_transaction) : Sim :=
  let s1 := queue_enqueue s t
  if t.origid = invalid_caller then s1
  else
    { s1 with
      gTransactionStatePerCore :=
        state_set s1.gTransactionStatePerCore t.origid state_of_transaction.wait_cmd }

def IsBusInTransaction (s : Sim) (initiator : Nat) : Bool :=
  decide (state_get s.gTransactionStatePerCore initiator ≠ some state_of_transaction.idle)

def IsBusWaitForTransaction (s : Sim) (initiator : Nat) : Bool :=
  decide (state_get s.gTransactionStatePerCore initiator = some state_of_transaction.wait_cmd)

/-- One turn of the loop of `is_shared_line`: `acc` is `(is_shared, *is_data_modified)`. -/
def is_shared_line_step (s : Sim) (t : bus_transaction) (acc : Bool × Bool) (i : Nat) :
    Bool × Bool :=
  let r := shared_or_modified_handler (s.cache i) t acc.2
  (acc.1 || r.1, r.2)

/-- The function `is_shared_line`: the result and `*is_data_modified` (false on entry). -/
def is_shared_line (s : Sim) (t : bus_transaction) : Bool × Bool :=
  (List.range NUM_OF_CORES).foldl (is_shared_line_step s t) (false, false)

/-- One turn of the loop of `is_any_cache_snoop`: cache `i` snoops the packet. -/
def is_any_cache_snoop_step (acc : Sim × bus_transaction × Bool) (i : Nat) :
    Sim × bus_transaction × Bool :=
  let r := snooping_handler (acc.1.cache i) acc.2.1 acc.1.gBusAddrOffset
  ({ acc.1 with cache := Function.update acc.1.cache i r.1 }, r.2.1, acc.2.2 || r.2.2)

/-- The function `is_any_cache_snoop`. -/
def is_any_cache_snoop (s : Sim) (t : bus_transaction) : Sim × bus_transaction × Bool :=
  (List.range NUM_OF_CORES).foldl is_any_cache_snoop_step (s, t, false)

/-- The part of `Run_Bus_Iteration` that serves the ongoing transaction: everything after the
block that starts a new transaction. -/
def Run_Bus_Iteration_serve (s : Sim) : Sim :=
  let transaction : bus_transaction :=
    { s.gOngoingTransaction with
      bus_addr := set_offset s.gOngoingTransaction.bus_addr s.gBusAddrOffset }
  let sh := is_shared_line s s.gOngoingTransaction
  let transaction := { transaction with bus_shared := sh.1 }
  let is_data_modified := sh.2
  if is_data_modified && s.is_first_access_shared then
    { s with is_first_access_shared := false }
  else
    let sn := is_any_cache_snoop s transaction
    let mem := bus_transaction_handler sn.1 sn.2.1 is_data_modified
    if mem.2.2 then
      let origid := mem.1.gOngoingTransaction.origid
      let r := cache_response_handle (mem.1.cache origid) mem.2.1 mem.1.gBusAddrOffset
      let s1 := { mem.1 with cache := Function.update mem.1.cache origid r.1,
                             gBusAddrOffset := r.2.1 }
      if r.2.2 then
        { s1 with
          gTransactionStatePerCore :=
            state_set s1.gTransactionStatePerCore origid state_of_transaction.finally_
          gIsBusTransactionActive := false }
      else s1
    else mem.1

/-- The function `Run_Bus_Iteration`: one bus cycle. -/
def Run_Bus_Iteration (s : Sim) : Sim :=
  let s := { s with iterationCount := (s.iterationCount + 1) % 2 ^ 32 }
  let s :=
    if state_get s.gTransactionStatePerCore s.gOngoingTransaction.origid
        = some state_of_transaction.finally_ then
      { s with
        gTransactionStatePerCore :=
          state_set s.gTransactionStatePerCore s.gOngoingTransaction.origid
            state_of_transaction.idle }
    else s
  if is_queue_empty s && !s.gIsBusTransactionActive then
    { s with gOngoingTransaction := { s.gOngoingTransaction with origid := invalid_caller } }
  else if !s.gIsBusTransactionActive then
    let s := { s with is_first_access_shared := true }
    match queue_dequeue s with
    | none => s
    | some (t, s) =>
      let s := { s with gOngoingTransaction := t }
      if t.origid = invalid_caller then s
      else
        Run_Bus_Iteration_serve
          { s with
            gOngoingTransaction := { t with original_caller := t.origid }
            gIsBusTransactionActive := true
            gTransactionStatePerCore :=
              state_set s.gTransactionStatePerCore t.origid state_of_transaction.operation
            gBusAddrOffset := 0 }
  else Run_Bus_Iteration_serve s

/-! ## `CacheController.c`: the requests of the core -/

def is_cache_busy (s : Sim) (c : Nat) : Bool :=
  IsBusInTransaction s (s.cache c).id || IsBusWaitForTransaction s (s.cache c).id

/-- Adds `1` to a 32-bit counter. -/
def incr32 (n : Nat) : Nat := (n + 1) % 2 ^ 32

/-- The function `readHit`: the word read, the cache, the new value of the miss flag. -/
def readHit (cd : Cache_Data) (addr : Nat) (miss_occurred_read : Bool) :
    Nat × Cache_Data × Bool :=
  (cd.dram (fields_index addr * BLOCK_SIZE + fields_offset addr),
    if !miss_occurred_read then
      { cd with tracking := { cd.tracking with read_hits := incr32 cd.tracking.read_hits } }
    else cd,
    false)

/-- The function `handle_dirty_block` of cache `c`; `index` stands for `tsram_line`. -/
def handle_dirty_block (s : Sim) (c : Nat) (index : Nat) (addr : Nat) : Sim :=
  if ((s.cache c).tsram index).mesi = MESIState.MESI_STATE_MODIFIED then
    let evict_addr := (((s.cache c).tsram index).tag <<< 8) ||| (fields_index addr <<< 2)
    let evict_data := (s.cache c).dram (fields_index addr * BLOCK_SIZE + fields_offset addr)
    AddTransaction_to_bus s
      { original_caller := 0, origid := (s.cache c).id, bus_cmd := cmd_on_the_bus.flush,
        bus_addr := evict_addr, bus_data := evict_data, bus_shared := false }
  else s

/-- The function `handle_transaction` of cache `c`. -/
def handle_transaction (s : Sim) (c : Nat) (addr : Nat) (b_cmd : cmd_on_the_bus) : Sim :=
  AddTransaction_to_bus s
    { original_caller := 0, origid := (s.cache c).id, bus_cmd := b_cmd,
      bus_addr := addr, bus_data := 0, bus_shared := false }

def bump_read_misses (cd : Cache_Data) : Cache_Data :=
  { cd with tracking := { cd.tracking with read_misses := incr32 cd.tracking.read_misses } }

def bump_write_misses (cd : Cache_Data) : Cache_Data :=
  { cd with tracking := { cd.tracking with write_misses := incr32 cd.tracking.write_misses } }

def bump_write_hits (cd : Cache_Data) : Cache_Data :=
  { cd with tracking := { cd.tracking with write_hits := incr32 cd.tracking.write_hits } }

/-- The function `Read_Data_from_Cache` on the cache of core `c`: the new globals, the result
and the contents of `*data` afterwards (`data` on entry). -/
def Read_Data_from_Cache (s : Sim) (c : Nat) (address : Nat) (data : Nat) : Sim × Bool × Nat :=
  if is_cache_busy s c then (s, false, data)
  else
    let index := fields_index address
    if is_block_valid_and_matching ((s.cache c).tsram index) (fields_tag address) then
      let r := readHit (s.cache c) address s.miss_occurred_read
      ({ s with cache := Function.update s.cache c r.2.1, miss_occurred_read := r.2.2 },
        true, r.1)
    else
      let s1 := { s with cache := Function.update s.cache c (bump_read_misses (s.cache c)),
                         miss_occurred_read := true }
      let s2 := handle_dirty_block s1 c index address
      (handle_transaction s2 c address cmd_on_the_bus.busRd, false, data)

/-- The function `handle_share_state`: the new globals (the result is always `true`). -/
def handle_share_state (s : Sim) (c : Nat) (addr : Nat) : Sim :=
  let s1 := handle_transaction s c addr cmd_on_the_bus.busRdX
  let s2 := AddTransaction_to_bus s1
    { original_caller := 0, origid := invalid_caller, bus_cmd := cmd_on_the_bus.no_cmd,
      bus_addr := 0, bus_data := 0, bus_shared := false }
  { s2 with cache := Function.update s2.cache c (bump_write_misses (s2.cache c)) }

/-- The function `update_cache_write`: the cache and the new value of the miss flag. -/
def update_cache_write (cd : Cache_Data) (addr : Nat) (data : Nat) (miss_occurred_write : Bool) :
    Cache_Data × Bool :=
  let cd1 := if !miss_occurred_write then bump_write_hits cd else cd
  let data_addr := fields_index addr * BLOCK_SIZE + fields_offset addr
  (set_mesi (set_dram cd1 data_addr data) (fields_index addr) MESIState.MESI_STATE_MODIFIED,
    false)

/-- The function `Write_Data_to_Cache` on the cache of core `c`. -/
def Write_Data_to_Cache (s : Sim) (c : Nat) (address : Nat) (data : Nat) : Sim × Bool :=
  if is_cache_busy s c then (s, false)
  else
    let index := fields_index address
    if is_block_valid_and_matching ((s.cache c).tsram index) (fields_tag address) then
      if ((s.cache c).tsram index).mesi = MESIState.MESI_STATE_SHARED then
        ({ handle_share_state s c address with miss_occurred_write := true }, false)
      else
        let r := update_cache_write (s.cache c) address data s.miss_occurred_write
        ({ s with cache := Function.update s.cache c r.1, miss_occurred_write := r.2 }, true)
    else
      let s1 := { s with cache := Function.update s.cache c (bump_write_misses (s.cache c)),
                         miss_occurred_write := true }
      let s2 := handle_dirty_block s1 c index address
      (handle_transaction s2 c address cmd_on_the_bus.busRdX, false)

/-! ## Start-up and runs -/

/-- The cache after `CacheController_Init`: all lines `I` with tag 0, all words 0. -/
def CacheController_Init (id : Nat) : Cache_Data :=
  { id := id
    tsram := fun _ => { tag := 0, mesi := MESIState.MESI_STATE_INVALID }
    dram := fun _ => 0
    tracking := { read_hits := 0, read_misses := 0, write_hits := 0, write_misses := 0 } }

/-- The globals after start-up, with `memin` the image loaded into main memory. -/
def Sim_Init (memin : Nat → Nat) : Sim :=
  { cache := fun i => CacheController_Init i
    gIsBusTransactionActive := false
    gTransactionStatePerCore := fun _ => state_of_transaction.idle
    gOngoingTransaction :=
      { original_caller := 0, origid := 0, bus_cmd := cmd_on_the_bus.no_cmd,
        bus_addr := 0, bus_data := 0, bus_shared := false }
    gBusAddrOffset := 0
    iterationCount := 0
    queue := []
    is_first_access_shared := true
    mainMemory := memin
    numOfCycles := 0
    gIsMemoryBusy := false
    miss_occurred_read := false
    miss_occurred_write := false }

/-- What can happen between two cycle boundaries: a bus tick, or a request of a core. -/
inductive Event where
  | tick
  | read (c : Nat) (address : Nat)
  | write (c : Nat) (address : Nat) (data : Nat)
  deriving DecidableEq, Repr

/-- The effect of one event on the globals. -/
def Sim.step (s : Sim) (e : Event) : Sim :=
  match e with
  | Event.tick => Run_Bus_Iteration s
  | Event.read c a => (Read_Data_from_Cache s c a 0).1
  | Event.write c a d => (Write_Data_to_Cache s c a d).1

/-- The globals after a list of events. -/
def Sim.run (s : Sim) (es : List Event) : Sim := es.foldl Sim.step s

/-- The run that repeats the bus tick `n` times. -/
def ticks (s : Sim) (n : Nat) : Sim := Nat.iterate Run_Bus_Iteration n s

/-! ## Auxiliary definitions for the statements -/

/-- The globals after the first `n` calls of the memory callback, call `k` (from 0) being made
with the packet `ts k` and the flag `ds k`. -/
def memory_calls (s : Sim) (ts : Nat → bus_transaction) (ds : Nat → Bool) : Nat → Sim
  | 0 => s
  | n + 1 => (bus_transaction_handler (memory_calls s ts ds n) (ts n) (ds n)).1

/-- The result of call `n` (from 0) of the memory callback in that sequence. -/
def memory_answer (s : Sim) (ts : Nat → bus_transaction) (ds : Nat → Bool) (n : Nat) : Bool :=
  (bus_transaction_handler (memory_calls s ts ds n) (ts n) (ds n)).2.2

/-- The start-up globals with line 16 of every cache made exclusive. -/
def C5_example : Sim :=
  { Sim_Init (fun _ => 0) with
    cache := fun i => set_mesi (CacheController_Init i) 16 MESIState.MESI_STATE_EXCLUSIVE }

/-- The flags of a sequence of calls whose first call has the flag `direct`. -/
def first_flag (direct : Bool) (ds : Nat → Bool) : Nat → Bool :=
  fun k => if k = 0 then direct else ds k

/-! ## Reachable states and concrete runs -/

/-- An event the program can produce: a core id below `NUM_OF_CORES`, 32-bit address and data. -/
def Event.valid (e : Event) : Prop :=
  match e with
  | Event.tick => True
  | Event.read c a => c < NUM_OF_CORES ∧ a < 2 ^ 32
  | Event.write c a d => c < NUM_OF_CORES ∧ a < 2 ^ 32 ∧ d < 2 ^ 32

instance (e : Event) : Decidable e.valid := by
  cases e <;> unfold Event.valid <;> infer_instance

/-- The states at cycle boundaries: from the start-up globals (any memory image) by bus ticks
and read and write requests of the four cores. -/
inductive Reachable : Sim → Prop where
  | init (memin : Nat → Nat) : Reachable (Sim_Init memin)
  | step (s : Sim) (e : Event) : Reachable s → e.valid → Reachable (s.step e)

/-- Cache `c` holds the line `(tag, index)` in MESI state `m`. -/
def holds (s : Sim) (c tag index : Nat) (m : MESIState) : Prop :=
  (s.cache c).tsram index = { tag := tag, mesi := m }

instance (s : Sim) (c tag index : Nat) (m : MESIState) : Decidable (holds s c tag index m) := by
  unfold holds; infer_instance

/-- Cache `c` holds the line `(tag, index)` in `M` or in `E`. -/
def holds_ME (s : Sim) (c tag index : Nat) : Prop :=
  holds s c tag index MESIState.MESI_STATE_MODIFIED ∨
  holds s c tag index MESIState.MESI_STATE_EXCLUSIVE

instance (s : Sim) (c tag index : Nat) : Decidable (holds_ME s c tag index) := by
  unfold holds_ME; infer_instance

/-- The event list of `n` bus ticks. -/
def tick_events (n : Nat) : List Event := List.replicate n Event.tick

/-- A run on a zeroed memory.  Core 0 writes `0xAA` to `0x41` and core 1 writes `0xBB` to `0x141`
(same index 16, tags 0 and 1); each write misses, is filled by its `BusRdX` and is retried, so
both lines are `M`. -/
def run_two_dirty : List Event :=
  [Event.tick, Event.write 0 0x41 0xAA, Event.write 1 0x141 0xBB] ++ tick_events 21 ++
  [Event.write 0 0x41 0xAA] ++ tick_events 21 ++ [Event.write 1 0x141 0xBB]

/-- After `run_two_dirty`, core 1 reads `0x41`: a miss on its dirty line, which queues the `Flush`
of block `0x140` and the `BusRd` of `0x41`. -/
def run_dirty_fill : List Event := run_two_dirty ++ [Event.read 1 0x41]

/-- The globals after `run_dirty_fill` and `n` more bus ticks. -/
def after_dirty_fill (n : Nat) : Sim :=
  (Sim_Init (fun _ => 0)).run (run_dirty_fill ++ tick_events n)

/-- After `run_dirty_fill` has settled, core 2 dirties block `0x240` (index 16, tag 2) and then
reads `0x41`, which queues the `Flush` of block `0x240` and the `BusRd` of `0x41`. -/
def run_three_holders : List Event :=
  run_dirty_fill ++ tick_events 12 ++ [Event.write 2 0x241 0xCC] ++ tick_events 21 ++
  [Event.write 2 0x241 0xCC, Event.read 2 0x41] ++ tick_events 11

/-- After `run_three_holders`, core 0 writes `0xDD` to `0x41`, and `n` bus ticks follow. -/
def after_shared_write (n : Nat) : Sim :=
  (Sim_Init (fun _ => 0)).run
    (run_three_holders ++ [Event.write 0 0x41 0xDD] ++ tick_events n)

/-- A run on a zeroed memory.  Core 0 fills block `0x40` (index 16, tag 0) with the words
`1, 2, 3, 4`, one write per cycle.  Then core 1 writes to `0x40` (a miss: its `BusRdX` is
queued), and in the next cycle core 0 reads `0x242` (index 16, tag 2): a miss on its dirty
line, which queues the `Flush` of block `0x40` and the `BusRd` of `0x242`. -/
def run_evict_race : List Event :=
  [Event.tick, Event.write 0 0x40 1] ++ tick_events 21 ++
  [Event.write 0 0x40 1, Event.tick, Event.write 0 0x41 2, Event.tick,
   Event.write 0 0x42 3, Event.tick, Event.write 0 0x43 4, Event.tick,
   Event.write 1 0x40 9, Event.tick, Event.read 0 0x242]

/-- The globals after `run_evict_race` and `n` more bus ticks. -/
def after_evict_race (n : Nat) : Sim :=
  (Sim_Init (fun _ => 0)).run (run_evict_race ++ tick_events n)

/-- A run on a zeroed memory.  Core 0 writes `0xAA` to `0x40` (miss, fill, retried write: line
16 is `M` with tag 0); a cycle later core 0 reads `0x140` (index 16, tag 1): a miss on its
dirty line, which queues the `Flush` of block `0x40` and the `BusRd` of `0x140`. -/
def run_owner_evicts : List Event :=
  [Event.tick, Event.write 0 0x40 0xAA] ++ tick_events 21 ++
  [Event.write 0 0x40 0xAA, Event.tick, Event.read 0 0x140]

/-- After `run_owner_evicts`, in the same cycle, core 1 reads `0x40`; `n` bus ticks follow. -/
def after_owner_evicts (n : Nat) : Sim :=
  (Sim_Init (fun _ => 0)).run (run_owner_evicts ++ [Event.read 1 0x40] ++ tick_events n)

/-- A run on a zeroed memory.  Core 0 writes `0xAA` to `0x41` (line 16 of cache 0 becomes `M`
with tag 0); core 1 reads `0x141` (index 16, tag 1) and holds that block in `E` six ticks
later; then core 1 reads `0x41`: a miss on a clean line, which queues the `BusRd` of `0x41`. -/
def run_clean_fill : List Event :=
  [Event.tick, Event.write 0 0x41 0xAA] ++ tick_events 21 ++
  [Event.write 0 0x41 0xAA, Event.read 1 0x141] ++ tick_events 6 ++ [Event.read 1 0x41]

/-- The globals after `run_clean_fill` and `n` more bus ticks. -/
def after_clean_fill (n : Nat) : Sim :=
  (Sim_Init (fun _ => 0)).run (run_clean_fill ++ tick_events n)

/-- The run `run_evict_race` without the write of core 1: core 0 fills block `0x40` with the
words `1, 2, 3, 4` and then reads `0x242`, with nothing else on the bus. -/
def run_evict_quiet : List Event :=
  [Event.tick, Event.write 0 0x40 1] ++ tick_events 21 ++
  [Event.write 0 0x40 1, Event.tick, Event.write 0 0x41 2, Event.tick,
   Event.write 0 0x42 3, Event.tick, Event.write 0 0x43 4, Event.tick, Event.read 0 0x242]

/-- The globals after `run_evict_quiet` and `n` more bus ticks. -/
def after_evict_quiet (n : Nat) : Sim :=
  (Sim_Init (fun _ => 0)).run (run_evict_quiet ++ tick_events n)

/-! ## The steps of a bus tick, named -/

/-- The globals after the first two statements of `Run_Bus_Iteration`: the iteration counter is
incremented and a core whose transaction was in state `finally` becomes idle. -/
def tick_begin (s : Sim) : Sim :=
  let s := { s with iterationCount := (s.iterationCount + 1) % 2 ^ 32 }
  if state_get s.gTransactionStatePerCore s.gOngoingTransaction.origid
      = some state_of_transaction.finally_ then
    { s with
      gTransactionStatePerCore :=
        state_set s.gTransactionStatePerCore s.gOngoingTransaction.origid
          state_of_transaction.idle }
  else s

/-- The globals when `Run_Bus_Iteration` has dequeued the transaction `t` of a core, with `q`
left in the queue, and is about to serve it. -/
def tick_start (s : Sim) (t : bus_transaction) (q : List bus_transaction) : Sim :=
  { tick_begin s with
    is_first_access_shared := true
    queue := q
    gOngoingTransaction := { t with original_caller := t.origid }
    gIsBusTransactionActive := true
    gTransactionStatePerCore :=
      state_set (tick_begin s).gTransactionStatePerCore t.origid state_of_transaction.operation
    gBusAddrOffset := 0 }

/-- The packet that `Run_Bus_Iteration` builds for this cycle: the ongoing transaction with the
offset counter in its address and the shared line in `bus_shared`. -/
def bus_packet (s : Sim) : bus_transaction :=
  { s.gOngoingTransaction with
    bus_addr := set_offset s.gOngoingTransaction.bus_addr s.gBusAddrOffset
    bus_shared := (is_shared_line s s.gOngoingTransaction).1 }

/-- The packet as cache `i` receives it in the loop of `is_any_cache_snoop`, after the caches
`0 .. i-1` have snooped it. -/
def snoop_seen (s : Sim) (t : bus_transaction) : Nat → bus_transaction
  | 0 => t
  | i + 1 => (snooping_handler (s.cache i) (snoop_seen s t i) s.gBusAddrOffset).2.1

/-- Cache `i` after it has snooped the packet `t` in the loop of `is_any_cache_snoop`. -/
def snooped (s : Sim) (t : bus_transaction) (i : Nat) : Cache_Data :=
  (snooping_handler (s.cache i) (snoop_seen s t i) s.gBusAddrOffset).1

/-- The MESI table as a function of the current state and the command seen. -/
def mesi_next (m : MESIState) (cmd : cmd_on_the_bus) : MESIState :=
  match m, cmd with
  | MESIState.MESI_STATE_INVALID, _ => MESIState.MESI_STATE_INVALID
  | MESIState.MESI_STATE_SHARED, cmd_on_the_bus.busRdX => MESIState.MESI_STATE_INVALID
  | MESIState.MESI_STATE_SHARED, _ => MESIState.MESI_STATE_SHARED
  | MESIState.MESI_STATE_EXCLUSIVE, cmd_on_the_bus.busRd => MESIState.MESI_STATE_SHARED
  | MESIState.MESI_STATE_EXCLUSIVE, cmd_on_the_bus.busRdX => MESIState.MESI_STATE_INVALID
  | MESIState.MESI_STATE_EXCLUSIVE, _ => MESIState.MESI_STATE_EXCLUSIVE
  | MESIState.MESI_STATE_MODIFIED, cmd_on_the_bus.busRd => MESIState.MESI_STATE_SHARED
  | MESIState.MESI_STATE_MODIFIED, cmd_on_the_bus.busRdX => MESIState.MESI_STATE_INVALID
  | MESIState.MESI_STATE_MODIFIED, _ => MESIState.MESI_STATE_MODIFIED

/-- Cache `c` reacts to the packet `t`: it is not the original caller of a command other than
`Flush`, and its line at the index of the address is valid with the tag of the address. -/
def snoops (c : Cache_Data) (t : bus_transaction) : Prop :=
  ¬ (c.id = t.original_caller ∧ t.bus_cmd ≠ cmd_on_the_bus.flush) ∧
  (c.tsram (fields_index t.bus_addr)).tag = fields_tag t.bus_addr ∧
  (c.tsram (fields_index t.bus_addr)).mesi ≠ MESIState.MESI_STATE_INVALID

instance (c : Cache_Data) (t : bus_transaction) : Decidable (snoops c t) := by
  unfold snoops; infer_instance

/-- Cache `c` supplies the data of the packet `t`: it reacts to it with its line in `M`. -/
def supplies (c : Cache_Data) (t : bus_transaction) : Prop :=
  snoops c t ∧ (c.tsram (fields_index t.bus_addr)).mesi = MESIState.MESI_STATE_MODIFIED ∧
  t.bus_cmd ≠ cmd_on_the_bus.no_cmd

instance (c : Cache_Data) (t : bus_transaction) : Decidable (supplies c t) := by
  unfold supplies; infer_instance

/-- The value of the latency counter that the memory callback compares with 16: the counter
itself when memory is busy, and otherwise its start value. -/
def mem_count (s : Sim) (direct : Bool) : Nat :=
  if s.gIsMemoryBusy then s.numOfCycles else if direct then 16 else 0

/-- The packet after the memory callback has answered: a read command is turned into the
`Flush` of the memory word; a `Flush` is left as it is. -/
def memory_packet (s : Sim) (pk : bus_transaction) : bus_transaction :=
  if pk.bus_cmd = cmd_on_the_bus.flush then pk
  else { pk with origid := main_memory, bus_cmd := cmd_on_the_bus.flush,
                 bus_data := s.mainMemory pk.bus_addr }

/-- The packet of this cycle after the snoop loop and the memory answer. -/
def answer_packet (s : Sim) : bus_transaction :=
  memory_packet s (snoop_seen s (bus_packet s) NUM_OF_CORES)

/-- The callback `cache_response_handle` of this cycle: on the originator's cache as the snoop
loop left it, with the answer packet. -/
def bus_response (s : Sim) : Cache_Data × Nat × Bool :=
  cache_response_handle
    (if s.gOngoingTransaction.origid < NUM_OF_CORES
      then snooped s (bus_packet s) s.gOngoingTransaction.origid
      else s.cache s.gOngoingTransaction.origid)
    (answer_packet s) s.gBusAddrOffset

/-! ## A block read that is served by main memory -/

/-- Cache `c` holds the block of address `a`: its line at the index of `a` is valid and has the
tag of `a`. -/
def holds_block (c : Cache_Data) (a : Nat) : Prop :=
  (c.tsram (fields_index a)).tag = fields_tag a ∧
  (c.tsram (fields_index a)).mesi ≠ MESIState.MESI_STATE_INVALID

instance (c : Cache_Data) (a : Nat) : Decidable (holds_block c a) := by
  unfold holds_block; infer_instance

/-- Which other caches hold the block after a cycle in which the caches snooped the command
`cmd`, when `V` says which held it before: `BusRdX` invalidates every copy. -/
def holders_after (cmd : cmd_on_the_bus) (V : Nat → Prop) : Nat → Prop :=
  fun c => cmd ≠ cmd_on_the_bus.busRdX ∧ V c

/-- The globals while the bus serves the read command `cmd` (`BusRd` or `BusRdX`) of core `r`
for address `a` and no other cache has the block in `M`; `n` is the memory counter (0 when the
memory has not started), `mem` the contents of main memory, and `V` says which other caches
hold the block. -/
structure Filling (mem : Nat → Nat) (r : Nat) (cmd : cmd_on_the_bus) (a data : Nat) (sh : Bool)
    (V : Nat → Prop) (n : Nat) (s : Sim) : Prop where
  active : s.gIsBusTransactionActive = true
  ongoing : s.gOngoingTransaction =
    { original_caller := r, origid := r, bus_cmd := cmd, bus_addr := a, bus_data := data,
      bus_shared := sh }
  core : s.gTransactionStatePerCore r = state_of_transaction.operation
  ids : ∀ i, i < NUM_OF_CORES → (s.cache i).id = i
  rlt : r < NUM_OF_CORES
  read : cmd = cmd_on_the_bus.busRd ∨ cmd = cmd_on_the_bus.busRdX
  nodetour : (is_shared_line s s.gOngoingTransaction).2 = true →
    s.is_first_access_shared = false
  busy : s.gIsMemoryBusy = decide (1 ≤ n)
  count : 1 ≤ n → s.numOfCycles = n
  offset : s.gBusAddrOffset = n - 16
  memory : s.mainMemory = mem
  owner : ∀ c, c < NUM_OF_CORES → c ≠ r →
    ¬ ((s.cache c).tsram (fields_index a) =
        { tag := fields_tag a, mesi := MESIState.MESI_STATE_MODIFIED })
  others : ∀ c, c < NUM_OF_CORES → c ≠ r → (holds_block (s.cache c) a ↔ V c)
  tag : 17 ≤ n → ((s.cache r).tsram (fields_index a)).tag = fields_tag a
  words : ∀ j, j + 17 ≤ n →
    (s.cache r).dram (fields_index a * BLOCK_SIZE + j) = mem (set_offset a j)

/-- The globals when the read command has been served: the transaction is over, memory is idle,
the requester has the block, `S` when one of the other caches held it and `E` otherwise. -/
structure Filled (mem : Nat → Nat) (r : Nat) (cmd : cmd_on_the_bus) (a : Nat)
    (V : Nat → Prop) (s : Sim) : Prop where
  active : s.gIsBusTransactionActive = false
  origid : s.gOngoingTransaction.origid = r
  core : s.gTransactionStatePerCore r = state_of_transaction.finally_
  ids : ∀ i, i < NUM_OF_CORES → (s.cache i).id = i
  busy : s.gIsMemoryBusy = false
  memory : s.mainMemory = mem
  others : ∀ c, c < NUM_OF_CORES → c ≠ r → (holds_block (s.cache c) a ↔ holders_after cmd V c)
  tag : ((s.cache r).tsram (fields_index a)).tag = fields_tag a
  mesi : ((s.cache r).tsram (fields_index a)).mesi =
    MESIState.MESI_STATE_SHARED ∧ (∃ c, c < NUM_OF_CORES ∧ c ≠ r ∧ V c) ∨
    ((s.cache r).tsram (fields_index a)).mesi =
    MESIState.MESI_STATE_EXCLUSIVE ∧ ¬ (∃ c, c < NUM_OF_CORES ∧ c ≠ r ∧ V c)
  words : ∀ j, j < BLOCK_SIZE →
    (s.cache r).dram (fields_index a * BLOCK_SIZE + j) = mem (set_offset a j)

/-- The globals after core 0 has issued a read of `0x40` on the start-up globals: the
`BusRd` waits in the queue. -/
def C9_example : Sim := (Read_Data_from_Cache (Sim_Init (fun a => a + 1)) 0 0x40 0).1

/-- The `BusRd` that waits in the queue of `C9_example`. -/
def C9_packet : bus_transaction :=
  { original_caller := 0, origid := 0, bus_cmd := cmd_on_the_bus.busRd, bus_addr := 0x40,
    bus_data := 0, bus_shared := false }

/-- The delay transaction that `handle_share_state` queues behind its `BusRdX`. -/
def delay_transaction : bus_transaction :=
  { original_caller := 0, origid := invalid_caller, bus_cmd := cmd_on_the_bus.no_cmd,
    bus_addr := 0, bus_data := 0, bus_shared := false }

/-- The transaction that `handle_transaction` queues for core `c`. -/
def request_packet (c : Nat) (cmd : cmd_on_the_bus) (addr : Nat) : bus_transaction :=
  { original_caller := 0, origid := c, bus_cmd := cmd, bus_addr := addr, bus_data := 0,
    bus_shared := false }

/-- The start-up globals with block `0x80` (index 32, tag 0) shared by caches 0 and 1. -/
def C7_example : Sim :=
  { Sim_Init (fun _ => 0) with
    cache := fun i =>
      if i < 2 then set_mesi (CacheController_Init i) 32 MESIState.MESI_STATE_SHARED
      else CacheController_Init i }

/-! ## A block read that is supplied by the cache that owns the block -/

/-- The globals while cache `o`, which holds the block of `a` in `M`, supplies it to the
`BusRd` of core `r`, every other cache having its line at that index in `I`; `n` words have
been delivered, `W` are the four words of the owner. -/
structure Supplying (W : Nat → Nat) (o r a data : Nat) (sh : Bool) (n : Nat) (s : Sim) :
    Prop where
  active : s.gIsBusTransactionActive = true
  ongoing : s.gOngoingTransaction =
    { original_caller := r, origid := r, bus_cmd := cmd_on_the_bus.busRd, bus_addr := a,
      bus_data := data, bus_shared := sh }
  core : s.gTransactionStatePerCore r = state_of_transaction.operation
  ids : ∀ i, i < NUM_OF_CORES → (s.cache i).id = i
  olt : o < NUM_OF_CORES
  rlt : r < NUM_OF_CORES
  ne : o ≠ r
  first : s.is_first_access_shared = false
  busy : s.gIsMemoryBusy = decide (1 ≤ n)
  count : 1 ≤ n → s.numOfCycles = 16 + n
  offset : s.gBusAddrOffset = n
  bound : n ≤ 3
  owner : (s.cache o).tsram (fields_index a) =
    { tag := fields_tag a, mesi := MESIState.MESI_STATE_MODIFIED }
  invalid : ∀ c, c < NUM_OF_CORES → c ≠ o →
    ((s.cache c).tsram (fields_index a)).mesi = MESIState.MESI_STATE_INVALID
  odata : ∀ j, (s.cache o).dram (fields_index a * BLOCK_SIZE + j) = W j
  rwords : ∀ j, j < n → (s.cache r).dram (fields_index a * BLOCK_SIZE + j) = W j
  mwords : ∀ j, j < n → s.mainMemory (set_offset a j) = W j

/-- The globals when the owner has supplied the block: both caches hold it in `S`, with the
same four words, and main memory has them too. -/
structure Supplied (W : Nat → Nat) (o r a : Nat) (s : Sim) : Prop where
  active : s.gIsBusTransactionActive = false
  core : s.gTransactionStatePerCore r = state_of_transaction.finally_
  busy : s.gIsMemoryBusy = false
  owner : (s.cache o).tsram (fields_index a) =
    { tag := fields_tag a, mesi := MESIState.MESI_STATE_SHARED }
  requester : (s.cache r).tsram (fields_index a) =
    { tag := fields_tag a, mesi := MESIState.MESI_STATE_SHARED }
  odata : ∀ j, j < BLOCK_SIZE → (s.cache o).dram (fields_index a * BLOCK_SIZE + j) = W j
  rwords : ∀ j, j < BLOCK_SIZE → (s.cache r).dram (fields_index a * BLOCK_SIZE + j) = W j
  mwords : ∀ j, j < BLOCK_SIZE → s.mainMemory (set_offset a j) = W j

/-- The start-up globals with block `0x40` (index 16, tag 0) held in `M` by cache 0, whose
word at `0x40` is `0xAA`. -/
def C6_example : Sim :=
  { Sim_Init (fun _ => 0) with
    cache := fun i =>
      if i = 0 then
        set_dram (set_mesi (CacheController_Init i) 16 MESIState.MESI_STATE_MODIFIED) 64 0xAA
      else CacheController_Init i }

/-! ## The invariant behind the uniqueness of the owner of a line -/

/-- No transaction of core `c` is in the list. -/
def no_packet (c : Nat) (D : List bus_transaction) : Prop := ∀ t, t ∈ D → t.origid ≠ c

/-- The shape of the bus queue, read in the order of service: every transaction is the delay
transaction of `handle_share_state` or comes from a core; a `Flush` of a core is followed at
once by the read command of the same core; after the read command of a core nothing of that
core is queued. -/
def batches : List bus_transaction → Prop
  | [] => True
  | t :: D =>
    (t.origid = invalid_caller ∨ t.origid < NUM_OF_CORES) ∧
    (t.origid < NUM_OF_CORES →
      t.bus_cmd ≠ cmd_on_the_bus.no_cmd ∧
      if t.bus_cmd = cmd_on_the_bus.flush then
        ∃ x, D.head? = some x ∧ x.origid = t.origid ∧ x.bus_cmd ≠ cmd_on_the_bus.flush
      else no_packet t.origid D) ∧
    batches D

/-- The line is held in `M` or in `E`. -/
def owned (l : TSRAMLine) : Prop :=
  l.mesi = MESIState.MESI_STATE_MODIFIED ∨ l.mesi = MESIState.MESI_STATE_EXCLUSIVE

instance (l : TSRAMLine) : Decidable (owned l) := by
  unfold owned; infer_instance

/-- A `BusRd` or `BusRdX` of core `c` for an address of the given index is being served. -/
def fill_in_progress (s : Sim) (c index : Nat) : Prop :=
  s.gIsBusTransactionActive = true ∧
  s.gOngoingTransaction.bus_cmd ≠ cmd_on_the_bus.flush ∧
  s.gOngoingTransaction.origid = c ∧
  fields_index s.gOngoingTransaction.bus_addr = index

instance (s : Sim) (c index : Nat) : Decidable (fill_in_progress s c index) := by
  unfold fill_in_progress; infer_instance

/-- What holds of the globals at every cycle boundary. -/
structure Inv (s : Sim) : Prop where
  ids : ∀ i, i < NUM_OF_CORES → (s.cache i).id = i
  tags : ∀ i, i < NUM_OF_CORES → ∀ k, ((s.cache i).tsram k).tag < 4096
  act_state : s.gIsBusTransactionActive = true →
    s.gOngoingTransaction.origid < NUM_OF_CORES ∧
    s.gTransactionStatePerCore s.gOngoingTransaction.origid = state_of_transaction.operation ∧
    s.gOngoingTransaction.original_caller = s.gOngoingTransaction.origid ∧
    s.gOngoingTransaction.bus_cmd ≠ cmd_on_the_bus.no_cmd
  op_state : ∀ c, c < NUM_OF_CORES →
    s.gTransactionStatePerCore c = state_of_transaction.operation →
    s.gIsBusTransactionActive = true ∧ s.gOngoingTransaction.origid = c
  fin_state : ∀ c, c < NUM_OF_CORES →
    s.gTransactionStatePerCore c = state_of_transaction.finally_ →
    s.gIsBusTransactionActive = false ∧ s.gOngoingTransaction.origid = c
  q_ok : batches s.queue.reverse
  q_idle : ∀ c, c < NUM_OF_CORES →
    s.gTransactionStatePerCore c = state_of_transaction.idle → no_packet c s.queue
  q_cur : ∀ c, c < NUM_OF_CORES →
    (s.gTransactionStatePerCore c = state_of_transaction.operation ∨
      s.gTransactionStatePerCore c = state_of_transaction.finally_) →
    if s.gOngoingTransaction.bus_cmd = cmd_on_the_bus.flush then
      ∃ x D, s.queue.reverse = x :: D ∧ x.origid = c ∧
        x.bus_cmd ≠ cmd_on_the_bus.flush ∧ no_packet c D
    else no_packet c s.queue
  q_flush : ∀ t, t ∈ s.queue → t.bus_cmd = cmd_on_the_bus.flush → t.origid < NUM_OF_CORES →
    ((s.cache t.origid).tsram (fields_index t.bus_addr)).tag = fields_tag t.bus_addr
  cur_flush : s.gIsBusTransactionActive = true →
    s.gOngoingTransaction.bus_cmd = cmd_on_the_bus.flush →
    ((s.cache s.gOngoingTransaction.origid).tsram
      (fields_index s.gOngoingTransaction.bus_addr)).tag
      = fields_tag s.gOngoingTransaction.bus_addr
  me : ∀ k c d, c < NUM_OF_CORES → d < NUM_OF_CORES → c ≠ d →
    owned ((s.cache c).tsram k) → owned ((s.cache d).tsram k) →
    ((s.cache c).tsram k).tag = ((s.cache d).tsram k).tag →
    fill_in_progress s c k ∨ fill_in_progress s d k

/-! ## States on which the request functions are tried -/

/-- The start-up globals with block `0x40` (index 16, tag 0) held by cache 0 in state `m`. -/
def one_line (m : MESIState) : Sim :=
  { Sim_Init (fun _ => 0) with
    cache := fun i =>
      if i = 0 then set_mesi (CacheController_Init i) 16 m else CacheController_Init i }

/-- The eviction `Flush` that `handle_dirty_block` queues for the line `index` of cache `c` on a
miss at `addr`: the address is made of the resident tag and the index, the data is the word of
the resident block at the offset of `addr`. -/
def evict_packet (s : Sim) (c addr : Nat) : bus_transaction :=
  { original_caller := 0, origid := (s.cache c).id, bus_cmd := cmd_on_the_bus.flush,
    bus_addr := (((s.cache c).tsram (fields_index addr)).tag <<< 8) ||| (fields_index addr <<< 2),
    bus_data := (s.cache c).dram (fields_index addr * BLOCK_SIZE + fields_offset addr),
    bus_shared := false }

/-! ## The call of the memory callback in a bus tick -/

/-- The call `gMemCallback(&transaction, is_data_modified)` of `Run_Bus_Iteration`, for the part
that serves the ongoing transaction: the globals at the call (the caches have snooped), the
packet and the flag `direct_transaction`; `none` when the tick returns before the call. -/
def serve_memory_call (s : Sim) : Option (Sim × bus_transaction × Bool) :=
  let transaction : bus_transaction :=
    { s.gOngoingTransaction with
      bus_addr := set_offset s.gOngoingTransaction.bus_addr s.gBusAddrOffset }
  let sh := is_shared_line s s.gOngoingTransaction
  let transaction := { transaction with bus_shared := sh.1 }
  let is_data_modified := sh.2
  if is_data_modified && s.is_first_access_shared then none
  else
    let sn := is_any_cache_snoop s transaction
    some (sn.1, sn.2.1, is_data_modified)

/-- What `Run_Bus_Iteration` does after the memory callback has returned `mem`. -/
def serve_after_memory (mem : Sim × bus_transaction × Bool) : Sim :=
  if mem.2.2 then
    let origid := mem.1.gOngoingTransaction.origid
    let r := cache_response_handle (mem.1.cache origid) mem.2.1 mem.1.gBusAddrOffset
    let s1 := { mem.1 with cache := Function.update mem.1.cache origid r.1,
                           gBusAddrOffset := r.2.1 }
    if r.2.2 then
      { s1 with
        gTransactionStatePerCore :=
          state_set s1.gTransactionStatePerCore origid state_of_transaction.finally_
        gIsBusTransactionActive := false }
    else s1
  else mem.1

/-- The call of the memory callback in the bus tick that starts from `s`, if the tick makes
one: the same path as `Run_Bus_Iteration`. -/
def memory_call (s : Sim) : Option (Sim × bus_transaction × Bool) :=
  let s := { s with iterationCount := (s.iterationCount + 1) % 2 ^ 32 }
  let s :=
    if state_get s.gTransactionStatePerCore s.gOngoingTransaction.origid
        = some state_of_transaction.finally_ then
      { s with
        gTransactionStatePerCore :=
          state_set s.gTransactionStatePerCore s.gOngoingTransaction.origid
            state_of_transaction.idle }
    else s
  if is_queue_empty s && !s.gIsBusTransactionActive then none
  else if !s.gIsBusTransactionActive then
    let s := { s with is_first_access_shared := true }
    match queue_dequeue s with
    | none => none
    | some (t, s) =>
      let s := { s with gOngoingTransaction := t }
      if t.origid = invalid_caller then none
      else
        serve_memory_call
          { s with
            gOngoingTransaction := { t with original_caller := t.origid }
            gIsBusTransactionActive := true
            gTransactionStatePerCore :=
              state_set s.gTransactionStatePerCore t.origid state_of_transaction.operation
            gBusAddrOffset := 0 }
  else serve_memory_call s

/-- The flag `direct_transaction` that the bus tick from `s` passes to the memory. -/
def direct_flag (s : Sim) : Option Bool := (memory_call s).map (fun a => a.2.2)

/-- The transaction that the bus tick from `s` serves when it calls the memory. -/
def served_transaction (s : Sim) : Option bus_transaction :=
  (memory_call s).map (fun a => a.1.gOngoingTransaction)

/-- The first events of `run_clean_fill`: cache 0 holds block `0x40` (index 16, tag 0) in `M`,
core 1 has asked for `0x141` (index 16, tag 1), and `n` bus ticks have passed since. -/
def after_read_behind_owner (n : Nat) : Sim :=
  (Sim_Init (fun _ => 0)).run
    ([Event.tick, Event.write 0 0x41 0xAA] ++ tick_events 21 ++
      [Event.write 0 0x41 0xAA, Event.read 1 0x141] ++ tick_events n)

/-! ## `BusController.c`: the bus queue as a doubly linked list

The globals above keep the queue as a list.  Here the queue is embedded as the C code has it:
nodes of type `queue_for_bus` on the heap, linked by `prev` and `next`, with the two globals
`head_of_queue` and `tail_of_queue`.  A pointer is an `Option Nat`, `none` for `NULL`; a
function returns `none` when it would read or write through a pointer to no node. -/

/-- The record `queue_for_bus`: a node of the queue. -/
structure queue_for_bus where
  item : bus_transaction
  prev : Option Nat
  next : Option Nat
  deriving DecidableEq, Repr

/-- The nodes that are allocated, and the globals `head_of_queue` and `tail_of_queue`. -/
structure BusQueue where
  heap : Nat → Option queue_for_bus
  head_of_queue : Option Nat
  tail_of_queue : Option Nat

namespace Linked

/-- The assignment `p->prev = v`. -/
def set_prev (heap : Nat → Option queue_for_bus) (p : Nat) (v : Option Nat) :
    Option (Nat → Option queue_for_bus) :=
  match heap p with
  | none => none
  | some n => some (Function.update heap p (some { n with prev := v }))

/-- The assignment `p->next = v`. -/
def set_next (heap : Nat → Option queue_for_bus) (p : Nat) (v : Option Nat) :
    Option (Nat → Option queue_for_bus) :=
  match heap p with
  | none => none
  | some n => some (Function.update heap p (some { n with next := v }))

/-- The function `is_queue_empty`. -/
def is_queue_empty (q : BusQueue) : Bool := q.head_of_queue.isNone

/-- The function `queue_enqueue`; `malloc` is what the call of `malloc` returns.  The result
is the new queue and the value returned. -/
def queue_enqueue (q : BusQueue) (malloc : Option Nat) (transaction : bus_transaction) :
    Option (BusQueue × Bool) :=
  match malloc with
  | none => some (q, false)
  | some item =>
    let heap := Function.update q.heap item
      (some { item := transaction, prev := none, next := none })
    match q.head_of_queue with
    | none =>
      some ({ heap := heap, head_of_queue := some item, tail_of_queue := some item }, true)
    | some head =>
      match set_prev heap head (some item) with
      | none => none
      | some heap1 =>
        match set_next heap1 item (some head) with
        | none => none
        | some heap2 =>
          some ({ heap := heap2, head_of_queue := some item,
                  tail_of_queue := q.tail_of_queue }, true)

/-- The function `queue_dequeue`; `transaction` is the contents of `*transaction` on entry.
The result is the new queue, the value returned and the contents of `*transaction`. -/
def queue_dequeue (q : BusQueue) (transaction : bus_transaction) :
    Option (BusQueue × Bool × bus_transaction) :=
  match q.tail_of_queue with
  | none => some (q, false, transaction)
  | some item =>
    match q.heap item with
    | none => none
    | some node =>
      let tail := node.prev
      let linked : Option ((Nat → Option queue_for_bus) × Option Nat) :=
        match tail with
        | none => some (q.heap, none)
        | some t =>
          match set_next q.heap t none with
          | none => none
          | some heap1 => some (heap1, q.head_of_queue)
      match linked with
      | none => none
      | some (heap1, head) =>
        match set_prev heap1 item none with
        | none => none
        | some heap2 =>
          match heap2 item with
          | none => none
          | some node2 =>
            some ({ heap := Function.update heap2 item none, head_of_queue := head,
                    tail_of_queue := tail }, true, node2.item)

/-- A call of one of the two queue functions. -/
inductive Call where
  | enqueue (transaction : bus_transaction) (malloc : Option Nat)
  | dequeue (transaction : bus_transaction)
  deriving DecidableEq, Repr

/-- What a call returns: the value, and for `queue_dequeue` the contents of `*transaction`. -/
inductive Outcome where
  | enqueued (ok : Bool)
  | dequeued (ok : Bool) (transaction : bus_transaction)
  deriving DecidableEq, Repr

/-- One call on the linked queue. -/
def call (q : BusQueue) : Call → Option (BusQueue × Outcome)
  | Call.enqueue t m =>
    match queue_enqueue q m t with
    | none => none
    | some r => some (r.1, Outcome.enqueued r.2)
  | Call.dequeue t =>
    match queue_dequeue q t with
    | none => none
    | some r => some (r.1, Outcome.dequeued r.2.1 r.2.2)

/-- A sequence of calls on the linked queue: the queue at the end and what each call
returned; `none` when a call goes through a pointer to no node. -/
def calls (q : BusQueue) : List Call → Option (BusQueue × List Outcome)
  | [] => some (q, [])
  | c :: rest =>
    match call q c with
    | none => none
    | some (q1, o) =>
      match calls q1 rest with
      | none => none
      | some (q2, os) => some (q2, o :: os)

/-- Every `malloc` of the sequence that succeeds returns an address that holds no node at
that moment. -/
def mallocs_fresh (q : BusQueue) : List Call → Bool
  | [] => true
  | c :: rest =>
    (match c with
      | Call.enqueue _ (some p) => (q.heap p).isNone
      | _ => true) &&
    (match call q c with
      | none => true
      | some (q1, _) => mallocs_fresh q1 rest)

/-- The queue at start-up: both globals are `NULL` and no node is allocated. -/
def start : BusQueue :=
  { heap := fun _ => none, head_of_queue := none, tail_of_queue := none }

/-- The address of the first of the cells `l`, or `nxt` when there is none. -/
def first_or (l : List (Nat × bus_transaction)) (nxt : Option Nat) : Option Nat :=
  match l with
  | [] => nxt
  | b :: _ => some b.1

/-- The nodes from `head_of_queue` on: `cells` lists the address and the item of each node,
`prev` is what the first node has as `prev`, and the last node has `next = last_next`. -/
def chain (heap : Nat → Option queue_for_bus) :
    Option Nat → List (Nat × bus_transaction) → Option Nat → Prop
  | _, [], _ => True
  | prev, (a, t) :: rest, last_next =>
    heap a = some { item := t, prev := prev, next := first_or rest last_next } ∧
    chain heap (some a) rest last_next

/-- The `prev` pointer of the node that follows the cells `l`. -/
def last_or (prev : Option Nat) (l : List (Nat × bus_transaction)) : Option Nat :=
  match l.getLast? with
  | none => prev
  | some c => some c.1

/-- The linked queue `q` holds exactly the nodes `cells`, the newest first. -/
structure Holds (q : BusQueue) (cells : List (Nat × bus_transaction)) : Prop where
  nodup : (cells.map Prod.fst).Nodup
  head : q.head_of_queue = cells.head?.map Prod.fst
  tail : q.tail_of_queue = cells.getLast?.map Prod.fst
  links : chain q.heap none cells none

/-- The first-in first-out queue of the specification: `pending` lists the transactions that
were enqueued and not yet dequeued, the oldest first.  An enqueue that succeeds adds at the
back; a dequeue returns the oldest and removes it, or returns false and leaves the output
as it was when nothing is pending. -/
def fifo_calls (pending : List bus_transaction) : List Call → List Outcome
  | [] => []
  | Call.enqueue t m :: rest =>
    Outcome.enqueued m.isSome :: fifo_calls (if m.isSome then pending ++ [t] else pending) rest
  | Call.dequeue out :: rest =>
    match pending with
    | [] => Outcome.dequeued false out :: fifo_calls [] rest
    | oldest :: others => Outcome.dequeued true oldest :: fifo_calls others rest

/-- A sequence of calls on which the queue is tried. -/
def example_calls : List Call :=
  [Call.enqueue (request_packet 0 cmd_on_the_bus.busRd 0x40) (some 100),
   Call.enqueue (request_packet 1 cmd_on_the_bus.busRdX 0x80) (some 200),
   Call.dequeue delay_transaction,
   Call.enqueue (request_packet 2 cmd_on_the_bus.busRd 0xC0) none,
   Call.enqueue (request_packet 3 cmd_on_the_bus.busRd 0x100) (some 100),
   Call.dequeue delay_transaction,
   Call.dequeue delay_transaction,
   Call.dequeue delay_transaction]

end Linked

/-! ## `sim.h`, `OpcodeHandlers.h`: the instruction word and the opcodes -/

def NUM_OF_REGS : Nat := 16
def IMM_REG : Nat := 1
def ZERO_REG : Nat := 0
def START_MUTABLE_REG : Nat := 2
def PC_REG : Nat := 15
def UINT16_MAX : Nat := 65535
def INSTRUCTIONMEMORYSIZE : Nat := 1024
def NUMBER_OPCODES : Nat := 21

/-! The bit fields of `Format_of_instruction` on the 32-bit word `cmd`: `imm` is bits 11:0,
`rt` bits 15:12, `rs` bits 19:16, `rd` bits 23:20, `opcode` bits 31:24.  Every field is
declared `uint16_t`, so its value is the unsigned number that the bits spell. -/

namespace Format_of_instruction

def imm (cmd : Nat) : Nat := cmd % 4096
def rt (cmd : Nat) : Nat := (cmd / 4096) % 16
def rs (cmd : Nat) : Nat := (cmd / 65536) % 16
def rd (cmd : Nat) : Nat := (cmd / 1048576) % 16
def opcode (cmd : Nat) : Nat := (cmd / 16777216) % 256

/-- The word with the given fields. -/
def encode (opcode rd rs rt imm : Nat) : Nat :=
  opcode * 16777216 + rd * 1048576 + rs * 65536 + rt * 4096 + imm

end Format_of_instruction

/-! The enumeration `OpcodeFunctions`. -/

def ADD : Nat := 0
def SUB : Nat := 1
def AND : Nat := 2
def OR : Nat := 3
def XOR : Nat := 4
def MUL : Nat := 5
def SLL : Nat := 6
def SRA : Nat := 7
def SRL : Nat := 8
def BEQ : Nat := 9
def BNE : Nat := 10
def BLT : Nat := 11
def BGT : Nat := 12
def BLE : Nat := 13
def BGE : Nat := 14
def JAL : Nat := 15
def LW : Nat := 16
def SW : Nat := 17
def HALT : Nat := 20

/-! The enumeration `Pipe_figstate`. -/

def FETCH : Nat := 0
def DECODE : Nat := 1
def EXECUTE : Nat := 2
def MEM : Nat := 3
def WRITE_BACK : Nat := 4
def PIPE_SIZE : Nat := 5

/-- The functions that `OpcodeFunctionTable` points to: a value of the pointer type
`void (*)(OpcodeParams*)` that is not `NULL`. -/
inductive OpcodeFunction where
  | add | sub | and | or | xor | mul
  | logicShiftLeft | arithmeticShiftRight | logicShiftRight
  | branchEqual | branchNotEqual | branchLessThan | branchGreaterThan
  | branchLessEqual | branchGreaterEqual
  | jump
  deriving DecidableEq, Repr

/-- The record `OpcodeParams`.  The pointer `rd` is `none` for `NULL` and otherwise the number
of the pipeline stage whose `result_of_execution` it points to; the cell `*pc` is kept in
`Pipe_fig`; `memory_p` and `halt` are never read. -/
structure OpcodeParams where
  rd : Option Nat
  rs : Nat
  rt : Nat
  deriving DecidableEq, Repr

/-- The record `Pipe_instruction_stage`; `operation` is `none` for `NULL`. -/
structure Pipe_instruction_stage where
  state : Nat
  pc : Nat
  instruction : Nat
  result_of_execution : Nat
  operation : Option OpcodeFunction
  deriving DecidableEq, Repr

/-- The record `Pipe_Stats`. -/
structure Pipe_Stats where
  stalls_in_decode : Nat
  stalls_in_mem : Nat
  deriving DecidableEq, Repr

/-- The record `Pipe_fig` with what its pointers point to: `insturcionts_pnt` is the array
`instruction_memory` of the core (`INSTRUCTIONMEMORYSIZE` words), `regs_pnt` the array
`registers` (16 words), `pc` the 16-bit cell `*params_of_op.pc`, the low half of the `pc` of
the core.  The member `data_in_cache` is the cache of the core, kept in `Sim`. -/
structure Pipe_fig where
  is_halted : Bool
  data_stall : Bool
  mem_stall : Bool
  insturcionts_pnt : Nat → Nat
  regs_pnt : Nat → Nat
  stages_in_pipe : Nat → Pipe_instruction_stage
  params_of_op : OpcodeParams
  stats : Pipe_Stats
  pc : Nat

/-- The assignment `stages_in_pipe[stage].result_of_execution = v`. -/
def set_result (p : Pipe_fig) (stage : Nat) (v : Nat) : Pipe_fig :=
  { p with
    stages_in_pipe :=
      Function.update p.stages_in_pipe stage
        { p.stages_in_pipe stage with result_of_execution := v } }

/-- The assignment `stages_in_pipe[stage].pc = v`. -/
def set_stage_pc (p : Pipe_fig) (stage : Nat) (v : Nat) : Pipe_fig :=
  { p with
    stages_in_pipe :=
      Function.update p.stages_in_pipe stage { p.stages_in_pipe stage with pc := v } }

/-! ## `OpcodeHandlers.c`

Every function takes the pipeline for `params` and returns `none` when it goes through a
`NULL` pointer or when C leaves the operation undefined (a shift by 32 bits or more). -/

namespace OpcodeHandlers

/-- The value `*params->rd`. -/
def load_rd (p : Pipe_fig) : Option Nat :=
  match p.params_of_op.rd with
  | none => none
  | some stage => some (p.stages_in_pipe stage).result_of_execution

/-- The assignment `*params->rd = v`. -/
def store_rd (p : Pipe_fig) (v : Nat) : Option Pipe_fig :=
  match p.params_of_op.rd with
  | none => none
  | some stage => some (set_result p stage v)

/-- The assignment `*params->pc = (uint16_t)(*params->rd & 0x1FF)`. -/
def store_pc (p : Pipe_fig) : Option Pipe_fig :=
  match load_rd p with
  | none => none
  | some v => some { p with pc := (v &&& 0x1FF) % 65536 }

def add (p : Pipe_fig) : Option Pipe_fig :=
  store_rd p ((p.params_of_op.rs + p.params_of_op.rt) % 2 ^ 32)

def sub (p : Pipe_fig) : Option Pipe_fig :=
  store_rd p ((p.params_of_op.rs + 2 ^ 32 - p.params_of_op.rt % 2 ^ 32) % 2 ^ 32)

def and (p : Pipe_fig) : Option Pipe_fig :=
  store_rd p (p.params_of_op.rs &&& p.params_of_op.rt)

def or (p : Pipe_fig) : Option Pipe_fig :=
  store_rd p (p.params_of_op.rs ||| p.params_of_op.rt)

def xor (p : Pipe_fig) : Option Pipe_fig :=
  store_rd p (p.params_of_op.rs ^^^ p.params_of_op.rt)

def mul (p : Pipe_fig) : Option Pipe_fig :=
  store_rd p ((p.params_of_op.rs * p.params_of_op.rt) % 2 ^ 32)

def logicShiftLeft (p : Pipe_fig) : Option Pipe_fig :=
  if p.params_of_op.rt < 32 then
    store_rd p ((p.params_of_op.rs <<< p.params_of_op.rt) % 2 ^ 32)
  else none

def logicShiftRight (p : Pipe_fig) : Option Pipe_fig :=
  if p.params_of_op.rt < 32 then store_rd p (p.params_of_op.rs >>> p.params_of_op.rt)
  else none

/-- The shift of `(int32_t)params->rs`: the sign bit is copied into the vacated bits. -/
def arithmeticShiftRight (p : Pipe_fig) : Option Pipe_fig :=
  if p.params_of_op.rt < 32 then
    store_rd p
      (if p.params_of_op.rs % 2 ^ 32 < 2 ^ 31 then
        (p.params_of_op.rs % 2 ^ 32) >>> p.params_of_op.rt
      else 2 ^ 32 - 1 - ((2 ^ 32 - 1 - p.params_of_op.rs % 2 ^ 32) >>> p.params_of_op.rt))
  else none

def branchEqual (p : Pipe_fig) : Option Pipe_fig :=
  if p.params_of_op.rs = p.params_of_op.rt then store_pc p else some p

def branchNotEqual (p : Pipe_fig) : Option Pipe_fig :=
  if p.params_of_op.rs ≠ p.params_of_op.rt then store_pc p else some p

def branchLessThan (p : Pipe_fig) : Option Pipe_fig :=
  if p.params_of_op.rs < p.params_of_op.rt then store_pc p else some p

def branchGreaterThan (p : Pipe_fig) : Option Pipe_fig :=
  if p.params_of_op.rs > p.params_of_op.rt then store_pc p else some p

def branchLessEqual (p : Pipe_fig) : Option Pipe_fig :=
  if p.params_of_op.rs ≤ p.params_of_op.rt then store_pc p else some p

def branchGreaterEqual (p : Pipe_fig) : Option Pipe_fig :=
  if p.params_of_op.rs ≥ p.params_of_op.rt then store_pc p else some p

def jump (p : Pipe_fig) : Option Pipe_fig := store_pc p

/-- The function `IsOpcodeBranch`. -/
def IsOpcodeBranch (opcode : Nat) : Bool := decide (opcode ≥ BEQ) && decide (opcode ≤ JAL)

/-- The function `IsOpcodeMemory`. -/
def IsOpcodeMemory (opcode : Nat) : Bool := decide (opcode = LW) || decide (opcode = SW)

/-- The array `OpcodeFunctionTable`: 21 entries, of which the first 16 are initialised and the
other five are `NULL`.  The result is `none` for an index outside the array. -/
def OpcodeFunctionTable (opcode : Nat) : Option (Option OpcodeFunction) :=
  match opcode with
  | 0 => some (some OpcodeFunction.add)
  | 1 => some (some OpcodeFunction.sub)
  | 2 => some (some OpcodeFunction.and)
  | 3 => some (some OpcodeFunction.or)
  | 4 => some (some OpcodeFunction.xor)
  | 5 => some (some OpcodeFunction.mul)
  | 6 => some (some OpcodeFunction.logicShiftLeft)
  | 7 => some (some OpcodeFunction.arithmeticShiftRight)
  | 8 => some (some OpcodeFunction.logicShiftRight)
  | 9 => some (some OpcodeFunction.branchEqual)
  | 10 => some (some OpcodeFunction.branchNotEqual)
  | 11 => some (some OpcodeFunction.branchLessThan)
  | 12 => some (some OpcodeFunction.branchGreaterThan)
  | 13 => some (some OpcodeFunction.branchLessEqual)
  | 14 => some (some OpcodeFunction.branchGreaterEqual)
  | 15 => some (some OpcodeFunction.jump)
  | n => if n < NUMBER_OPCODES then some none else none

/-- The call `f(&pipeline->params_of_op)` of a function of the table. -/
def call (f : OpcodeFunction) (p : Pipe_fig) : Option Pipe_fig :=
  match f with
  | OpcodeFunction.add => add p
  | OpcodeFunction.sub => sub p
  | OpcodeFunction.and => and p
  | OpcodeFunction.or => or p
  | OpcodeFunction.xor => xor p
  | OpcodeFunction.mul => mul p
  | OpcodeFunction.logicShiftLeft => logicShiftLeft p
  | OpcodeFunction.arithmeticShiftRight => arithmeticShiftRight p
  | OpcodeFunction.logicShiftRight => logicShiftRight p
  | OpcodeFunction.branchEqual => branchEqual p
  | OpcodeFunction.branchNotEqual => branchNotEqual p
  | OpcodeFunction.branchLessThan => branchLessThan p
  | OpcodeFunction.branchGreaterThan => branchGreaterThan p
  | OpcodeFunction.branchLessEqual => branchLessEqual p
  | OpcodeFunction.branchGreaterEqual => branchGreaterEqual p
  | OpcodeFunction.jump => jump p

/-- The call `stages_in_pipe[stage].operation(&pipeline->params_of_op)`. -/
def call_operation (p : Pipe_fig) (stage : Nat) : Option Pipe_fig :=
  match (p.stages_in_pipe stage).operation with
  | none => none
  | some f => call f p

end OpcodeHandlers

/-! ## `PipelineController.c`

A function of the pipeline returns `none` when the C code goes through a `NULL` pointer, reads
outside an array or makes an undefined shift.  The functions that reach the cache take the
number `c` of the core and the globals `Sim`, in which `data_in_cache` is `cache c`. -/

namespace PipelineController

open OpcodeHandlers

/-- The stage after `memset` and the loop of `Pipe_Init`. -/
def init_stage (stage : Nat) : Pipe_instruction_stage :=
  { state := stage, pc := if stage = FETCH then 0 else UINT16_MAX, instruction := 0,
    result_of_execution := 0, operation := none }

/-- The function `Pipe_Init`, followed by the three assignments of `ProcessorCore_Init` that
set `regs_pnt`, `insturcionts_pnt` and `params_of_op.pc` (the registers and the `pc` of the
core are zero then). -/
def Pipe_Init (instruction_memory : Nat → Nat) : Pipe_fig :=
  { is_halted := false, data_stall := false, mem_stall := false,
    insturcionts_pnt := instruction_memory,
    regs_pnt := fun _ => 0,
    stages_in_pipe := init_stage,
    params_of_op := { rd := none, rs := 0, rt := 0 },
    stats := { stalls_in_decode := 0, stalls_in_mem := 0 },
    pc := 0 }

/-- The function `Pipe_Flush`. -/
def Pipe_Flush (p : Pipe_fig) : Bool :=
  if !p.is_halted then false
  else (List.range PIPE_SIZE).all (fun stage => decide ((p.stages_in_pipe stage).pc = UINT16_MAX))

/-- The function `BubbleStage`: `state` is not copied. -/
def BubbleStage (dest src : Pipe_instruction_stage) : Pipe_instruction_stage :=
  { dest with pc := src.pc, instruction := src.instruction, operation := src.operation,
              result_of_execution := src.result_of_execution }

/-- The loop of `Pipe_Bubbles` from `stage` down to `DECODE`; `fuel` bounds the turns. -/
def Pipe_Bubbles_loop (p : Pipe_fig) : Nat → Nat → Pipe_fig
  | 0, _ => p
  | fuel + 1, stage =>
    if stage > FETCH then
      if p.mem_stall then set_stage_pc p WRITE_BACK UINT16_MAX
      else if p.data_stall && decide (stage = EXECUTE) then set_stage_pc p EXECUTE UINT16_MAX
      else if (p.stages_in_pipe (stage - 1)).pc = UINT16_MAX then
        Pipe_Bubbles_loop (set_stage_pc p stage UINT16_MAX) fuel (stage - 1)
      else
        Pipe_Bubbles_loop
          { p with
            stages_in_pipe :=
              Function.update p.stages_in_pipe stage
                (BubbleStage (p.stages_in_pipe stage) (p.stages_in_pipe (stage - 1))) }
          fuel (stage - 1)
    else p

/-- The function `Pipe_Bubbles`. -/
def Pipe_Bubbles (p : Pipe_fig) : Pipe_fig :=
  let p1 := Pipe_Bubbles_loop p PIPE_SIZE (PIPE_SIZE - 1)
  if p1.is_halted then set_stage_pc (set_stage_pc p1 FETCH UINT16_MAX) DECODE UINT16_MAX
  else p1

/-- The function `enter_params_to_regs`. -/
def enter_params_to_regs (p : Pipe_fig) (stage : Nat) : Pipe_fig :=
  let instuction := (p.stages_in_pipe stage).instruction
  let p1 := { p with
    regs_pnt := Function.update p.regs_pnt IMM_REG (Format_of_instruction.imm instuction) }
  let p2 := set_result p1 stage (p1.regs_pnt (Format_of_instruction.rd instuction))
  { p2 with
    params_of_op :=
      { rd := some stage,
        rs := p2.regs_pnt (Format_of_instruction.rs instuction),
        rt := p2.regs_pnt (Format_of_instruction.rt instuction) } }

/-- The function `fetch`: the read of `insturcionts_pnt[pc]` is inside the array only for
`pc < INSTRUCTIONMEMORYSIZE`. -/
def fetch (p : Pipe_fig) : Option Pipe_fig :=
  if p.mem_stall then some p
  else if p.pc < INSTRUCTIONMEMORYSIZE then
    let p1 := set_stage_pc p FETCH p.pc
    let p2 := { p1 with
      stages_in_pipe :=
        Function.update p1.stages_in_pipe FETCH
          { p1.stages_in_pipe FETCH with instruction := p1.insturcionts_pnt p1.pc } }
    some (if !p2.data_stall then { p2 with pc := (p2.pc + 1) % 65536 } else p2)
  else none

/-- The function `decode`. -/
def decode (p : Pipe_fig) : Option Pipe_fig :=
  let opcode := Format_of_instruction.opcode (p.stages_in_pipe DECODE).instruction
  if opcode = HALT then some { p with is_halted := true }
  else
    match OpcodeFunctionTable opcode with
    | none => none
    | some f =>
      let p1 := { p with
        stages_in_pipe :=
          Function.update p.stages_in_pipe DECODE { p.stages_in_pipe DECODE with operation := f } }
      if IsOpcodeBranch opcode then call_operation (enter_params_to_regs p1 DECODE) DECODE
      else some p1

/-- The function `execute`. -/
def execute (p : Pipe_fig) : Option Pipe_fig :=
  let opcode := Format_of_instruction.opcode (p.stages_in_pipe EXECUTE).instruction
  if !IsOpcodeBranch opcode && !IsOpcodeMemory opcode && decide (opcode ≠ HALT) then
    call_operation (enter_params_to_regs p EXECUTE) EXECUTE
  else some p

/-- The function `mem` of core `c`. -/
def mem (c : Nat) (x : Pipe_fig × Sim) : Pipe_fig × Sim :=
  let opcode := Format_of_instruction.opcode (x.1.stages_in_pipe MEM).instruction
  if IsOpcodeMemory opcode then
    let p1 := enter_params_to_regs x.1 MEM
    let data := (p1.stages_in_pipe MEM).result_of_execution
    let adr := (p1.params_of_op.rs + p1.params_of_op.rt) % 2 ^ 32
    if opcode = LW then
      let r := Read_Data_from_Cache x.2 c adr data
      ({ set_result p1 MEM r.2.2 with mem_stall := !r.2.1 }, r.1)
    else
      let r := Write_Data_to_Cache x.2 c adr data
      ({ p1 with mem_stall := !r.2 }, r.1)
  else x

/-- The function `writeback`. -/
def writeback (p : Pipe_fig) : Pipe_fig :=
  let instruction := (p.stages_in_pipe WRITE_BACK).instruction
  let chosen_reg :=
    if Format_of_instruction.opcode instruction = JAL then PC_REG
    else Format_of_instruction.rd instruction
  { p with
    regs_pnt :=
      Function.update p.regs_pnt chosen_reg (p.stages_in_pipe WRITE_BACK).result_of_execution }

/-- The array `stage_to_exe` of core `c`. -/
def stage_to_exe (c : Nat) (stage : Nat) (x : Pipe_fig × Sim) : Option (Pipe_fig × Sim) :=
  match stage with
  | 0 => (fetch x.1).map (fun p => (p, x.2))
  | 1 => (decode x.1).map (fun p => (p, x.2))
  | 2 => (execute x.1).map (fun p => (p, x.2))
  | 3 => some (mem c x)
  | 4 => some (writeback x.1, x.2)
  | _ => none

/-- The loop of `execute_pipe_stages` over the stages listed. -/
def run_stages (c : Nat) : List Nat → Pipe_fig × Sim → Option (Pipe_fig × Sim)
  | [], x => some x
  | stage :: rest, x =>
    if (x.1.stages_in_pipe stage).pc ≠ UINT16_MAX then
      match stage_to_exe c stage x with
      | none => none
      | some y => run_stages c rest y
    else run_stages c rest x

/-- The function `execute_pipe_stages` of core `c`. -/
def execute_pipe_stages (c : Nat) (x : Pipe_fig × Sim) : Option (Pipe_fig × Sim) :=
  let stage := if x.1.mem_stall then MEM else if x.1.data_stall then EXECUTE else DECODE
  let fetched := if !x.1.is_halted then stage_to_exe c FETCH x else some x
  match fetched with
  | none => none
  | some y => run_stages c (List.range' stage (PIPE_SIZE - stage)) y

/-- The function `check_hazrads_by_comparing_regs`. -/
def check_hazrads_by_comparing_regs (p : Pipe_fig) (stage : Nat) : Bool :=
  if (p.stages_in_pipe stage).pc = UINT16_MAX then false
  else
    let reg := Format_of_instruction.rd (p.stages_in_pipe stage).instruction
    let ins_in_decode := (p.stages_in_pipe DECODE).instruction
    let op := Format_of_instruction.opcode (p.stages_in_pipe WRITE_BACK).instruction
    if reg = IMM_REG ∨ reg = ZERO_REG then false
    else if Format_of_instruction.opcode ins_in_decode ≤ SRL ∨
        Format_of_instruction.opcode ins_in_decode = LW ∨
        (Format_of_instruction.opcode ins_in_decode = SW ∧ op = SW) then
      decide (reg = Format_of_instruction.rs ins_in_decode) ||
        decide (reg = Format_of_instruction.rt ins_in_decode)
    else
      decide (reg = Format_of_instruction.rd ins_in_decode) ||
        decide (reg = Format_of_instruction.rs ins_in_decode) ||
        decide (reg = Format_of_instruction.rt ins_in_decode)

/-- The function `checkfor_data_hazards`. -/
def checkfor_data_hazards (p : Pipe_fig) : Bool :=
  check_hazrads_by_comparing_regs p EXECUTE || check_hazrads_by_comparing_regs p MEM ||
    check_hazrads_by_comparing_regs p WRITE_BACK

/-- The function `stats_update`. -/
def stats_update (p : Pipe_fig) : Pipe_fig :=
  { p with
    stats :=
      { stalls_in_decode :=
          (p.stats.stalls_in_decode + (if p.data_stall && !p.mem_stall then 1 else 0)) % 2 ^ 32,
        stalls_in_mem := (p.stats.stalls_in_mem + (if p.mem_stall then 1 else 0)) % 2 ^ 32 } }

/-- The function `Pipe_iteration_exe` of core `c`. -/
def Pipe_iteration_exe (c : Nat) (x : Pipe_fig × Sim) : Option (Pipe_fig × Sim) :=
  let p1 := { x.1 with data_stall := checkfor_data_hazards x.1 }
  match execute_pipe_stages c (p1, x.2) with
  | none => none
  | some y => some (stats_update y.1, y.2)

end PipelineController

/-! ## `ProcessorCore.c` -/

/-- The record `tracking_info_core`. -/
structure tracking_info_core where
  cycles : Nat
  instructions : Nat
  deriving DecidableEq, Repr

/-- The record `ProcessorCore`; the registers, the instruction memory and the `pc` are kept in
`pipelineController`, through whose pointers the pipeline reaches them. -/
structure ProcessorCore where
  coreId : Nat
  pipelineController : Pipe_fig
  isHalted : Bool
  tracking : tracking_info_core

/-- The core after `ProcessorCore_Init`, with `loaded` instructions read into the zeroed
instruction memory. -/
def ProcessorCore_Init (coreId : Nat) (instruction_memory : Nat → Nat) (loaded : Nat) :
    ProcessorCore :=
  { coreId := coreId
    pipelineController := PipelineController.Pipe_Init instruction_memory
    isHalted := decide (loaded = 0)
    tracking := { cycles := if loaded = 0 then 0 else 2 ^ 32 - 1, instructions := 0 } }

/-- The function `update_tracking_info`. -/
def update_tracking_info (core : ProcessorCore) : ProcessorCore :=
  { core with
    tracking :=
      { cycles := (core.tracking.cycles + 1) % 2 ^ 32,
        instructions :=
          if !core.pipelineController.is_halted && !core.pipelineController.mem_stall &&
              !core.pipelineController.data_stall then
            (core.tracking.instructions + 1) % 2 ^ 32
          else core.tracking.instructions } }

/-- The function `core_run_single_cycle`. -/
def core_run_single_cycle (x : ProcessorCore × Sim) : Option (ProcessorCore × Sim) :=
  if x.1.isHalted then some x
  else if PipelineController.Pipe_Flush x.1.pipelineController then
    some ({ x.1 with isHalted := true }, x.2)
  else
    let core := update_tracking_info x.1
    match PipelineController.Pipe_iteration_exe core.coreId (core.pipelineController, x.2) with
    | none => none
    | some y =>
      some ({ core with pipelineController := PipelineController.Pipe_Bubbles y.1 }, y.2)

/-- The core `c` alone on the machine: one turn of the loop of `main` in which only this core
is not halted, `Run_Bus_Iteration` and then the cycle of the core. -/
def core_cycle (x : ProcessorCore × Sim) : Option (ProcessorCore × Sim) :=
  core_run_single_cycle (x.1, Run_Bus_Iteration x.2)

/-- The core and the globals after `n` turns of `core_cycle`. -/
def core_cycles : Nat → ProcessorCore × Sim → Option (ProcessorCore × Sim)
  | 0, x => some x
  | n + 1, x =>
    match core_cycle x with
    | none => none
    | some y => core_cycles n y

/-- The core 0 with the program `prog` loaded at address 0, and the globals of start-up on a
zeroed memory. -/
def boot (prog : List Nat) : ProcessorCore × Sim :=
  (ProcessorCore_Init 0 (fun a => prog.getD a 0) prog.length, Sim_Init (fun _ => 0))

/-! ## `MultiCoreSim.c`: the loop of `main` -/

/-- The four cores and the globals. -/
structure Machine where
  cores : Nat → ProcessorCore
  sim : Sim

/-- The function `isProcessorHalted`. -/
def isProcessorHalted (m : Machine) : Bool :=
  (List.range NUM_OF_CORES).all (fun i => (m.cores i).isHalted)

/-- The cycle of core `i` inside the loop of `main`. -/
def run_core (m : Machine) (i : Nat) : Option Machine :=
  match core_run_single_cycle (m.cores i, m.sim) with
  | none => none
  | some y => some { cores := Function.update m.cores i y.1, sim := y.2 }

/-- The cycles of the cores listed, in order. -/
def run_cores : List Nat → Machine → Option Machine
  | [], m => some m
  | i :: rest, m =>
    match run_core m i with
    | none => none
    | some m1 => run_cores rest m1

/-- The body of the loop of `main`: `Run_Bus_Iteration`, then one cycle of every core. -/
def main_cycle (m : Machine) : Option Machine :=
  run_cores (List.range NUM_OF_CORES) { m with sim := Run_Bus_Iteration m.sim }

/-- The loop of `main`, for at most `fuel` turns: it stops when every core is halted. -/
def main_loop : Nat → Machine → Option Machine
  | 0, m => some m
  | fuel + 1, m =>
    if isProcessorHalted m then some m
    else
      match main_cycle m with
      | none => none
      | some m1 => main_loop fuel m1

/-- The machine after `MainMemoryInit` and `initCores`: `progs i` is the list of the words
loaded into the instruction memory of core `i`, `memin` the image of the main memory.  The
globals are those of four caches registered with the bus, which is what `initCores` leaves
when every core loads at least one instruction (see `initCores_slots` for the other case). -/
def Machine_Init (progs : Nat → List Nat) (memin : Nat → Nat) : Machine :=
  { cores := fun i => ProcessorCore_Init i (fun a => (progs i).getD a 0) (progs i).length
    sim := Sim_Init memin }

/-! ## Programs on which the pipeline is tried -/

/-- One `ADD R2, R1, R0` with the immediate `0xFFF`, then `HALT`. -/
def imm_program : List Nat :=
  [Format_of_instruction.encode ADD 2 1 0 0xFFF, Format_of_instruction.encode HALT 3 0 0 0]

/-- One `ADD R0, R1, R1` with the immediate 5, then `HALT` (with 3 in its `rd` field). -/
def zero_reg_program : List Nat :=
  [Format_of_instruction.encode ADD 0 1 1 5, Format_of_instruction.encode HALT 3 0 0 0]

/-- The instruction `ADD R2, R1, R0` with the immediate `0x200`, a `JAL` through `R2`, and
`HALT`. -/
def jump_program : List Nat :=
  [Format_of_instruction.encode ADD 2 1 0 0x200, Format_of_instruction.encode JAL 2 0 0 0,
   Format_of_instruction.encode HALT 3 0 0 0, Format_of_instruction.encode HALT 3 0 0 0]

/-- The instruction `ADD R2, R1, R0` with the immediate 3, a `BEQ R2, R0, R0` (taken, to the
address in `R2`), and `HALT` in the cells 2 to 4. -/
def branch_program : List Nat :=
  [Format_of_instruction.encode ADD 2 1 0 3, Format_of_instruction.encode BEQ 2 0 0 0,
   Format_of_instruction.encode HALT 3 0 0 0, Format_of_instruction.encode HALT 3 0 0 0,
   Format_of_instruction.encode HALT 3 0 0 0]

/-- The pipeline of core 0 after `n` cycles of the program `prog`, alone on the machine. -/
def pipeline_after (prog : List Nat) (n : Nat) : Option Pipe_fig :=
  (core_cycles n (boot prog)).map (fun y => y.1.pipelineController)

/-- The condition of the branch `opcode` on the values `rs` and `rt`, compared as the unsigned
32-bit numbers they are; `JAL` is always taken. -/
def branch_taken (opcode rs rt : Nat) : Bool :=
  if opcode = BEQ then decide (rs = rt)
  else if opcode = BNE then decide (rs ≠ rt)
  else if opcode = BLT then decide (rs < rt)
  else if opcode = BGT then decide (rs > rt)
  else if opcode = BLE then decide (rs ≤ rt)
  else if opcode = BGE then decide (rs ≥ rt)
  else decide (opcode = JAL)

/-- The stage `stage` carries either no operation or the entry of `OpcodeFunctionTable` for
the opcode of its instruction, as `decode` and `BubbleStage` leave it. -/
def operation_fits (p : Pipe_fig) (stage : Nat) : Prop :=
  (p.stages_in_pipe stage).operation = none ∨
    OpcodeHandlers.OpcodeFunctionTable
      (Format_of_instruction.opcode (p.stages_in_pipe stage).instruction)
      = some (p.stages_in_pipe stage).operation

instance (p : Pipe_fig) (stage : Nat) : Decidable (operation_fits p stage) := by
  unfold operation_fits
  infer_instance

/-- The functions of the table that assign `*params->pc`: the six branches and `jump`. -/
def OpcodeFunction.assigns_pc : OpcodeFunction → Bool
  | OpcodeFunction.branchEqual => true
  | OpcodeFunction.branchNotEqual => true
  | OpcodeFunction.branchLessThan => true
  | OpcodeFunction.branchGreaterThan => true
  | OpcodeFunction.branchLessEqual => true
  | OpcodeFunction.branchGreaterEqual => true
  | OpcodeFunction.jump => true
  | _ => false

/-- A pipeline with a `BEQ R2, R0, R0` (immediate `0xFFF`) in `DECODE`, an `ADD R2, R1, R0`
(immediate `0xFFF`) in `EXECUTE`, a `LW R3, R1, R0` (immediate `0x40`) in `MEM`, a bubble in
`WRITE_BACK`, and 7 in `R2`. -/
def operands_example : Pipe_fig :=
  { PipelineController.Pipe_Init (fun _ => 0) with
    regs_pnt := fun i => if i = 2 then 7 else 0
    pc := 3
    stages_in_pipe := fun stage =>
      if stage = DECODE then
        { state := stage, pc := 2, instruction := Format_of_instruction.encode BEQ 2 0 0 0xFFF,
          result_of_execution := 0, operation := none }
      else if stage = EXECUTE then
        { state := stage, pc := 1, instruction := Format_of_instruction.encode ADD 2 1 0 0xFFF,
          result_of_execution := 0, operation := some OpcodeFunction.add }
      else if stage = MEM then
        { state := stage, pc := 0, instruction := Format_of_instruction.encode LW 3 1 0 0x40,
          result_of_execution := 0, operation := none }
      else PipelineController.init_stage stage }

/-- Every stage carries no operation or the one of its opcode, and `FETCH` carries none: what
`Pipe_Init` sets up and every cycle keeps. -/
def operations_fit (p : Pipe_fig) : Prop :=
  (p.stages_in_pipe FETCH).operation = none ∧ ∀ stage, operation_fits p stage

/-! ## `MainMemory.c`: the image written to `memout` -/

/-- The number of words of the array `mainMemory`, `1 << 20`. -/
def MAIN_MEMORY_SIZE : Nat := 2 ^ 20

/-- The loop of `countMemoryLines` with the index `i` still to be decremented: the words
`i - 1, i - 2, .., 0` are inspected in this order. -/
def countMemoryLines_from (mainMemory : Nat → Nat) : Nat → Nat
  | 0 => 0
  | i + 1 => if mainMemory i ≠ 0 then i + 1 else countMemoryLines_from mainMemory i

/-- The function `countMemoryLines`. -/
def countMemoryLines (s : Sim) : Nat := countMemoryLines_from s.mainMemory MAIN_MEMORY_SIZE

/-- The function `MainMemoryPrint`: the words written to the file, in order, one per line
(each is printed with `%08X`). -/
def MainMemoryPrint (s : Sim) : List Nat :=
  (List.range (countMemoryLines s)).map s.mainMemory

/-- A memory image with the word `0x42` at `0x100` and zero elsewhere. -/
def one_word_memory : Nat → Nat := fun a => if a = 0x100 then 0x42 else 0

/-! ## Snooping by the owner of a line -/

/-- A `BusRd` of core 1 for the address `0x41`, as `Run_Bus_Iteration` puts it on the bus. -/
def read_packet : bus_transaction :=
  { original_caller := 1, origid := 1, bus_cmd := cmd_on_the_bus.busRd, bus_addr := 0x41,
    bus_data := 0, bus_shared := false }

/-- Cache 0 with the line 16 in `M` (tag 0) and the word `0xAA` at `0x41`. -/
def owner_cache : Cache_Data :=
  set_dram (set_mesi (CacheController_Init 0) 16 MESIState.MESI_STATE_MODIFIED) 0x41 0xAA

/-! ## Runs for the read counters and for the lines in `E` -/

/-- A run on a zeroed memory, a bus tick before the requests of each cycle.  Core 0 reads
`0x40`: a miss, filled in 21 ticks; it reads again (the hit that completes the miss, not
counted) and, a cycle later, once more (a counted hit). -/
def run_read_twice : List Event :=
  [Event.tick, Event.read 0 0x40] ++ tick_events 21 ++
  [Event.read 0 0x40, Event.tick, Event.read 0 0x40]

/-- After `run_read_twice`, core 0 reads `0x40` once more in the next cycle. -/
def run_third_read : List Event := run_read_twice ++ [Event.tick, Event.read 0 0x40]

/-- The run `run_third_read` with one more request, in the cycle before the last read of
core 0: core 1 reads `0x80`, a miss of cache 1. -/
def run_third_read_after_miss : List Event :=
  run_read_twice ++ [Event.read 1 0x80, Event.tick, Event.read 0 0x40]

/-- The programs of the four cores for the run in which a line in `E` outlives the block in
main memory; the `ADD R0 = R0 + R0` with the immediate 0 serves as a filler.
* Core 0: `ADD R2 = R0 + R1` (immediate `0xAA`), `SW R2` to `MEM[R0 + R1]` (immediate `0x41`),
  a filler, `LW R6 = MEM[R0 + R1]` (immediate `0x141`: index 16 as `0x41`, tag 1), `HALT`.
* Core 1: 25 fillers, `LW R6 = MEM[R0 + R1]` (immediate `0x40`), `HALT`.
* Core 2: 25 fillers, `ADD R0 = R0 + R1` (immediate 4), `SW R3` to `MEM[R0 + R1]` (immediate
  `0x40`), `HALT`.
* Core 3: 25 fillers, `LW R6 = MEM[R0 + R1]` (immediate `0x80`), `HALT`. -/
def stale_flush_programs : Nat → List Nat
  | 0 =>
    [Format_of_instruction.encode ADD 2 0 1 0xAA, Format_of_instruction.encode SW 2 0 1 0x41,
     Format_of_instruction.encode ADD 0 0 0 0, Format_of_instruction.encode LW 6 0 1 0x141,
     Format_of_instruction.encode HALT 0 0 0 0]
  | 1 =>
    List.replicate 25 (Format_of_instruction.encode ADD 0 0 0 0) ++
      [Format_of_instruction.encode LW 6 0 1 0x40, Format_of_instruction.encode HALT 0 0 0 0]
  | 2 =>
    List.replicate 25 (Format_of_instruction.encode ADD 0 0 0 0) ++
      [Format_of_instruction.encode ADD 0 0 1 4, Format_of_instruction.encode SW 3 0 1 0x40,
       Format_of_instruction.encode HALT 0 0 0 0]
  | _ =>
    List.replicate 25 (Format_of_instruction.encode ADD 0 0 0 0) ++
      [Format_of_instruction.encode LW 6 0 1 0x80, Format_of_instruction.encode HALT 0 0 0 0]

/-- The machine that runs `stale_flush_programs` on a zeroed main memory. -/
def stale_flush_machine : Machine := Machine_Init stale_flush_programs (fun _ => 0)

/-- The machine `stale_flush_machine` after `n` turns of the loop of `main` (fewer if every
core is halted before). -/
def stale_flush_after (n : Nat) : Option Machine := main_loop n stale_flush_machine

/-- A line of a cache next to the block of main memory that its tag names. -/
structure block_view where
  line : TSRAMLine
  words : List Nat
  memory : List Nat
  deriving DecidableEq, Repr

/-- The line `index` of cache `c`, its four words `dram[index * 4 + k]`, and the four words
of main memory at `((tag << 8) | (index << 2)) + k`, for `k` in `0..3`. -/
def line_and_memory (s : Sim) (c index : Nat) : block_view :=
  { line := (s.cache c).tsram index
    words := (List.range BLOCK_SIZE).map (fun k => (s.cache c).dram (index * BLOCK_SIZE + k))
    memory := (List.range BLOCK_SIZE).map
      (fun k => s.mainMemory (((((s.cache c).tsram index).tag <<< 8) ||| (index <<< 2)) + k)) }

/-- What is on the bus: whether a transaction is being served, the originator, the command and
the address of `gOngoingTransaction`, and the same of each queued transaction,
`head_of_queue` first. -/
structure bus_view where
  active : Bool
  ongoing : Nat × cmd_on_the_bus × Nat
  queue : List (Nat × cmd_on_the_bus × Nat)
  deriving DecidableEq, Repr

/-- The view of the bus in the globals `s`. -/
def bus_view_of (s : Sim) : bus_view :=
  { active := s.gIsBusTransactionActive
    ongoing := (s.gOngoingTransaction.origid, s.gOngoingTransaction.bus_cmd,
      s.gOngoingTransaction.bus_addr)
    queue := s.queue.map (fun t => (t.origid, t.bus_cmd, t.bus_addr)) }

/-! ## Programs for the hazards, the link register and the program counter -/

/-- The machine of the load-use scenario: core 0 runs `LW R2 = MEM[R0 + R1]` with the
immediate `0x100`, `ADD R3 = R2 + R1` with the immediate 1 and `HALT`; the other cores run a
lone `HALT`; the main memory holds `0x42` at `0x100`. -/
def load_use_machine : Machine :=
  Machine_Init (fun i => if i = 0 then [0x10201100, 0x00321001, 0x14000000] else [0x14000000])
    one_word_memory

/-- The program `ADD R2 = R0 + R1` (immediate 5), `SW R2` to `MEM[R0 + R1]` (immediate `0x10`),
`ADD R0 = R0 + R0`, `ADD R2 = R0 + R1` (immediate 7), `SW R2` to `MEM[R0 + R1]` (immediate
`0x10`), `HALT`. -/
def store_program : List Nat :=
  [Format_of_instruction.encode ADD 2 0 1 5, Format_of_instruction.encode SW 2 0 1 0x10,
   Format_of_instruction.encode ADD 0 0 0 0, Format_of_instruction.encode ADD 2 0 1 7,
   Format_of_instruction.encode SW 2 0 1 0x10, Format_of_instruction.encode HALT 0 0 0 0]

/-- The core 0 and the globals after `n` cycles of the program `prog`, alone on the machine. -/
def core_after (prog : List Nat) (n : Nat) : Option (ProcessorCore × Sim) :=
  core_cycles n (boot prog)

/-- The program of one word, `ADD R0 = R0 + R0` with the immediate 0, and no `HALT`: the rest of
the instruction memory is zero, the same instruction. -/
def no_halt_program : List Nat := [Format_of_instruction.encode ADD 0 0 0 0]

/-- What the hazard check and the latches show of a stage: the `pc`, the opcode and the `rd`
field of its instruction, and `result_of_execution`. -/
def stage_view (p : Pipe_fig) (stage : Nat) : Nat × Nat × Nat × Nat :=
  ((p.stages_in_pipe stage).pc,
    Format_of_instruction.opcode (p.stages_in_pipe stage).instruction,
    Format_of_instruction.rd (p.stages_in_pipe stage).instruction,
    (p.stages_in_pipe stage).result_of_execution)

/-- A pipeline with `ADD R3 = R2 + R1` (immediate 1) in `DECODE`, `ADD R2 = R1 + R0`
(immediate 5) in `EXECUTE`, and bubbles in `MEM` and `WRITE_BACK`. -/
def alu_hazard_example : Pipe_fig :=
  { PipelineController.Pipe_Init (fun _ => 0) with
    pc := 2
    stages_in_pipe := fun stage =>
      if stage = DECODE then
        { state := stage, pc := 1, instruction := Format_of_instruction.encode ADD 3 2 1 1,
          result_of_execution := 0, operation := none }
      else if stage = EXECUTE then
        { state := stage, pc := 0, instruction := Format_of_instruction.encode ADD 2 1 0 5,
          result_of_execution := 0, operation := some OpcodeFunction.add }
      else PipelineController.init_stage stage }

/-- What the load-use scenario asks of the machine: whether every core is halted, `R2` and `R3`
of core 0, and the counter `stalls_in_decode` of core 0. -/
def load_use_view (m : Machine) : Bool × Nat × Nat × Nat :=
  (isProcessorHalted m, (m.cores 0).pipelineController.regs_pnt 2,
    (m.cores 0).pipelineController.regs_pnt 3,
    (m.cores 0).pipelineController.stats.stalls_in_decode)

/-- A pipeline that runs `ADD R0 = R0 + R0` only: not halted, not stalled, the instruction
memory and the instruction of every stage are the word 0, and `EXECUTE`, when it is not a
bubble, carries the function `add`. -/
structure Nops (p : Pipe_fig) : Prop where
  running : p.is_halted = false
  no_mem_stall : p.mem_stall = false
  no_data_stall : p.data_stall = false
  memory : ∀ a, p.insturcionts_pnt a = 0
  stages : ∀ k, (p.stages_in_pipe k).instruction = 0
  decoded : (p.stages_in_pipe EXECUTE).pc ≠ UINT16_MAX →
    (p.stages_in_pipe EXECUTE).operation = some OpcodeFunction.add

/-- The stage `DECODE` has been decoded as an `ADD`, when it is not a bubble. -/
def Nops.decode_done (p : Pipe_fig) : Prop :=
  (p.stages_in_pipe DECODE).pc ≠ UINT16_MAX →
    (p.stages_in_pipe DECODE).operation = some OpcodeFunction.add

/-! ## The registration of the caches with the bus -/

/-- The function `Bus_InitializeCache` on the array `gCoreCache`: the slot `core_id` takes the
pointer `bus_cache_data` (here the cache it points to).  A slot that was never assigned holds
the null pointer of the zeroed static array, `none`. -/
def Bus_InitializeCache (gCoreCache : Nat → Option Cache_Data) (core_id : Nat)
    (bus_cache_data : Cache_Data) : Nat → Option Cache_Data :=
  Function.update gCoreCache core_id (some bus_cache_data)

/-- What `ProcessorCore_Init` does to `gCoreCache` for the core `coreId` whose instruction file
holds `loaded` words: with no instruction loaded the function returns before
`CacheController_Init`, which is where `Bus_InitializeCache` is called. -/
def ProcessorCore_Init_slots (gCoreCache : Nat → Option Cache_Data) (coreId loaded : Nat) :
    Nat → Option Cache_Data :=
  if loaded = 0 then gCoreCache
  else Bus_InitializeCache gCoreCache coreId (CacheController_Init coreId)

/-- The array `gCoreCache` after the loop of `initCores`; `loaded i` is the number of words in
the instruction file of core `i`. -/
def initCores_slots (loaded : Nat → Nat) : Nat → Option Cache_Data :=
  (List.range NUM_OF_CORES).foldl (fun g i => ProcessorCore_Init_slots g i (loaded i))
    (fun _ => none)

/-- One turn of the loop of `is_shared_line` through the pointer of slot `i`: the callback
`shared_or_modified_handler` reads `cache_data->id` first, so a null pointer gives no result. -/
def is_shared_line_slot (gCoreCache : Nat → Option Cache_Data) (t : bus_transaction)
    (acc : Option (Bool × Bool)) (i : Nat) : Option (Bool × Bool) :=
  match acc, gCoreCache i with
  | some a, some c =>
    let r := shared_or_modified_handler c t a.2
    some (a.1 || r.1, r.2)
  | _, _ => none

/-- The loop of `is_shared_line` over the four slots of `gCoreCache`. -/
def is_shared_line_slots (gCoreCache : Nat → Option Cache_Data) (t : bus_transaction) :
    Option (Bool × Bool) :=
  (List.range NUM_OF_CORES).foldl (is_shared_line_slot gCoreCache t) (some (false, false))

/-- The instruction files in which core 1 has no instruction and the other cores one. -/
def one_empty_file : Nat → Nat := fun i => if i = 1 then 0 else 1

/-! ## The indices of the arrays of the bus and of the memory -/

/-- The index of the access `mainMemory[transaction->bus_addr]` that the memory callback
`bus_transaction_handler` makes, through `process_memory_command`, when it is called with the
globals `s`, the packet `t` and the flag `direct_transaction`; `none` when it makes none (no
command, or the delay of the memory is not over). -/
def memory_access (s : Sim) (t : bus_transaction) (direct_transaction : Bool) : Option Nat :=
  if t.bus_cmd = cmd_on_the_bus.no_cmd then none
  else
    let s1 := initialize_memory_transaction s direct_transaction
    if 16 ≤ s1.numOfCycles then
      if t.bus_cmd = cmd_on_the_bus.busRd ∨ t.bus_cmd = cmd_on_the_bus.busRdX ∨
          t.bus_cmd = cmd_on_the_bus.flush then some t.bus_addr
      else none
    else none

/-- The index of `mainMemory` that the bus tick from `s` makes the memory access, if any. -/
def tick_memory_access (s : Sim) : Option Nat :=
  (memory_call s).bind (fun a => memory_access a.1 a.2.1 a.2.2)

/-- The index of the first access to `gTransactionStatePerCore` in `Run_Bus_Iteration`, the
read `gTransactionStatePerCore[gOngoingTransaction.origid]`. -/
def state_index (s : Sim) : Nat := s.gOngoingTransaction.origid

/-- The program `ADD R2 = R0 + R1` (immediate `0x400`), `MUL R2 = R2 * R2`,
`LW R3 = MEM[R2 + R0]`, `HALT`: the load is at the address `0x100000`. -/
def far_program : List Nat :=
  [Format_of_instruction.encode ADD 2 0 1 0x400, Format_of_instruction.encode MUL 2 2 2 0,
   Format_of_instruction.encode LW 3 2 0 0, Format_of_instruction.encode HALT 0 0 0 0]

/-! ## Programs and runs for the operation table, the stalls and the write counters -/

/-- The program of an instruction with the unused opcode 18 (`rd = 2`, `rs = 0`, `rt = 1`,
immediate 5) and `HALT`. -/
def unused_opcode_program : List Nat :=
  [Format_of_instruction.encode 18 2 0 1 5, Format_of_instruction.encode HALT 0 0 0 0]

/-- The program of an instruction with the opcode 21 and `HALT`. -/
def large_opcode_program : List Nat :=
  [Format_of_instruction.encode 21 2 0 1 5, Format_of_instruction.encode HALT 0 0 0 0]

/-- The program `ADD R2 = R0 + R1` (immediate 5), `HALT`, and a third word that is never
decoded, `ADD R3 = R2 + R0`. -/
def stale_program : List Nat :=
  [Format_of_instruction.encode ADD 2 0 1 5, Format_of_instruction.encode HALT 0 0 0 0,
   Format_of_instruction.encode ADD 3 2 0 0]

/-- A run on a zeroed memory: core 0 writes 1 to `0x40` (miss, fill, retried write), so that
cache 0 holds block `0x40` in `M`. -/
def run_owner_writes : List Event :=
  [Event.tick, Event.write 0 0x40 1] ++ tick_events 21 ++ [Event.write 0 0x40 1]

/-- The events of `n` cycles in which core 1 presents its `SW` of 9 to `0x40`: a bus tick, then
the attempt of the `MEM` stage. -/
def store_attempts (n : Nat) : List Event :=
  (List.replicate n [Event.tick, Event.write 1 0x40 9]).flatten

/-- The globals when the attempt number `n + 1` of the `SW` of core 1 is made: after
`run_owner_writes`, `n` earlier attempts and the bus tick of the cycle. -/
def before_attempt (n : Nat) : Sim :=
  Run_Bus_Iteration ((Sim_Init (fun _ => 0)).run (run_owner_writes ++ store_attempts n))

/-! ## Pipelines on which the stage functions are tried -/

/-- A pipeline stalled by the memory: `LW R3` (at address 2) in `MEM` with `mem_stall` set, an
`ADD R4 = R1 + R0` (address 3) in `EXECUTE`, an `ADD R5 = R1 + R0` (address 4) in `DECODE`,
the word at address 5 in `FETCH` and an `ADD R2 = R1 + R0` (address 1) in `WRITE_BACK`. -/
def mem_stall_example : Pipe_fig :=
  { PipelineController.Pipe_Init (fun _ => 0) with
    mem_stall := true
    pc := 6
    stages_in_pipe := fun stage =>
      if stage = FETCH then
        { state := stage, pc := 5, instruction := 0, result_of_execution := 0,
          operation := none }
      else if stage = DECODE then
        { state := stage, pc := 4, instruction := Format_of_instruction.encode ADD 5 1 0 7,
          result_of_execution := 0, operation := some OpcodeFunction.add }
      else if stage = EXECUTE then
        { state := stage, pc := 3, instruction := Format_of_instruction.encode ADD 4 1 0 6,
          result_of_execution := 6, operation := some OpcodeFunction.add }
      else if stage = MEM then
        { state := stage, pc := 2, instruction := Format_of_instruction.encode LW 3 1 0 0x40,
          result_of_execution := 0, operation := none }
      else
        { state := stage, pc := 1, instruction := Format_of_instruction.encode ADD 2 1 0 5,
          result_of_execution := 5, operation := some OpcodeFunction.add } }

/-- A pipeline with `BLT R4, R2, R3` (the branch to the address in `R4` when `R2 < R3`) in
`DECODE`, where `R2 = 0xFFFFFFFF`, `R3 = 0` and `R4 = 7`, and the `pc` at 3. -/
def unsigned_example : Pipe_fig :=
  { PipelineController.Pipe_Init (fun _ => 0) with
    regs_pnt := fun i => if i = 2 then 0xFFFFFFFF else if i = 4 then 7 else 0
    pc := 3
    stages_in_pipe := fun stage =>
      if stage = DECODE then
        { state := stage, pc := 2, instruction := Format_of_instruction.encode BLT 4 2 3 0,
          result_of_execution := 0, operation := none }
      else PipelineController.init_stage stage }

/-- A fill packet: main memory sends the word `0x55` of address `0x142` (index 16, tag 1,
offset 2), with the shared line raised. -/
def fill_packet : bus_transaction :=
  { original_caller := 0, origid := main_memory, bus_cmd := cmd_on_the_bus.flush,
    bus_addr := 0x142, bus_data := 0x55, bus_shared := true }

/-! ## Theorems -/

/-! ## The memory callback, call by call -/

theorem handler_busy_step (s : Sim) (t : bus_transaction) (d : Bool)
    (hc : t.bus_cmd ≠ cmd_on_the_bus.no_cmd) (hb : s.gIsMemoryBusy = true)
    (hn : s.numOfCycles ≤ 19) :
    (bus_transaction_handler s t d).2.2 = decide (16 ≤ s.numOfCycles) ∧
    (bus_transaction_handler s t d).1.numOfCycles = s.numOfCycles + 1 ∧
    (bus_transaction_handler s t d).1.gIsMemoryBusy = decide (s.numOfCycles ≠ 19) := by
  have h32 : (s.numOfCycles + 1) % 2 ^ 32 = s.numOfCycles + 1 := Nat.mod_eq_of_lt (by omega)
  unfold bus_transaction_handler initialize_memory_transaction process_memory_command
  simp only [hc, hb, if_false, Bool.not_true]
  by_cases h16 : 16 ≤ s.numOfCycles
  · by_cases h19 : s.numOfCycles = 19
    · simp [h19]; split_ifs <;> simp [h19]
    · simp [h16, h19]; split_ifs <;> simp [h32, hb] <;> omega
  · simp [h16, h32, hb]; omega

theorem handler_first_step (s : Sim) (t : bus_transaction) (d : Bool)
    (hc : t.bus_cmd ≠ cmd_on_the_bus.no_cmd) (hb : s.gIsMemoryBusy = false) :
    (bus_transaction_handler s t d).2.2 = d ∧
    (bus_transaction_handler s t d).1.numOfCycles = (if d then 17 else 1) ∧
    (bus_transaction_handler s t d).1.gIsMemoryBusy = true := by
  unfold bus_transaction_handler initialize_memory_transaction process_memory_command
  cases d <;> simp [hc, hb]; split_ifs <;> simp

/-- After `k + 1` calls that started on an idle memory, the counter stands at `k + 1`, or at
`k + 17` when the first call was direct. -/
theorem memory_calls_count (s : Sim) (ts : Nat → bus_transaction) (ds : Nat → Bool)
    (hb : s.gIsMemoryBusy = false) (hc : ∀ k, (ts k).bus_cmd ≠ cmd_on_the_bus.no_cmd) (k : Nat)
    (hk : k + (if ds 0 then 16 else 0) < 19) :
    (memory_calls s ts ds (k + 1)).gIsMemoryBusy = true ∧
    (memory_calls s ts ds (k + 1)).numOfCycles = k + 1 + (if ds 0 then 16 else 0) := by
  induction k with
  | zero =>
    have h := handler_first_step s (ts 0) (ds 0) (hc 0) hb
    simp only [memory_calls]
    refine ⟨h.2.2, ?_⟩
    rw [h.2.1]; split_ifs <;> rfl
  | succ k ih =>
    have ih1 := ih (by omega)
    have h := handler_busy_step (memory_calls s ts ds (k + 1)) (ts (k + 1)) (ds (k + 1))
      (hc _) ih1.1 (by rw [ih1.2]; omega)
    show (bus_transaction_handler (memory_calls s ts ds (k + 1)) (ts (k + 1))
        (ds (k + 1))).1.gIsMemoryBusy = true ∧ _
    rw [h.2.2, ih1.2]
    refine ⟨by simp; omega, ?_⟩
    show (bus_transaction_handler (memory_calls s ts ds (k + 1)) (ts (k + 1))
        (ds (k + 1))).1.numOfCycles = _
    rw [h.2.1, ih1.2]; omega

/-- The answers and the busy flag of calls `1..` after the first on an idle memory. -/
theorem memory_calls_answer (s : Sim) (ts : Nat → bus_transaction) (ds : Nat → Bool)
    (hb : s.gIsMemoryBusy = false) (hc : ∀ k, (ts k).bus_cmd ≠ cmd_on_the_bus.no_cmd) (k : Nat)
    (hk : k + (if ds 0 then 16 else 0) < 20) :
    memory_answer s ts ds k = decide (16 ≤ k + (if ds 0 then 16 else 0)) ∧
    (memory_calls s ts ds (k + 1)).gIsMemoryBusy
      = decide (k + (if ds 0 then 16 else 0) < 19) := by
  cases k with
  | zero =>
    have h := handler_first_step s (ts 0) (ds 0) (hc 0) hb
    simp only [memory_answer, memory_calls]
    rw [h.1, h.2.2]
    cases ds 0 <;> simp
  | succ k =>
    have ih1 := memory_calls_count s ts ds hb hc k (by omega)
    have h := handler_busy_step (memory_calls s ts ds (k + 1)) (ts (k + 1)) (ds (k + 1))
      (hc _) ih1.1 (by rw [ih1.2]; omega)
    show (bus_transaction_handler (memory_calls s ts ds (k + 1)) (ts (k + 1)) (ds (k + 1))).2.2
        = _ ∧
      (bus_transaction_handler (memory_calls s ts ds (k + 1)) (ts (k + 1))
        (ds (k + 1))).1.gIsMemoryBusy = _
    obtain ⟨h1, _, h3⟩ := h
    rw [ih1.2] at h1 h3
    exact ⟨h1, h3.trans (by simp only [decide_eq_decide]; omega)⟩

/-- C1. The next state computed by a snooping cache is the MESI table: from `I` always `I`;
from `S` it is `S, I, S` for `BusRd, BusRdX, Flush`; from `E` it is `S, I, E`; from `M` it is
`S, I, M`. -/
theorem C1_snoop_next_state_table (c : Cache_Data) (t : bus_transaction) :
    ((state_handler MESIState.MESI_STATE_INVALID c { t with bus_cmd := cmd_on_the_bus.busRd }).1
        = MESIState.MESI_STATE_INVALID ∧
     (state_handler MESIState.MESI_STATE_INVALID c { t with bus_cmd := cmd_on_the_bus.busRdX }).1
        = MESIState.MESI_STATE_INVALID ∧
     (state_handler MESIState.MESI_STATE_INVALID c { t with bus_cmd := cmd_on_the_bus.flush }).1
        = MESIState.MESI_STATE_INVALID) ∧
    ((state_handler MESIState.MESI_STATE_SHARED c { t with bus_cmd := cmd_on_the_bus.busRd }).1
        = MESIState.MESI_STATE_SHARED ∧
     (state_handler MESIState.MESI_STATE_SHARED c { t with bus_cmd := cmd_on_the_bus.busRdX }).1
        = MESIState.MESI_STATE_INVALID ∧
     (state_handler MESIState.MESI_STATE_SHARED c { t with bus_cmd := cmd_on_the_bus.flush }).1
        = MESIState.MESI_STATE_SHARED) ∧
    ((state_handler MESIState.MESI_STATE_EXCLUSIVE c { t with bus_cmd := cmd_on_the_bus.busRd }).1
        = MESIState.MESI_STATE_SHARED ∧
     (state_handler MESIState.MESI_STATE_EXCLUSIVE c
        { t with bus_cmd := cmd_on_the_bus.busRdX }).1 = MESIState.MESI_STATE_INVALID ∧
     (state_handler MESIState.MESI_STATE_EXCLUSIVE c { t with bus_cmd := cmd_on_the_bus.flush }).1
        = MESIState.MESI_STATE_EXCLUSIVE) ∧
    ((state_handler MESIState.MESI_STATE_MODIFIED c { t with bus_cmd := cmd_on_the_bus.busRd }).1
        = MESIState.MESI_STATE_SHARED ∧
     (state_handler MESIState.MESI_STATE_MODIFIED c { t with bus_cmd := cmd_on_the_bus.busRdX }).1
        = MESIState.MESI_STATE_INVALID ∧
     (state_handler MESIState.MESI_STATE_MODIFIED c { t with bus_cmd := cmd_on_the_bus.flush }).1
        = MESIState.MESI_STATE_MODIFIED) := by
  simp [state_handler, MSEI_invalid, MSEI_shared, MSEI_exclusive, MSEI_modified]

theorem update_cache_write_id (cd : Cache_Data) (A V : Nat) (m : Bool) :
    (update_cache_write cd A V m).1.id = cd.id := by
  cases m <;> rfl

theorem update_cache_write_tsram (cd : Cache_Data) (A V : Nat) (m : Bool) :
    (update_cache_write cd A V m).1.tsram
      = Function.update cd.tsram (fields_index A)
          { tag := (cd.tsram (fields_index A)).tag, mesi := MESIState.MESI_STATE_MODIFIED } := by
  cases m <;> rfl

theorem update_cache_write_dram (cd : Cache_Data) (A V : Nat) (m : Bool) :
    (update_cache_write cd A V m).1.dram
      = Function.update cd.dram (fields_index A * BLOCK_SIZE + fields_offset A) V := by
  cases m <;> rfl

/-- A write is done exactly on a hit of a line that is not shared, by a cache that is not
busy; it then stores the word and makes the line modified. -/
theorem Write_Data_to_Cache_done (s : Sim) (c A V : Nat)
    (h : (Write_Data_to_Cache s c A V).2 = true) :
    is_cache_busy s c = false ∧
    ((s.cache c).tsram (fields_index A)).tag = fields_tag A ∧
    (Write_Data_to_Cache s c A V).1 =
      { s with
        cache := Function.update s.cache c
          (update_cache_write (s.cache c) A V s.miss_occurred_write).1
        miss_occurred_write := false } := by
  unfold Write_Data_to_Cache at h ⊢
  by_cases hb : is_cache_busy s c = true
  · simp [hb] at h
  · by_cases hm : is_block_valid_and_matching ((s.cache c).tsram (fields_index A)) (fields_tag A)
        = true
    · by_cases hs : ((s.cache c).tsram (fields_index A)).mesi = MESIState.MESI_STATE_SHARED
      · simp [hb, hm, hs] at h
      · simp only [is_block_valid_and_matching, Bool.and_eq_true, decide_eq_true_eq] at hm
        refine ⟨by simpa using hb, hm.1, ?_⟩
        simp [hb, hm, hs, is_block_valid_and_matching, update_cache_write]
    · simp [hb, hm] at h

/-- C5. When `write(A, V)` on a cache returns done, a `read(A)` issued next on the same cache
returns done with the data `V`. -/
theorem C5_write_then_read (s : Sim) (c A V d : Nat)
    (h : (Write_Data_to_Cache s c A V).2 = true) :
    (Read_Data_from_Cache (Write_Data_to_Cache s c A V).1 c A d).2 = (true, V) := by
  obtain ⟨hb, ht, he⟩ := Write_Data_to_Cache_done s c A V h
  rw [he]
  have hb2 : is_cache_busy
      { s with
        cache := Function.update s.cache c
          (update_cache_write (s.cache c) A V s.miss_occurred_write).1
        miss_occurred_write := false } c = false := by
    simpa [is_cache_busy, IsBusInTransaction, IsBusWaitForTransaction,
      update_cache_write_id] using hb
  simp [Read_Data_from_Cache, hb2, readHit, update_cache_write_tsram,
    update_cache_write_dram, is_block_valid_and_matching, ht]

/-- The witness of C5: on `C5_example` the write of `0xAA` to `0x41` by cache 0 is done, and
the read that follows returns `0xAA`. -/
theorem C5_write_then_read_witness :
    (Write_Data_to_Cache C5_example 0 0x41 0xAA).2 = true ∧
    (Read_Data_from_Cache (Write_Data_to_Cache C5_example 0 0x41 0xAA).1 0 0x41 0).2
      = (true, 0xAA) :=
  ⟨by decide, C5_write_then_read C5_example 0 0x41 0xAA 0 (by decide)⟩

/-- C10. Starting from a memory that is not busy, with packets whose command is not `no_cmd`:
when the first call has `direct = false` the callback answers false on calls 1..16 and true on
calls 17..20; when it has `direct = true` the callback answers true on calls 1..4; memory is
busy after each of these calls but the last, and not busy after the last.  With the command
`no_cmd` the callback answers false and changes neither the globals nor the packet. -/
theorem C10_memory_callback_timing (s : Sim) (ts : Nat → bus_transaction) (ds : Nat → Bool)
    (hb : s.gIsMemoryBusy = false) (hc : ∀ k, (ts k).bus_cmd ≠ cmd_on_the_bus.no_cmd) :
    (∀ k, k < 20 →
      memory_answer s ts (first_flag false ds) k = decide (16 ≤ k) ∧
      (memory_calls s ts (first_flag false ds) (k + 1)).gIsMemoryBusy = decide (k < 19)) ∧
    (∀ k, k < 4 →
      memory_answer s ts (first_flag true ds) k = true ∧
      (memory_calls s ts (first_flag true ds) (k + 1)).gIsMemoryBusy = decide (k < 3)) ∧
    (∀ (s0 : Sim) (t : bus_transaction) (d : Bool),
      bus_transaction_handler s0 { t with bus_cmd := cmd_on_the_bus.no_cmd } d
        = (s0, { t with bus_cmd := cmd_on_the_bus.no_cmd }, false)) := by
  refine ⟨?_, ?_, ?_⟩
  · intro k hk
    have h := memory_calls_answer s ts (first_flag false ds) hb hc k
      (by simp [first_flag]; omega)
    simpa [first_flag] using h
  · intro k hk
    have h := memory_calls_answer s ts (first_flag true ds) hb hc k
      (by simp [first_flag]; omega)
    simp only [first_flag, if_true] at h
    rw [h.1, h.2]
    constructor
    · simp
    · simp only [decide_eq_decide]; omega
  · intro s0 t d
    simp [bus_transaction_handler]

/-- The witness of C10: the start-up memory, served `BusRd` packets. -/
theorem C10_memory_callback_timing_witness :
    (Sim_Init (fun _ => 0)).gIsMemoryBusy = false ∧
    memory_answer (Sim_Init (fun _ => 0))
      (fun _ => { original_caller := 0, origid := 0, bus_cmd := cmd_on_the_bus.busRd,
                  bus_addr := 0, bus_data := 0, bus_shared := false })
      (first_flag false (fun _ => false)) 16 = true :=
  ⟨rfl, by
    have h := (C10_memory_callback_timing (Sim_Init (fun _ => 0))
      (fun _ => { original_caller := 0, origid := 0, bus_cmd := cmd_on_the_bus.busRd,
                  bus_addr := 0, bus_data := 0, bus_shared := false })
      (fun _ => false) rfl (fun _ h => cmd_on_the_bus.noConfusion h)).1 16 (by decide)
    simpa using h.1⟩

/-! ## The bus tick, step by step -/

theorem forall_lt_four {P : Nat → Prop} :
    (∀ i, i < NUM_OF_CORES → P i) ↔ P 0 ∧ P 1 ∧ P 2 ∧ P 3 := by
  constructor
  · intro h
    exact ⟨h 0 (by decide), h 1 (by decide), h 2 (by decide), h 3 (by decide)⟩
  · rintro ⟨h0, h1, h2, h3⟩ i hi
    have hi' : i < 4 := hi
    interval_cases i <;> assumption

theorem exists_lt_four {P : Nat → Prop} :
    (∃ i, i < NUM_OF_CORES ∧ P i) ↔ P 0 ∨ P 1 ∨ P 2 ∨ P 3 := by
  constructor
  · rintro ⟨i, hi, h⟩
    have hi' : i < 4 := hi
    interval_cases i <;> simp [h]
  · rintro (h | h | h | h)
    · exact ⟨0, by decide, h⟩
    · exact ⟨1, by decide, h⟩
    · exact ⟨2, by decide, h⟩
    · exact ⟨3, by decide, h⟩

theorem range_cores : List.range NUM_OF_CORES = [0, 1, 2, 3] := by decide

theorem Sim_ext (a b : Sim) (h1 : a.cache = b.cache)
    (h2 : a.gIsBusTransactionActive = b.gIsBusTransactionActive)
    (h3 : a.gTransactionStatePerCore = b.gTransactionStatePerCore)
    (h4 : a.gOngoingTransaction = b.gOngoingTransaction)
    (h5 : a.gBusAddrOffset = b.gBusAddrOffset) (h6 : a.iterationCount = b.iterationCount)
    (h7 : a.queue = b.queue) (h8 : a.is_first_access_shared = b.is_first_access_shared)
    (h9 : a.mainMemory = b.mainMemory) (h10 : a.numOfCycles = b.numOfCycles)
    (h11 : a.gIsMemoryBusy = b.gIsMemoryBusy) (h12 : a.miss_occurred_read = b.miss_occurred_read)
    (h13 : a.miss_occurred_write = b.miss_occurred_write) : a = b := by
  cases a; cases b; simp_all

/-- The loop of `is_any_cache_snoop` leaves everything but the caches alone, cache `i` snoops
the packet as the caches before it left it, and the packet that comes out has been seen by
all four. -/
theorem is_any_cache_snoop_fst (s : Sim) (t : bus_transaction) :
    (is_any_cache_snoop s t).1 =
      { s with cache := fun i => if i < NUM_OF_CORES then snooped s t i else s.cache i } := by
  apply Sim_ext <;> simp only [is_any_cache_snoop, range_cores, List.foldl, is_any_cache_snoop_step]
  funext i
  simp only [snooped, snoop_seen, NUM_OF_CORES, Function.update]
  by_cases h3 : i = 3
  · subst h3; simp; rfl
  by_cases h2 : i = 2
  · subst h2; simp; rfl
  by_cases h1 : i = 1
  · subst h1; simp; rfl
  by_cases h0 : i = 0
  · subst h0; simp; rfl
  have : ¬ i < 4 := by omega
  simp [h0, h1, h2, h3, this]

theorem is_any_cache_snoop_snd (s : Sim) (t : bus_transaction) :
    (is_any_cache_snoop s t).2.1 = snoop_seen s t NUM_OF_CORES := by
  simp [is_any_cache_snoop, range_cores, List.foldl, is_any_cache_snoop_step, Function.update]
  rfl

theorem shared_or_modified_handler_acc (c : Cache_Data) (t : bus_transaction) (m : Bool) :
    shared_or_modified_handler c t m
      = ((shared_or_modified_handler c t false).1,
          m || (shared_or_modified_handler c t false).2) := by
  unfold shared_or_modified_handler
  split_ifs <;> simp [Bool.or_comm]

theorem shared_or_modified_handler_fst (c : Cache_Data) (t : bus_transaction) :
    (shared_or_modified_handler c t false).1 = true ↔
      (c.id ≠ t.origid ∧
        is_block_valid_and_matching (c.tsram (fields_index t.bus_addr))
          (fields_tag t.bus_addr) = true) := by
  unfold shared_or_modified_handler
  split_ifs with h <;> simp [h]

theorem shared_or_modified_handler_snd (c : Cache_Data) (t : bus_transaction) :
    (shared_or_modified_handler c t false).2 = true ↔
      (c.id ≠ t.origid ∧
        (c.tsram (fields_index t.bus_addr)).mesi = MESIState.MESI_STATE_MODIFIED) := by
  unfold shared_or_modified_handler
  split_ifs with h <;> simp [h]

theorem is_shared_line_eq (s : Sim) (t : bus_transaction) :
    is_shared_line s t =
      ((shared_or_modified_handler (s.cache 0) t false).1 ||
        (shared_or_modified_handler (s.cache 1) t false).1 ||
        (shared_or_modified_handler (s.cache 2) t false).1 ||
        (shared_or_modified_handler (s.cache 3) t false).1,
       (shared_or_modified_handler (s.cache 0) t false).2 ||
        (shared_or_modified_handler (s.cache 1) t false).2 ||
        (shared_or_modified_handler (s.cache 2) t false).2 ||
        (shared_or_modified_handler (s.cache 3) t false).2) := by
  simp only [is_shared_line, range_cores, List.foldl, is_shared_line_step]
  rw [shared_or_modified_handler_acc (s.cache 3), shared_or_modified_handler_acc (s.cache 2),
    shared_or_modified_handler_acc (s.cache 1)]
  simp

/-- The shared line is raised exactly when a cache other than the originator holds the block. -/
theorem is_shared_line_fst (s : Sim) (t : bus_transaction) :
    (is_shared_line s t).1 = true ↔
      ∃ i, i < NUM_OF_CORES ∧ ((s.cache i).id ≠ t.origid ∧
        is_block_valid_and_matching ((s.cache i).tsram (fields_index t.bus_addr))
          (fields_tag t.bus_addr) = true) := by
  rw [exists_lt_four, is_shared_line_eq]
  simp only [Bool.or_eq_true, shared_or_modified_handler_fst, or_assoc]

/-- The flag `is_data_modified` is raised exactly when a cache other than the originator has
its line at the index of the address in `M`, whatever the tag of that line. -/
theorem is_shared_line_snd (s : Sim) (t : bus_transaction) :
    (is_shared_line s t).2 = true ↔
      ∃ i, i < NUM_OF_CORES ∧ ((s.cache i).id ≠ t.origid ∧
        ((s.cache i).tsram (fields_index t.bus_addr)).mesi = MESIState.MESI_STATE_MODIFIED) := by
  rw [exists_lt_four, is_shared_line_eq]
  simp only [Bool.or_eq_true, shared_or_modified_handler_snd, or_assoc]

/-! ### The snoop callback -/

theorem state_handler_fst (m : MESIState) (c : Cache_Data) (t : bus_transaction) :
    (state_handler m c t).1 = mesi_next m t.bus_cmd := by
  cases m <;> cases h : t.bus_cmd <;>
    simp [state_handler, MSEI_invalid, MSEI_shared, MSEI_exclusive, MSEI_modified, mesi_next, h]

theorem state_handler_snd (m : MESIState) (c : Cache_Data) (t : bus_transaction) :
    (state_handler m c t).2 =
      if m = MESIState.MESI_STATE_MODIFIED ∧ t.bus_cmd ≠ cmd_on_the_bus.no_cmd
      then flush_data c t else t := by
  cases m <;> cases h : t.bus_cmd <;>
    simp [state_handler, MSEI_invalid, MSEI_shared, MSEI_exclusive, MSEI_modified, h]

theorem snooping_handler_id (c : Cache_Data) (t : bus_transaction) (o : Nat) :
    (snooping_handler c t o).1.id = c.id := by
  unfold snooping_handler snooped_transaction
  split_ifs <;> rfl

theorem snooping_handler_dram (c : Cache_Data) (t : bus_transaction) (o : Nat) :
    (snooping_handler c t o).1.dram = c.dram := by
  unfold snooping_handler snooped_transaction
  split_ifs <;> rfl

theorem snooping_handler_tracking (c : Cache_Data) (t : bus_transaction) (o : Nat) :
    (snooping_handler c t o).1.tracking = c.tracking := by
  unfold snooping_handler snooped_transaction
  split_ifs <;> rfl

/-- The line of a snooping cache after the callback: only the line at the index of the
address can change, only in its state, and only when the cache reacts to the packet and either
the offset is 3 or the line is not `M`. -/
theorem snooping_handler_tsram (c : Cache_Data) (t : bus_transaction) (o j : Nat) :
    (snooping_handler c t o).1.tsram j =
      if j = fields_index t.bus_addr ∧ snoops c t ∧
          (o = BLOCK_SIZE - 1 ∨ (c.tsram j).mesi ≠ MESIState.MESI_STATE_MODIFIED)
      then { tag := (c.tsram j).tag, mesi := mesi_next (c.tsram j).mesi t.bus_cmd }
      else c.tsram j := by
  unfold snooping_handler snooped_transaction snoops
  by_cases hj : j = fields_index t.bus_addr
  · subst hj
    by_cases h1 : c.id = t.original_caller ∧ t.bus_cmd ≠ cmd_on_the_bus.flush
    · simp [h1]
    · by_cases h2 : (c.tsram (fields_index t.bus_addr)).tag ≠ fields_tag t.bus_addr ∨
          (c.tsram (fields_index t.bus_addr)).mesi = MESIState.MESI_STATE_INVALID
      · rw [if_neg h1, if_pos h2]
        rcases h2 with h2 | h2 <;> simp [h2]
      · rw [if_neg h1, if_neg h2]
        push_neg at h2
        by_cases h3 : o = BLOCK_SIZE - 1 ∨
            (c.tsram (fields_index t.bus_addr)).mesi ≠ MESIState.MESI_STATE_MODIFIED
        · rw [if_pos h3, if_pos ⟨rfl, ⟨h1, h2.1, h2.2⟩, h3⟩]
          simp [set_mesi, state_handler_fst]
        · rw [if_neg h3, if_neg (fun h => h3 h.2.2)]
  · have hr : ¬ (j = fields_index t.bus_addr ∧
        (¬ (c.id = t.original_caller ∧ t.bus_cmd ≠ cmd_on_the_bus.flush) ∧
          (c.tsram (fields_index t.bus_addr)).tag = fields_tag t.bus_addr ∧
          (c.tsram (fields_index t.bus_addr)).mesi ≠ MESIState.MESI_STATE_INVALID) ∧
        (o = BLOCK_SIZE - 1 ∨ (c.tsram j).mesi ≠ MESIState.MESI_STATE_MODIFIED)) :=
      fun h => hj h.1
    rw [if_neg hr]
    split_ifs <;> simp [set_mesi, Function.update_noteq hj]

/-- The packet after the callback: a cache that supplies rewrites it with `flush_data`; any
other cache leaves it as it is. -/
theorem snooping_handler_packet (c : Cache_Data) (t : bus_transaction) (o : Nat) :
    (snooping_handler c t o).2.1 = if supplies c t then flush_data c t else t := by
  unfold snooping_handler snooped_transaction supplies snoops
  by_cases h1 : c.id = t.original_caller ∧ t.bus_cmd ≠ cmd_on_the_bus.flush
  · simp [h1]
  · by_cases h2 : (c.tsram (fields_index t.bus_addr)).tag ≠ fields_tag t.bus_addr ∨
        (c.tsram (fields_index t.bus_addr)).mesi = MESIState.MESI_STATE_INVALID
    · rw [if_neg h1, if_pos h2]
      rcases h2 with h2 | h2 <;> simp [h2]
    · rw [if_neg h1, if_neg h2]
      push_neg at h2
      have : (if o = BLOCK_SIZE - 1 ∨
            (c.tsram (fields_index t.bus_addr)).mesi ≠ MESIState.MESI_STATE_MODIFIED then
          (set_mesi c (fields_index t.bus_addr)
              (state_handler (c.tsram (fields_index t.bus_addr)).mesi c t).1,
            (state_handler (c.tsram (fields_index t.bus_addr)).mesi c t).2, true)
        else (c, (state_handler (c.tsram (fields_index t.bus_addr)).mesi c t).2, true)).2.1
          = (state_handler (c.tsram (fields_index t.bus_addr)).mesi c t).2 := by
        split_ifs <;> rfl
      rw [this, state_handler_snd]
      simp [h1, h2]

/-! ### The memory callback -/

/-- The memory callback in closed form. -/
theorem bus_transaction_handler_eq (s : Sim) (t : bus_transaction) (d : Bool)
    (hc : t.bus_cmd ≠ cmd_on_the_bus.no_cmd) :
    bus_transaction_handler s t d =
      if 16 ≤ mem_count s d then
        ({ s with
            gIsMemoryBusy := decide (mem_count s d ≠ 19)
            numOfCycles := (mem_count s d + 1) % 2 ^ 32
            mainMemory :=
              if t.bus_cmd = cmd_on_the_bus.flush
              then Function.update s.mainMemory t.bus_addr t.bus_data else s.mainMemory },
          if t.bus_cmd = cmd_on_the_bus.flush then t
          else { t with origid := main_memory, bus_cmd := cmd_on_the_bus.flush,
                        bus_data := s.mainMemory t.bus_addr },
          true)
      else
        ({ s with gIsMemoryBusy := true, numOfCycles := (mem_count s d + 1) % 2 ^ 32 }, t,
          false) := by
  unfold bus_transaction_handler initialize_memory_transaction process_memory_command mem_count
  rw [if_neg hc]
  cases hb : s.gIsMemoryBusy <;> cases d <;> cases hcmd : t.bus_cmd <;>
    simp [hb, hcmd] at hc ⊢ <;>
    (try split_ifs) <;> simp_all

/-! ### The bus tick -/

theorem tick_begin_cache (s : Sim) : (tick_begin s).cache = s.cache := by
  unfold tick_begin; dsimp only; split_ifs <;> rfl

theorem tick_begin_active (s : Sim) :
    (tick_begin s).gIsBusTransactionActive = s.gIsBusTransactionActive := by
  unfold tick_begin; dsimp only; split_ifs <;> rfl

theorem tick_begin_ongoing (s : Sim) :
    (tick_begin s).gOngoingTransaction = s.gOngoingTransaction := by
  unfold tick_begin; dsimp only; split_ifs <;> rfl

theorem tick_begin_offset (s : Sim) : (tick_begin s).gBusAddrOffset = s.gBusAddrOffset := by
  unfold tick_begin; dsimp only; split_ifs <;> rfl

theorem tick_begin_queue (s : Sim) : (tick_begin s).queue = s.queue := by
  unfold tick_begin; dsimp only; split_ifs <;> rfl

theorem tick_begin_first (s : Sim) :
    (tick_begin s).is_first_access_shared = s.is_first_access_shared := by
  unfold tick_begin; dsimp only; split_ifs <;> rfl

theorem tick_begin_memory (s : Sim) : (tick_begin s).mainMemory = s.mainMemory := by
  unfold tick_begin; dsimp only; split_ifs <;> rfl

theorem tick_begin_count (s : Sim) : (tick_begin s).numOfCycles = s.numOfCycles := by
  unfold tick_begin; dsimp only; split_ifs <;> rfl

theorem tick_begin_busy (s : Sim) : (tick_begin s).gIsMemoryBusy = s.gIsMemoryBusy := by
  unfold tick_begin; dsimp only; split_ifs <;> rfl

theorem tick_begin_miss_read (s : Sim) :
    (tick_begin s).miss_occurred_read = s.miss_occurred_read := by
  unfold tick_begin; dsimp only; split_ifs <;> rfl

theorem tick_begin_miss_write (s : Sim) :
    (tick_begin s).miss_occurred_write = s.miss_occurred_write := by
  unfold tick_begin; dsimp only; split_ifs <;> rfl

/-- After the first statements of a tick the core of the ongoing transaction is idle if it
was in state `finally`; no other state changes. -/
theorem tick_begin_state (s : Sim) (c : Nat) :
    (tick_begin s).gTransactionStatePerCore c =
      if c = s.gOngoingTransaction.origid ∧ c < NUM_OF_CORES ∧
          s.gTransactionStatePerCore c = state_of_transaction.finally_
      then state_of_transaction.idle else s.gTransactionStatePerCore c := by
  unfold tick_begin state_get state_set
  dsimp only
  by_cases h4 : s.gOngoingTransaction.origid < NUM_OF_CORES
  · by_cases hf : s.gTransactionStatePerCore s.gOngoingTransaction.origid
        = state_of_transaction.finally_
    · by_cases hc : c = s.gOngoingTransaction.origid
      · subst hc; simp [h4, hf]
      · simp [h4, hf, hc, Function.update_noteq hc]
    · by_cases hc : c = s.gOngoingTransaction.origid
      · subst hc; simp [h4, hf]
      · simp [h4, hf, hc]
  · by_cases hc : c = s.gOngoingTransaction.origid
    · subst hc; simp [h4]
    · simp [h4, hc]

theorem Run_Bus_Iteration_active (s : Sim) (h : s.gIsBusTransactionActive = true) :
    Run_Bus_Iteration s = Run_Bus_Iteration_serve (tick_begin s) := by
  have h2 := tick_begin_active s
  unfold tick_begin at h2 ⊢
  unfold Run_Bus_Iteration
  dsimp only at h2 ⊢
  rw [h2, h]
  simp

theorem Run_Bus_Iteration_idle (s : Sim) (h : s.gIsBusTransactionActive = false)
    (hq : s.queue = []) :
    Run_Bus_Iteration s =
      { tick_begin s with
        gOngoingTransaction :=
          { (tick_begin s).gOngoingTransaction with origid := invalid_caller } } := by
  have h2 := tick_begin_active s
  have h3 := tick_begin_queue s
  unfold tick_begin at h2 h3 ⊢
  unfold Run_Bus_Iteration is_queue_empty
  dsimp only at h2 h3 ⊢
  rw [h2, h3, h, hq]
  simp

theorem Run_Bus_Iteration_start (s : Sim) (q : List bus_transaction) (t : bus_transaction)
    (h : s.gIsBusTransactionActive = false) (hq : s.queue = q ++ [t])
    (ht : t.origid ≠ invalid_caller) :
    Run_Bus_Iteration s = Run_Bus_Iteration_serve (tick_start s t q) := by
  have h2 := tick_begin_active s
  have h3 := tick_begin_queue s
  unfold tick_start
  unfold tick_begin at h2 h3 ⊢
  unfold Run_Bus_Iteration is_queue_empty queue_dequeue
  dsimp only at h2 h3 ⊢
  rw [h2, h3, h, hq]
  simp [ht]

theorem Run_Bus_Iteration_delay (s : Sim) (q : List bus_transaction) (t : bus_transaction)
    (h : s.gIsBusTransactionActive = false) (hq : s.queue = q ++ [t])
    (ht : t.origid = invalid_caller) :
    Run_Bus_Iteration s =
      { tick_begin s with is_first_access_shared := true, queue := q,
                          gOngoingTransaction := t } := by
  have h2 := tick_begin_active s
  have h3 := tick_begin_queue s
  unfold tick_begin at h2 h3 ⊢
  unfold Run_Bus_Iteration is_queue_empty queue_dequeue
  dsimp only at h2 h3 ⊢
  rw [h2, h3, h, hq]
  simp [ht]

/-! ### The packet through the snoop loop -/

theorem snoop_seen_addr (s : Sim) (t : bus_transaction) (i : Nat) :
    (snoop_seen s t i).bus_addr = t.bus_addr := by
  induction i with
  | zero => rfl
  | succ i ih =>
    simp only [snoop_seen, snooping_handler_packet]
    split_ifs <;> simp [flush_data, ih]

theorem snoop_seen_caller (s : Sim) (t : bus_transaction) (i : Nat) :
    (snoop_seen s t i).original_caller = t.original_caller := by
  induction i with
  | zero => rfl
  | succ i ih =>
    simp only [snoop_seen, snooping_handler_packet]
    split_ifs <;> simp [flush_data, ih]

theorem snoop_seen_shared (s : Sim) (t : bus_transaction) (i : Nat) :
    (snoop_seen s t i).bus_shared = t.bus_shared := by
  induction i with
  | zero => rfl
  | succ i ih =>
    simp only [snoop_seen, snooping_handler_packet]
    split_ifs <;> simp [flush_data, ih]

theorem snoop_seen_cmd (s : Sim) (t : bus_transaction) (i : Nat) :
    (snoop_seen s t i).bus_cmd = t.bus_cmd ∨
    (snoop_seen s t i).bus_cmd = cmd_on_the_bus.flush := by
  induction i with
  | zero => exact Or.inl rfl
  | succ i ih =>
    simp only [snoop_seen, snooping_handler_packet]
    split_ifs
    · exact Or.inr rfl
    · exact ih

theorem snoop_seen_cmd_ne (s : Sim) (t : bus_transaction) (i : Nat)
    (h : t.bus_cmd ≠ cmd_on_the_bus.no_cmd) :
    (snoop_seen s t i).bus_cmd ≠ cmd_on_the_bus.no_cmd := by
  rcases snoop_seen_cmd s t i with h1 | h1 <;> rw [h1]
  · exact h
  · decide

/-- When none of the caches `0 .. i-1` supplies, the packet reaches cache `i` unchanged. -/
theorem snoop_seen_of_no_supplier (s : Sim) (t : bus_transaction) (i : Nat)
    (h : ∀ j, j < i → ¬ supplies (s.cache j) t) : snoop_seen s t i = t := by
  induction i with
  | zero => rfl
  | succ i ih =>
    have ih' := ih (fun j hj => h j (Nat.lt_succ_of_lt hj))
    simp only [snoop_seen, snooping_handler_packet, ih']
    rw [if_neg (h i (Nat.lt_succ_self i))]

/-! ### The response callback -/

/-- The response to the cache that flushes its own block: nothing is stored. -/
theorem cache_response_handle_own (c : Cache_Data) (t : bus_transaction) (o : Nat)
    (h : c.id = t.origid) (hc : t.bus_cmd = cmd_on_the_bus.flush) :
    cache_response_handle c t o =
      (c, if o = BLOCK_SIZE - 1 then o else (o + 1) % 256, decide (o = BLOCK_SIZE - 1)) := by
  unfold cache_response_handle
  simp only [h, hc, ne_eq, not_true_eq_false, and_false, if_false, and_self, if_true]
  split_ifs <;> simp_all

/-- The response to a cache that receives a word of a block. -/
theorem cache_response_handle_fill (c : Cache_Data) (t : bus_transaction) (o : Nat)
    (h : c.id ≠ t.origid) (hc : t.bus_cmd = cmd_on_the_bus.flush) :
    cache_response_handle c t o =
      (if o = BLOCK_SIZE - 1 then
          set_mesi
            (set_dram (set_tag c (fields_index t.bus_addr) (fields_tag t.bus_addr))
              (fields_index t.bus_addr * BLOCK_SIZE + fields_offset t.bus_addr) t.bus_data)
            (fields_index t.bus_addr)
            (if t.bus_shared then MESIState.MESI_STATE_SHARED
              else MESIState.MESI_STATE_EXCLUSIVE)
        else
          set_dram (set_tag c (fields_index t.bus_addr) (fields_tag t.bus_addr))
            (fields_index t.bus_addr * BLOCK_SIZE + fields_offset t.bus_addr) t.bus_data,
        if o = BLOCK_SIZE - 1 then o else (o + 1) % 256, decide (o = BLOCK_SIZE - 1)) := by
  unfold cache_response_handle
  simp only [h, hc, false_and, if_false, if_true]
  split_ifs <;> simp_all

/-! ### Serving the ongoing transaction -/

theorem Run_Bus_Iteration_serve_detour (s : Sim)
    (h : (is_shared_line s s.gOngoingTransaction).2 = true)
    (hf : s.is_first_access_shared = true) :
    Run_Bus_Iteration_serve s = { s with is_first_access_shared := false } := by
  unfold Run_Bus_Iteration_serve
  simp [h, hf]

/-- A cycle that is not the detour cycle, while memory still counts its latency: the caches
snoop, the counter advances, nothing else happens. -/
theorem Run_Bus_Iteration_serve_latency (s : Sim)
    (h : ¬ ((is_shared_line s s.gOngoingTransaction).2 = true ∧
            s.is_first_access_shared = true))
    (hc : s.gOngoingTransaction.bus_cmd ≠ cmd_on_the_bus.no_cmd)
    (hm : mem_count s (is_shared_line s s.gOngoingTransaction).2 < 16) :
    Run_Bus_Iteration_serve s =
      { s with
        cache := fun i => if i < NUM_OF_CORES then snooped s (bus_packet s) i else s.cache i
        gIsMemoryBusy := true
        numOfCycles := (mem_count s (is_shared_line s s.gOngoingTransaction).2 + 1) % 2 ^ 32 } := by
  have hd : ((is_shared_line s s.gOngoingTransaction).2 && s.is_first_access_shared) = false := by
    simpa using h
  have hpk : (snoop_seen s (bus_packet s) NUM_OF_CORES).bus_cmd ≠ cmd_on_the_bus.no_cmd :=
    snoop_seen_cmd_ne s _ _ hc
  unfold Run_Bus_Iteration_serve
  simp only [hd, Bool.false_eq_true, if_false]
  have e1 : ({ s.gOngoingTransaction with
      bus_addr := set_offset s.gOngoingTransaction.bus_addr s.gBusAddrOffset,
      bus_shared := (is_shared_line s s.gOngoingTransaction).1 } : bus_transaction)
      = bus_packet s := rfl
  rw [e1, is_any_cache_snoop_fst, is_any_cache_snoop_snd, bus_transaction_handler_eq _ _ _ hpk]
  have hm' : ¬ 16 ≤ mem_count
      { s with cache := fun i => if i < NUM_OF_CORES then snooped s (bus_packet s) i
                                  else s.cache i }
      (is_shared_line s s.gOngoingTransaction).2 := by
    simpa [mem_count] using hm
  rw [if_neg hm']
  simp [mem_count]

/-- A cycle that is not the detour cycle, once memory answers: the caches snoop, a `Flush` word
is stored in memory, the originator's cache gets the response, and the transaction ends when
the response says so. -/
theorem Run_Bus_Iteration_serve_answer (s : Sim)
    (h : ¬ ((is_shared_line s s.gOngoingTransaction).2 = true ∧
            s.is_first_access_shared = true))
    (hc : s.gOngoingTransaction.bus_cmd ≠ cmd_on_the_bus.no_cmd)
    (hm : 16 ≤ mem_count s (is_shared_line s s.gOngoingTransaction).2) :
    Run_Bus_Iteration_serve s =
      { s with
        cache := Function.update
          (fun i => if i < NUM_OF_CORES then snooped s (bus_packet s) i else s.cache i)
          s.gOngoingTransaction.origid (bus_response s).1
        gBusAddrOffset := (bus_response s).2.1
        gIsMemoryBusy := decide (mem_count s (is_shared_line s s.gOngoingTransaction).2 ≠ 19)
        numOfCycles := (mem_count s (is_shared_line s s.gOngoingTransaction).2 + 1) % 2 ^ 32
        mainMemory :=
          if (snoop_seen s (bus_packet s) NUM_OF_CORES).bus_cmd = cmd_on_the_bus.flush
          then Function.update s.mainMemory (snoop_seen s (bus_packet s) NUM_OF_CORES).bus_addr
            (snoop_seen s (bus_packet s) NUM_OF_CORES).bus_data
          else s.mainMemory
        gTransactionStatePerCore :=
          if (bus_response s).2.2
          then state_set s.gTransactionStatePerCore s.gOngoingTransaction.origid
            state_of_transaction.finally_
          else s.gTransactionStatePerCore
        gIsBusTransactionActive :=
          if (bus_response s).2.2 then false else s.gIsBusTransactionActive } := by
  have hd : ((is_shared_line s s.gOngoingTransaction).2 && s.is_first_access_shared) = false := by
    simpa using h
  have hpk : (snoop_seen s (bus_packet s) NUM_OF_CORES).bus_cmd ≠ cmd_on_the_bus.no_cmd :=
    snoop_seen_cmd_ne s _ _ hc
  unfold Run_Bus_Iteration_serve
  simp only [hd, Bool.false_eq_true, if_false]
  have e1 : ({ s.gOngoingTransaction with
      bus_addr := set_offset s.gOngoingTransaction.bus_addr s.gBusAddrOffset,
      bus_shared := (is_shared_line s s.gOngoingTransaction).1 } : bus_transaction)
      = bus_packet s := rfl
  rw [e1, is_any_cache_snoop_fst, is_any_cache_snoop_snd, bus_transaction_handler_eq _ _ _ hpk]
  have hm' : 16 ≤ mem_count
      { s with cache := fun i => if i < NUM_OF_CORES then snooped s (bus_packet s) i
                                  else s.cache i }
      (is_shared_line s s.gOngoingTransaction).2 := by
    simpa [mem_count] using hm
  rw [if_pos hm']
  simp only [if_true]
  have e2 : cache_response_handle
      (if s.gOngoingTransaction.origid < NUM_OF_CORES
        then snooped s (bus_packet s) s.gOngoingTransaction.origid
        else s.cache s.gOngoingTransaction.origid)
      (if (snoop_seen s (bus_packet s) NUM_OF_CORES).bus_cmd = cmd_on_the_bus.flush
        then snoop_seen s (bus_packet s) NUM_OF_CORES
        else { snoop_seen s (bus_packet s) NUM_OF_CORES with
               origid := main_memory, bus_cmd := cmd_on_the_bus.flush,
               bus_data := s.mainMemory (snoop_seen s (bus_packet s) NUM_OF_CORES).bus_addr })
      s.gBusAddrOffset = bus_response s := rfl
  simp only [e2]
  by_cases hr : (bus_response s).2.2 = true
  · simp [hr, mem_count]
  · simp only [Bool.not_eq_true] at hr
    simp [hr, mem_count]

/-! ## A block read that is served by main memory -/

theorem fields_index_set_offset (a o : Nat) : fields_index (set_offset a o) = fields_index a := by
  unfold fields_index set_offset; omega

theorem fields_tag_set_offset (a o : Nat) : fields_tag (set_offset a o) = fields_tag a := by
  unfold fields_tag set_offset; omega

theorem fields_offset_set_offset (a o : Nat) : fields_offset (set_offset a o) = o % 4 := by
  unfold fields_offset set_offset; omega

theorem Filling.packet {mem : Nat → Nat} {r : Nat} {cmd : cmd_on_the_bus} {a data : Nat}
    {sh : Bool} {V : Nat → Prop} {n : Nat} {s : Sim}
    (h : Filling mem r cmd a data sh V n s) :
    bus_packet s =
      { original_caller := r, origid := r, bus_cmd := cmd,
        bus_addr := set_offset a s.gBusAddrOffset, bus_data := data,
        bus_shared := (is_shared_line s s.gOngoingTransaction).1 } := by
  unfold bus_packet
  rw [h.ongoing]

theorem Filling.cmd_ne {mem : Nat → Nat} {r : Nat} {cmd : cmd_on_the_bus} {a data : Nat}
    {sh : Bool} {V : Nat → Prop} {n : Nat} {s : Sim}
    (h : Filling mem r cmd a data sh V n s) :
    cmd ≠ cmd_on_the_bus.flush ∧ cmd ≠ cmd_on_the_bus.no_cmd := by
  rcases h.read with e | e <;> rw [e] <;> exact ⟨by decide, by decide⟩

/-- No cache supplies: the requester is skipped by the snoop, the others do not have the block
in `M`. -/
theorem Filling.no_supplier {mem : Nat → Nat} {r : Nat} {cmd : cmd_on_the_bus} {a data : Nat}
    {sh : Bool} {V : Nat → Prop} {n : Nat} {s : Sim}
    (h : Filling mem r cmd a data sh V n s) (j : Nat) (hj : j < NUM_OF_CORES) :
    ¬ supplies (s.cache j) (bus_packet s) := by
  rw [h.packet]
  unfold supplies snoops
  simp only [fields_index_set_offset, fields_tag_set_offset, h.ids j hj]
  by_cases hjr : j = r
  · subst hjr
    simp [h.cmd_ne.1]
  · have ho := h.owner j hj hjr
    intro hs
    apply ho
    cases hl : (s.cache j).tsram (fields_index a) with
    | mk tg ms =>
      rw [hl] at hs
      simp only at hs
      rw [hs.1.2.1, hs.2.1]

theorem Filling.snoop_seen_eq {mem : Nat → Nat} {r : Nat} {cmd : cmd_on_the_bus} {a data : Nat}
    {sh : Bool} {V : Nat → Prop} {n : Nat} {s : Sim}
    (h : Filling mem r cmd a data sh V n s) (i : Nat) (hi : i ≤ NUM_OF_CORES) :
    snoop_seen s (bus_packet s) i = bus_packet s :=
  snoop_seen_of_no_supplier s _ i (fun j hj => h.no_supplier j (Nat.lt_of_lt_of_le hj hi))

theorem snooping_handler_ignored (c : Cache_Data) (t : bus_transaction) (o : Nat)
    (h : c.id = t.original_caller) (hc : t.bus_cmd ≠ cmd_on_the_bus.flush) :
    (snooping_handler c t o).1 = c := by
  unfold snooping_handler
  rw [if_pos ⟨h, hc⟩]

theorem is_shared_line_congr (s s' : Sim) (t : bus_transaction) (h : s'.cache = s.cache) :
    is_shared_line s' t = is_shared_line s t := by
  rw [is_shared_line_eq, is_shared_line_eq, h]

theorem mesi_next_ne_modified (m : MESIState) (cmd : cmd_on_the_bus)
    (h : cmd = cmd_on_the_bus.busRd ∨ cmd = cmd_on_the_bus.busRdX) :
    mesi_next m cmd ≠ MESIState.MESI_STATE_MODIFIED := by
  rcases h with h | h <;> subst h <;> cases m <;> simp [mesi_next]

theorem Filling.snooped_requester {mem : Nat → Nat} {r : Nat} {cmd : cmd_on_the_bus}
    {a data : Nat} {sh : Bool} {V : Nat → Prop} {n : Nat} {s : Sim}
    (h : Filling mem r cmd a data sh V n s) :
    snooped s (bus_packet s) r = s.cache r := by
  unfold snooped
  rw [h.snoop_seen_eq r (Nat.le_of_lt h.rlt)]
  apply snooping_handler_ignored
  · rw [h.packet, h.ids r h.rlt]
  · rw [h.packet]; exact h.cmd_ne.1

/-- The line of another cache after the snoop of a read command that no cache supplies: a copy
of the block takes the next state of the MESI table, anything else stays. -/
theorem Filling.snooped_other {mem : Nat → Nat} {r : Nat} {cmd : cmd_on_the_bus}
    {a data : Nat} {sh : Bool} {V : Nat → Prop} {n : Nat} {s : Sim}
    (h : Filling mem r cmd a data sh V n s) (c : Nat) (hc : c < NUM_OF_CORES) (hcr : c ≠ r)
    (j : Nat) :
    (snooped s (bus_packet s) c).tsram j =
      if j = fields_index a ∧ holds_block (s.cache c) a
      then { tag := fields_tag a, mesi := mesi_next ((s.cache c).tsram j).mesi cmd }
      else (s.cache c).tsram j := by
  unfold snooped
  rw [h.snoop_seen_eq c (Nat.le_of_lt hc), snooping_handler_tsram]
  have hpk := h.packet
  have hsn : snoops (s.cache c) (bus_packet s) ↔ holds_block (s.cache c) a := by
    unfold snoops holds_block
    rw [hpk]
    simp only [fields_index_set_offset, fields_tag_set_offset, h.ids c hc]
    constructor
    · intro hh; exact hh.2
    · intro hh; exact ⟨fun h2 => hcr h2.1, hh⟩
  rw [hpk] at hsn ⊢
  simp only [fields_index_set_offset] at hsn ⊢
  by_cases hj : j = fields_index a
  · subst hj
    by_cases hb : holds_block (s.cache c) a
    · have hM : ((s.cache c).tsram (fields_index a)).mesi ≠ MESIState.MESI_STATE_MODIFIED := by
        intro hM
        apply h.owner c hc hcr
        cases hl : (s.cache c).tsram (fields_index a) with
        | mk tg ms =>
          unfold holds_block at hb
          rw [hl] at hb hM
          simp only at hb hM
          rw [hb.1, hM]
      rw [if_pos ⟨rfl, hsn.2 hb, Or.inr hM⟩, if_pos ⟨rfl, hb⟩, hb.1]
    · rw [if_neg (fun hh => hb (hsn.1 hh.2.1)), if_neg (fun hh => hb hh.2)]
  · rw [if_neg (fun hh => hj hh.1), if_neg (fun hh => hj hh.1)]

theorem Filling.snooped_holds {mem : Nat → Nat} {r : Nat} {cmd : cmd_on_the_bus}
    {a data : Nat} {sh : Bool} {V : Nat → Prop} {n : Nat} {s : Sim}
    (h : Filling mem r cmd a data sh V n s) (c : Nat) (hc : c < NUM_OF_CORES) (hcr : c ≠ r) :
    holds_block (snooped s (bus_packet s) c) a ↔ holders_after cmd V c := by
  unfold holds_block holders_after
  rw [h.snooped_other c hc hcr, ← h.others c hc hcr]
  by_cases hb : holds_block (s.cache c) a
  · rw [if_pos ⟨rfl, hb⟩]
    have hv := hb.2
    rcases h.read with e | e <;> subst e <;>
      cases hm : ((s.cache c).tsram (fields_index a)).mesi <;>
      simp [mesi_next, hb, hm] at hv ⊢
  · rw [if_neg (fun hh => hb hh.2)]
    constructor
    · intro hh; exact absurd hh hb
    · intro hh; exact absurd hh.2 hb

theorem Filling.snooped_not_modified {mem : Nat → Nat} {r : Nat} {cmd : cmd_on_the_bus}
    {a data : Nat} {sh : Bool} {V : Nat → Prop} {n : Nat} {s : Sim}
    (h : Filling mem r cmd a data sh V n s) (c : Nat) (hc : c < NUM_OF_CORES) (hcr : c ≠ r)
    (hm : ((snooped s (bus_packet s) c).tsram (fields_index a)).mesi
      = MESIState.MESI_STATE_MODIFIED) :
    ((s.cache c).tsram (fields_index a)).mesi = MESIState.MESI_STATE_MODIFIED := by
  rw [h.snooped_other c hc hcr] at hm
  by_cases hb : holds_block (s.cache c) a
  · rw [if_pos ⟨rfl, hb⟩] at hm
    exact absurd hm (mesi_next_ne_modified _ _ h.read)
  · rw [if_neg (fun hh => hb hh.2)] at hm
    exact hm

theorem Filling.modified_iff {mem : Nat → Nat} {r : Nat} {cmd : cmd_on_the_bus}
    {a data : Nat} {sh : Bool} {V : Nat → Prop} {n : Nat} {s : Sim}
    (h : Filling mem r cmd a data sh V n s) :
    (is_shared_line s s.gOngoingTransaction).2 = true ↔
      ∃ c, c < NUM_OF_CORES ∧ (c ≠ r ∧
        ((s.cache c).tsram (fields_index a)).mesi = MESIState.MESI_STATE_MODIFIED) := by
  rw [is_shared_line_snd, h.ongoing]
  constructor
  · rintro ⟨i, hi, h1, h2⟩
    rw [h.ids i hi] at h1
    exact ⟨i, hi, h1, h2⟩
  · rintro ⟨i, hi, h1, h2⟩
    refine ⟨i, hi, ?_, h2⟩
    rw [h.ids i hi]; exact h1

theorem Filling.shared_iff {mem : Nat → Nat} {r : Nat} {cmd : cmd_on_the_bus}
    {a data : Nat} {sh : Bool} {V : Nat → Prop} {n : Nat} {s : Sim}
    (h : Filling mem r cmd a data sh V n s) :
    (is_shared_line s s.gOngoingTransaction).1 = true ↔
      ∃ c, c < NUM_OF_CORES ∧ c ≠ r ∧ V c := by
  rw [is_shared_line_fst, h.ongoing]
  constructor
  · rintro ⟨i, hi, h1, h2⟩
    rw [h.ids i hi] at h1
    refine ⟨i, hi, h1, (h.others i hi h1).1 ?_⟩
    simpa [holds_block, is_block_valid_and_matching] using h2
  · rintro ⟨i, hi, h1, h2⟩
    refine ⟨i, hi, ?_, ?_⟩
    · rw [h.ids i hi]; exact h1
    · have := (h.others i hi h1).2 h2
      simpa [holds_block, is_block_valid_and_matching] using this

/-- The first statements of a tick do not disturb the transfer. -/
theorem Filling.begin {mem : Nat → Nat} {r : Nat} {cmd : cmd_on_the_bus}
    {a data : Nat} {sh : Bool} {V : Nat → Prop} {n : Nat} {s : Sim}
    (h : Filling mem r cmd a data sh V n s) :
    Filling mem r cmd a data sh V n (tick_begin s) where
  active := by rw [tick_begin_active]; exact h.active
  ongoing := by rw [tick_begin_ongoing]; exact h.ongoing
  core := by
    rw [tick_begin_state, h.core]
    simp
  ids := by rw [tick_begin_cache]; exact h.ids
  rlt := h.rlt
  read := h.read
  nodetour := by
    rw [tick_begin_first, tick_begin_ongoing,
      is_shared_line_congr _ _ _ (tick_begin_cache s)]
    exact h.nodetour
  busy := by rw [tick_begin_busy]; exact h.busy
  count := by rw [tick_begin_count]; exact h.count
  offset := by rw [tick_begin_offset]; exact h.offset
  memory := by rw [tick_begin_memory]; exact h.memory
  owner := by rw [tick_begin_cache]; exact h.owner
  others := by rw [tick_begin_cache]; exact h.others
  tag := by rw [tick_begin_cache]; exact h.tag
  words := by rw [tick_begin_cache]; exact h.words

theorem Filling.mem_count_eq {mem : Nat → Nat} {r : Nat} {cmd : cmd_on_the_bus}
    {a data : Nat} {sh : Bool} {V : Nat → Prop} {n : Nat} {s : Sim}
    (h : Filling mem r cmd a data sh V n s) (d : Bool) :
    mem_count s d = if 1 ≤ n then n else if d then 16 else 0 := by
  unfold mem_count
  rw [h.busy]
  by_cases hn : 1 ≤ n
  · simp [hn, h.count hn]
  · simp [hn]

theorem Filling.not_detour {mem : Nat → Nat} {r : Nat} {cmd : cmd_on_the_bus}
    {a data : Nat} {sh : Bool} {V : Nat → Prop} {n : Nat} {s : Sim}
    (h : Filling mem r cmd a data sh V n s) :
    ¬ ((is_shared_line s s.gOngoingTransaction).2 = true ∧
        s.is_first_access_shared = true) := by
  rintro ⟨h1, h2⟩
  rw [h.nodetour h1] at h2
  exact Bool.false_ne_true h2

/-- One cycle of the latency: the counter advances, copies of the block in other caches take
their next state. -/
theorem Filling.serve_latency {mem : Nat → Nat} {r : Nat} {cmd : cmd_on_the_bus}
    {a data : Nat} {sh : Bool} {V : Nat → Prop} {n : Nat} {s : Sim}
    (h : Filling mem r cmd a data sh V n s)
    (hm : mem_count s (is_shared_line s s.gOngoingTransaction).2 < 16) :
    Filling mem r cmd a data sh (holders_after cmd V)
      (mem_count s (is_shared_line s s.gOngoingTransaction).2 + 1)
      (Run_Bus_Iteration_serve s) := by
  have hcmd : s.gOngoingTransaction.bus_cmd ≠ cmd_on_the_bus.no_cmd := by
    rw [h.ongoing]; exact h.cmd_ne.2
  rw [Run_Bus_Iteration_serve_latency s h.not_detour hcmd hm]
  have hcache : ∀ c, c < NUM_OF_CORES → c ≠ r → ∀ j,
      ((if c < NUM_OF_CORES then snooped s (bus_packet s) c else s.cache c).tsram j)
        = (snooped s (bus_packet s) c).tsram j := by
    intro c hc _ j; rw [if_pos hc]
  have hmc := h.mem_count_eq (is_shared_line s s.gOngoingTransaction).2
  have h32 : (mem_count s (is_shared_line s s.gOngoingTransaction).2 + 1) % 2 ^ 32
      = mem_count s (is_shared_line s s.gOngoingTransaction).2 + 1 :=
    Nat.mod_eq_of_lt (by omega)
  refine
    { active := h.active, ongoing := h.ongoing, core := h.core, rlt := h.rlt, read := h.read,
      memory := h.memory, ids := ?_, nodetour := ?_, busy := ?_, count := ?_, offset := ?_,
      owner := ?_, others := ?_, tag := ?_, words := ?_ }
  · intro i hi
    show (if i < NUM_OF_CORES then snooped s (bus_packet s) i else s.cache i).id = i
    rw [if_pos hi]
    unfold snooped
    rw [snooping_handler_id]
    exact h.ids i hi
  · intro hd
    apply h.nodetour
    rw [h.modified_iff]
    rw [is_shared_line_snd] at hd
    obtain ⟨i, hi, h1, h2⟩ := hd
    change (if i < NUM_OF_CORES then snooped s (bus_packet s) i else s.cache i).id
        ≠ s.gOngoingTransaction.origid at h1
    change ((if i < NUM_OF_CORES then snooped s (bus_packet s) i else s.cache i).tsram
        (fields_index s.gOngoingTransaction.bus_addr)).mesi = _ at h2
    rw [if_pos hi] at h1 h2
    unfold snooped at h1
    rw [snooping_handler_id, h.ids i hi, h.ongoing] at h1
    rw [h.ongoing] at h2
    exact ⟨i, hi, h1, h.snooped_not_modified i hi h1 h2⟩
  · simp
  · intro _
    exact h32
  · show s.gBusAddrOffset = _
    rw [h.offset]
    by_cases hn : 1 ≤ n
    · rw [if_pos hn] at hmc; omega
    · omega
  · intro c hc hcr
    show ¬ ((if c < NUM_OF_CORES then snooped s (bus_packet s) c else s.cache c).tsram
        (fields_index a) = _)
    rw [if_pos hc]
    intro hl
    have hmm : ((snooped s (bus_packet s) c).tsram (fields_index a)).mesi
        = MESIState.MESI_STATE_MODIFIED := by rw [hl]
    have hm2 := h.snooped_not_modified c hc hcr hmm
    rw [h.snooped_other c hc hcr] at hl
    by_cases hb : holds_block (s.cache c) a
    · rw [if_pos ⟨rfl, hb⟩] at hl
      have : mesi_next ((s.cache c).tsram (fields_index a)).mesi cmd
          = MESIState.MESI_STATE_MODIFIED := by
        have := congrArg TSRAMLine.mesi hl
        exact this
      exact mesi_next_ne_modified _ _ h.read this
    · rw [if_neg (fun hh => hb hh.2)] at hl
      exact h.owner c hc hcr hl
  · intro c hc hcr
    show holds_block (if c < NUM_OF_CORES then snooped s (bus_packet s) c else s.cache c) a ↔ _
    rw [if_pos hc]
    exact h.snooped_holds c hc hcr
  · intro h17; omega
  · intro j hj; omega

theorem Filling.answer {mem : Nat → Nat} {r : Nat} {cmd : cmd_on_the_bus}
    {a data : Nat} {sh : Bool} {V : Nat → Prop} {n : Nat} {s : Sim}
    (h : Filling mem r cmd a data sh V n s) :
    answer_packet s =
      { original_caller := r, origid := main_memory, bus_cmd := cmd_on_the_bus.flush,
        bus_addr := set_offset a s.gBusAddrOffset,
        bus_data := mem (set_offset a s.gBusAddrOffset),
        bus_shared := (is_shared_line s s.gOngoingTransaction).1 } := by
  unfold answer_packet memory_packet
  rw [h.snoop_seen_eq _ (Nat.le_refl _), h.packet, if_neg h.cmd_ne.1, h.memory]

/-- The response of a cycle in which memory answers: the requester stores the word and the
tag, and on the last word takes the state `S` or `E`. -/
theorem Filling.response {mem : Nat → Nat} {r : Nat} {cmd : cmd_on_the_bus}
    {a data : Nat} {sh : Bool} {V : Nat → Prop} {n : Nat} {s : Sim}
    (h : Filling mem r cmd a data sh V n s) :
    bus_response s =
      (if s.gBusAddrOffset = BLOCK_SIZE - 1 then
          set_mesi
            (set_dram (set_tag (s.cache r) (fields_index a) (fields_tag a))
              (fields_index a * BLOCK_SIZE + s.gBusAddrOffset % 4)
              (mem (set_offset a s.gBusAddrOffset)))
            (fields_index a)
            (if (is_shared_line s s.gOngoingTransaction).1 then MESIState.MESI_STATE_SHARED
              else MESIState.MESI_STATE_EXCLUSIVE)
        else
          set_dram (set_tag (s.cache r) (fields_index a) (fields_tag a))
            (fields_index a * BLOCK_SIZE + s.gBusAddrOffset % 4)
            (mem (set_offset a s.gBusAddrOffset)),
        if s.gBusAddrOffset = BLOCK_SIZE - 1 then s.gBusAddrOffset
          else (s.gBusAddrOffset + 1) % 256,
        decide (s.gBusAddrOffset = BLOCK_SIZE - 1)) := by
  unfold bus_response
  have ho : s.gOngoingTransaction.origid = r := by rw [h.ongoing]
  rw [ho, if_pos h.rlt, h.snooped_requester, h.answer,
    cache_response_handle_fill _ _ _ (by
      rw [h.ids r h.rlt]
      exact Nat.ne_of_lt h.rlt) rfl]
  simp only [fields_index_set_offset, fields_tag_set_offset, fields_offset_set_offset]

/-- One cycle of the transfer before the last word: the requester stores the word of memory
at the offset and the tag of the block; the offset advances. -/
theorem Filling.serve_word {mem : Nat → Nat} {r : Nat} {cmd : cmd_on_the_bus}
    {a data : Nat} {sh : Bool} {V : Nat → Prop} {n : Nat} {s : Sim}
    (h : Filling mem r cmd a data sh V n s)
    (hm : 16 ≤ mem_count s (is_shared_line s s.gOngoingTransaction).2)
    (hm2 : mem_count s (is_shared_line s s.gOngoingTransaction).2 < 19) :
    Filling mem r cmd a data sh (holders_after cmd V)
      (mem_count s (is_shared_line s s.gOngoingTransaction).2 + 1)
      (Run_Bus_Iteration_serve s) := by
  have hcmd : s.gOngoingTransaction.bus_cmd ≠ cmd_on_the_bus.no_cmd := by
    rw [h.ongoing]; exact h.cmd_ne.2
  have hmc := h.mem_count_eq (is_shared_line s s.gOngoingTransaction).2
  have h32 : (mem_count s (is_shared_line s s.gOngoingTransaction).2 + 1) % 2 ^ 32
      = mem_count s (is_shared_line s s.gOngoingTransaction).2 + 1 :=
    Nat.mod_eq_of_lt (by omega)
  have hoff : s.gBusAddrOffset = mem_count s (is_shared_line s s.gOngoingTransaction).2 - 16 := by
    rw [h.offset]
    by_cases hn : 1 ≤ n
    · rw [if_pos hn] at hmc; omega
    · rw [if_neg hn] at hmc
      split_ifs at hmc <;> omega
  have ho3 : ¬ s.gBusAddrOffset = BLOCK_SIZE - 1 := by
    unfold BLOCK_SIZE; omega
  have hresp := h.response
  rw [if_neg ho3, if_neg ho3] at hresp
  have hog : s.gOngoingTransaction.origid = r := by rw [h.ongoing]
  have hpk : (snoop_seen s (bus_packet s) NUM_OF_CORES).bus_cmd ≠ cmd_on_the_bus.flush := by
    rw [h.snoop_seen_eq _ (Nat.le_refl _), h.packet]; exact h.cmd_ne.1
  rw [Run_Bus_Iteration_serve_answer s h.not_detour hcmd hm]
  have hcr : ∀ c, c ≠ r → Function.update
      (fun i => if i < NUM_OF_CORES then snooped s (bus_packet s) i else s.cache i)
      s.gOngoingTransaction.origid (bus_response s).1 c
      = if c < NUM_OF_CORES then snooped s (bus_packet s) c else s.cache c := by
    intro c hc
    rw [hog, Function.update_noteq hc]
  have hrr : Function.update
      (fun i => if i < NUM_OF_CORES then snooped s (bus_packet s) i else s.cache i)
      s.gOngoingTransaction.origid (bus_response s).1 r
      = set_dram (set_tag (s.cache r) (fields_index a) (fields_tag a))
          (fields_index a * BLOCK_SIZE + s.gBusAddrOffset % 4)
          (mem (set_offset a s.gBusAddrOffset)) := by
    rw [hog, Function.update_same, hresp]
  refine
    { active := ?_, ongoing := h.ongoing, core := ?_, rlt := h.rlt, read := h.read,
      memory := ?_, ids := ?_, nodetour := ?_, busy := ?_, count := ?_, offset := ?_,
      owner := ?_, others := ?_, tag := ?_, words := ?_ }
  · show (if (bus_response s).2.2 then false else s.gIsBusTransactionActive) = true
    rw [hresp]; simp [ho3, h.active]
  · show (if (bus_response s).2.2 then _ else s.gTransactionStatePerCore) r = _
    rw [hresp]; simp [ho3, h.core]
  · intro i hi
    dsimp only
    by_cases hir : i = r
    · subst hir; rw [hrr]; exact h.ids i hi
    · rw [hcr i hir, if_pos hi]
      unfold snooped
      rw [snooping_handler_id]
      exact h.ids i hi
  · intro hd
    apply h.nodetour
    rw [h.modified_iff]
    rw [is_shared_line_snd] at hd
    obtain ⟨i, hi, h1, h2⟩ := hd
    dsimp only at h1 h2
    by_cases hir : i = r
    · subst hir
      rw [hrr] at h1
      exact absurd (by rw [hog]; exact h.ids i hi) h1
    · rw [hcr i hir, if_pos hi] at h2
      rw [h.ongoing] at h2
      exact ⟨i, hi, hir, h.snooped_not_modified i hi hir h2⟩
  · show decide (mem_count s (is_shared_line s s.gOngoingTransaction).2 ≠ 19) = _
    simp; omega
  · intro _
    exact h32
  · show (bus_response s).2.1 = _
    rw [hresp]
    show (s.gBusAddrOffset + 1) % 256 = _
    omega
  · show (if _ then _ else s.mainMemory) = mem
    rw [if_neg hpk]; exact h.memory
  · intro c hc hcr'
    dsimp only
    rw [hcr c hcr', if_pos hc]
    intro hl
    rw [h.snooped_other c hc hcr'] at hl
    by_cases hb : holds_block (s.cache c) a
    · rw [if_pos ⟨rfl, hb⟩] at hl
      exact mesi_next_ne_modified _ _ h.read (congrArg TSRAMLine.mesi hl)
    · rw [if_neg (fun hh => hb hh.2)] at hl
      exact h.owner c hc hcr' hl
  · intro c hc hcr'
    dsimp only
    rw [hcr c hcr', if_pos hc]
    exact h.snooped_holds c hc hcr'
  · intro _
    dsimp only
    rw [hrr]
    simp [set_dram, set_tag]
  · intro j hj
    dsimp only
    rw [hrr]
    simp only [set_dram, set_tag]
    by_cases hjo : j = s.gBusAddrOffset
    · subst hjo
      have : s.gBusAddrOffset % 4 = s.gBusAddrOffset := Nat.mod_eq_of_lt (by omega)
      rw [this, Function.update_same]
    · have hne : fields_index a * BLOCK_SIZE + j
          ≠ fields_index a * BLOCK_SIZE + s.gBusAddrOffset % 4 := by
        have : s.gBusAddrOffset % 4 = s.gBusAddrOffset := Nat.mod_eq_of_lt (by omega)
        omega
      rw [Function.update_noteq hne]
      apply h.words
      by_cases hn : 1 ≤ n
      · rw [if_pos hn] at hmc; omega
      · rw [if_neg hn] at hmc
        split_ifs at hmc <;> omega

/-- The cycle of the last word: the requester stores it, takes the state `S` when another
cache holds the block and `E` otherwise, and the transaction ends. -/
theorem Filling.serve_last {mem : Nat → Nat} {r : Nat} {cmd : cmd_on_the_bus}
    {a data : Nat} {sh : Bool} {V : Nat → Prop} {n : Nat} {s : Sim}
    (h : Filling mem r cmd a data sh V n s)
    (hm : mem_count s (is_shared_line s s.gOngoingTransaction).2 = 19) :
    Filled mem r cmd a V (Run_Bus_Iteration_serve s) := by
  have hcmd : s.gOngoingTransaction.bus_cmd ≠ cmd_on_the_bus.no_cmd := by
    rw [h.ongoing]; exact h.cmd_ne.2
  have hmc := h.mem_count_eq (is_shared_line s s.gOngoingTransaction).2
  have hn : n = 19 := by
    by_cases hn : 1 ≤ n
    · rw [if_pos hn] at hmc; omega
    · rw [if_neg hn] at hmc
      split_ifs at hmc <;> omega
  have ho3 : s.gBusAddrOffset = BLOCK_SIZE - 1 := by
    rw [h.offset, hn]; rfl
  have hresp := h.response
  rw [if_pos ho3, if_pos ho3] at hresp
  have hog : s.gOngoingTransaction.origid = r := by rw [h.ongoing]
  have hpk : (snoop_seen s (bus_packet s) NUM_OF_CORES).bus_cmd ≠ cmd_on_the_bus.flush := by
    rw [h.snoop_seen_eq _ (Nat.le_refl _), h.packet]; exact h.cmd_ne.1
  rw [Run_Bus_Iteration_serve_answer s h.not_detour hcmd (by omega)]
  have hcr : ∀ c, c ≠ r → Function.update
      (fun i => if i < NUM_OF_CORES then snooped s (bus_packet s) i else s.cache i)
      s.gOngoingTransaction.origid (bus_response s).1 c
      = if c < NUM_OF_CORES then snooped s (bus_packet s) c else s.cache c := by
    intro c hc
    rw [hog, Function.update_noteq hc]
  have hrr : Function.update
      (fun i => if i < NUM_OF_CORES then snooped s (bus_packet s) i else s.cache i)
      s.gOngoingTransaction.origid (bus_response s).1 r
      = set_mesi
          (set_dram (set_tag (s.cache r) (fields_index a) (fields_tag a))
            (fields_index a * BLOCK_SIZE + s.gBusAddrOffset % 4)
            (mem (set_offset a s.gBusAddrOffset)))
          (fields_index a)
          (if (is_shared_line s s.gOngoingTransaction).1 then MESIState.MESI_STATE_SHARED
            else MESIState.MESI_STATE_EXCLUSIVE) := by
    rw [hog, Function.update_same, hresp]
  have hdone : (bus_response s).2.2 = true := by
    rw [hresp]; simp [ho3]
  refine
    { active := ?_, origid := hog, core := ?_, ids := ?_, busy := ?_, memory := ?_,
      others := ?_, tag := ?_, mesi := ?_, words := ?_ }
  · dsimp only
    rw [hdone]; rfl
  · dsimp only
    rw [hdone, hog]
    simp [state_set, h.rlt]
  · intro i hi
    dsimp only
    by_cases hir : i = r
    · subst hir; rw [hrr]; exact h.ids i hi
    · rw [hcr i hir, if_pos hi]
      unfold snooped
      rw [snooping_handler_id]
      exact h.ids i hi
  · dsimp only
    simp [hm]
  · dsimp only
    rw [if_neg hpk]; exact h.memory
  · intro c hc hcr'
    dsimp only
    rw [hcr c hcr', if_pos hc]
    exact h.snooped_holds c hc hcr'
  · dsimp only
    rw [hrr]
    simp [set_mesi, set_dram, set_tag]
  · dsimp only
    rw [hrr]
    by_cases hsh : (is_shared_line s s.gOngoingTransaction).1 = true
    · left
      exact ⟨by simp [set_mesi, hsh], h.shared_iff.1 hsh⟩
    · right
      refine ⟨?_, fun hh => hsh (h.shared_iff.2 hh)⟩
      simp only [Bool.not_eq_true] at hsh
      simp [set_mesi, hsh]
  · intro j hj
    dsimp only
    rw [hrr]
    simp only [set_mesi, set_dram, set_tag]
    have h3 : s.gBusAddrOffset = 3 := ho3
    have hj4 : j < 4 := hj
    by_cases hjo : j = s.gBusAddrOffset
    · subst hjo
      have : s.gBusAddrOffset % 4 = s.gBusAddrOffset := Nat.mod_eq_of_lt (by omega)
      rw [this, Function.update_same]
    · have hne : fields_index a * BLOCK_SIZE + j
          ≠ fields_index a * BLOCK_SIZE + s.gBusAddrOffset % 4 := by
        have : s.gBusAddrOffset % 4 = s.gBusAddrOffset := Nat.mod_eq_of_lt (by omega)
        omega
      rw [Function.update_noteq hne]
      apply h.words
      omega

theorem mem_count_tick_begin (s : Sim) (d : Bool) : mem_count (tick_begin s) d = mem_count s d := by
  unfold mem_count
  rw [tick_begin_busy, tick_begin_count]

theorem is_shared_line_tick_begin (s : Sim) :
    is_shared_line (tick_begin s) (tick_begin s).gOngoingTransaction
      = is_shared_line s s.gOngoingTransaction := by
  rw [tick_begin_ongoing, is_shared_line_congr _ _ _ (tick_begin_cache s)]

/-- A bus tick during the transfer, before the cycle of the last word. -/
theorem Filling.tick {mem : Nat → Nat} {r : Nat} {cmd : cmd_on_the_bus}
    {a data : Nat} {sh : Bool} {V : Nat → Prop} {n : Nat} {s : Sim}
    (h : Filling mem r cmd a data sh V n s)
    (hm : mem_count s (is_shared_line s s.gOngoingTransaction).2 < 19) :
    Filling mem r cmd a data sh (holders_after cmd V)
      (mem_count s (is_shared_line s s.gOngoingTransaction).2 + 1)
      (Run_Bus_Iteration s) := by
  rw [Run_Bus_Iteration_active s h.active]
  have hb := h.begin
  have e : mem_count (tick_begin s)
      (is_shared_line (tick_begin s) (tick_begin s).gOngoingTransaction).2
      = mem_count s (is_shared_line s s.gOngoingTransaction).2 := by
    rw [is_shared_line_tick_begin, mem_count_tick_begin]
  rw [← e] at hm ⊢
  by_cases h16 : mem_count (tick_begin s)
      (is_shared_line (tick_begin s) (tick_begin s).gOngoingTransaction).2 < 16
  · exact hb.serve_latency h16
  · exact hb.serve_word (by omega) hm

/-- The bus tick of the last word. -/
theorem Filling.tick_last {mem : Nat → Nat} {r : Nat} {cmd : cmd_on_the_bus}
    {a data : Nat} {sh : Bool} {V : Nat → Prop} {n : Nat} {s : Sim}
    (h : Filling mem r cmd a data sh V n s)
    (hm : mem_count s (is_shared_line s s.gOngoingTransaction).2 = 19) :
    Filled mem r cmd a V (Run_Bus_Iteration s) := by
  rw [Run_Bus_Iteration_active s h.active]
  have e : mem_count (tick_begin s)
      (is_shared_line (tick_begin s) (tick_begin s).gOngoingTransaction).2
      = mem_count s (is_shared_line s s.gOngoingTransaction).2 := by
    rw [is_shared_line_tick_begin, mem_count_tick_begin]
  exact h.begin.serve_last (by rw [e]; exact hm)

theorem Filling.congr {mem : Nat → Nat} {r : Nat} {cmd : cmd_on_the_bus}
    {a data : Nat} {sh : Bool} {V W : Nat → Prop} {n : Nat} {s : Sim}
    (h : Filling mem r cmd a data sh V n s) (hv : ∀ c, V c ↔ W c) :
    Filling mem r cmd a data sh W n s :=
  { h with others := fun c hc hcr => (h.others c hc hcr).trans (hv c) }

theorem holders_after_idem (cmd : cmd_on_the_bus) (V : Nat → Prop) (c : Nat) :
    holders_after cmd (holders_after cmd V) c ↔ holders_after cmd V c := by
  unfold holders_after
  constructor
  · intro h; exact h.2
  · intro h; exact ⟨h.1, h⟩

theorem ticks_succ (s : Sim) (k : Nat) : ticks s (k + 1) = Run_Bus_Iteration (ticks s k) := by
  unfold ticks
  rw [Function.iterate_succ_apply']

theorem ticks_add (s : Sim) (j k : Nat) : ticks s (j + k) = ticks (ticks s j) k := by
  unfold ticks
  rw [Nat.add_comm, Function.iterate_add_apply]

/-- Once memory has started, `k` more ticks advance the counter by `k`. -/
theorem Filling.ticks {mem : Nat → Nat} {r : Nat} {cmd : cmd_on_the_bus}
    {a data : Nat} {sh : Bool} {V : Nat → Prop} {n : Nat} {s : Sim}
    (h : Filling mem r cmd a data sh (holders_after cmd V) n s) (hn : 1 ≤ n)
    (k : Nat) (hk : n + k ≤ 19) :
    Filling mem r cmd a data sh (holders_after cmd V) (n + k) (ticks s k) := by
  induction k with
  | zero => exact h
  | succ k ih =>
    have ih' := ih (by omega)
    rw [ticks_succ]
    have hmc : mem_count (MultiCore.ticks s k)
        (is_shared_line (MultiCore.ticks s k)
          (MultiCore.ticks s k).gOngoingTransaction).2 = n + k := by
      rw [ih'.mem_count_eq, if_pos (by omega)]
    have := ih'.tick (by rw [hmc]; omega)
    rw [hmc] at this
    exact this.congr (holders_after_idem cmd V)

theorem is_cache_busy_of_operation (s : Sim) (r : Nat) (hr : r < NUM_OF_CORES)
    (hid : (s.cache r).id = r)
    (h : s.gTransactionStatePerCore r = state_of_transaction.operation) :
    is_cache_busy s r = true := by
  unfold is_cache_busy IsBusInTransaction IsBusWaitForTransaction state_get
  rw [hid, if_pos hr, h]
  decide

theorem is_cache_busy_of_finally (s : Sim) (r : Nat) (hr : r < NUM_OF_CORES)
    (hid : (s.cache r).id = r)
    (h : s.gTransactionStatePerCore r = state_of_transaction.finally_) :
    is_cache_busy s r = true := by
  unfold is_cache_busy IsBusInTransaction IsBusWaitForTransaction state_get
  rw [hid, if_pos hr, h]
  decide

/-- The globals just after a read command has been dequeued, when no other cache has a line in
`M` at the index of the address. -/
theorem Filling.start (s : Sim) (q : List bus_transaction) (t : bus_transaction)
    (hids : ∀ i, i < NUM_OF_CORES → (s.cache i).id = i)
    (hr : t.origid < NUM_OF_CORES)
    (hcmd : t.bus_cmd = cmd_on_the_bus.busRd ∨ t.bus_cmd = cmd_on_the_bus.busRdX)
    (hbusy : s.gIsMemoryBusy = false)
    (hM : ∀ c, c < NUM_OF_CORES → c ≠ t.origid →
      ((s.cache c).tsram (fields_index t.bus_addr)).mesi ≠ MESIState.MESI_STATE_MODIFIED) :
    Filling s.mainMemory t.origid t.bus_cmd t.bus_addr t.bus_data t.bus_shared
      (fun c => holds_block (s.cache c) t.bus_addr) 0 (tick_start s t q) where
  active := rfl
  ongoing := rfl
  core := by
    show state_set _ _ _ _ = _
    simp [state_set, hr]
  ids := by
    show ∀ i, i < NUM_OF_CORES → ((tick_begin s).cache i).id = i
    rw [tick_begin_cache]; exact hids
  rlt := hr
  read := hcmd
  nodetour := by
    intro hd
    exfalso
    rw [is_shared_line_snd] at hd
    obtain ⟨i, hi, h1, h2⟩ := hd
    change ((tick_begin s).cache i).id ≠ t.origid at h1
    change (((tick_begin s).cache i).tsram (fields_index t.bus_addr)).mesi = _ at h2
    rw [tick_begin_cache] at h1 h2
    rw [hids i hi] at h1
    exact hM i hi h1 h2
  busy := by
    show (tick_begin s).gIsMemoryBusy = _
    rw [tick_begin_busy, hbusy]; rfl
  count := by intro h; omega
  offset := rfl
  memory := by
    show (tick_begin s).mainMemory = _
    rw [tick_begin_memory]
  owner := by
    intro c hc hcr hl
    change ((tick_begin s).cache c).tsram _ = _ at hl
    rw [tick_begin_cache] at hl
    apply hM c hc hcr
    rw [hl]
  others := by
    intro c _ _
    show holds_block ((tick_begin s).cache c) _ ↔ _
    rw [tick_begin_cache]
  tag := by intro h; omega
  words := by intro j h; omega

/-! ## C9: the 20 cycles of a fill from memory -/

theorem Filling.first_tick (s : Sim) (q : List bus_transaction) (t : bus_transaction)
    (hids : ∀ i, i < NUM_OF_CORES → (s.cache i).id = i)
    (hact : s.gIsBusTransactionActive = false) (hq : s.queue = q ++ [t])
    (hr : t.origid < NUM_OF_CORES)
    (hcmd : t.bus_cmd = cmd_on_the_bus.busRd ∨ t.bus_cmd = cmd_on_the_bus.busRdX)
    (hbusy : s.gIsMemoryBusy = false)
    (hM : ∀ c, c < NUM_OF_CORES → c ≠ t.origid →
      ((s.cache c).tsram (fields_index t.bus_addr)).mesi ≠ MESIState.MESI_STATE_MODIFIED) :
    Filling s.mainMemory t.origid t.bus_cmd t.bus_addr t.bus_data t.bus_shared
      (holders_after t.bus_cmd (fun c => holds_block (s.cache c) t.bus_addr)) 1
      (Run_Bus_Iteration s) := by
  have h0 := Filling.start s q t hids hr hcmd hbusy hM
  have hne : t.origid ≠ invalid_caller := by
    unfold invalid_caller; unfold NUM_OF_CORES at hr; omega
  rw [Run_Bus_Iteration_start s q t hact hq hne]
  have hd : (is_shared_line (tick_start s t q) (tick_start s t q).gOngoingTransaction).2
      = false := by
    cases hd : (is_shared_line (tick_start s t q) (tick_start s t q).gOngoingTransaction).2
    · rfl
    · have hf : (tick_start s t q).is_first_access_shared = true := rfl
      rw [h0.nodetour hd] at hf
      exact Bool.noConfusion hf
  have hmc : mem_count (tick_start s t q)
      (is_shared_line (tick_start s t q) (tick_start s t q).gOngoingTransaction).2 = 0 := by
    rw [h0.mem_count_eq, hd]; rfl
  have := h0.serve_latency (by rw [hmc]; decide)
  rw [hmc] at this
  exact this

/-- C9. A `BusRd` for the block of address `t.bus_addr`, at the tail of the queue of an idle
bus, with memory idle and no other cache holding a line in `M` at the index of the address,
and only bus ticks following: the transfer is active and the requester busy after each of the
ticks 1..19; the 20th tick completes it (state `finally`); the requester's line then has the
tag of the block, is `E` when no other cache held the block and `S` otherwise, and its four
DSRAM words equal the four words of the block in main memory, which is unchanged. -/
theorem C9_fill_from_memory (s : Sim) (q : List bus_transaction) (t : bus_transaction)
    (hids : ∀ i, i < NUM_OF_CORES → (s.cache i).id = i)
    (hact : s.gIsBusTransactionActive = false) (hq : s.queue = q ++ [t])
    (hr : t.origid < NUM_OF_CORES) (hcmd : t.bus_cmd = cmd_on_the_bus.busRd)
    (hbusy : s.gIsMemoryBusy = false)
    (hM : ∀ c, c < NUM_OF_CORES → c ≠ t.origid →
      ((s.cache c).tsram (fields_index t.bus_addr)).mesi ≠ MESIState.MESI_STATE_MODIFIED) :
    (∀ k, 1 ≤ k → k < 20 →
      (ticks s k).gIsBusTransactionActive = true ∧
      (ticks s k).gTransactionStatePerCore t.origid = state_of_transaction.operation ∧
      is_cache_busy (ticks s k) t.origid = true) ∧
    (ticks s 20).gIsBusTransactionActive = false ∧
    (ticks s 20).gTransactionStatePerCore t.origid = state_of_transaction.finally_ ∧
    (((ticks s 20).cache t.origid).tsram (fields_index t.bus_addr)).tag
      = fields_tag t.bus_addr ∧
    ((¬ ∃ c, c < NUM_OF_CORES ∧ c ≠ t.origid ∧ holds_block (s.cache c) t.bus_addr) →
      (((ticks s 20).cache t.origid).tsram (fields_index t.bus_addr)).mesi
        = MESIState.MESI_STATE_EXCLUSIVE) ∧
    ((∃ c, c < NUM_OF_CORES ∧ c ≠ t.origid ∧ holds_block (s.cache c) t.bus_addr) →
      (((ticks s 20).cache t.origid).tsram (fields_index t.bus_addr)).mesi
        = MESIState.MESI_STATE_SHARED) ∧
    (∀ j, j < BLOCK_SIZE →
      ((ticks s 20).cache t.origid).dram (fields_index t.bus_addr * BLOCK_SIZE + j)
        = (ticks s 20).mainMemory (set_offset t.bus_addr j)) ∧
    (ticks s 20).mainMemory = s.mainMemory := by
  have h1 := Filling.first_tick s q t hids hact hq hr (Or.inl hcmd) hbusy hM
  have e1 : Run_Bus_Iteration s = ticks s 1 := rfl
  rw [e1] at h1
  have hk : ∀ k, 1 + k ≤ 19 →
      Filling s.mainMemory t.origid t.bus_cmd t.bus_addr t.bus_data t.bus_shared
        (holders_after t.bus_cmd (fun c => holds_block (s.cache c) t.bus_addr)) (1 + k)
        (ticks s (1 + k)) := by
    intro k hk
    rw [ticks_add]
    exact h1.ticks (Nat.le_refl 1) k hk
  have h19 := hk 18 (by decide)
  have hlast : Filled s.mainMemory t.origid t.bus_cmd t.bus_addr
      (holders_after t.bus_cmd (fun c => holds_block (s.cache c) t.bus_addr))
      (ticks s 20) := by
    have e : ticks s 20 = Run_Bus_Iteration (ticks s (1 + 18)) := ticks_succ s 19
    rw [e]
    apply h19.tick_last
    rw [h19.mem_count_eq]
    rfl
  have hV : (∃ c, c < NUM_OF_CORES ∧ c ≠ t.origid ∧
      holders_after t.bus_cmd (fun c => holds_block (s.cache c) t.bus_addr) c) ↔
      (∃ c, c < NUM_OF_CORES ∧ c ≠ t.origid ∧ holds_block (s.cache c) t.bus_addr) := by
    unfold holders_after
    rw [hcmd]
    constructor
    · rintro ⟨c, h1, h2, _, h4⟩; exact ⟨c, h1, h2, h4⟩
    · rintro ⟨c, h1, h2, h4⟩; exact ⟨c, h1, h2, by decide, h4⟩
  refine ⟨?_, hlast.active, hlast.core, hlast.tag, ?_, ?_, ?_, hlast.memory⟩
  · intro k hk1 hk2
    obtain ⟨k', rfl⟩ : ∃ k', k = 1 + k' := ⟨k - 1, by omega⟩
    have hf := hk k' (by omega)
    exact ⟨hf.active, hf.core,
      is_cache_busy_of_operation _ _ hr (hf.ids _ hr) hf.core⟩
  · intro hno
    rcases hlast.mesi with ⟨_, hex⟩ | ⟨he, _⟩
    · exact absurd (hV.1 hex) hno
    · exact he
  · intro hex
    rcases hlast.mesi with ⟨hs, _⟩ | ⟨_, hno⟩
    · exact hs
    · exact absurd (hV.2 hex) hno
  · intro j hj
    rw [hlast.words j hj, hlast.memory]

/-- The witness of C9: core 0's read of `0x40` on the start-up globals, memory holding
`a + 1` at every address `a`.  After 20 ticks the
transfer is over and core 0 is in state `finally`. -/
theorem C9_fill_from_memory_witness :
    (ticks C9_example 20).gIsBusTransactionActive = false ∧
    (ticks C9_example 20).gTransactionStatePerCore C9_packet.origid
      = state_of_transaction.finally_ :=
  have h := C9_fill_from_memory C9_example [] C9_packet (by decide!) (by decide!) (by decide!)
    (by decide!) (by decide!) (by decide!) (by decide!)
  ⟨h.2.1, h.2.2.1⟩

/-! ## C7: a write to a shared line -/

theorem bus_transaction_handler_queue (s : Sim) (t : bus_transaction) (d : Bool) :
    (bus_transaction_handler s t d).1.queue = s.queue := by
  unfold bus_transaction_handler initialize_memory_transaction process_memory_command
  dsimp only
  split_ifs <;> rfl

/-- Serving the ongoing transaction does not touch the queue. -/
theorem Run_Bus_Iteration_serve_queue (s : Sim) :
    (Run_Bus_Iteration_serve s).queue = s.queue := by
  unfold Run_Bus_Iteration_serve
  dsimp only
  split_ifs
  · rfl
  · dsimp only
    rw [bus_transaction_handler_queue, is_any_cache_snoop_fst]
  · dsimp only
    rw [bus_transaction_handler_queue, is_any_cache_snoop_fst]
  · rw [bus_transaction_handler_queue, is_any_cache_snoop_fst]

theorem Run_Bus_Iteration_queue_active (s : Sim) (h : s.gIsBusTransactionActive = true) :
    (Run_Bus_Iteration s).queue = s.queue := by
  rw [Run_Bus_Iteration_active s h, Run_Bus_Iteration_serve_queue, tick_begin_queue]

/-- The tick after a served read, when a delay transaction is next in the queue: the
requester becomes idle, the delay transaction is dequeued, the caches are not touched. -/
theorem Filled.delay_tick {mem : Nat → Nat} {r : Nat} {cmd : cmd_on_the_bus} {a : Nat}
    {V : Nat → Prop} {s : Sim} (h : Filled mem r cmd a V s) (hr : r < NUM_OF_CORES)
    (q : List bus_transaction) (d : bus_transaction) (hq : s.queue = q ++ [d])
    (hd : d.origid = invalid_caller) :
    (Run_Bus_Iteration s).cache = s.cache ∧
    (Run_Bus_Iteration s).gTransactionStatePerCore r = state_of_transaction.idle ∧
    (Run_Bus_Iteration s).queue = q := by
  rw [Run_Bus_Iteration_delay s q d h.active hq hd]
  refine ⟨tick_begin_cache s, ?_, rfl⟩
  show (tick_begin s).gTransactionStatePerCore r = _
  rw [tick_begin_state, if_pos ⟨h.origid.symm, hr, h.core⟩]

theorem is_cache_busy_iff (s : Sim) (c : Nat) (hc : c < NUM_OF_CORES) (hid : (s.cache c).id = c) :
    is_cache_busy s c = false ↔ s.gTransactionStatePerCore c = state_of_transaction.idle := by
  unfold is_cache_busy IsBusInTransaction IsBusWaitForTransaction state_get
  rw [hid, if_pos hc]
  cases s.gTransactionStatePerCore c <;> simp

/-- A write that hits a shared line: nothing is stored, the `BusRdX` and the delay transaction
are queued, the core waits, the miss counter is incremented. -/
theorem Write_Data_to_Cache_shared (s : Sim) (w A V : Nat) (hw : w < NUM_OF_CORES)
    (hid : (s.cache w).id = w)
    (hidle : s.gTransactionStatePerCore w = state_of_transaction.idle)
    (hl : (s.cache w).tsram (fields_index A) =
      { tag := fields_tag A, mesi := MESIState.MESI_STATE_SHARED }) :
    Write_Data_to_Cache s w A V =
      ({ s with
          cache := Function.update s.cache w (bump_write_misses (s.cache w))
          queue := delay_transaction :: request_packet w cmd_on_the_bus.busRdX A :: s.queue
          gTransactionStatePerCore :=
            Function.update s.gTransactionStatePerCore w state_of_transaction.wait_cmd
          miss_occurred_write := true }, false) := by
  have hb := (is_cache_busy_iff s w hw hid).2 hidle
  have hne : ¬ w = 65535 := by
    unfold NUM_OF_CORES at hw; omega
  unfold Write_Data_to_Cache
  simp only [hb, Bool.false_eq_true, if_false, hl, is_block_valid_and_matching]
  simp [handle_share_state, handle_transaction, AddTransaction_to_bus, queue_enqueue, hid, hne,
    state_set, hw, delay_transaction, request_packet, invalid_caller]

/-- A write that hits a line in `E` or `M`: the word is stored and the line becomes `M`. -/
theorem Write_Data_to_Cache_owned (s : Sim) (w A V : Nat) (hw : w < NUM_OF_CORES)
    (hid : (s.cache w).id = w)
    (hidle : s.gTransactionStatePerCore w = state_of_transaction.idle)
    (ht : ((s.cache w).tsram (fields_index A)).tag = fields_tag A)
    (hm : ((s.cache w).tsram (fields_index A)).mesi = MESIState.MESI_STATE_EXCLUSIVE ∨
      ((s.cache w).tsram (fields_index A)).mesi = MESIState.MESI_STATE_MODIFIED) :
    (Write_Data_to_Cache s w A V).2 = true ∧
    ((Write_Data_to_Cache s w A V).1.cache w).tsram (fields_index A) =
      { tag := fields_tag A, mesi := MESIState.MESI_STATE_MODIFIED } ∧
    ((Write_Data_to_Cache s w A V).1.cache w).dram
      (fields_index A * BLOCK_SIZE + fields_offset A) = V ∧
    ∀ c, c ≠ w → (Write_Data_to_Cache s w A V).1.cache c = s.cache c := by
  have hb := (is_cache_busy_iff s w hw hid).2 hidle
  have hv : is_block_valid_and_matching ((s.cache w).tsram (fields_index A)) (fields_tag A)
      = true := by
    unfold is_block_valid_and_matching
    rcases hm with hm | hm <;> simp [ht, hm]
  have hns : ((s.cache w).tsram (fields_index A)).mesi ≠ MESIState.MESI_STATE_SHARED := by
    rcases hm with hm | hm <;> rw [hm] <;> decide
  unfold Write_Data_to_Cache
  simp only [hb, Bool.false_eq_true, if_false, hv, if_true, hns]
  refine ⟨trivial, ?_, ?_, ?_⟩
  · simp [update_cache_write_tsram, ht]
  · simp [update_cache_write_dram]
  · intro c hc
    simp [Function.update_noteq hc]

theorem ticks_queue (s : Sim) (k : Nat)
    (h : ∀ j, j < k → (ticks s j).gIsBusTransactionActive = true) :
    (ticks s k).queue = s.queue := by
  induction k with
  | zero => rfl
  | succ k ih =>
    rw [ticks_succ, Run_Bus_Iteration_queue_active _ (h k (Nat.lt_succ_self k))]
    exact ih (fun j hj => h j (Nat.lt_succ_of_lt hj))

/-- From a cycle in which memory has started to the end of the transfer. -/
theorem Filling.run {mem : Nat → Nat} {r : Nat} {cmd : cmd_on_the_bus}
    {a data : Nat} {sh : Bool} {V : Nat → Prop} {n : Nat} {s : Sim}
    (h : Filling mem r cmd a data sh (holders_after cmd V) n s) (hn : 1 ≤ n) (hn19 : n ≤ 19) :
    (∀ k, k ≤ 19 - n →
      Filling mem r cmd a data sh (holders_after cmd V) (n + k) (MultiCore.ticks s k)) ∧
    Filled mem r cmd a (holders_after cmd V) (MultiCore.ticks s (20 - n)) ∧
    (MultiCore.ticks s (20 - n)).queue = s.queue := by
  have hk : ∀ k, k ≤ 19 - n →
      Filling mem r cmd a data sh (holders_after cmd V) (n + k) (MultiCore.ticks s k) :=
    fun k hk => h.ticks hn k (by omega)
  refine ⟨hk, ?_, ?_⟩
  · have e : 20 - n = (19 - n) + 1 := by omega
    rw [e, MultiCore.ticks_succ]
    have h19 := hk (19 - n) (Nat.le_refl _)
    apply h19.tick_last
    rw [h19.mem_count_eq, if_pos (by omega)]
    omega
  · apply MultiCore.ticks_queue
    intro j hj
    exact (hk j (by omega)).active

/-- The globals after the detour cycle of a read command whose block no other cache has in
`M`. -/
theorem Filling.after_detour (s : Sim) (q : List bus_transaction) (t : bus_transaction)
    (hids : ∀ i, i < NUM_OF_CORES → (s.cache i).id = i)
    (hr : t.origid < NUM_OF_CORES)
    (hcmd : t.bus_cmd = cmd_on_the_bus.busRd ∨ t.bus_cmd = cmd_on_the_bus.busRdX)
    (hbusy : s.gIsMemoryBusy = false)
    (hO : ∀ c, c < NUM_OF_CORES → c ≠ t.origid →
      ¬ ((s.cache c).tsram (fields_index t.bus_addr) =
        { tag := fields_tag t.bus_addr, mesi := MESIState.MESI_STATE_MODIFIED })) :
    Filling s.mainMemory t.origid t.bus_cmd t.bus_addr t.bus_data t.bus_shared
      (fun c => holds_block (s.cache c) t.bus_addr) 0
      { tick_start s t q with is_first_access_shared := false } where
  active := rfl
  ongoing := rfl
  core := by
    show state_set _ _ _ _ = _
    simp [state_set, hr]
  ids := by
    show ∀ i, i < NUM_OF_CORES → ((tick_begin s).cache i).id = i
    rw [tick_begin_cache]; exact hids
  rlt := hr
  read := hcmd
  nodetour := fun _ => rfl
  busy := by
    show (tick_begin s).gIsMemoryBusy = _
    rw [tick_begin_busy, hbusy]; rfl
  count := by intro h; omega
  offset := rfl
  memory := by
    show (tick_begin s).mainMemory = _
    rw [tick_begin_memory]
  owner := by
    intro c hc hcr hl
    change ((tick_begin s).cache c).tsram _ = _ at hl
    rw [tick_begin_cache] at hl
    exact hO c hc hcr hl
  others := by
    intro c _ _
    show holds_block ((tick_begin s).cache c) _ ↔ _
    rw [tick_begin_cache]
  tag := by intro h; omega
  words := by intro j h; omega

/-- A read command (`BusRd` or `BusRdX`) at the tail of the queue of an idle bus, memory idle,
no other cache holding the block in `M`, only ticks following: it is served by memory in 20
ticks, or in 5 when another cache has a line in `M` at the same index (a detour cycle and four
words without latency).  Until then the transfer is active and the requester in state
`operation`. -/
theorem read_served (s : Sim) (q : List bus_transaction) (t : bus_transaction)
    (hids : ∀ i, i < NUM_OF_CORES → (s.cache i).id = i)
    (hact : s.gIsBusTransactionActive = false) (hq : s.queue = q ++ [t])
    (hr : t.origid < NUM_OF_CORES)
    (hcmd : t.bus_cmd = cmd_on_the_bus.busRd ∨ t.bus_cmd = cmd_on_the_bus.busRdX)
    (hbusy : s.gIsMemoryBusy = false)
    (hO : ∀ c, c < NUM_OF_CORES → c ≠ t.origid →
      ¬ ((s.cache c).tsram (fields_index t.bus_addr) =
        { tag := fields_tag t.bus_addr, mesi := MESIState.MESI_STATE_MODIFIED })) :
    ∃ m, 1 ≤ m ∧
      (∀ k, 1 ≤ k → k < m →
        (ticks s k).gTransactionStatePerCore t.origid = state_of_transaction.operation ∧
        ((ticks s k).cache t.origid).id = t.origid) ∧
      Filled s.mainMemory t.origid t.bus_cmd t.bus_addr
        (holders_after t.bus_cmd (fun c => holds_block (s.cache c) t.bus_addr))
        (ticks s m) ∧
      (ticks s m).queue = q := by
  have hne : t.origid ≠ invalid_caller := by
    unfold invalid_caller; unfold NUM_OF_CORES at hr; omega
  have e1 : ticks s 1 = Run_Bus_Iteration_serve (tick_start s t q) := by
    show Run_Bus_Iteration s = _
    exact Run_Bus_Iteration_start s q t hact hq hne
  by_cases hD : ∀ c, c < NUM_OF_CORES → c ≠ t.origid →
      ((s.cache c).tsram (fields_index t.bus_addr)).mesi ≠ MESIState.MESI_STATE_MODIFIED
  · -- no detour: 20 ticks
    have h1 := Filling.first_tick s q t hids hact hq hr hcmd hbusy hD
    have e0 : Run_Bus_Iteration s = ticks s 1 := rfl
    rw [e0] at h1
    obtain ⟨hk, hf, hqq⟩ := h1.run (Nat.le_refl 1) (by decide)
    refine ⟨20, by decide, ?_, ?_, ?_⟩
    · intro k hk1 hk2
      obtain ⟨k', rfl⟩ : ∃ k', k = 1 + k' := ⟨k - 1, by omega⟩
      have := hk k' (by omega)
      rw [ticks_add]
      exact ⟨this.core, this.ids _ hr⟩
    · have : ticks s 20 = ticks (ticks s 1) (20 - 1) := ticks_add s 1 19
      rw [this]; exact hf
    · have : ticks s 20 = ticks (ticks s 1) (20 - 1) := ticks_add s 1 19
      rw [this, hqq, e1, Run_Bus_Iteration_serve_queue]
      rfl
  · -- detour, then four words
    have h0 := Filling.after_detour s q t hids hr hcmd hbusy hO
    have hd0 : (is_shared_line (tick_start s t q) (tick_start s t q).gOngoingTransaction).2
        = true := by
      rw [is_shared_line_snd]
      push_neg at hD
      obtain ⟨c, hc, hcr, hm⟩ := hD
      refine ⟨c, hc, ?_, ?_⟩
      · show ((tick_begin s).cache c).id ≠ t.origid
        rw [tick_begin_cache, hids c hc]; exact hcr
      · show (((tick_begin s).cache c).tsram (fields_index t.bus_addr)).mesi = _
        rw [tick_begin_cache]; exact hm
    have e1' : ticks s 1 = { tick_start s t q with is_first_access_shared := false } := by
      rw [e1]
      exact Run_Bus_Iteration_serve_detour _ hd0 rfl
    rw [← e1'] at h0
    have hd1 : (is_shared_line (ticks s 1) (ticks s 1).gOngoingTransaction).2 = true := by
      rw [e1']
      exact hd0
    have hmc : mem_count (ticks s 1)
        (is_shared_line (ticks s 1) (ticks s 1).gOngoingTransaction).2 = 16 := by
      rw [h0.mem_count_eq, hd1]; rfl
    have h2 := h0.tick (by rw [hmc]; decide)
    rw [hmc] at h2
    have e2 : Run_Bus_Iteration (ticks s 1) = ticks s 2 := (ticks_succ s 1).symm
    rw [e2] at h2
    obtain ⟨hk, hf, hqq⟩ := h2.run (by decide) (by decide)
    refine ⟨5, by decide, ?_, ?_, ?_⟩
    · intro k hk1 hk2
      by_cases hk1' : k = 1
      · subst hk1'
        exact ⟨h0.core, h0.ids _ hr⟩
      · obtain ⟨k', rfl⟩ : ∃ k', k = 2 + k' := ⟨k - 2, by omega⟩
        have := hk k' (by omega)
        rw [ticks_add]
        exact ⟨this.core, this.ids _ hr⟩
    · have : ticks s 5 = ticks (ticks s 2) (20 - (16 + 1)) := ticks_add s 2 3
      rw [this]; exact hf
    · have : ticks s 5 = ticks (ticks s 2) (20 - (16 + 1)) := ticks_add s 2 3
      rw [this, hqq, ← e2, Run_Bus_Iteration_queue_active _ h0.active, e1']
      rfl

theorem is_cache_busy_of_wait (s : Sim) (r : Nat) (hr : r < NUM_OF_CORES)
    (hid : (s.cache r).id = r)
    (h : s.gTransactionStatePerCore r = state_of_transaction.wait_cmd) :
    is_cache_busy s r = true := by
  unfold is_cache_busy IsBusInTransaction IsBusWaitForTransaction state_get
  rw [hid, if_pos hr, h]
  decide

/-- C7 where no cache holds the block in `M`.  Two distinct caches `w` and `b` hold the block
of `A` in `S`, no cache holds it in `M`, the bus and the memory are idle, and `w` writes `V`
to `A`.  The write is not done; core `w` is busy for `n` ticks (21, or 6 when another cache
has a line in `M` at the same index), then idle; the write retried then is done, `w` holds
the line in `M` with `V` stored at `A`, and no other cache holds the block. -/
theorem C7_write_to_shared_line (s : Sim) (w b A V : Nat)
    (hids : ∀ i, i < NUM_OF_CORES → (s.cache i).id = i)
    (hw : w < NUM_OF_CORES) (hb : b < NUM_OF_CORES) (hwb : w ≠ b)
    (hSw : (s.cache w).tsram (fields_index A) =
      { tag := fields_tag A, mesi := MESIState.MESI_STATE_SHARED })
    (hSb : (s.cache b).tsram (fields_index A) =
      { tag := fields_tag A, mesi := MESIState.MESI_STATE_SHARED })
    (hact : s.gIsBusTransactionActive = false) (hq : s.queue = [])
    (hidle : s.gTransactionStatePerCore w = state_of_transaction.idle)
    (hbusy : s.gIsMemoryBusy = false)
    (hM : ∀ c, c < NUM_OF_CORES →
      ¬ ((s.cache c).tsram (fields_index A) =
        { tag := fields_tag A, mesi := MESIState.MESI_STATE_MODIFIED })) :
    (Write_Data_to_Cache s w A V).2 = false ∧
    ∃ n,
      (∀ k, k < n → is_cache_busy (ticks (Write_Data_to_Cache s w A V).1 k) w = true) ∧
      is_cache_busy (ticks (Write_Data_to_Cache s w A V).1 n) w = false ∧
      (Write_Data_to_Cache (ticks (Write_Data_to_Cache s w A V).1 n) w A V).2 = true ∧
      ((Write_Data_to_Cache (ticks (Write_Data_to_Cache s w A V).1 n) w A V).1.cache w).tsram
          (fields_index A) = { tag := fields_tag A, mesi := MESIState.MESI_STATE_MODIFIED } ∧
      ((Write_Data_to_Cache (ticks (Write_Data_to_Cache s w A V).1 n) w A V).1.cache w).dram
          (fields_index A * BLOCK_SIZE + fields_offset A) = V ∧
      ∀ c, c < NUM_OF_CORES → c ≠ w →
        ¬ holds_block
          ((Write_Data_to_Cache (ticks (Write_Data_to_Cache s w A V).1 n) w A V).1.cache c)
          A := by
  have _hb := hSb
  have _hwb := hwb
  have _hb4 := hb
  rw [Write_Data_to_Cache_shared s w A V hw (hids w hw) hidle hSw]
  refine ⟨rfl, ?_⟩
  dsimp only
  generalize hs1 : ({ s with
      cache := Function.update s.cache w (bump_write_misses (s.cache w))
      queue := delay_transaction :: request_packet w cmd_on_the_bus.busRdX A :: s.queue
      gTransactionStatePerCore :=
        Function.update s.gTransactionStatePerCore w state_of_transaction.wait_cmd
      miss_occurred_write := true } : Sim) = s1
  have c1 : ∀ c, c ≠ w → s1.cache c = s.cache c := by
    intro c hc; rw [← hs1]; exact Function.update_noteq hc _ _
  have cw : s1.cache w = bump_write_misses (s.cache w) := by
    rw [← hs1]; exact Function.update_same _ _ _
  have ids1 : ∀ i, i < NUM_OF_CORES → (s1.cache i).id = i := by
    intro i hi
    by_cases hiw : i = w
    · subst hiw; rw [cw]; exact hids i hi
    · rw [c1 i hiw]; exact hids i hi
  have hq1 : s1.queue = [delay_transaction] ++ [request_packet w cmd_on_the_bus.busRdX A] := by
    rw [← hs1]; show _ :: _ :: s.queue = _; rw [hq]; rfl
  have hst1 : s1.gTransactionStatePerCore w = state_of_transaction.wait_cmd := by
    rw [← hs1]; exact Function.update_same _ _ _
  obtain ⟨m, hm1, hop, hf, hqm⟩ := read_served s1 [delay_transaction]
    (request_packet w cmd_on_the_bus.busRdX A) ids1 (by rw [← hs1]; exact hact) hq1 hw
    (Or.inr rfl) (by rw [← hs1]; exact hbusy)
    (by
      intro c hc hcw
      show ¬ ((s1.cache c).tsram (fields_index A) = _)
      rw [c1 c hcw]
      exact hM c hc)
  have hf : Filled s1.mainMemory w cmd_on_the_bus.busRdX A
      (holders_after cmd_on_the_bus.busRdX (fun c => holds_block (s1.cache c) A))
      (ticks s1 m) := hf
  have hop : ∀ k, 1 ≤ k → k < m →
      (ticks s1 k).gTransactionStatePerCore w = state_of_transaction.operation ∧
      ((ticks s1 k).cache w).id = w := hop
  have hdel := hf.delay_tick hw [] delay_transaction hqm rfl
  rw [← ticks_succ] at hdel
  have hidsm : ∀ i, i < NUM_OF_CORES → ((ticks s1 (m + 1)).cache i).id = i := by
    rw [hdel.1]; exact hf.ids
  have hE : (((ticks s1 (m + 1)).cache w).tsram (fields_index A)).mesi
      = MESIState.MESI_STATE_EXCLUSIVE := by
    rw [hdel.1]
    rcases hf.mesi with ⟨_, c, _, _, hc⟩ | ⟨he, _⟩
    · exact absurd rfl hc.1
    · exact he
  have hT : (((ticks s1 (m + 1)).cache w).tsram (fields_index A)).tag = fields_tag A := by
    rw [hdel.1]; exact hf.tag
  obtain ⟨hw1, hw2, hw3, hw4⟩ := Write_Data_to_Cache_owned (ticks s1 (m + 1)) w A V hw
    (hidsm w hw) hdel.2.1 hT (Or.inl hE)
  refine ⟨m + 1, ?_, ?_, hw1, hw2, hw3, ?_⟩
  · intro k hk
    by_cases hk0 : k = 0
    · subst hk0
      exact is_cache_busy_of_wait s1 w hw (ids1 w hw) hst1
    · by_cases hkm : k = m
      · subst hkm
        exact is_cache_busy_of_finally _ w hw (hf.ids w hw) hf.core
      · have := hop k (by omega) (by omega)
        exact is_cache_busy_of_operation _ w hw this.2 this.1
  · exact (is_cache_busy_iff _ w hw (hidsm w hw)).2 hdel.2.1
  · intro c hc hcw
    rw [hw4 c hcw, hdel.1, hf.others c hc hcw]
    intro hh
    exact hh.1 rfl

/-- The witness of C7: on `C7_example`, cache 0 writes `0xDD` to `0x81`. -/
theorem C7_write_to_shared_line_witness :
    (Write_Data_to_Cache C7_example 0 0x81 0xDD).2 = false ∧
    ∃ n,
      (∀ k, k < n →
        is_cache_busy (ticks (Write_Data_to_Cache C7_example 0 0x81 0xDD).1 k) 0 = true) ∧
      is_cache_busy (ticks (Write_Data_to_Cache C7_example 0 0x81 0xDD).1 n) 0 = false ∧
      (Write_Data_to_Cache (ticks (Write_Data_to_Cache C7_example 0 0x81 0xDD).1 n)
        0 0x81 0xDD).2 = true ∧
      ((Write_Data_to_Cache (ticks (Write_Data_to_Cache C7_example 0 0x81 0xDD).1 n)
        0 0x81 0xDD).1.cache 0).tsram (fields_index 0x81)
          = { tag := fields_tag 0x81, mesi := MESIState.MESI_STATE_MODIFIED } ∧
      ((Write_Data_to_Cache (ticks (Write_Data_to_Cache C7_example 0 0x81 0xDD).1 n)
        0 0x81 0xDD).1.cache 0).dram (fields_index 0x81 * BLOCK_SIZE + fields_offset 0x81)
          = 0xDD ∧
      ∀ c, c < NUM_OF_CORES → c ≠ 0 →
        ¬ holds_block
          ((Write_Data_to_Cache (ticks (Write_Data_to_Cache C7_example 0 0x81 0xDD).1 n)
            0 0x81 0xDD).1.cache c) 0x81 :=
  C7_write_to_shared_line C7_example 0 1 0x81 0xDD (by decide!) (by decide!) (by decide!)
    (by decide!) (by decide!) (by decide!) (by decide!) (by decide!) (by decide!) (by decide!)
    (by decide!)

/-! ## C6: the owner supplies the block -/

theorem snooping_handler_of_not_snoops (c : Cache_Data) (t : bus_transaction) (o : Nat)
    (h : ¬ snoops c t) : snooping_handler c t o = (c, t, false) := by
  unfold snooping_handler snooped_transaction
  unfold snoops at h
  by_cases h1 : c.id = t.original_caller ∧ t.bus_cmd ≠ cmd_on_the_bus.flush
  · rw [if_pos h1]
  · rw [if_neg h1]
    have h2 : (c.tsram (fields_index t.bus_addr)).tag ≠ fields_tag t.bus_addr ∨
        (c.tsram (fields_index t.bus_addr)).mesi = MESIState.MESI_STATE_INVALID := by
      by_contra hh
      push_neg at hh
      exact h ⟨h1, hh.1, hh.2⟩
    rw [if_pos h2]

theorem not_snoops_of_invalid (c : Cache_Data) (t : bus_transaction)
    (h : (c.tsram (fields_index t.bus_addr)).mesi = MESIState.MESI_STATE_INVALID) :
    ¬ snoops c t := fun hs => hs.2.2 h

theorem Supplying.supply_packet {W : Nat → Nat} {o r a data : Nat} {sh : Bool} {n : Nat} {s : Sim}
    (h : Supplying W o r a data sh n s) :
    bus_packet s =
      { original_caller := r, origid := r, bus_cmd := cmd_on_the_bus.busRd,
        bus_addr := set_offset a n, bus_data := data,
        bus_shared := (is_shared_line s s.gOngoingTransaction).1 } := by
  unfold bus_packet
  rw [h.ongoing, h.offset]

/-- The packet as cache `i` sees it: the caches up to the owner see the `BusRd`, the caches
after the owner see the owner's `Flush` with its word. -/
theorem Supplying.supply_snoop_seen_eq {W : Nat → Nat} {o r a data : Nat} {sh : Bool} {n : Nat}
    {s : Sim} (h : Supplying W o r a data sh n s) (i : Nat) (hi : i ≤ NUM_OF_CORES) :
    snoop_seen s (bus_packet s) i =
      if i ≤ o then bus_packet s else flush_data (s.cache o) (bus_packet s) := by
  induction i with
  | zero => simp [snoop_seen]
  | succ i ih =>
    have hi' : i < NUM_OF_CORES := hi
    have ih' := ih (Nat.le_of_lt hi')
    simp only [snoop_seen, snooping_handler_packet, ih']
    by_cases hio : i = o
    · subst hio
      have hsup : supplies (s.cache i) (bus_packet s) := by
        rw [h.supply_packet]
        unfold supplies snoops
        simp [fields_index_set_offset, fields_tag_set_offset, h.ids i hi', h.owner, h.ne]
      simp [hsup]
    · have hinv : ¬ supplies (s.cache i)
          (if i ≤ o then bus_packet s else flush_data (s.cache o) (bus_packet s)) := by
        intro hs
        apply not_snoops_of_invalid _ _ _ hs.1
        have := h.invalid i hi' hio
        split_ifs
        · rw [h.supply_packet]; simpa [fields_index_set_offset] using this
        · rw [h.supply_packet]; simpa [flush_data, fields_index_set_offset] using this
      rw [if_neg hinv]
      by_cases h1 : i ≤ o
      · have : i + 1 ≤ o := by omega
        simp [h1, this]
      · have : ¬ i + 1 ≤ o := by omega
        simp [h1, this]

theorem Supplying.supply_snooped_other {W : Nat → Nat} {o r a data : Nat} {sh : Bool} {n : Nat}
    {s : Sim} (h : Supplying W o r a data sh n s) (c : Nat) (hc : c < NUM_OF_CORES)
    (hco : c ≠ o) : snooped s (bus_packet s) c = s.cache c := by
  unfold snooped
  rw [snooping_handler_of_not_snoops]
  apply not_snoops_of_invalid
  rw [h.supply_snoop_seen_eq c (Nat.le_of_lt hc)]
  have := h.invalid c hc hco
  split_ifs
  · rw [h.supply_packet]; simpa [fields_index_set_offset] using this
  · rw [h.supply_packet]; simpa [flush_data, fields_index_set_offset] using this

/-- The owner after the snoop: its line becomes `S` at offset 3 and stays `M` before. -/
theorem Supplying.snooped_owner {W : Nat → Nat} {o r a data : Nat} {sh : Bool} {n : Nat}
    {s : Sim} (h : Supplying W o r a data sh n s) :
    (snooped s (bus_packet s) o).id = o ∧
    (snooped s (bus_packet s) o).dram = (s.cache o).dram ∧
    (snooped s (bus_packet s) o).tsram (fields_index a) =
      { tag := fields_tag a,
        mesi := if n = 3 then MESIState.MESI_STATE_SHARED else MESIState.MESI_STATE_MODIFIED } := by
  unfold snooped
  rw [snooping_handler_id, snooping_handler_dram, snooping_handler_tsram,
    h.supply_snoop_seen_eq o (Nat.le_of_lt h.olt), if_pos (Nat.le_refl o), h.supply_packet]
  refine ⟨h.ids o h.olt, rfl, ?_⟩
  simp only [fields_index_set_offset, h.offset, h.owner]
  have hsn : snoops (s.cache o)
      { original_caller := r, origid := r, bus_cmd := cmd_on_the_bus.busRd,
        bus_addr := set_offset a n, bus_data := data,
        bus_shared := (is_shared_line s s.gOngoingTransaction).1 } := by
    unfold snoops
    simp [fields_index_set_offset, fields_tag_set_offset, h.ids o h.olt, h.owner, h.ne]
  by_cases h3 : n = 3
  · subst h3
    simp [hsn, BLOCK_SIZE, mesi_next]
  · simp [h3, hsn, BLOCK_SIZE]

theorem Supplying.supply_begin {W : Nat → Nat} {o r a data : Nat} {sh : Bool} {n : Nat} {s : Sim}
    (h : Supplying W o r a data sh n s) : Supplying W o r a data sh n (tick_begin s) where
  active := by rw [tick_begin_active]; exact h.active
  ongoing := by rw [tick_begin_ongoing]; exact h.ongoing
  core := by
    rw [tick_begin_state, h.core]
    simp
  ids := by rw [tick_begin_cache]; exact h.ids
  olt := h.olt
  rlt := h.rlt
  ne := h.ne
  first := by rw [tick_begin_first]; exact h.first
  busy := by rw [tick_begin_busy]; exact h.busy
  count := by rw [tick_begin_count]; exact h.count
  offset := by rw [tick_begin_offset]; exact h.offset
  bound := h.bound
  owner := by rw [tick_begin_cache]; exact h.owner
  invalid := by rw [tick_begin_cache]; exact h.invalid
  odata := by rw [tick_begin_cache]; exact h.odata
  rwords := by rw [tick_begin_cache]; exact h.rwords
  mwords := by rw [tick_begin_memory]; exact h.mwords

theorem Supplying.modified {W : Nat → Nat} {o r a data : Nat} {sh : Bool} {n : Nat} {s : Sim}
    (h : Supplying W o r a data sh n s) :
    (is_shared_line s s.gOngoingTransaction).2 = true := by
  rw [is_shared_line_snd, h.ongoing]
  refine ⟨o, h.olt, ?_, ?_⟩
  · rw [h.ids o h.olt]; exact h.ne
  · show ((s.cache o).tsram (fields_index a)).mesi = _
    rw [h.owner]

theorem Supplying.shared {W : Nat → Nat} {o r a data : Nat} {sh : Bool} {n : Nat} {s : Sim}
    (h : Supplying W o r a data sh n s) :
    (is_shared_line s s.gOngoingTransaction).1 = true := by
  rw [is_shared_line_fst, h.ongoing]
  refine ⟨o, h.olt, ?_, ?_⟩
  · rw [h.ids o h.olt]; exact h.ne
  · show is_block_valid_and_matching ((s.cache o).tsram (fields_index a)) (fields_tag a) = true
    rw [h.owner]
    simp [is_block_valid_and_matching]

theorem Supplying.supply_mem_count_eq {W : Nat → Nat} {o r a data : Nat} {sh : Bool} {n : Nat}
    {s : Sim} (h : Supplying W o r a data sh n s) :
    mem_count s (is_shared_line s s.gOngoingTransaction).2 = 16 + n := by
  unfold mem_count
  rw [h.busy, h.modified]
  by_cases hn : 1 ≤ n
  · simp [hn, h.count hn]
  · have : n = 0 := by omega
    simp [this]

/-- The packet after the snoop loop: the owner's `Flush` with its word at the offset. -/
theorem Supplying.flushed {W : Nat → Nat} {o r a data : Nat} {sh : Bool} {n : Nat} {s : Sim}
    (h : Supplying W o r a data sh n s) :
    snoop_seen s (bus_packet s) NUM_OF_CORES =
      { original_caller := r, origid := o, bus_cmd := cmd_on_the_bus.flush,
        bus_addr := set_offset a n, bus_data := W n, bus_shared := true } := by
  rw [h.supply_snoop_seen_eq _ (Nat.le_refl _), if_neg (Nat.not_le_of_lt h.olt), h.supply_packet, h.shared]
  have hb := h.bound
  have hn : n % 4 = n := Nat.mod_eq_of_lt (by omega)
  simp [flush_data, fields_index_set_offset, fields_offset_set_offset, h.ids o h.olt, hn,
    h.odata]

theorem Supplying.supply_response {W : Nat → Nat} {o r a data : Nat} {sh : Bool} {n : Nat} {s : Sim}
    (h : Supplying W o r a data sh n s) :
    bus_response s =
      (if n = 3 then
          set_mesi
            (set_dram (set_tag (s.cache r) (fields_index a) (fields_tag a))
              (fields_index a * BLOCK_SIZE + n) (W n))
            (fields_index a) MESIState.MESI_STATE_SHARED
        else
          set_dram (set_tag (s.cache r) (fields_index a) (fields_tag a))
            (fields_index a * BLOCK_SIZE + n) (W n),
        if n = 3 then n else n + 1, decide (n = 3)) := by
  unfold bus_response answer_packet memory_packet
  have ho : s.gOngoingTransaction.origid = r := by rw [h.ongoing]
  have hb := h.bound
  have hn : n % 4 = n := Nat.mod_eq_of_lt (by omega)
  have h256 : (n + 1) % 256 = n + 1 := Nat.mod_eq_of_lt (by omega)
  rw [ho, if_pos h.rlt, h.supply_snooped_other r h.rlt (Ne.symm h.ne), h.flushed, if_pos rfl,
    cache_response_handle_fill _ _ _ (by
      rw [h.ids r h.rlt]
      exact Ne.symm h.ne) rfl, h.offset]
  simp only [fields_index_set_offset, fields_tag_set_offset, fields_offset_set_offset, hn,
    BLOCK_SIZE, h256, if_true]

theorem set_offset_injective {a i j : Nat} (hi : i < 4) (hj : j < 4)
    (h : set_offset a i = set_offset a j) : i = j := by
  unfold set_offset at h
  omega

theorem Supplying.serve_eq {W : Nat → Nat} {o r a data : Nat} {sh : Bool} {n : Nat} {s : Sim}
    (h : Supplying W o r a data sh n s) :
    Run_Bus_Iteration_serve s =
      { s with
        cache := Function.update
          (fun i => if i < NUM_OF_CORES then snooped s (bus_packet s) i else s.cache i)
          r (bus_response s).1
        gBusAddrOffset := (bus_response s).2.1
        gIsMemoryBusy := decide (16 + n ≠ 19)
        numOfCycles := (16 + n + 1) % 2 ^ 32
        mainMemory := Function.update s.mainMemory (set_offset a n) (W n)
        gTransactionStatePerCore :=
          if (bus_response s).2.2
          then state_set s.gTransactionStatePerCore r state_of_transaction.finally_
          else s.gTransactionStatePerCore
        gIsBusTransactionActive :=
          if (bus_response s).2.2 then false else s.gIsBusTransactionActive } := by
  have hc : s.gOngoingTransaction.bus_cmd ≠ cmd_on_the_bus.no_cmd := by
    rw [h.ongoing]; exact fun e => cmd_on_the_bus.noConfusion e
  have hd : ¬ ((is_shared_line s s.gOngoingTransaction).2 = true ∧
      s.is_first_access_shared = true) := by
    rw [h.first]; simp
  rw [Run_Bus_Iteration_serve_answer s hd hc (by rw [h.supply_mem_count_eq]; omega)]
  have ho : s.gOngoingTransaction.origid = r := by rw [h.ongoing]
  rw [h.supply_mem_count_eq, h.flushed, ho]
  simp only [if_true]

theorem Supplying.supply_serve_word {W : Nat → Nat} {o r a data : Nat} {sh : Bool} {n : Nat}
    {s : Sim} (h : Supplying W o r a data sh n s) (hn : n < 3) :
    Supplying W o r a data sh (n + 1) (Run_Bus_Iteration_serve s) := by
  have hn3 : ¬ n = 3 := by omega
  have hresp := h.supply_response
  rw [if_neg hn3, if_neg hn3] at hresp
  have hcr : ∀ c, c < NUM_OF_CORES → c ≠ r → Function.update
      (fun i => if i < NUM_OF_CORES then snooped s (bus_packet s) i else s.cache i)
      r (bus_response s).1 c = snooped s (bus_packet s) c := by
    intro c hc hcr
    rw [Function.update_noteq hcr]
    exact if_pos hc
  have hrr : Function.update
      (fun i => if i < NUM_OF_CORES then snooped s (bus_packet s) i else s.cache i)
      r (bus_response s).1 r
      = set_dram (set_tag (s.cache r) (fields_index a) (fields_tag a))
          (fields_index a * BLOCK_SIZE + n) (W n) := by
    rw [Function.update_same, hresp]
  rw [h.serve_eq]
  refine
    { active := ?_, ongoing := h.ongoing, core := ?_, ids := ?_, olt := h.olt, rlt := h.rlt,
      ne := h.ne, first := h.first, busy := ?_, count := ?_, offset := ?_, bound := by omega,
      owner := ?_, invalid := ?_, odata := ?_, rwords := ?_, mwords := ?_ }
  · show (if (bus_response s).2.2 then false else s.gIsBusTransactionActive) = true
    rw [hresp]; simp [hn3, h.active]
  · show (if (bus_response s).2.2 then _ else s.gTransactionStatePerCore) r = _
    rw [hresp]; simp [hn3, h.core]
  · intro i hi
    dsimp only
    by_cases hir : i = r
    · subst hir; rw [hrr]; exact h.ids i hi
    · rw [hcr i hi hir]
      by_cases hio : i = o
      · subst hio; exact (h.snooped_owner).1
      · rw [h.supply_snooped_other i hi hio]; exact h.ids i hi
  · show decide (16 + n ≠ 19) = decide (1 ≤ n + 1)
    simp; omega
  · intro _
    show (16 + n + 1) % 2 ^ 32 = 16 + (n + 1)
    rw [Nat.mod_eq_of_lt (by omega)]; omega
  · show (bus_response s).2.1 = _
    rw [hresp]
  · dsimp only
    rw [hcr o h.olt h.ne, (h.snooped_owner).2.2, if_neg hn3]
  · intro c hc hco
    dsimp only
    by_cases hir : c = r
    · subst hir
      rw [hrr]
      simp [set_dram, set_tag, h.invalid c hc hco]
    · rw [hcr c hc hir, h.supply_snooped_other c hc hco]
      exact h.invalid c hc hco
  · intro j
    dsimp only
    rw [hcr o h.olt h.ne, (h.snooped_owner).2.1]
    exact h.odata j
  · intro j hj
    dsimp only
    rw [hrr]
    by_cases hjn : j = n
    · subst hjn
      simp [set_dram]
    · have : fields_index a * BLOCK_SIZE + j ≠ fields_index a * BLOCK_SIZE + n := by omega
      simp only [set_dram, Function.update_noteq this]
      exact h.rwords j (by omega)
  · intro j hj
    dsimp only
    by_cases hjn : j = n
    · subst hjn
      simp
    · have hb := h.bound
      have : set_offset a j ≠ set_offset a n :=
        fun e => hjn (set_offset_injective (by omega) (by omega) e)
      rw [Function.update_noteq this]
      exact h.mwords j (by omega)

/-- The last cycle of the supply: the fourth word is delivered, the owner and the requester
take `S`, the transfer is over. -/
theorem Supplying.supply_serve_last {W : Nat → Nat} {o r a data : Nat} {sh : Bool} {s : Sim}
    (h : Supplying W o r a data sh 3 s) :
    Supplied W o r a (Run_Bus_Iteration_serve s) := by
  have hresp := h.supply_response
  rw [if_pos rfl, if_pos rfl] at hresp
  have hcr : ∀ c, c < NUM_OF_CORES → c ≠ r → Function.update
      (fun i => if i < NUM_OF_CORES then snooped s (bus_packet s) i else s.cache i)
      r (bus_response s).1 c = snooped s (bus_packet s) c := by
    intro c hc hcr
    rw [Function.update_noteq hcr]
    exact if_pos hc
  have hrr : Function.update
      (fun i => if i < NUM_OF_CORES then snooped s (bus_packet s) i else s.cache i)
      r (bus_response s).1 r
      = set_mesi
          (set_dram (set_tag (s.cache r) (fields_index a) (fields_tag a))
            (fields_index a * BLOCK_SIZE + 3) (W 3))
          (fields_index a) MESIState.MESI_STATE_SHARED := by
    rw [Function.update_same, hresp]
  rw [h.serve_eq]
  refine
    { active := ?_, core := ?_, busy := ?_, owner := ?_, requester := ?_, odata := ?_,
      rwords := ?_, mwords := ?_ }
  · show (if (bus_response s).2.2 then false else s.gIsBusTransactionActive) = false
    rw [hresp]; simp
  · show (if (bus_response s).2.2 then _ else s.gTransactionStatePerCore) r = _
    rw [hresp]; simp [state_set, h.rlt]
  · show decide (16 + 3 ≠ 19) = false
    decide
  · dsimp only
    rw [hcr o h.olt h.ne, (h.snooped_owner).2.2, if_pos rfl]
  · dsimp only
    rw [hrr]
    simp [set_mesi, set_dram, set_tag]
  · intro j _
    dsimp only
    rw [hcr o h.olt h.ne, (h.snooped_owner).2.1]
    exact h.odata j
  · intro j hj
    dsimp only
    rw [hrr]
    by_cases hjn : j = 3
    · subst hjn
      simp [set_mesi, set_dram]
    · have : fields_index a * BLOCK_SIZE + j ≠ fields_index a * BLOCK_SIZE + 3 := by omega
      simp only [set_mesi, set_dram, Function.update_noteq this]
      unfold BLOCK_SIZE at hj
      exact h.rwords j (by omega)
  · intro j hj
    dsimp only
    unfold BLOCK_SIZE at hj
    by_cases hjn : j = 3
    · subst hjn
      simp
    · have : set_offset a j ≠ set_offset a 3 :=
        fun e => hjn (set_offset_injective (by omega) (by omega) e)
      rw [Function.update_noteq this]
      exact h.mwords j (by omega)

theorem Supplying.supply_tick {W : Nat → Nat} {o r a data : Nat} {sh : Bool} {n : Nat} {s : Sim}
    (h : Supplying W o r a data sh n s) (hn : n < 3) :
    Supplying W o r a data sh (n + 1) (Run_Bus_Iteration s) := by
  rw [Run_Bus_Iteration_active s h.active]
  exact h.supply_begin.supply_serve_word hn

theorem Supplying.supply_tick_last {W : Nat → Nat} {o r a data : Nat} {sh : Bool} {s : Sim}
    (h : Supplying W o r a data sh 3 s) :
    Supplied W o r a (Run_Bus_Iteration s) := by
  rw [Run_Bus_Iteration_active s h.active]
  exact h.supply_begin.supply_serve_last

/-- The tick that dequeues a `BusRd` for a block that another cache holds in `M`: the detour
cycle, in which nothing is transferred. -/
theorem Supplying.supply_first_tick (s : Sim) (q : List bus_transaction) (t : bus_transaction)
    (o : Nat) (hids : ∀ i, i < NUM_OF_CORES → (s.cache i).id = i)
    (hact : s.gIsBusTransactionActive = false) (hq : s.queue = q ++ [t])
    (ho : o < NUM_OF_CORES) (hr : t.origid < NUM_OF_CORES) (hne : o ≠ t.origid)
    (hcmd : t.bus_cmd = cmd_on_the_bus.busRd)
    (hbusy : s.gIsMemoryBusy = false)
    (hM : (s.cache o).tsram (fields_index t.bus_addr) =
      { tag := fields_tag t.bus_addr, mesi := MESIState.MESI_STATE_MODIFIED })
    (hI : ∀ c, c < NUM_OF_CORES → c ≠ o →
      ((s.cache c).tsram (fields_index t.bus_addr)).mesi = MESIState.MESI_STATE_INVALID) :
    Supplying (fun j => (s.cache o).dram (fields_index t.bus_addr * BLOCK_SIZE + j))
      o t.origid t.bus_addr t.bus_data t.bus_shared 0 (Run_Bus_Iteration s) := by
  have hni : t.origid ≠ invalid_caller := by
    unfold invalid_caller; unfold NUM_OF_CORES at hr; omega
  rw [Run_Bus_Iteration_start s q t hact hq hni]
  have hd : (is_shared_line (tick_start s t q) (tick_start s t q).gOngoingTransaction).2
      = true := by
    rw [is_shared_line_snd]
    refine ⟨o, ho, ?_, ?_⟩
    · show ((tick_begin s).cache o).id ≠ t.origid
      rw [tick_begin_cache, hids o ho]; exact hne
    · show (((tick_begin s).cache o).tsram (fields_index t.bus_addr)).mesi = _
      rw [tick_begin_cache, hM]
  rw [Run_Bus_Iteration_serve_detour _ hd rfl]
  refine
    { active := rfl, ongoing := ?_, core := ?_, ids := ?_, olt := ho, rlt := hr,
      ne := hne, first := rfl, busy := ?_, count := ?_, offset := rfl,
      bound := Nat.zero_le _, owner := ?_, invalid := ?_, odata := ?_, rwords := ?_,
      mwords := ?_ }
  · show ({ t with original_caller := t.origid } : bus_transaction) = _
    rw [← hcmd]
  · show state_set _ _ _ _ = _
    simp [state_set, hr]
  · show ∀ i, i < NUM_OF_CORES → ((tick_begin s).cache i).id = i
    rw [tick_begin_cache]; exact hids
  · show (tick_begin s).gIsMemoryBusy = _
    rw [tick_begin_busy, hbusy]; rfl
  · intro h; omega
  · show ((tick_begin s).cache o).tsram _ = _
    rw [tick_begin_cache]; exact hM
  · show ∀ c, c < NUM_OF_CORES → c ≠ o → (((tick_begin s).cache c).tsram _).mesi = _
    rw [tick_begin_cache]; exact hI
  · intro j
    show ((tick_begin s).cache o).dram _ = _
    rw [tick_begin_cache]
  · intro j h; omega
  · intro j h; omega

/-- A read that misses on an invalid line: the `BusRd` is queued, the core waits, the miss
counter is incremented. -/
theorem Read_Data_from_Cache_invalid (s : Sim) (r A data : Nat) (hr : r < NUM_OF_CORES)
    (hid : (s.cache r).id = r)
    (hidle : s.gTransactionStatePerCore r = state_of_transaction.idle)
    (hl : ((s.cache r).tsram (fields_index A)).mesi = MESIState.MESI_STATE_INVALID) :
    Read_Data_from_Cache s r A data =
      ({ s with
          cache := Function.update s.cache r (bump_read_misses (s.cache r))
          queue := request_packet r cmd_on_the_bus.busRd A :: s.queue
          gTransactionStatePerCore :=
            Function.update s.gTransactionStatePerCore r state_of_transaction.wait_cmd
          miss_occurred_read := true }, false, data) := by
  have hb := (is_cache_busy_iff s r hr hid).2 hidle
  have hne : ¬ r = 65535 := by
    unfold NUM_OF_CORES at hr; omega
  unfold Read_Data_from_Cache
  simp only [hb, Bool.false_eq_true, if_false, hl, is_block_valid_and_matching]
  simp [handle_dirty_block, handle_transaction, AddTransaction_to_bus, queue_enqueue, hid, hne,
    state_set, hr, request_packet, invalid_caller, bump_read_misses, hl]

/-- C6, amended.  Caches `o` and `r` are distinct, `o` holds the block of `A` in `M`, every
other cache's line at that index is `I`, the bus is idle with an empty queue, memory is idle,
and `r` reads `A`.  The read is not done and queues a `BusRd`; it is in progress after each
of the ticks 1..4 and completes on the fifth.  Then `o` and `r` both hold the block in `S`,
the four DSRAM words of the block in `r` and in `o` are the four words `o` had, and main
memory holds the same four words at the block. -/
theorem C6_cache_to_cache_supply (s : Sim) (o r A data : Nat)
    (hids : ∀ i, i < NUM_OF_CORES → (s.cache i).id = i)
    (ho : o < NUM_OF_CORES) (hr : r < NUM_OF_CORES) (hne : o ≠ r)
    (hact : s.gIsBusTransactionActive = false) (hq : s.queue = [])
    (hidle : s.gTransactionStatePerCore r = state_of_transaction.idle)
    (hbusy : s.gIsMemoryBusy = false)
    (hM : (s.cache o).tsram (fields_index A) =
      { tag := fields_tag A, mesi := MESIState.MESI_STATE_MODIFIED })
    (hI : ∀ c, c < NUM_OF_CORES → c ≠ o →
      ((s.cache c).tsram (fields_index A)).mesi = MESIState.MESI_STATE_INVALID) :
    (Read_Data_from_Cache s r A data).2.1 = false ∧
    (∀ k, 1 ≤ k → k < 5 →
      (ticks (Read_Data_from_Cache s r A data).1 k).gIsBusTransactionActive = true ∧
      (ticks (Read_Data_from_Cache s r A data).1 k).gTransactionStatePerCore r =
        state_of_transaction.operation) ∧
    (ticks (Read_Data_from_Cache s r A data).1 5).gIsBusTransactionActive = false ∧
    (ticks (Read_Data_from_Cache s r A data).1 5).gTransactionStatePerCore r =
      state_of_transaction.finally_ ∧
    ((ticks (Read_Data_from_Cache s r A data).1 5).cache o).tsram (fields_index A) =
      { tag := fields_tag A, mesi := MESIState.MESI_STATE_SHARED } ∧
    ((ticks (Read_Data_from_Cache s r A data).1 5).cache r).tsram (fields_index A) =
      { tag := fields_tag A, mesi := MESIState.MESI_STATE_SHARED } ∧
    ∀ j, j < BLOCK_SIZE →
      ((ticks (Read_Data_from_Cache s r A data).1 5).cache r).dram
          (fields_index A * BLOCK_SIZE + j) = (s.cache o).dram (fields_index A * BLOCK_SIZE + j) ∧
      ((ticks (Read_Data_from_Cache s r A data).1 5).cache o).dram
          (fields_index A * BLOCK_SIZE + j) = (s.cache o).dram (fields_index A * BLOCK_SIZE + j) ∧
      (ticks (Read_Data_from_Cache s r A data).1 5).mainMemory (set_offset A j) =
        (s.cache o).dram (fields_index A * BLOCK_SIZE + j) := by
  rw [Read_Data_from_Cache_invalid s r A data hr (hids r hr) hidle (hI r hr (Ne.symm hne))]
  refine ⟨rfl, ?_⟩
  dsimp only
  generalize hs1 : ({ s with
      cache := Function.update s.cache r (bump_read_misses (s.cache r))
      queue := request_packet r cmd_on_the_bus.busRd A :: s.queue
      gTransactionStatePerCore :=
        Function.update s.gTransactionStatePerCore r state_of_transaction.wait_cmd
      miss_occurred_read := true } : Sim) = s1
  have c1 : ∀ c, c ≠ r → s1.cache c = s.cache c := by
    intro c hc; rw [← hs1]; exact Function.update_noteq hc _ _
  have cr : s1.cache r = bump_read_misses (s.cache r) := by
    rw [← hs1]; exact Function.update_same _ _ _
  have hids1 : ∀ i, i < NUM_OF_CORES → (s1.cache i).id = i := by
    intro i hi
    by_cases hir : i = r
    · subst hir; rw [cr]; exact hids i hi
    · rw [c1 i hir]; exact hids i hi
  have hq1 : s1.queue = [] ++ [request_packet r cmd_on_the_bus.busRd A] := by
    rw [← hs1]; show _ :: s.queue = _; rw [hq]; rfl
  have hact1 : s1.gIsBusTransactionActive = false := by rw [← hs1]; exact hact
  have hbusy1 : s1.gIsMemoryBusy = false := by rw [← hs1]; exact hbusy
  have hI1 : ∀ c, c < NUM_OF_CORES → c ≠ o →
      ((s1.cache c).tsram (fields_index A)).mesi = MESIState.MESI_STATE_INVALID := by
    intro c hc hco
    by_cases hcr : c = r
    · subst hcr; rw [cr]; exact hI c hc hco
    · rw [c1 c hcr]; exact hI c hc hco
  have h0 : Supplying (fun j => (s.cache o).dram (fields_index A * BLOCK_SIZE + j))
      o r A 0 false 0 (ticks s1 1) := by
    have := Supplying.supply_first_tick s1 [] (request_packet r cmd_on_the_bus.busRd A) o hids1
      hact1 hq1 ho hr hne rfl hbusy1 (by rw [c1 o hne]; exact hM) hI1
    rw [c1 o hne] at this
    exact this
  have h1 : Supplying (fun j => (s.cache o).dram (fields_index A * BLOCK_SIZE + j))
      o r A 0 false 1 (ticks s1 2) := by
    rw [ticks_succ]; exact h0.supply_tick (by decide)
  have h2 : Supplying (fun j => (s.cache o).dram (fields_index A * BLOCK_SIZE + j))
      o r A 0 false 2 (ticks s1 3) := by
    rw [ticks_succ]; exact h1.supply_tick (by decide)
  have h3 : Supplying (fun j => (s.cache o).dram (fields_index A * BLOCK_SIZE + j))
      o r A 0 false 3 (ticks s1 4) := by
    rw [ticks_succ]; exact h2.supply_tick (by decide)
  have h4 : Supplied (fun j => (s.cache o).dram (fields_index A * BLOCK_SIZE + j))
      o r A (ticks s1 5) := by
    rw [ticks_succ]; exact h3.supply_tick_last
  refine ⟨?_, h4.active, h4.core, h4.owner, h4.requester, ?_⟩
  · intro k hk1 hk5
    have hk : k = 1 ∨ k = 2 ∨ k = 3 ∨ k = 4 := by omega
    rcases hk with hk | hk | hk | hk <;> subst hk
    · exact ⟨h0.active, h0.core⟩
    · exact ⟨h1.active, h1.core⟩
    · exact ⟨h2.active, h2.core⟩
    · exact ⟨h3.active, h3.core⟩
  · intro j hj
    exact ⟨h4.rwords j hj, h4.odata j hj, h4.mwords j hj⟩

/-- The witness of C6: on `C6_example`, cache 1 reads `0x40`, which cache 0 holds in `M`. -/
theorem C6_cache_to_cache_supply_witness :
    (Read_Data_from_Cache C6_example 1 0x40 0).2.1 = false ∧
    (∀ k, 1 ≤ k → k < 5 →
      (ticks (Read_Data_from_Cache C6_example 1 0x40 0).1 k).gIsBusTransactionActive = true ∧
      (ticks (Read_Data_from_Cache C6_example 1 0x40 0).1 k).gTransactionStatePerCore 1 =
        state_of_transaction.operation) ∧
    (ticks (Read_Data_from_Cache C6_example 1 0x40 0).1 5).gIsBusTransactionActive = false ∧
    (ticks (Read_Data_from_Cache C6_example 1 0x40 0).1 5).gTransactionStatePerCore 1 =
      state_of_transaction.finally_ ∧
    ((ticks (Read_Data_from_Cache C6_example 1 0x40 0).1 5).cache 0).tsram (fields_index 0x40) =
      { tag := fields_tag 0x40, mesi := MESIState.MESI_STATE_SHARED } ∧
    ((ticks (Read_Data_from_Cache C6_example 1 0x40 0).1 5).cache 1).tsram (fields_index 0x40) =
      { tag := fields_tag 0x40, mesi := MESIState.MESI_STATE_SHARED } ∧
    ∀ j, j < BLOCK_SIZE →
      ((ticks (Read_Data_from_Cache C6_example 1 0x40 0).1 5).cache 1).dram
          (fields_index 0x40 * BLOCK_SIZE + j) =
        (C6_example.cache 0).dram (fields_index 0x40 * BLOCK_SIZE + j) ∧
      ((ticks (Read_Data_from_Cache C6_example 1 0x40 0).1 5).cache 0).dram
          (fields_index 0x40 * BLOCK_SIZE + j) =
        (C6_example.cache 0).dram (fields_index 0x40 * BLOCK_SIZE + j) ∧
      (ticks (Read_Data_from_Cache C6_example 1 0x40 0).1 5).mainMemory (set_offset 0x40 j) =
        (C6_example.cache 0).dram (fields_index 0x40 * BLOCK_SIZE + j) :=
  C6_cache_to_cache_supply C6_example 0 1 0x40 0 (by decide!) (by decide!) (by decide!)
    (by decide!) (by decide!) (by decide!) (by decide!) (by decide!) (by decide!) (by decide!)

/-! ## Runs from the start-up globals -/

theorem Reachable.run_events {s : Sim} (h : Reachable s) (es : List Event)
    (hv : ∀ e ∈ es, e.valid) : Reachable (s.run es) := by
  induction es generalizing s with
  | nil => exact h
  | cons e es ih =>
    exact ih (Reachable.step s e h (hv e (List.mem_cons_self e es)))
      (fun e' he' => hv e' (List.mem_cons_of_mem e he'))

/-! ## Concrete runs: the counterexamples and failing runs -/

/-- C2, counterexample.  Before core 1's read of `0x41` cache 0 holds block `0x40` in `M` and
cache 1 holds block `0x140`, of the same index, in `E`.  Two ticks after the read miss the
first word has been delivered: cache 1's line 16 carries the new tag 0 and still the state
`E`, while cache 0 holds the same line in `M`.  After the fifth tick both hold it in `S`. -/
theorem C2_counterexample :
    Reachable (after_clean_fill 2) ∧
    holds (after_clean_fill 0) 0 0 16 MESIState.MESI_STATE_MODIFIED ∧
    holds (after_clean_fill 0) 1 1 16 MESIState.MESI_STATE_EXCLUSIVE ∧
    holds_ME (after_clean_fill 2) 0 0 16 ∧ holds_ME (after_clean_fill 2) 1 0 16 ∧
    holds (after_clean_fill 5) 0 0 16 MESIState.MESI_STATE_SHARED ∧
    holds (after_clean_fill 5) 1 0 16 MESIState.MESI_STATE_SHARED :=
  ⟨Reachable.run_events (Reachable.init _) _ (by decide!), by decide!, by decide!, by decide!,
    by decide!, by decide!, by decide!⟩

/-- C3, the failing run.  Twelve ticks after core 1's read miss the bus is idle again, cache 1
holds line `(tag 0, index 16)` in `M` and cache 0 holds the same line in `S`. -/
theorem C3_failing_run :
    Reachable (after_dirty_fill 12) ∧
    (after_dirty_fill 12).gIsBusTransactionActive = false ∧
    (after_dirty_fill 12).queue = [] ∧
    holds (after_dirty_fill 12) 1 0 16 MESIState.MESI_STATE_MODIFIED ∧
    holds (after_dirty_fill 12) 0 0 16 MESIState.MESI_STATE_SHARED :=
  ⟨Reachable.run_events (Reachable.init _) _ (by decide!), by decide!, by decide!, by decide!,
    by decide!⟩

/-- C4, the failing run.  Before core 1's read, cache 0 holds block `0x40` in `M` with `0xAA`
stored at `0x41`, and cache 1 holds a dirty line of block `0x140` at the same index.  Core 1's
read of `0x41` is not done in the next eleven cycles (ticks 0 to 10); after the eleventh tick
it is done and returns `0xBB`, the word of the evicted block, not `0xAA`.  No write is issued
meanwhile. -/
theorem C4_failing_run :
    holds ((Sim_Init (fun _ => 0)).run run_two_dirty) 0 0 16 MESIState.MESI_STATE_MODIFIED ∧
    (((Sim_Init (fun _ => 0)).run run_two_dirty).cache 0).dram 65 = 0xAA ∧
    holds ((Sim_Init (fun _ => 0)).run run_two_dirty) 1 1 16 MESIState.MESI_STATE_MODIFIED ∧
    (Read_Data_from_Cache ((Sim_Init (fun _ => 0)).run run_two_dirty) 1 0x41 0).2.1 = false ∧
    (∀ k, k < 11 → (Read_Data_from_Cache (after_dirty_fill k) 1 0x41 0).2.1 = false) ∧
    (Read_Data_from_Cache (after_dirty_fill 11) 1 0x41 0).2 = (true, 0xBB) := by
  refine ⟨by decide!, by decide!, by decide!, by decide!, ?_, by decide!⟩
  decide!

/-- C7, the failing run.  After `run_three_holders` the bus and the memory are idle, caches 0
and 1 hold block `0x40` in `S`, and cache 2 holds it in `M`.  Core 0's write to `0x41` is not
done; its `BusRdX` completes and core 0 is idle again after six ticks; the retried write is
again not done, and cache 0's line is `S`, not `M`. -/
theorem C7_failing_run :
    Reachable (after_shared_write 6) ∧
    (after_shared_write 0).queue.length = 2 ∧
    ((Sim_Init (fun _ => 0)).run run_three_holders).gIsBusTransactionActive = false ∧
    ((Sim_Init (fun _ => 0)).run run_three_holders).queue = [] ∧
    ((Sim_Init (fun _ => 0)).run run_three_holders).gIsMemoryBusy = false ∧
    holds ((Sim_Init (fun _ => 0)).run run_three_holders) 0 0 16 MESIState.MESI_STATE_SHARED ∧
    holds ((Sim_Init (fun _ => 0)).run run_three_holders) 1 0 16 MESIState.MESI_STATE_SHARED ∧
    holds ((Sim_Init (fun _ => 0)).run run_three_holders) 2 0 16 MESIState.MESI_STATE_MODIFIED ∧
    (∀ k, k < 6 → is_cache_busy (after_shared_write k) 0 = true) ∧
    is_cache_busy (after_shared_write 6) 0 = false ∧
    (after_shared_write 6).queue = [] ∧
    (Write_Data_to_Cache (after_shared_write 6) 0 0x41 0xDD).2 = false ∧
    holds (Write_Data_to_Cache (after_shared_write 6) 0 0x41 0xDD).1 0 0 16
      MESIState.MESI_STATE_SHARED := by
  refine ⟨Reachable.run_events (Reachable.init _) _ (by decide!), by decide!, by decide!,
    by decide!, by decide!, by decide!, by decide!, by decide!, ?_, by decide!, by decide!,
    by decide!, by decide!⟩
  decide!

/-- C8, the failing run.  When core 0 misses on index 16 its resident line is `M` with tag 0
and holds the words `1, 2, 3, 4`.  No request follows.  After 24 ticks the queued `Flush` of
block `0x40` has completed, the `BusRd` of the new block has not started, cache 0's words are
still `1, 2, 3, 4`, and main memory holds `3, 3, 3, 3` at `0x40..0x43`. -/
theorem C8_failing_run :
    Reachable (after_evict_race 24) ∧
    (after_evict_race 0).queue.map (fun t => (t.origid, t.bus_cmd, t.bus_addr))
      = [(0, cmd_on_the_bus.busRd, 0x242), (0, cmd_on_the_bus.flush, 0x40)] ∧
    (after_evict_race 24).gOngoingTransaction.bus_cmd = cmd_on_the_bus.flush ∧
    (after_evict_race 24).gOngoingTransaction.origid = 0 ∧
    (after_evict_race 24).gIsBusTransactionActive = false ∧
    (after_evict_race 24).gTransactionStatePerCore 0 = state_of_transaction.finally_ ∧
    (after_evict_race 24).queue.map (fun t => (t.origid, t.bus_cmd, t.bus_addr))
      = [(0, cmd_on_the_bus.busRd, 0x242)] ∧
    (List.range 4).map (fun k => ((after_evict_race 24).cache 0).dram (16 * 4 + k))
      = [1, 2, 3, 4] ∧
    (List.range 4).map (fun k => (after_evict_race 24).mainMemory (0x40 + k)) = [3, 3, 3, 3] :=
  ⟨Reachable.run_events (Reachable.init _) _ (by decide!), by decide!, by decide!, by decide!,
    by decide!, by decide!, by decide!, by decide!, by decide!⟩

/-- C6, counterexample.  After `run_owner_evicts` cache 0 holds block `0x40` in `M`, the other
caches' lines at index 16 are `I` and memory is idle, but cache 0 has queued the eviction of
the block.  Core 1's read of `0x40` queues a `BusRd`, which completes on the 60th tick: by
then cache 0 has flushed and replaced the block, so cache 0 does not hold it in `S`, and
cache 1 holds it in `E`. -/
theorem C6_counterexample :
    Reachable (after_owner_evicts 60) ∧
    holds ((Sim_Init (fun _ => 0)).run run_owner_evicts) 0 0 16 MESIState.MESI_STATE_MODIFIED ∧
    (∀ c, c < NUM_OF_CORES → c ≠ 0 →
      ((((Sim_Init (fun _ => 0)).run run_owner_evicts).cache c).tsram 16).mesi
        = MESIState.MESI_STATE_INVALID) ∧
    ((Sim_Init (fun _ => 0)).run run_owner_evicts).gIsMemoryBusy = false ∧
    ((Sim_Init (fun _ => 0)).run run_owner_evicts).gIsBusTransactionActive = false ∧
    (Read_Data_from_Cache ((Sim_Init (fun _ => 0)).run run_owner_evicts) 1 0x40 0).2.1
      = false ∧
    (after_owner_evicts 0).queue.map (fun t => (t.origid, t.bus_cmd, t.bus_addr))
      = [(1, cmd_on_the_bus.busRd, 0x40), (0, cmd_on_the_bus.busRd, 0x140),
         (0, cmd_on_the_bus.flush, 0x40)] ∧
    (∀ k, k < 60 →
      (after_owner_evicts k).gTransactionStatePerCore 1 ≠ state_of_transaction.finally_) ∧
    (after_owner_evicts 60).gTransactionStatePerCore 1 = state_of_transaction.finally_ ∧
    (after_owner_evicts 60).gOngoingTransaction.bus_cmd = cmd_on_the_bus.busRd ∧
    (after_owner_evicts 60).gOngoingTransaction.bus_addr = 0x40 ∧
    holds (after_owner_evicts 60) 0 1 16 MESIState.MESI_STATE_EXCLUSIVE ∧
    holds (after_owner_evicts 60) 1 0 16 MESIState.MESI_STATE_EXCLUSIVE ∧
    ¬ holds (after_owner_evicts 60) 0 0 16 MESIState.MESI_STATE_SHARED := by
  refine ⟨Reachable.run_events (Reachable.init _) _ (by decide!), by decide!, by decide!, by decide!,
    by decide!, by decide!, by decide!, ?_, by decide!, by decide!, by decide!, by decide!,
    by decide!, by decide!⟩
  decide!

/-- The eviction of `C8_failing_run` on a quiet bus: without the `BusRdX` of core 1 ahead in the
queue, the `Flush` completes on the 20th tick, before the `BusRd` of the new block starts, and
main memory then holds the four words `1, 2, 3, 4` of the evicted block. -/
theorem evict_quiet_run :
    (after_evict_quiet 0).queue.map (fun t => (t.origid, t.bus_cmd, t.bus_addr))
      = [(0, cmd_on_the_bus.busRd, 0x242), (0, cmd_on_the_bus.flush, 0x40)] ∧
    (after_evict_quiet 20).gOngoingTransaction.bus_cmd = cmd_on_the_bus.flush ∧
    (after_evict_quiet 20).gIsBusTransactionActive = false ∧
    (after_evict_quiet 20).gTransactionStatePerCore 0 = state_of_transaction.finally_ ∧
    (after_evict_quiet 20).queue.map (fun t => (t.origid, t.bus_cmd, t.bus_addr))
      = [(0, cmd_on_the_bus.busRd, 0x242)] ∧
    (List.range 4).map (fun k => ((after_evict_quiet 20).cache 0).dram (16 * 4 + k))
      = [1, 2, 3, 4] ∧
    (List.range 4).map (fun k => (after_evict_quiet 20).mainMemory (0x40 + k)) = [1, 2, 3, 4] :=
  ⟨by decide!, by decide!, by decide!, by decide!, by decide!, by decide!, by decide!⟩

/-! ## The invariant of the cycle boundaries -/

theorem no_packet_nil (c : Nat) : no_packet c [] := fun _ h => absurd h (List.not_mem_nil _)

theorem no_packet_cons {c : Nat} {t : bus_transaction} {D : List bus_transaction} :
    no_packet c (t :: D) ↔ t.origid ≠ c ∧ no_packet c D := by
  unfold no_packet
  simp

theorem no_packet_append {c : Nat} {D E : List bus_transaction} :
    no_packet c (D ++ E) ↔ no_packet c D ∧ no_packet c E := by
  unfold no_packet
  simp only [List.mem_append]
  constructor
  · intro h
    exact ⟨fun t ht => h t (Or.inl ht), fun t ht => h t (Or.inr ht)⟩
  · rintro ⟨h1, h2⟩ t (ht | ht)
    · exact h1 t ht
    · exact h2 t ht

theorem no_packet_reverse {c : Nat} {D : List bus_transaction} :
    no_packet c D.reverse ↔ no_packet c D := by
  unfold no_packet
  simp

theorem batches_tail {t : bus_transaction} {D : List bus_transaction}
    (h : batches (t :: D)) : batches D := h.2.2

/-- A read command of core `c` may join a queue that holds nothing of `c`. -/
theorem batches_append_read {D : List bus_transaction} {x : bus_transaction} {c : Nat}
    (h : batches D) (hn : no_packet c D) (hc : c < NUM_OF_CORES) (hx : x.origid = c)
    (hx1 : x.bus_cmd ≠ cmd_on_the_bus.flush) (hx2 : x.bus_cmd ≠ cmd_on_the_bus.no_cmd) :
    batches (D ++ [x]) := by
  induction D with
  | nil =>
    refine ⟨Or.inr (hx ▸ hc), fun _ => ⟨hx2, ?_⟩, trivial⟩
    rw [if_neg hx1]
    exact no_packet_nil _
  | cons t D ih =>
    obtain ⟨h1, h2, h3⟩ := h
    obtain ⟨hn1, hn2⟩ := no_packet_cons.1 hn
    refine ⟨h1, fun ht => ⟨(h2 ht).1, ?_⟩, ih h3 hn2⟩
    have h2' := (h2 ht).2
    by_cases hf : t.bus_cmd = cmd_on_the_bus.flush
    · rw [if_pos hf] at h2' ⊢
      obtain ⟨y, hy, hy2⟩ := h2'
      refine ⟨y, ?_, hy2⟩
      cases D with
      | nil => simp at hy
      | cons z D => simpa using hy
    · rw [if_neg hf] at h2' ⊢
      exact no_packet_append.2 ⟨h2', fun u hu => by
        rw [List.mem_singleton] at hu
        rw [hu, hx]
        exact fun e => hn1 e.symm⟩

/-- The delay transaction may join any queue. -/
theorem batches_append_delay {D : List bus_transaction} {x : bus_transaction}
    (h : batches D) (hx : x.origid = invalid_caller) : batches (D ++ [x]) := by
  induction D with
  | nil =>
    refine ⟨Or.inl hx, fun h4 => ?_, trivial⟩
    rw [hx] at h4
    exact absurd h4 (by decide)
  | cons t D ih =>
    obtain ⟨h1, h2, h3⟩ := h
    refine ⟨h1, fun ht => ⟨(h2 ht).1, ?_⟩, ih h3⟩
    have h2' := (h2 ht).2
    by_cases hf : t.bus_cmd = cmd_on_the_bus.flush
    · rw [if_pos hf] at h2' ⊢
      obtain ⟨y, hy, hy2⟩ := h2'
      refine ⟨y, ?_, hy2⟩
      cases D with
      | nil => simp at hy
      | cons z D => simpa using hy
    · rw [if_neg hf] at h2' ⊢
      exact no_packet_append.2 ⟨h2', fun u hu => by
        rw [List.mem_singleton] at hu
        rw [hu, hx]
        intro e
        rw [← e] at ht
        exact absurd ht (by decide)⟩

/-- A `Flush` of core `c` followed by its read command may join a queue that holds nothing
of `c`. -/
theorem batches_append_evict {D : List bus_transaction} {f x : bus_transaction} {c : Nat}
    (h : batches D) (hn : no_packet c D) (hc : c < NUM_OF_CORES)
    (hf : f.origid = c) (hf1 : f.bus_cmd = cmd_on_the_bus.flush)
    (hx : x.origid = c)
    (hx1 : x.bus_cmd ≠ cmd_on_the_bus.flush) (hx2 : x.bus_cmd ≠ cmd_on_the_bus.no_cmd) :
    batches (D ++ [f, x]) := by
  induction D with
  | nil =>
    refine ⟨Or.inr (hf ▸ hc), fun _ => ⟨?_, ?_⟩, ?_⟩
    · rw [hf1]; decide
    · rw [if_pos hf1]
      exact ⟨x, rfl, hx.trans hf.symm, hx1⟩
    · refine ⟨Or.inr (hx ▸ hc), fun _ => ⟨hx2, ?_⟩, trivial⟩
      rw [if_neg hx1]
      exact no_packet_nil _
  | cons t D ih =>
    obtain ⟨h1, h2, h3⟩ := h
    obtain ⟨hn1, hn2⟩ := no_packet_cons.1 hn
    refine ⟨h1, fun ht => ⟨(h2 ht).1, ?_⟩, ih h3 hn2⟩
    have h2' := (h2 ht).2
    by_cases hfl : t.bus_cmd = cmd_on_the_bus.flush
    · rw [if_pos hfl] at h2' ⊢
      obtain ⟨y, hy, hy2⟩ := h2'
      refine ⟨y, ?_, hy2⟩
      cases D with
      | nil => simp at hy
      | cons z D => simpa using hy
    · rw [if_neg hfl] at h2' ⊢
      exact no_packet_append.2 ⟨h2', fun u hu => by
        simp only [List.mem_cons, List.mem_singleton, List.not_mem_nil, or_false] at hu
        rcases hu with hu | hu
        · rw [hu, hf]; exact fun e => hn1 e.symm
        · rw [hu, hx]; exact fun e => hn1 e.symm⟩

/-- The address that `handle_dirty_block` builds from a tag and an index. -/
theorem evict_addr_eq (tag idx : Nat) (h : idx < 64) :
    (tag <<< 8) ||| (idx <<< 2) = tag * 256 + idx * 4 := by
  have h2 : idx <<< 2 < 2 ^ 8 := by rw [Nat.shiftLeft_eq]; omega
  have := Nat.mul_add_lt_is_or h2 tag
  rw [Nat.shiftLeft_eq tag 8, Nat.mul_comm tag (2 ^ 8), ← this, Nat.shiftLeft_eq]

theorem fields_index_lt (a : Nat) : fields_index a < 64 := by
  unfold fields_index; omega

theorem fields_tag_lt (a : Nat) : fields_tag a < 4096 := by
  unfold fields_tag; omega

theorem fields_tag_evict (tag a : Nat) (h : tag < 4096) :
    fields_tag ((tag <<< 8) ||| (fields_index a <<< 2)) = tag := by
  rw [evict_addr_eq _ _ (fields_index_lt a)]
  have := fields_index_lt a
  unfold fields_tag
  omega

theorem fields_index_evict (tag a : Nat) :
    fields_index ((tag <<< 8) ||| (fields_index a <<< 2)) = fields_index a := by
  rw [evict_addr_eq _ _ (fields_index_lt a)]
  have := fields_index_lt a
  generalize fields_index a = i at this ⊢
  unfold fields_index
  omega

theorem Inv.init (memin : Nat → Nat) : Inv (Sim_Init memin) where
  ids := fun _ _ => rfl
  tags := fun _ _ _ => by show 0 < 4096; decide
  act_state := fun h => Bool.noConfusion h
  op_state := fun _ _ h => state_of_transaction.noConfusion h
  fin_state := fun _ _ h => state_of_transaction.noConfusion h
  q_ok := trivial
  q_idle := fun c _ _ => no_packet_nil c
  q_cur := fun _ _ h => by
    rcases h with h | h <;> exact state_of_transaction.noConfusion h
  q_flush := fun _ h => absurd h (List.not_mem_nil _)
  cur_flush := fun h => Bool.noConfusion h
  me := fun _ _ _ _ _ _ h => by
    rcases h with h | h <;> exact MESIState.noConfusion h

/-- The invariant only looks at the ids and the TSRAM lines of the caches and at the bus
variables; a change that keeps the tags and creates no owner preserves it. -/
theorem Inv.congr_lines {s s' : Sim} (h : Inv s)
    (hid : ∀ i, (s'.cache i).id = (s.cache i).id)
    (htag : ∀ i k, ((s'.cache i).tsram k).tag = ((s.cache i).tsram k).tag)
    (hown : ∀ i k, owned ((s'.cache i).tsram k) → owned ((s.cache i).tsram k))
    (hact : s'.gIsBusTransactionActive = s.gIsBusTransactionActive)
    (hon : s'.gOngoingTransaction = s.gOngoingTransaction)
    (hst : s'.gTransactionStatePerCore = s.gTransactionStatePerCore)
    (hq : s'.queue = s.queue) : Inv s' where
  ids := fun i hi => by rw [hid]; exact h.ids i hi
  tags := fun i hi k => by rw [htag]; exact h.tags i hi k
  act_state := by rw [hact, hon, hst]; exact h.act_state
  op_state := by rw [hact, hon, hst]; exact h.op_state
  fin_state := by rw [hact, hon, hst]; exact h.fin_state
  q_ok := by rw [hq]; exact h.q_ok
  q_idle := by rw [hq, hst]; exact h.q_idle
  q_cur := by rw [hq, hon, hst]; exact h.q_cur
  q_flush := fun t ht hf h4 => by rw [htag]; rw [hq] at ht; exact h.q_flush t ht hf h4
  cur_flush := by
    rw [hact, hon]
    intro ha hf
    rw [htag]
    exact h.cur_flush ha hf
  me := fun k c d hc hd hcd h1 h2 h3 => by
    rw [htag, htag] at h3
    have := h.me k c d hc hd hcd (hown c k h1) (hown d k h2) h3
    unfold fill_in_progress at this ⊢
    rw [hact, hon]
    exact this

/-- An idle core queues its transactions. -/
theorem Inv.enqueue {s s' : Sim} (h : Inv s) (c : Nat) (hc : c < NUM_OF_CORES)
    (hidle : s.gTransactionStatePerCore c = state_of_transaction.idle)
    (B : List bus_transaction)
    (hid : ∀ i, (s'.cache i).id = (s.cache i).id)
    (hts : ∀ i, (s'.cache i).tsram = (s.cache i).tsram)
    (hact : s'.gIsBusTransactionActive = s.gIsBusTransactionActive)
    (hon : s'.gOngoingTransaction = s.gOngoingTransaction)
    (hst : s'.gTransactionStatePerCore =
      Function.update s.gTransactionStatePerCore c state_of_transaction.wait_cmd)
    (hq : s'.queue = B ++ s.queue)
    (hB : batches (s.queue.reverse ++ B.reverse))
    (hBo : ∀ t, t ∈ B → t.origid = c ∨ t.origid = invalid_caller)
    (hBf : ∀ t, t ∈ B → t.bus_cmd = cmd_on_the_bus.flush →
      ((s.cache c).tsram (fields_index t.bus_addr)).tag = fields_tag t.bus_addr) :
    Inv s' := by
  have hne : ∀ c', c' < NUM_OF_CORES → c' ≠ c → no_packet c' B := by
    intro c' hc' hcc t ht
    rcases hBo t ht with e | e <;> rw [e]
    · exact fun e' => hcc e'.symm
    · intro e'
      rw [← e'] at hc'
      exact absurd hc' (by decide)
  have hst' : ∀ c', s'.gTransactionStatePerCore c' ≠ state_of_transaction.wait_cmd →
      c' ≠ c ∧ s'.gTransactionStatePerCore c' = s.gTransactionStatePerCore c' := by
    intro c' hw
    rw [hst] at hw ⊢
    by_cases hcc : c' = c
    · subst hcc; simp at hw
    · exact ⟨hcc, Function.update_noteq hcc _ _⟩
  refine
    { ids := fun i hi => by rw [hid]; exact h.ids i hi
      tags := fun i hi k => by rw [hts]; exact h.tags i hi k
      act_state := ?_, op_state := ?_, fin_state := ?_, q_ok := ?_, q_idle := ?_,
      q_cur := ?_, q_flush := ?_, cur_flush := ?_, me := ?_ }
  · rw [hact, hon]
    intro ha
    obtain ⟨h1, h2, h3, h4⟩ := h.act_state ha
    refine ⟨h1, ?_, h3, h4⟩
    rw [hst, Function.update_noteq]
    · exact h2
    · intro e
      rw [e, hidle] at h2
      exact state_of_transaction.noConfusion h2
  · intro c' hc' ho
    obtain ⟨_, e⟩ := hst' c' (by rw [ho]; decide)
    rw [hact, hon]
    exact h.op_state c' hc' (e ▸ ho)
  · intro c' hc' ho
    obtain ⟨_, e⟩ := hst' c' (by rw [ho]; decide)
    rw [hact, hon]
    exact h.fin_state c' hc' (e ▸ ho)
  · rw [hq, List.reverse_append]
    exact hB
  · intro c' hc' ho
    obtain ⟨hcc, e⟩ := hst' c' (by rw [ho]; decide)
    rw [hq]
    exact no_packet_append.2 ⟨hne c' hc' hcc, h.q_idle c' hc' (e ▸ ho)⟩
  · intro c' hc' ho
    have hw : s'.gTransactionStatePerCore c' ≠ state_of_transaction.wait_cmd := by
      rcases ho with ho | ho <;> rw [ho] <;> decide
    obtain ⟨hcc, e⟩ := hst' c' hw
    rw [e] at ho
    have := h.q_cur c' hc' ho
    rw [hon, hq]
    by_cases hf : s.gOngoingTransaction.bus_cmd = cmd_on_the_bus.flush
    · rw [if_pos hf] at this ⊢
      obtain ⟨x, D, h1, h2, h3, h4⟩ := this
      refine ⟨x, D ++ B.reverse, ?_, h2, h3, ?_⟩
      · rw [List.reverse_append, h1]; rfl
      · exact no_packet_append.2 ⟨h4, no_packet_reverse.2 (hne c' hc' hcc)⟩
    · rw [if_neg hf] at this ⊢
      exact no_packet_append.2 ⟨hne c' hc' hcc, this⟩
  · intro t ht hf h4
    rw [hq, List.mem_append] at ht
    rw [hts]
    rcases ht with ht | ht
    · have : t.origid = c := by
        rcases hBo t ht with e | e
        · exact e
        · rw [e] at h4; exact absurd h4 (by decide)
      rw [this]
      exact hBf t ht hf
    · exact h.q_flush t ht hf h4
  · rw [hact, hon]
    intro ha hf
    rw [hts]
    exact h.cur_flush ha hf
  · intro k c1 d hc1 hd hcd h1 h2 h3
    rw [hts] at h1 h2 h3
    rw [hts] at h3
    have := h.me k c1 d hc1 hd hcd h1 h2 h3
    unfold fill_in_progress at this ⊢
    rw [hact, hon]
    exact this

/-- The `Flush` that `handle_dirty_block` queues for core `c` on a miss at address `a`. -/
theorem handle_miss_fields (s : Sim) (c a : Nat) (cmd : cmd_on_the_bus)
    (hc : c < NUM_OF_CORES) (hid : (s.cache c).id = c) :
    (handle_transaction (handle_dirty_block s c (fields_index a) a) c a cmd).cache = s.cache ∧
    (handle_transaction (handle_dirty_block s c (fields_index a) a) c a cmd).gIsBusTransactionActive
      = s.gIsBusTransactionActive ∧
    (handle_transaction (handle_dirty_block s c (fields_index a) a) c a cmd).gOngoingTransaction
      = s.gOngoingTransaction ∧
    (handle_transaction (handle_dirty_block s c (fields_index a) a) c a cmd).gTransactionStatePerCore
      = Function.update s.gTransactionStatePerCore c state_of_transaction.wait_cmd ∧
    (handle_transaction (handle_dirty_block s c (fields_index a) a) c a cmd).queue =
      (request_packet c cmd a ::
        if ((s.cache c).tsram (fields_index a)).mesi = MESIState.MESI_STATE_MODIFIED then
          [{ original_caller := 0, origid := c, bus_cmd := cmd_on_the_bus.flush,
             bus_addr := (((s.cache c).tsram (fields_index a)).tag <<< 8) |||
               (fields_index a <<< 2),
             bus_data := (s.cache c).dram (fields_index a * BLOCK_SIZE + fields_offset a),
             bus_shared := false }]
        else []) ++ s.queue := by
  have hne : ¬ c = 65535 := by
    unfold NUM_OF_CORES at hc; omega
  by_cases hM : ((s.cache c).tsram (fields_index a)).mesi = MESIState.MESI_STATE_MODIFIED
  · simp [handle_dirty_block, handle_transaction, AddTransaction_to_bus, queue_enqueue, hid,
      hne, state_set, hc, request_packet, invalid_caller, hM]
  · simp [handle_dirty_block, handle_transaction, AddTransaction_to_bus, queue_enqueue, hid,
      hne, state_set, hc, request_packet, invalid_caller, hM]

/-- A miss of an idle core keeps the invariant: the core queues the `Flush` of its dirty line,
if the line is dirty, and its read command. -/
theorem Inv.miss {s s1 : Sim} (h : Inv s) (c a : Nat) (cmd : cmd_on_the_bus)
    (hc : c < NUM_OF_CORES)
    (hidle : s.gTransactionStatePerCore c = state_of_transaction.idle)
    (hcmd : cmd = cmd_on_the_bus.busRd ∨ cmd = cmd_on_the_bus.busRdX)
    (hid : ∀ i, (s1.cache i).id = (s.cache i).id)
    (hts : ∀ i, (s1.cache i).tsram = (s.cache i).tsram)
    (hact : s1.gIsBusTransactionActive = s.gIsBusTransactionActive)
    (hon : s1.gOngoingTransaction = s.gOngoingTransaction)
    (hst : s1.gTransactionStatePerCore = s.gTransactionStatePerCore)
    (hq : s1.queue = s.queue) :
    Inv (handle_transaction (handle_dirty_block s1 c (fields_index a) a) c a cmd) := by
  have hid1 : (s1.cache c).id = c := by rw [hid]; exact h.ids c hc
  obtain ⟨e1, e2, e3, e4, e5⟩ := handle_miss_fields s1 c a cmd hc hid1
  have hx1 : (request_packet c cmd a).bus_cmd ≠ cmd_on_the_bus.flush := by
    rcases hcmd with e | e <;> subst e <;> exact fun e => cmd_on_the_bus.noConfusion e
  have hx2 : (request_packet c cmd a).bus_cmd ≠ cmd_on_the_bus.no_cmd := by
    rcases hcmd with e | e <;> subst e <;> exact fun e => cmd_on_the_bus.noConfusion e
  have hnp : no_packet c s.queue.reverse := no_packet_reverse.2 (h.q_idle c hc hidle)
  refine h.enqueue c hc hidle _ ?_ ?_ (e2.trans hact) (e3.trans hon) (by rw [e4, hst])
    (by rw [e5, hq]) ?_ ?_ ?_
  · intro i; rw [e1]; exact hid i
  · intro i; rw [e1]; exact hts i
  · rw [hts]
    by_cases hM : ((s.cache c).tsram (fields_index a)).mesi = MESIState.MESI_STATE_MODIFIED
    · rw [if_pos hM]
      exact batches_append_evict h.q_ok hnp hc rfl rfl rfl hx1 hx2
    · rw [if_neg hM]
      exact batches_append_read h.q_ok hnp hc rfl hx1 hx2
  · intro t ht
    rw [hts] at ht
    left
    by_cases hM : ((s.cache c).tsram (fields_index a)).mesi = MESIState.MESI_STATE_MODIFIED
    · rw [if_pos hM] at ht
      simp only [List.mem_cons, List.mem_singleton, List.not_mem_nil, or_false] at ht
      rcases ht with e | e
      · subst e; rfl
      · subst e; rfl
    · rw [if_neg hM] at ht
      simp only [List.mem_cons, List.not_mem_nil, or_false] at ht
      rw [ht]; rfl
  · intro t ht hf
    rw [hts] at ht
    by_cases hM : ((s.cache c).tsram (fields_index a)).mesi = MESIState.MESI_STATE_MODIFIED
    · rw [if_pos hM] at ht
      simp only [List.mem_cons, List.mem_singleton, List.not_mem_nil, or_false] at ht
      rcases ht with e | e
      · rw [e] at hf; exact absurd hf hx1
      · rw [e]
        show ((s.cache c).tsram (fields_index (_ ||| _))).tag = fields_tag (_ ||| _)
        rw [fields_index_evict, fields_tag_evict _ _ (h.tags c hc _)]
    · rw [if_neg hM] at ht
      simp only [List.mem_cons, List.not_mem_nil, or_false] at ht
      rw [ht] at hf; exact absurd hf hx1

theorem owned_of_valid_not_shared {l : TSRAMLine}
    (h : l.mesi ≠ MESIState.MESI_STATE_INVALID) (h2 : l.mesi ≠ MESIState.MESI_STATE_SHARED) :
    owned l := by
  unfold owned
  cases hm : l.mesi <;> simp_all

/-- A read request keeps the invariant. -/
theorem Inv.read {s : Sim} (h : Inv s) (c a data : Nat) (hc : c < NUM_OF_CORES) :
    Inv (Read_Data_from_Cache s c a data).1 := by
  unfold Read_Data_from_Cache
  by_cases hb : is_cache_busy s c = true
  · rw [if_pos hb]; exact h
  · rw [if_neg hb]
    have hidle := (is_cache_busy_iff s c hc (h.ids c hc)).1 (by simpa using hb)
    dsimp only
    by_cases hv : is_block_valid_and_matching ((s.cache c).tsram (fields_index a))
        (fields_tag a) = true
    · rw [if_pos hv]
      have e : ∀ i, (Function.update s.cache c
          (readHit (s.cache c) a s.miss_occurred_read).2.1 i).id = (s.cache i).id ∧
          (Function.update s.cache c
          (readHit (s.cache c) a s.miss_occurred_read).2.1 i).tsram = (s.cache i).tsram := by
        intro i
        by_cases hi : i = c
        · subst hi
          rw [Function.update_same]
          unfold readHit
          dsimp only
          cases s.miss_occurred_read <;> exact ⟨rfl, rfl⟩
        · rw [Function.update_noteq hi]
          exact ⟨rfl, rfl⟩
      refine h.congr_lines (fun i => (e i).1) (fun i k => ?_) (fun i k => ?_) rfl rfl rfl rfl
      · show ((Function.update s.cache c _ i).tsram k).tag = _
        rw [(e i).2]
      · show owned ((Function.update s.cache c _ i).tsram k) → _
        rw [(e i).2]
        exact id
    · rw [if_neg hv]
      refine h.miss c a cmd_on_the_bus.busRd hc hidle (Or.inl rfl) ?_ ?_ rfl rfl rfl rfl
      · intro i
        show (Function.update s.cache c _ i).id = _
        by_cases hi : i = c
        · subst hi; rw [Function.update_same]; rfl
        · rw [Function.update_noteq hi]
      · intro i
        show (Function.update s.cache c _ i).tsram = _
        by_cases hi : i = c
        · subst hi; rw [Function.update_same]; rfl
        · rw [Function.update_noteq hi]

/-- A write request keeps the invariant. -/
theorem Inv.write {s : Sim} (h : Inv s) (c a data : Nat) (hc : c < NUM_OF_CORES) :
    Inv (Write_Data_to_Cache s c a data).1 := by
  by_cases hb : is_cache_busy s c = true
  · unfold Write_Data_to_Cache
    rw [if_pos hb]; exact h
  have hidle := (is_cache_busy_iff s c hc (h.ids c hc)).1 (by simpa using hb)
  by_cases hl : (s.cache c).tsram (fields_index a) =
      { tag := fields_tag a, mesi := MESIState.MESI_STATE_SHARED }
  · rw [Write_Data_to_Cache_shared s c a data hc (h.ids c hc) hidle hl]
    have hx1 : (request_packet c cmd_on_the_bus.busRdX a).bus_cmd ≠ cmd_on_the_bus.flush :=
      fun e => cmd_on_the_bus.noConfusion e
    have hx2 : (request_packet c cmd_on_the_bus.busRdX a).bus_cmd ≠ cmd_on_the_bus.no_cmd :=
      fun e => cmd_on_the_bus.noConfusion e
    have hnp : no_packet c s.queue.reverse := no_packet_reverse.2 (h.q_idle c hc hidle)
    refine h.enqueue c hc hidle
      [delay_transaction, request_packet c cmd_on_the_bus.busRdX a] ?_ ?_ rfl rfl rfl rfl
      ?_ ?_ ?_
    · intro i
      show (Function.update s.cache c _ i).id = _
      by_cases hi : i = c
      · subst hi; rw [Function.update_same]; rfl
      · rw [Function.update_noteq hi]
    · intro i
      show (Function.update s.cache c _ i).tsram = _
      by_cases hi : i = c
      · subst hi; rw [Function.update_same]; rfl
      · rw [Function.update_noteq hi]
    · have := @batches_append_delay _ delay_transaction
        (batches_append_read h.q_ok hnp hc rfl hx1 hx2) rfl
      simpa using this
    · intro t ht
      simp only [List.mem_cons, List.mem_singleton, List.not_mem_nil, or_false] at ht
      rcases ht with e | e <;> rw [e]
      · right; rfl
      · left; rfl
    · intro t ht hf
      simp only [List.mem_cons, List.mem_singleton, List.not_mem_nil, or_false] at ht
      rcases ht with e | e <;> rw [e] at hf
      · exact cmd_on_the_bus.noConfusion hf
      · exact absurd hf hx1
  unfold Write_Data_to_Cache
  rw [if_neg hb]
  dsimp only
  by_cases hv : is_block_valid_and_matching ((s.cache c).tsram (fields_index a))
      (fields_tag a) = true
  · rw [if_pos hv]
    have hv2 : ((s.cache c).tsram (fields_index a)).tag = fields_tag a ∧
        ((s.cache c).tsram (fields_index a)).mesi ≠ MESIState.MESI_STATE_INVALID := by
      unfold is_block_valid_and_matching at hv
      simpa using hv
    have hS : ¬ ((s.cache c).tsram (fields_index a)).mesi = MESIState.MESI_STATE_SHARED := by
      intro e
      apply hl
      rw [← hv2.1, ← e]
    rw [if_neg hS]
    have e : ∀ i k, ((Function.update s.cache c
        (update_cache_write (s.cache c) a data s.miss_occurred_write).1 i).tsram k).tag
          = ((s.cache i).tsram k).tag ∧
        (owned ((Function.update s.cache c
          (update_cache_write (s.cache c) a data s.miss_occurred_write).1 i).tsram k) →
          owned ((s.cache i).tsram k)) := by
      intro i k
      by_cases hi : i = c
      · subst hi
        rw [Function.update_same, update_cache_write_tsram]
        by_cases hk : k = fields_index a
        · subst hk
          simp only [Function.update_same]
          exact ⟨trivial, fun _ => owned_of_valid_not_shared hv2.2 hS⟩
        · rw [Function.update_noteq hk]
          exact ⟨rfl, id⟩
      · rw [Function.update_noteq hi]
        exact ⟨rfl, id⟩
    refine h.congr_lines (fun i => ?_) (fun i k => (e i k).1) (fun i k => (e i k).2)
      rfl rfl rfl rfl
    show (Function.update s.cache c _ i).id = _
    by_cases hi : i = c
    · subst hi; rw [Function.update_same, update_cache_write_id]
    · rw [Function.update_noteq hi]
  · rw [if_neg hv]
    refine h.miss c a cmd_on_the_bus.busRdX hc hidle (Or.inr rfl) ?_ ?_ rfl rfl rfl rfl
    · intro i
      show (Function.update s.cache c _ i).id = _
      by_cases hi : i = c
      · subst hi; rw [Function.update_same]; rfl
      · rw [Function.update_noteq hi]
    · intro i
      show (Function.update s.cache c _ i).tsram = _
      by_cases hi : i = c
      · subst hi; rw [Function.update_same]; rfl
      · rw [Function.update_noteq hi]

/-! ## One served cycle and the invariant -/

theorem mesi_next_owned {m : MESIState} {cmd : cmd_on_the_bus}
    (h : owned { tag := 0, mesi := mesi_next m cmd }) : owned { tag := 0, mesi := m } := by
  unfold owned at h ⊢
  cases m <;> cases cmd <;> simp_all [mesi_next]

theorem snooped_id (s : Sim) (t : bus_transaction) (c : Nat) :
    (snooped s t c).id = (s.cache c).id := by
  unfold snooped
  rw [snooping_handler_id]

theorem snooped_tag (s : Sim) (t : bus_transaction) (c k : Nat) :
    ((snooped s t c).tsram k).tag = ((s.cache c).tsram k).tag := by
  unfold snooped
  rw [snooping_handler_tsram]
  split_ifs <;> rfl

theorem snooped_owned (s : Sim) (t : bus_transaction) (c k : Nat)
    (h : owned ((snooped s t c).tsram k)) : owned ((s.cache c).tsram k) := by
  unfold snooped at h
  rw [snooping_handler_tsram] at h
  split_ifs at h
  · exact @mesi_next_owned _ (snoop_seen s t c).bus_cmd h
  · exact h

/-- A cache that supplies the data of a read command on the last word of the block gives
up the ownership of the line. -/
theorem snooped_supplier (s : Sim) (t : bus_transaction) (o : Nat)
    (hseen : snoop_seen s t o = t) (hsup : supplies (s.cache o) t)
    (hcmd : t.bus_cmd ≠ cmd_on_the_bus.flush)
    (hoff : s.gBusAddrOffset = BLOCK_SIZE - 1) :
    ¬ owned ((snooped s t o).tsram (fields_index t.bus_addr)) := by
  unfold snooped
  rw [snooping_handler_tsram, hseen, if_pos ⟨rfl, hsup.1, Or.inl hoff⟩, hsup.2.1]
  have hn := hsup.2.2
  unfold owned
  cases hc : t.bus_cmd <;> simp_all [mesi_next]

/-- When the packet leaves the snoop loop as a `Flush` although it entered as a read command,
some cache other than the original caller received it unchanged and supplied the data. -/
theorem first_supplier (s : Sim) (t : bus_transaction)
    (hcmd : t.bus_cmd ≠ cmd_on_the_bus.flush)
    (hout : (snoop_seen s t NUM_OF_CORES).bus_cmd = cmd_on_the_bus.flush) :
    ∃ o, o < NUM_OF_CORES ∧ (s.cache o).id ≠ t.original_caller ∧ snoop_seen s t o = t ∧
      supplies (s.cache o) t := by
  by_cases hex : ∃ j, j < NUM_OF_CORES ∧ supplies (s.cache j) t
  · have hmin : ∀ j, j < Nat.find hex → ¬ (j < NUM_OF_CORES ∧ supplies (s.cache j) t) :=
      fun j hj => Nat.find_min hex hj
    obtain ⟨h4, hs⟩ := Nat.find_spec hex
    refine ⟨Nat.find hex, h4, ?_, ?_, hs⟩
    · intro e
      exact hs.1.1 ⟨e, hcmd⟩
    · apply snoop_seen_of_no_supplier
      intro j hj hsj
      exact hmin j hj ⟨Nat.lt_trans hj h4, hsj⟩
  · exfalso
    have := snoop_seen_of_no_supplier s t NUM_OF_CORES (fun j hj hsj => hex ⟨j, hj, hsj⟩)
    rw [this] at hout
    exact hcmd hout

/-- The originator of a packet that was rewritten in the snoop loop is a cache that supplied
the data. -/
theorem last_supplier (s : Sim) (t : bus_transaction) (k : Nat)
    (hcmd : t.bus_cmd ≠ cmd_on_the_bus.flush)
    (hout : (snoop_seen s t k).bus_cmd = cmd_on_the_bus.flush) :
    ∃ j, j < k ∧ supplies (s.cache j) (snoop_seen s t j) ∧
      (snoop_seen s t k).origid = (s.cache j).id := by
  induction k with
  | zero => exact absurd hout hcmd
  | succ k ih =>
    simp only [snoop_seen, snooping_handler_packet] at hout ⊢
    by_cases hs : supplies (s.cache k) (snoop_seen s t k)
    · rw [if_pos hs]
      exact ⟨k, Nat.lt_succ_self k, hs, rfl⟩
    · rw [if_neg hs] at hout ⊢
      obtain ⟨j, hj, h1, h2⟩ := ih hout
      exact ⟨j, Nat.lt_succ_of_lt hj, h1, h2⟩

theorem cache_response_handle_id (c : Cache_Data) (t : bus_transaction) (o : Nat) :
    (cache_response_handle c t o).1.id = c.id := by
  unfold cache_response_handle
  split_ifs <;> rfl

/-- The TSRAM after the response callback: the cache that is not the originator of the
answer takes the tag of the block, and with the last word the state `S` or `E`. -/
theorem cache_response_handle_tsram (c : Cache_Data) (t : bus_transaction) (o k : Nat) :
    (cache_response_handle c t o).1.tsram k =
      if c.id ≠ t.origid ∧ k = fields_index t.bus_addr then
        { tag := fields_tag t.bus_addr,
          mesi := if o = BLOCK_SIZE - 1 then
              (if t.bus_shared then MESIState.MESI_STATE_SHARED
                else MESIState.MESI_STATE_EXCLUSIVE)
            else (c.tsram k).mesi }
      else c.tsram k := by
  unfold cache_response_handle
  by_cases h1 : c.id = t.origid
  · by_cases h2 : t.bus_cmd = cmd_on_the_bus.flush
    · simp only [h1, h2, ne_eq, not_true_eq_false, and_false, if_false, true_and, if_true,
        false_and]
      split_ifs <;> rfl
    · simp [h1, h2]
  · have h3 : ¬ (c.id = t.origid ∧ t.bus_cmd ≠ cmd_on_the_bus.flush) := fun h => h1 h.1
    have h4 : ¬ (c.id = t.origid ∧ t.bus_cmd = cmd_on_the_bus.flush) := fun h => h1 h.1
    rw [if_neg h3, if_neg h4]
    by_cases hk : k = fields_index t.bus_addr
    · rw [if_pos (And.intro h1 hk)]
      subst hk
      by_cases ho : o = BLOCK_SIZE - 1
      · simp only [ho, if_true]
        split_ifs <;> simp [set_mesi, set_tag, set_dram]
      · simp only [ho, if_false]
        split_ifs <;> simp [set_tag, set_dram]
    · rw [if_neg (show ¬ (c.id ≠ t.origid ∧ k = fields_index t.bus_addr) from
        fun h => hk h.2)]
      by_cases ho : o = BLOCK_SIZE - 1
      · simp only [ho, if_true]
        split_ifs <;> simp [set_mesi, set_tag, set_dram, Function.update_noteq hk]
      · simp only [ho, if_false]
        split_ifs <;> simp [set_tag, set_dram, Function.update_noteq hk]

/-- The response callback reports the end of the transfer exactly on the last word of an
answer that is a `Flush` or comes from elsewhere. -/
theorem cache_response_handle_done (c : Cache_Data) (t : bus_transaction) (o : Nat)
    (ht : t.bus_cmd = cmd_on_the_bus.flush) :
    (cache_response_handle c t o).2.2 = true ↔ o = BLOCK_SIZE - 1 := by
  unfold cache_response_handle
  by_cases h1 : c.id = t.origid
  · simp only [h1, ht, ne_eq, not_true_eq_false, and_false, if_false, and_self, if_true]
    split_ifs with h <;> simp [h]
  · have h3 : ¬ (c.id = t.origid ∧ t.bus_cmd ≠ cmd_on_the_bus.flush) := fun h => h1 h.1
    have h4 : ¬ (c.id = t.origid ∧ t.bus_cmd = cmd_on_the_bus.flush) := fun h => h1 h.1
    rw [if_neg h3, if_neg h4]
    dsimp only
    split_ifs with h <;> simp [h]

theorem answer_packet_cmd (s : Sim) : (answer_packet s).bus_cmd = cmd_on_the_bus.flush := by
  unfold answer_packet memory_packet
  split_ifs with h
  · exact h
  · rfl

theorem answer_packet_addr (s : Sim) :
    (answer_packet s).bus_addr = set_offset s.gOngoingTransaction.bus_addr s.gBusAddrOffset := by
  unfold answer_packet memory_packet
  split_ifs <;> simp [snoop_seen_addr, bus_packet]

theorem answer_packet_shared (s : Sim) :
    (answer_packet s).bus_shared = (is_shared_line s s.gOngoingTransaction).1 := by
  unfold answer_packet memory_packet
  split_ifs <;> simp [snoop_seen_shared, bus_packet]

theorem answer_packet_origid (s : Sim) :
    (answer_packet s).origid =
      if (snoop_seen s (bus_packet s) NUM_OF_CORES).bus_cmd = cmd_on_the_bus.flush
      then (snoop_seen s (bus_packet s) NUM_OF_CORES).origid else main_memory := by
  unfold answer_packet memory_packet
  split_ifs <;> rfl

/-- What a served cycle does to the variables that the invariant reads: either nothing (the
detour cycle), or the caches snoop and, when memory answers, the originator's cache takes
the response, which may end the transfer. -/
theorem serve_fields (s : Sim) (hc : s.gOngoingTransaction.bus_cmd ≠ cmd_on_the_bus.no_cmd) :
    Run_Bus_Iteration_serve s = { s with is_first_access_shared := false } ∨
    ∃ ans : Bool,
      (Run_Bus_Iteration_serve s).queue = s.queue ∧
      (Run_Bus_Iteration_serve s).gOngoingTransaction = s.gOngoingTransaction ∧
      (∀ c, c < NUM_OF_CORES → (Run_Bus_Iteration_serve s).cache c =
        if ans = true ∧ c = s.gOngoingTransaction.origid then (bus_response s).1
        else snooped s (bus_packet s) c) ∧
      (Run_Bus_Iteration_serve s).gTransactionStatePerCore =
        (if ans = true ∧ (bus_response s).2.2 = true then
          state_set s.gTransactionStatePerCore s.gOngoingTransaction.origid
            state_of_transaction.finally_
        else s.gTransactionStatePerCore) ∧
      (Run_Bus_Iteration_serve s).gIsBusTransactionActive =
        (if ans = true ∧ (bus_response s).2.2 = true then false
        else s.gIsBusTransactionActive) := by
  by_cases hd : (is_shared_line s s.gOngoingTransaction).2 = true ∧
      s.is_first_access_shared = true
  · left
    exact Run_Bus_Iteration_serve_detour s hd.1 hd.2
  · right
    by_cases hm : mem_count s (is_shared_line s s.gOngoingTransaction).2 < 16
    · refine ⟨false, ?_⟩
      rw [Run_Bus_Iteration_serve_latency s hd hc hm]
      refine ⟨rfl, rfl, ?_, ?_, ?_⟩
      · intro c h4
        simp [h4]
      · simp
      · simp
    · refine ⟨true, ?_⟩
      rw [Run_Bus_Iteration_serve_answer s hd hc (Nat.le_of_not_lt hm)]
      refine ⟨rfl, rfl, ?_, ?_, ?_⟩
      · intro c h4
        dsimp only
        by_cases hcr : c = s.gOngoingTransaction.origid
        · rw [if_pos ⟨rfl, hcr⟩, hcr, Function.update_same]
        · rw [if_neg (fun h => hcr h.2), Function.update_noteq hcr, if_pos h4]
      · simp
      · simp

/-- The TSRAM lines after a served cycle that is not the detour cycle. -/
theorem serve_line (s : Sim) (ans : Bool)
    (hr4 : s.gOngoingTransaction.origid < NUM_OF_CORES)
    (hid : (s.cache s.gOngoingTransaction.origid).id = s.gOngoingTransaction.origid)
    (hca : ∀ c, c < NUM_OF_CORES → (Run_Bus_Iteration_serve s).cache c =
      if ans = true ∧ c = s.gOngoingTransaction.origid then (bus_response s).1
      else snooped s (bus_packet s) c)
    (c : Nat) (h4 : c < NUM_OF_CORES) (k : Nat) :
    ((Run_Bus_Iteration_serve s).cache c).tsram k =
      if (ans = true ∧ c = s.gOngoingTransaction.origid) ∧
          s.gOngoingTransaction.origid ≠ (answer_packet s).origid ∧
          k = fields_index s.gOngoingTransaction.bus_addr then
        { tag := fields_tag s.gOngoingTransaction.bus_addr,
          mesi := if s.gBusAddrOffset = BLOCK_SIZE - 1 then
              (if (is_shared_line s s.gOngoingTransaction).1 then MESIState.MESI_STATE_SHARED
                else MESIState.MESI_STATE_EXCLUSIVE)
            else ((snooped s (bus_packet s) c).tsram k).mesi }
      else (snooped s (bus_packet s) c).tsram k := by
  rw [hca c h4]
  by_cases hcr : ans = true ∧ c = s.gOngoingTransaction.origid
  · rw [if_pos hcr]
    obtain ⟨_, hc⟩ := hcr
    subst hc
    unfold bus_response
    rw [if_pos hr4, cache_response_handle_tsram, snooped_id, hid, answer_packet_addr,
      fields_index_set_offset, fields_tag_set_offset, answer_packet_shared]
    simp [*]
  · rw [if_neg hcr, if_neg (fun h => hcr h.1)]

/-- A served cycle of an active transaction keeps the invariant. -/
theorem Inv.serve {s : Sim} (h : Inv s) (ha : s.gIsBusTransactionActive = true) :
    Inv (Run_Bus_Iteration_serve s) := by
  obtain ⟨hr4, hop, hcaller, hcmd⟩ := h.act_state ha
  rcases serve_fields s hcmd with hdet | ⟨ans, hq, hon, hca, hst, hac⟩
  · rw [hdet]
    exact h.congr_lines (fun _ => rfl) (fun _ _ => rfl) (fun _ _ => id) rfl rfl rfl rfl
  have hidr := h.ids _ hr4
  have hline := serve_line s ans hr4 hidr hca
  have hdone : (bus_response s).2.2 = true ↔ s.gBusAddrOffset = BLOCK_SIZE - 1 := by
    unfold bus_response
    exact cache_response_handle_done _ _ _ (answer_packet_cmd s)
  -- the states of the cores
  have hstate : ∀ c, (Run_Bus_Iteration_serve s).gTransactionStatePerCore c =
      if (ans = true ∧ (bus_response s).2.2 = true) ∧ c = s.gOngoingTransaction.origid
      then state_of_transaction.finally_ else s.gTransactionStatePerCore c := by
    intro c
    rw [hst]
    by_cases hd : ans = true ∧ (bus_response s).2.2 = true
    · rw [if_pos hd]
      unfold state_set
      rw [if_pos hr4]
      by_cases hc : c = s.gOngoingTransaction.origid
      · rw [if_pos ⟨hd, hc⟩, hc, Function.update_same]
      · rw [if_neg (fun h => hc h.2), Function.update_noteq hc]
    · rw [if_neg hd, if_neg (fun h => hd h.1)]
  -- a core that is in `operation` or `finally` afterwards is the originator
  have hcur : ∀ c, c < NUM_OF_CORES →
      ((Run_Bus_Iteration_serve s).gTransactionStatePerCore c = state_of_transaction.operation ∨
        (Run_Bus_Iteration_serve s).gTransactionStatePerCore c = state_of_transaction.finally_) →
      c = s.gOngoingTransaction.origid := by
    intro c hc ho
    rw [hstate] at ho
    by_cases hd : (ans = true ∧ (bus_response s).2.2 = true) ∧ c = s.gOngoingTransaction.origid
    · exact hd.2
    · rw [if_neg hd] at ho
      rcases ho with ho | ho
      · exact (h.op_state c hc ho).2.symm
      · have := (h.fin_state c hc ho).1
        rw [ha] at this
        exact Bool.noConfusion this
  have htag : ∀ c, c < NUM_OF_CORES → ∀ k,
      ((Run_Bus_Iteration_serve s).cache c).tsram k =
        { tag := fields_tag s.gOngoingTransaction.bus_addr,
          mesi := (((Run_Bus_Iteration_serve s).cache c).tsram k).mesi } ∧
        c = s.gOngoingTransaction.origid ∧ k = fields_index s.gOngoingTransaction.bus_addr ∨
      (((Run_Bus_Iteration_serve s).cache c).tsram k).tag = ((s.cache c).tsram k).tag := by
    intro c hc k
    rw [hline c hc k]
    by_cases h1 : (ans = true ∧ c = s.gOngoingTransaction.origid) ∧
        s.gOngoingTransaction.origid ≠ (answer_packet s).origid ∧
        k = fields_index s.gOngoingTransaction.bus_addr
    · rw [if_pos h1]
      left
      exact ⟨rfl, h1.1.2, h1.2.2⟩
    · rw [if_neg h1]
      right
      exact snooped_tag _ _ _ _
  have hqr : ∀ t, t ∈ s.queue → t.origid = s.gOngoingTransaction.origid →
      t.bus_cmd ≠ cmd_on_the_bus.flush := by
    intro t ht hto hf
    have := h.q_cur _ hr4 (Or.inl hop)
    by_cases hfl : s.gOngoingTransaction.bus_cmd = cmd_on_the_bus.flush
    · rw [if_pos hfl] at this
      obtain ⟨x, D, h1, h2, h3, h4⟩ := this
      have ht' : t ∈ x :: D := by
        rw [← h1]; exact List.mem_reverse.2 ht
      rcases List.mem_cons.1 ht' with e | e
      · rw [e] at hf; exact h3 hf
      · exact h4 t e hto
    · rw [if_neg hfl] at this
      exact this t ht hto
  refine
    { ids := ?_, tags := ?_, act_state := ?_, op_state := ?_, fin_state := ?_,
      q_ok := by rw [hq]; exact h.q_ok
      q_idle := ?_, q_cur := ?_, q_flush := ?_, cur_flush := ?_, me := ?_ }
  · intro i hi
    rw [hca i hi]
    split_ifs with h1
    · unfold bus_response
      rw [if_pos hr4, cache_response_handle_id, snooped_id, hidr, h1.2]
    · rw [snooped_id]; exact h.ids i hi
  · intro i hi k
    rcases htag i hi k with h1 | h1
    · rw [h1.1]; exact fields_tag_lt _
    · rw [h1]; exact h.tags i hi k
  · intro ha'
    rw [hon]
    refine ⟨hr4, ?_, hcaller, hcmd⟩
    rw [hstate]
    rw [hac] at ha'
    have : ¬ (ans = true ∧ (bus_response s).2.2 = true) := by
      intro hd
      rw [if_pos hd] at ha'
      exact Bool.noConfusion ha'
    rw [if_neg (fun hh => this hh.1)]
    exact hop
  · intro c hc ho
    have hcr := hcur c hc (Or.inl ho)
    rw [hstate] at ho
    rw [hac, hon]
    by_cases hd : ans = true ∧ (bus_response s).2.2 = true
    · rw [if_pos ⟨hd, hcr⟩] at ho
      exact state_of_transaction.noConfusion ho
    · rw [if_neg hd]
      exact ⟨ha, hcr.symm⟩
  · intro c hc ho
    have hcr := hcur c hc (Or.inr ho)
    rw [hstate] at ho
    rw [hac, hon]
    by_cases hd : ans = true ∧ (bus_response s).2.2 = true
    · rw [if_pos hd]
      exact ⟨rfl, hcr.symm⟩
    · rw [if_neg (fun hh => hd hh.1), hcr, hop] at ho
      exact state_of_transaction.noConfusion ho
  · intro c hc ho
    rw [hq]
    rw [hstate] at ho
    by_cases hd : (ans = true ∧ (bus_response s).2.2 = true) ∧ c = s.gOngoingTransaction.origid
    · rw [if_pos hd] at ho
      exact state_of_transaction.noConfusion ho
    · rw [if_neg hd] at ho
      exact h.q_idle c hc ho
  · intro c hc ho
    have hcr := hcur c hc ho
    rw [hq, hon, hcr]
    exact h.q_cur _ hr4 (Or.inl hop)
  · intro t ht hf h4
    rw [hq] at ht
    rcases htag t.origid h4 (fields_index t.bus_addr) with h1 | h1
    · exact absurd hf (hqr t ht h1.2.1)
    · rw [h1]; exact h.q_flush t ht hf h4
  · intro ha' hf
    rw [hon] at hf ⊢
    rcases htag _ hr4 (fields_index s.gOngoingTransaction.bus_addr) with h1 | h1
    · rw [h1.1]
    · rw [h1]; exact h.cur_flush ha hf
  · -- the owners
    have hpc : (bus_packet s).bus_cmd = s.gOngoingTransaction.bus_cmd := rfl
    have hpa : fields_index (bus_packet s).bus_addr
        = fields_index s.gOngoingTransaction.bus_addr := fields_index_set_offset _ _
    have hpt : fields_tag (bus_packet s).bus_addr
        = fields_tag s.gOngoingTransaction.bus_addr := fields_tag_set_offset _ _
    have hpo : (bus_packet s).original_caller = s.gOngoingTransaction.origid := hcaller
    have hother : ∀ d, d < NUM_OF_CORES → d ≠ s.gOngoingTransaction.origid → ∀ k,
        ((Run_Bus_Iteration_serve s).cache d).tsram k = (snooped s (bus_packet s) d).tsram k := by
      intro d hd hdr k
      rw [hline d hd k, if_neg (fun hh => hdr hh.1.2)]
    have hactive : ¬ (ans = true ∧ s.gBusAddrOffset = BLOCK_SIZE - 1) →
        (Run_Bus_Iteration_serve s).gIsBusTransactionActive = true := by
      intro hn
      rw [hac, if_neg (fun hh => hn ⟨hh.1, hdone.1 hh.2⟩)]
      exact ha
    have key : ∀ k d, d < NUM_OF_CORES → d ≠ s.gOngoingTransaction.origid →
        owned (((Run_Bus_Iteration_serve s).cache s.gOngoingTransaction.origid).tsram k) →
        owned (((Run_Bus_Iteration_serve s).cache d).tsram k) →
        (((Run_Bus_Iteration_serve s).cache s.gOngoingTransaction.origid).tsram k).tag =
          (((Run_Bus_Iteration_serve s).cache d).tsram k).tag →
        fill_in_progress (Run_Bus_Iteration_serve s) s.gOngoingTransaction.origid k := by
      intro k d hd hdr h1 h2 h3
      rw [hother d hd hdr k] at h2 h3
      have hd2 := snooped_owned _ _ _ _ h2
      rw [snooped_tag] at h3
      rw [hline _ hr4 k] at h1 h3
      by_cases hfill : (ans = true ∧ s.gOngoingTransaction.origid = s.gOngoingTransaction.origid) ∧
          s.gOngoingTransaction.origid ≠ (answer_packet s).origid ∧
          k = fields_index s.gOngoingTransaction.bus_addr
      · rw [if_pos hfill] at h1 h3
        have hk := hfill.2.2
        by_cases hoff : s.gBusAddrOffset = BLOCK_SIZE - 1
        · exfalso
          rw [if_pos hoff] at h1
          have hsh : (is_shared_line s s.gOngoingTransaction).1 = true := by
            rw [is_shared_line_fst]
            refine ⟨d, hd, ?_, ?_⟩
            · rw [h.ids d hd]; exact hdr
            · unfold is_block_valid_and_matching
              rw [← hk, ← h3]
              unfold owned at hd2
              rcases hd2 with e | e <;> simp [e]
          rw [hsh] at h1
          unfold owned at h1
          simp at h1
        · rw [if_neg hoff] at h1
          have h1' := snooped_owned _ _ _ _ h1
          by_cases hfl : s.gOngoingTransaction.bus_cmd = cmd_on_the_bus.flush
          · exfalso
            have hcf := h.cur_flush ha hfl
            rw [← hk] at hcf
            have := h.me k _ d hr4 hd (Ne.symm hdr) h1' hd2 (by rw [hcf]; exact h3)
            rcases this with e | e
            · exact e.2.1 hfl
            · exact e.2.1 hfl
          · exact ⟨hactive (fun hh => hoff hh.2), by rw [hon]; exact hfl, by rw [hon],
              by rw [hon]; exact hk.symm⟩
      · rw [if_neg hfill] at h1 h3
        have h1' := snooped_owned _ _ _ _ h1
        rw [snooped_tag] at h3
        have hfip : fill_in_progress s s.gOngoingTransaction.origid k := by
          rcases h.me k _ d hr4 hd (Ne.symm hdr) h1' hd2 h3 with e | e
          · exact e
          · exact absurd e.2.2.1.symm hdr
        obtain ⟨_, hnf, _, hk⟩ := hfip
        by_cases hdn : ans = true ∧ s.gBusAddrOffset = BLOCK_SIZE - 1
        · exfalso
          have horig : (answer_packet s).origid = s.gOngoingTransaction.origid := by
            by_contra hne
            exact hfill ⟨⟨hdn.1, rfl⟩, Ne.symm hne, hk.symm⟩
          rw [answer_packet_origid] at horig
          have hF : (snoop_seen s (bus_packet s) NUM_OF_CORES).bus_cmd
              = cmd_on_the_bus.flush := by
            by_contra hne
            rw [if_neg hne] at horig
            rw [← horig] at hr4
            exact absurd hr4 (by decide)
          rw [if_pos hF] at horig
          obtain ⟨o, ho4, hone, hseen, hsup⟩ := first_supplier s (bus_packet s) hnf hF
          obtain ⟨j, hj, hjs, hjo⟩ := last_supplier s (bus_packet s) NUM_OF_CORES hnf hF
          rw [h.ids j hj] at hjo
          rw [horig] at hjo
          subst hjo
          have hrt := hjs.1.2.1
          rw [snoop_seen_addr, hpa, hpt, hk] at hrt
          rw [h.ids o ho4, hpo] at hone
          have hot := hsup.1.2.1
          have hom := hsup.2.1
          rw [hpa, hk] at hom
          rw [hpa, hpt, hk] at hot
          by_cases hdo : d = o
          · subst hdo
            have := snooped_supplier s (bus_packet s) d hseen hsup hnf hdn.2
            rw [hpa, hk] at this
            exact this h2
          · have := h.me k o d ho4 hd (Ne.symm hdo) (Or.inl hom) hd2
              (by rw [hot, ← h3, hrt])
            rcases this with e | e
            · exact hone e.2.2.1.symm
            · exact hdr e.2.2.1.symm
        · exact ⟨hactive hdn, by rw [hon]; exact hnf, by rw [hon], by rw [hon]; exact hk⟩
    intro k c d hc hd hcd h1 h2 h3
    by_cases hcr : c = s.gOngoingTransaction.origid
    · left
      subst hcr
      exact key k d hd (Ne.symm hcd) h1 h2 h3
    · by_cases hdr : d = s.gOngoingTransaction.origid
      · right
        subst hdr
        exact key k c hc hcd h2 h1 h3.symm
      · exfalso
        rw [hother c hc hcr k] at h1 h3
        rw [hother d hd hdr k] at h2 h3
        rw [snooped_tag, snooped_tag] at h3
        rcases h.me k c d hc hd hcd (snooped_owned _ _ _ _ h1) (snooped_owned _ _ _ _ h2) h3
          with e | e
        · exact hcr e.2.2.1.symm
        · exact hdr e.2.2.1.symm

/-! ## The bus tick and the invariant -/

/-- With no transfer active, after the first statements of a tick no core is in state
`operation` or `finally`. -/
theorem Inv.begin_state {s : Sim} (h : Inv s) (hna : s.gIsBusTransactionActive = false)
    (c : Nat) (hc : c < NUM_OF_CORES) :
    (tick_begin s).gTransactionStatePerCore c ≠ state_of_transaction.operation ∧
    (tick_begin s).gTransactionStatePerCore c ≠ state_of_transaction.finally_ := by
  rw [tick_begin_state]
  by_cases hf : s.gTransactionStatePerCore c = state_of_transaction.finally_
  · have := (h.fin_state c hc hf).2
    rw [if_pos ⟨this.symm, hc, hf⟩]
    exact ⟨by decide, by decide⟩
  · rw [if_neg (fun hh => hf hh.2.2)]
    refine ⟨fun ho => ?_, hf⟩
    have := (h.op_state c hc ho).1
    rw [hna] at this
    exact Bool.noConfusion this

/-- A core that is idle after the first statements of a tick has nothing in the queue, or
its `Flush` has just ended and its read command is the next to be served. -/
theorem Inv.begin_idle {s : Sim} (h : Inv s) (c : Nat) (hc : c < NUM_OF_CORES)
    (hi : (tick_begin s).gTransactionStatePerCore c = state_of_transaction.idle) :
    no_packet c s.queue ∨
      ∃ x D, s.queue.reverse = x :: D ∧ x.origid = c ∧ no_packet c D := by
  rw [tick_begin_state] at hi
  by_cases hf : c = s.gOngoingTransaction.origid ∧ c < NUM_OF_CORES ∧
      s.gTransactionStatePerCore c = state_of_transaction.finally_
  · have := h.q_cur c hc (Or.inr hf.2.2)
    by_cases hfl : s.gOngoingTransaction.bus_cmd = cmd_on_the_bus.flush
    · rw [if_pos hfl] at this
      obtain ⟨x, D, h1, h2, _, h4⟩ := this
      exact Or.inr ⟨x, D, h1, h2, h4⟩
    · rw [if_neg hfl] at this
      exact Or.inl this
  · rw [if_neg hf] at hi
    exact Or.inl (h.q_idle c hc hi)

/-- A tick that starts no transfer: the caches stay, part of the queue stays. -/
theorem Inv.rest {s s1 : Sim} (h : Inv s) (hna : s.gIsBusTransactionActive = false)
    (hca : s1.cache = s.cache) (ha1 : s1.gIsBusTransactionActive = false)
    (hst : s1.gTransactionStatePerCore = (tick_begin s).gTransactionStatePerCore)
    (hb : batches s1.queue.reverse) (hsub : ∀ x, x ∈ s1.queue → x ∈ s.queue)
    (hidle : ∀ c, c < NUM_OF_CORES →
      (tick_begin s).gTransactionStatePerCore c = state_of_transaction.idle →
      no_packet c s1.queue) : Inv s1 where
  ids := by rw [hca]; exact h.ids
  tags := by rw [hca]; exact h.tags
  act_state := fun ha => by rw [ha1] at ha; exact Bool.noConfusion ha
  op_state := fun c hc ho => by
    rw [hst] at ho
    exact absurd ho (h.begin_state hna c hc).1
  fin_state := fun c hc ho => by
    rw [hst] at ho
    exact absurd ho (h.begin_state hna c hc).2
  q_ok := hb
  q_idle := fun c hc ho => by
    rw [hst] at ho
    exact hidle c hc ho
  q_cur := fun c hc ho => by
    rw [hst] at ho
    rcases ho with ho | ho
    · exact absurd ho (h.begin_state hna c hc).1
    · exact absurd ho (h.begin_state hna c hc).2
  q_flush := fun t ht hf h4 => by
    rw [hca]
    exact h.q_flush t (hsub t ht) hf h4
  cur_flush := fun ha => by rw [ha1] at ha; exact Bool.noConfusion ha
  me := fun k c d hc hd hcd h1 h2 h3 => by
    rw [hca] at h1 h2 h3
    exfalso
    rcases h.me k c d hc hd hcd h1 h2 h3 with e | e
    · have := e.1; rw [hna] at this; exact Bool.noConfusion this
    · have := e.1; rw [hna] at this; exact Bool.noConfusion this

/-- The globals after a transaction has been dequeued satisfy the invariant. -/
theorem Inv.at_start {s : Sim} (h : Inv s) (hna : s.gIsBusTransactionActive = false)
    (q : List bus_transaction) (t : bus_transaction) (hq : s.queue = q ++ [t])
    (hne : t.origid ≠ invalid_caller) : Inv (tick_start s t q) := by
  have hrev : s.queue.reverse = t :: q.reverse := by
    rw [hq, List.reverse_append]; rfl
  have hb := h.q_ok
  rw [hrev] at hb
  obtain ⟨hb1, hb2, hb3⟩ := hb
  have hr4 : t.origid < NUM_OF_CORES := by
    rcases hb1 with e | e
    · exact absurd e hne
    · exact e
  obtain ⟨hcmd, hb2'⟩ := hb2 hr4
  have hstate : ∀ c, (tick_start s t q).gTransactionStatePerCore c =
      if c = t.origid then state_of_transaction.operation
      else (tick_begin s).gTransactionStatePerCore c := by
    intro c
    show state_set _ _ _ c = _
    unfold state_set
    rw [if_pos hr4]
    by_cases hc : c = t.origid
    · rw [if_pos hc, hc, Function.update_same]
    · rw [if_neg hc, Function.update_noteq hc]
  have hcur : ∀ c, c < NUM_OF_CORES →
      ((tick_start s t q).gTransactionStatePerCore c = state_of_transaction.operation ∨
        (tick_start s t q).gTransactionStatePerCore c = state_of_transaction.finally_) →
      c = t.origid := by
    intro c hc ho
    rw [hstate] at ho
    by_contra hcr
    rw [if_neg hcr] at ho
    rcases ho with ho | ho
    · exact (h.begin_state hna c hc).1 ho
    · exact (h.begin_state hna c hc).2 ho
  have hmem : ∀ x, x ∈ q → x ∈ s.queue := by
    intro x hx
    rw [hq]
    exact List.mem_append_left _ hx
  refine
    { ids := ?_, tags := ?_, act_state := ?_, op_state := ?_, fin_state := ?_,
      q_ok := hb3, q_idle := ?_, q_cur := ?_, q_flush := ?_, cur_flush := ?_, me := ?_ }
  · show ∀ i, i < NUM_OF_CORES → ((tick_begin s).cache i).id = i
    rw [tick_begin_cache]; exact h.ids
  · show ∀ i, i < NUM_OF_CORES → ∀ k, (((tick_begin s).cache i).tsram k).tag < 4096
    rw [tick_begin_cache]; exact h.tags
  · intro _
    refine ⟨hr4, ?_, rfl, hcmd⟩
    rw [hstate]
    exact if_pos rfl
  · intro c hc ho
    exact ⟨rfl, (hcur c hc (Or.inl ho)).symm⟩
  · intro c hc ho
    have := hcur c hc (Or.inr ho)
    rw [hstate, if_pos this] at ho
    exact state_of_transaction.noConfusion ho
  · intro c hc ho
    rw [hstate] at ho
    by_cases hcr : c = t.origid
    · rw [if_pos hcr] at ho
      exact state_of_transaction.noConfusion ho
    · rw [if_neg hcr] at ho
      show no_packet c q
      rcases h.begin_idle c hc ho with e | ⟨x, D, e1, e2, _⟩
      · exact fun y hy => e y (hmem y hy)
      · rw [hrev] at e1
        injection e1 with e3 _
        rw [← e3] at e2
        exact absurd e2.symm hcr
  · intro c hc ho
    have hcr := hcur c hc ho
    subst hcr
    show if t.bus_cmd = cmd_on_the_bus.flush then
        ∃ x D, q.reverse = x :: D ∧ x.origid = t.origid ∧
          x.bus_cmd ≠ cmd_on_the_bus.flush ∧ no_packet t.origid D
      else no_packet t.origid q
    by_cases hf : t.bus_cmd = cmd_on_the_bus.flush
    · rw [if_pos hf] at hb2' ⊢
      obtain ⟨x, hx, hx1, hx2⟩ := hb2'
      cases hD : q.reverse with
      | nil => rw [hD] at hx; simp at hx
      | cons y D =>
        rw [hD] at hx hb3
        simp only [List.head?_cons, Option.some.injEq] at hx
        subst hx
        refine ⟨y, D, rfl, hx1, hx2, ?_⟩
        have := (hb3.2.1 (hx1 ▸ hr4)).2
        rw [if_neg hx2, hx1] at this
        exact this
    · rw [if_neg hf] at hb2' ⊢
      exact no_packet_reverse.1 hb2'
  · intro x hx hf h4
    show (((tick_begin s).cache x.origid).tsram _).tag = _
    rw [tick_begin_cache]
    exact h.q_flush x (hmem x hx) hf h4
  · intro _ hf
    show (((tick_begin s).cache t.origid).tsram _).tag = _
    rw [tick_begin_cache]
    refine h.q_flush t ?_ hf hr4
    rw [hq]
    exact List.mem_append_right _ (List.mem_singleton_self t)
  · intro k c d hc hd hcd h1 h2 h3
    change owned (((tick_begin s).cache c).tsram k) at h1
    change owned (((tick_begin s).cache d).tsram k) at h2
    change (((tick_begin s).cache c).tsram k).tag = (((tick_begin s).cache d).tsram k).tag at h3
    rw [tick_begin_cache] at h1 h2 h3
    exfalso
    rcases h.me k c d hc hd hcd h1 h2 h3 with e | e
    · have := e.1; rw [hna] at this; exact Bool.noConfusion this
    · have := e.1; rw [hna] at this; exact Bool.noConfusion this

/-- A bus tick keeps the invariant. -/
theorem Inv.bus_tick {s : Sim} (h : Inv s) : Inv (Run_Bus_Iteration s) := by
  by_cases ha : s.gIsBusTransactionActive = true
  · rw [Run_Bus_Iteration_active s ha]
    obtain ⟨hr4, hop, _, _⟩ := h.act_state ha
    have hb : Inv (tick_begin s) := by
      refine h.congr_lines ?_ ?_ ?_ (tick_begin_active s) (tick_begin_ongoing s) ?_
        (tick_begin_queue s)
      · intro i; rw [tick_begin_cache]
      · intro i k; rw [tick_begin_cache]
      · intro i k; rw [tick_begin_cache]; exact id
      · funext c
        rw [tick_begin_state]
        by_cases hc : c = s.gOngoingTransaction.origid ∧ c < NUM_OF_CORES ∧
            s.gTransactionStatePerCore c = state_of_transaction.finally_
        · obtain ⟨e1, _, e3⟩ := hc
          rw [e1, hop] at e3
          exact state_of_transaction.noConfusion e3
        · rw [if_neg hc]
    exact hb.serve (by rw [tick_begin_active]; exact ha)
  · have hna : s.gIsBusTransactionActive = false := by
      cases hh : s.gIsBusTransactionActive
      · rfl
      · exact absurd hh ha
    rcases List.eq_nil_or_concat s.queue with hq | ⟨q, t, hq⟩
    · rw [Run_Bus_Iteration_idle s hna hq]
      refine h.rest hna (tick_begin_cache s) ((tick_begin_active s).trans hna) rfl ?_ ?_ ?_
      · show batches (tick_begin s).queue.reverse
        rw [tick_begin_queue, hq]
        trivial
      · intro x hx
        change x ∈ (tick_begin s).queue at hx
        rw [tick_begin_queue] at hx
        exact hx
      · intro c _ _
        show no_packet c (tick_begin s).queue
        rw [tick_begin_queue, hq]
        exact no_packet_nil c
    · have hq' : s.queue = q ++ [t] := by rw [hq]; simp
      have hrev : s.queue.reverse = t :: q.reverse := by
        rw [hq', List.reverse_append]; rfl
      by_cases ht : t.origid = invalid_caller
      · rw [Run_Bus_Iteration_delay s q t hna hq' ht]
        refine h.rest hna (tick_begin_cache s) ((tick_begin_active s).trans hna) rfl ?_ ?_ ?_
        · show batches q.reverse
          have := h.q_ok
          rw [hrev] at this
          exact batches_tail this
        · intro x hx
          change x ∈ q at hx
          rw [hq']
          exact List.mem_append_left _ hx
        · intro c hc hi
          show no_packet c q
          rcases h.begin_idle c hc hi with e | ⟨x, D, e1, e2, _⟩
          · intro y hy
            exact e y (by rw [hq']; exact List.mem_append_left _ hy)
          · rw [hrev] at e1
            injection e1 with e3 _
            rw [← e3, ht] at e2
            rw [← e2] at hc
            exact absurd hc (by decide)
      · rw [Run_Bus_Iteration_start s q t hna hq' ht]
        exact (h.at_start hna q t hq' ht).serve rfl

/-- Every event keeps the invariant. -/
theorem Inv.step {s : Sim} (h : Inv s) (e : Event) (he : e.valid) : Inv (s.step e) := by
  cases e with
  | tick => exact h.bus_tick
  | read c a => exact h.read c a 0 he.1
  | write c a d => exact h.write c a d he.1

/-- The invariant holds at every cycle boundary. -/
theorem Inv.of_reachable {s : Sim} (h : Reachable s) : Inv s := by
  induction h with
  | init memin => exact Inv.init memin
  | step s e _ he ih => exact ih.step e he

/-! ## C2: one owner per line -/

theorem holds_ME_owned {s : Sim} {c tag index : Nat} (h : holds_ME s c tag index) :
    owned ((s.cache c).tsram index) ∧ ((s.cache c).tsram index).tag = tag := by
  unfold holds_ME holds at h
  unfold owned
  rcases h with h | h <;> rw [h] <;> simp

/-- C2, amended.  In every state reachable at a cycle boundary from the initial state by bus
ticks and read and write requests of the four cores, if two distinct caches hold the same
line (tag and index) in `M` or `E`, then a `BusRd` or `BusRdX` for an address of that index
is being served and one of the two caches is its originator.  So among the caches that are
not the originator of a fill in progress at the index, at most one holds the line in `M` or
`E`; with no transfer in progress at most one of the four caches does. -/
theorem C2_one_owner_outside_fill (s : Sim) (h : Reachable s) (tag index c d : Nat)
    (hc : c < NUM_OF_CORES) (hd : d < NUM_OF_CORES) (hcd : c ≠ d)
    (h1 : holds_ME s c tag index) (h2 : holds_ME s d tag index) :
    (fill_in_progress s c index ∨ fill_in_progress s d index) ∧
    (s.gOngoingTransaction.bus_cmd = cmd_on_the_bus.busRd ∨
      s.gOngoingTransaction.bus_cmd = cmd_on_the_bus.busRdX) := by
  obtain ⟨o1, t1⟩ := holds_ME_owned h1
  obtain ⟨o2, t2⟩ := holds_ME_owned h2
  have hinv := Inv.of_reachable h
  have hme := hinv.me index c d hc hd hcd o1 o2 (t1.trans t2.symm)
  refine ⟨hme, ?_⟩
  have hact : s.gIsBusTransactionActive = true ∧
      s.gOngoingTransaction.bus_cmd ≠ cmd_on_the_bus.flush := by
    rcases hme with e | e <;> exact ⟨e.1, e.2.1⟩
  have hn := (hinv.act_state hact.1).2.2.2
  have hf := hact.2
  cases hcmd : s.gOngoingTransaction.bus_cmd <;> simp_all

/-- The witness of C2: two ticks after core 1's read miss in `run_clean_fill` cache 0 holds
line `(0, 16)` in `M` and cache 1 holds it in `E`, and the `BusRd` of core 1 for that index is
being served. -/
theorem C2_one_owner_outside_fill_witness :
    (fill_in_progress (after_clean_fill 2) 0 16 ∨ fill_in_progress (after_clean_fill 2) 1 16) ∧
    ((after_clean_fill 2).gOngoingTransaction.bus_cmd = cmd_on_the_bus.busRd ∨
      (after_clean_fill 2).gOngoingTransaction.bus_cmd = cmd_on_the_bus.busRdX) :=
  C2_one_owner_outside_fill (after_clean_fill 2)
    (Reachable.run_events (Reachable.init _) _ (by decide!)) 0 16 0 1
    (by decide) (by decide) (by decide) (by decide!) (by decide!)

/-! ## The requests of the core: hits, misses and the busy cache -/

theorem AddTransaction_to_bus_queue (s : Sim) (t : bus_transaction) :
    (AddTransaction_to_bus s t).queue = t :: s.queue := by
  unfold AddTransaction_to_bus queue_enqueue
  by_cases h : t.origid = invalid_caller <;> simp [h]

theorem AddTransaction_to_bus_cache (s : Sim) (t : bus_transaction) :
    (AddTransaction_to_bus s t).cache = s.cache := by
  unfold AddTransaction_to_bus queue_enqueue
  by_cases h : t.origid = invalid_caller <;> simp [h]

/-- C13. A write by a cache that is not busy, on a line in `M` or `E` with the tag of the
address, is done: the word is stored at `index * 4 + offset`, the line becomes `M`, every other
word, every tag and every other state of the cache stay, and the bus queue is unchanged. -/
theorem C13_write_hit_owned (s : Sim) (w A V : Nat)
    (hb : is_cache_busy s w = false)
    (ht : ((s.cache w).tsram (fields_index A)).tag = fields_tag A)
    (hm : ((s.cache w).tsram (fields_index A)).mesi = MESIState.MESI_STATE_EXCLUSIVE ∨
      ((s.cache w).tsram (fields_index A)).mesi = MESIState.MESI_STATE_MODIFIED) :
    (Write_Data_to_Cache s w A V).2 = true ∧
    ((Write_Data_to_Cache s w A V).1.cache w).dram (fields_index A * 4 + fields_offset A) = V ∧
    (((Write_Data_to_Cache s w A V).1.cache w).tsram (fields_index A)).mesi
      = MESIState.MESI_STATE_MODIFIED ∧
    (∀ j, j ≠ fields_index A * 4 + fields_offset A →
      ((Write_Data_to_Cache s w A V).1.cache w).dram j = (s.cache w).dram j) ∧
    (∀ i, (((Write_Data_to_Cache s w A V).1.cache w).tsram i).tag = ((s.cache w).tsram i).tag) ∧
    (∀ i, i ≠ fields_index A →
      (((Write_Data_to_Cache s w A V).1.cache w).tsram i).mesi = ((s.cache w).tsram i).mesi) ∧
    (Write_Data_to_Cache s w A V).1.queue = s.queue := by
  have hv : is_block_valid_and_matching ((s.cache w).tsram (fields_index A)) (fields_tag A)
      = true := by
    unfold is_block_valid_and_matching
    rcases hm with hm | hm <;> simp [ht, hm]
  have hns : ((s.cache w).tsram (fields_index A)).mesi ≠ MESIState.MESI_STATE_SHARED := by
    rcases hm with hm | hm <;> rw [hm] <;> decide
  unfold Write_Data_to_Cache
  simp only [hb, Bool.false_eq_true, if_false, hv, if_true, hns]
  simp only [Function.update_same, update_cache_write_dram, update_cache_write_tsram]
  refine ⟨trivial, ?_, ?_, ?_, ?_, ?_, trivial⟩
  · simp [BLOCK_SIZE]
  · simp
  · intro j hj
    simp [BLOCK_SIZE, Function.update_noteq hj]
  · intro i
    by_cases hi : i = fields_index A
    · subst hi
      simp
    · simp [Function.update_noteq hi]
  · intro i hi
    simp [Function.update_noteq hi]

theorem C13_write_hit_owned_witness :
    (Write_Data_to_Cache (one_line MESIState.MESI_STATE_EXCLUSIVE) 0 0x41 7).2 = true ∧
    ((Write_Data_to_Cache (one_line MESIState.MESI_STATE_EXCLUSIVE) 0 0x41 7).1.cache 0).dram
      (fields_index 0x41 * 4 + fields_offset 0x41) = 7 :=
  have h := C13_write_hit_owned (one_line MESIState.MESI_STATE_EXCLUSIVE) 0 0x41 7
    (by decide) (by decide) (Or.inl (by decide))
  ⟨h.1, h.2.1⟩

theorem handle_share_state_fields (s : Sim) (c A : Nat) :
    (handle_share_state s c A).queue =
      delay_transaction :: request_packet (s.cache c).id cmd_on_the_bus.busRdX A :: s.queue ∧
    (handle_share_state s c A).cache =
      Function.update s.cache c (bump_write_misses (s.cache c)) := by
  unfold handle_share_state handle_transaction
  simp only [AddTransaction_to_bus_queue, AddTransaction_to_bus_cache]
  exact ⟨rfl, trivial⟩

/-- C14. A write by a cache that is not busy, on a line in `S` with the tag of the address, is
not done: the `BusRdX` of the address from this cache and then the delay transaction of the
invalid caller join the bus queue behind what was queued, `write_misses` (a 32-bit counter)
grows by one, and the words and the lines of the cache are unchanged. -/
theorem C14_write_hit_shared (s : Sim) (w A V : Nat)
    (hb : is_cache_busy s w = false)
    (ht : ((s.cache w).tsram (fields_index A)).tag = fields_tag A)
    (hm : ((s.cache w).tsram (fields_index A)).mesi = MESIState.MESI_STATE_SHARED) :
    (Write_Data_to_Cache s w A V).2 = false ∧
    (Write_Data_to_Cache s w A V).1.queue.reverse = s.queue.reverse ++
      [{ original_caller := 0, origid := (s.cache w).id, bus_cmd := cmd_on_the_bus.busRdX,
         bus_addr := A, bus_data := 0, bus_shared := false },
       { original_caller := 0, origid := invalid_caller, bus_cmd := cmd_on_the_bus.no_cmd,
         bus_addr := 0, bus_data := 0, bus_shared := false }] ∧
    ((Write_Data_to_Cache s w A V).1.cache w).tracking.write_misses
      = ((s.cache w).tracking.write_misses + 1) % 2 ^ 32 ∧
    ((Write_Data_to_Cache s w A V).1.cache w).dram = (s.cache w).dram ∧
    ((Write_Data_to_Cache s w A V).1.cache w).tsram = (s.cache w).tsram := by
  have hv : is_block_valid_and_matching ((s.cache w).tsram (fields_index A)) (fields_tag A)
      = true := by
    unfold is_block_valid_and_matching
    simp [ht, hm]
  unfold Write_Data_to_Cache
  simp only [hb, Bool.false_eq_true, if_false, hv, if_true, hm]
  obtain ⟨hq, hc⟩ := handle_share_state_fields s w A
  refine ⟨trivial, ?_, ?_, ?_, ?_⟩
  · show (handle_share_state s w A).queue.reverse = _
    rw [hq]
    simp [delay_transaction, request_packet]
  · show ((handle_share_state s w A).cache w).tracking.write_misses = _
    rw [hc, Function.update_same]
    rfl
  · show ((handle_share_state s w A).cache w).dram = _
    rw [hc, Function.update_same]
    rfl
  · show ((handle_share_state s w A).cache w).tsram = _
    rw [hc, Function.update_same]
    rfl

theorem C14_write_hit_shared_witness :
    (Write_Data_to_Cache (one_line MESIState.MESI_STATE_SHARED) 0 0x41 7).2 = false ∧
    ((Write_Data_to_Cache (one_line MESIState.MESI_STATE_SHARED) 0 0x41 7).1.cache 0
      ).tracking.write_misses = ((((one_line MESIState.MESI_STATE_SHARED).cache 0
      ).tracking.write_misses + 1) % 2 ^ 32) :=
  have h := C14_write_hit_shared (one_line MESIState.MESI_STATE_SHARED) 0 0x41 7
    (by decide) (by decide) (by decide)
  ⟨h.1, h.2.2.1⟩

/-- What a miss queues: `handle_dirty_block` and then `handle_transaction`, for any cache. -/
theorem handle_miss_queue (s : Sim) (c a : Nat) (cmd : cmd_on_the_bus) :
    (handle_transaction (handle_dirty_block s c (fields_index a) a) c a cmd).cache = s.cache ∧
    (handle_transaction (handle_dirty_block s c (fields_index a) a) c a cmd).queue.reverse =
      s.queue.reverse ++
        ((if ((s.cache c).tsram (fields_index a)).mesi = MESIState.MESI_STATE_MODIFIED then
          [evict_packet s c a] else []) ++ [request_packet (s.cache c).id cmd a]) := by
  unfold handle_transaction handle_dirty_block
  by_cases hM : ((s.cache c).tsram (fields_index a)).mesi = MESIState.MESI_STATE_MODIFIED
  · simp [hM, AddTransaction_to_bus_queue, AddTransaction_to_bus_cache, evict_packet,
      request_packet]
  · simp [hM, AddTransaction_to_bus_queue, AddTransaction_to_bus_cache, request_packet]

/-- C15. A read or write by a cache that is not busy misses (the line at the index is invalid
or has another tag).  The call is not done and leaves `*data`, the lines and the words of the
cache as they were; the miss counter of the request (32 bits) grows by one; when the resident
line is `M` with tag `T`, the `Flush` of `(T << 8) | (index << 2)`, whose offset bits are zero,
and then the `BusRd` (read) or `BusRdX` (write) of the requested address join the queue; when
it is not `M`, only the `BusRd` or `BusRdX` does. -/
theorem C15_miss_requests (s : Sim) (c A d V : Nat)
    (hb : is_cache_busy s c = false)
    (hmiss : is_block_valid_and_matching ((s.cache c).tsram (fields_index A)) (fields_tag A)
      = false) :
    ((Read_Data_from_Cache s c A d).2 = (false, d) ∧
      (Write_Data_to_Cache s c A V).2 = false) ∧
    ((evict_packet s c A).bus_cmd = cmd_on_the_bus.flush ∧
      (evict_packet s c A).bus_addr =
        (((s.cache c).tsram (fields_index A)).tag <<< 8) ||| (fields_index A <<< 2) ∧
      fields_offset (evict_packet s c A).bus_addr = 0) ∧
    (((s.cache c).tsram (fields_index A)).mesi = MESIState.MESI_STATE_MODIFIED →
      (Read_Data_from_Cache s c A d).1.queue.reverse = s.queue.reverse ++
        [evict_packet s c A, request_packet (s.cache c).id cmd_on_the_bus.busRd A] ∧
      (Write_Data_to_Cache s c A V).1.queue.reverse = s.queue.reverse ++
        [evict_packet s c A, request_packet (s.cache c).id cmd_on_the_bus.busRdX A]) ∧
    (((s.cache c).tsram (fields_index A)).mesi ≠ MESIState.MESI_STATE_MODIFIED →
      (Read_Data_from_Cache s c A d).1.queue.reverse = s.queue.reverse ++
        [request_packet (s.cache c).id cmd_on_the_bus.busRd A] ∧
      (Write_Data_to_Cache s c A V).1.queue.reverse = s.queue.reverse ++
        [request_packet (s.cache c).id cmd_on_the_bus.busRdX A]) ∧
    (((Read_Data_from_Cache s c A d).1.cache c).tracking.read_misses
        = ((s.cache c).tracking.read_misses + 1) % 2 ^ 32 ∧
      ((Write_Data_to_Cache s c A V).1.cache c).tracking.write_misses
        = ((s.cache c).tracking.write_misses + 1) % 2 ^ 32) ∧
    (((Read_Data_from_Cache s c A d).1.cache c).tsram = (s.cache c).tsram ∧
      ((Read_Data_from_Cache s c A d).1.cache c).dram = (s.cache c).dram ∧
      ((Write_Data_to_Cache s c A V).1.cache c).tsram = (s.cache c).tsram ∧
      ((Write_Data_to_Cache s c A V).1.cache c).dram = (s.cache c).dram) := by
  have hR : Read_Data_from_Cache s c A d =
      (handle_transaction (handle_dirty_block
        { s with cache := Function.update s.cache c (bump_read_misses (s.cache c)),
                 miss_occurred_read := true } c (fields_index A) A) c A cmd_on_the_bus.busRd,
        false, d) := by
    unfold Read_Data_from_Cache
    simp only [hb, hmiss, Bool.false_eq_true, if_false]
  have hW : Write_Data_to_Cache s c A V =
      (handle_transaction (handle_dirty_block
        { s with cache := Function.update s.cache c (bump_write_misses (s.cache c)),
                 miss_occurred_write := true } c (fields_index A) A) c A cmd_on_the_bus.busRdX,
        false) := by
    unfold Write_Data_to_Cache
    simp only [hb, hmiss, Bool.false_eq_true, if_false]
  obtain ⟨hRc, hRq⟩ := handle_miss_queue
    { s with cache := Function.update s.cache c (bump_read_misses (s.cache c)),
             miss_occurred_read := true } c A cmd_on_the_bus.busRd
  obtain ⟨hWc, hWq⟩ := handle_miss_queue
    { s with cache := Function.update s.cache c (bump_write_misses (s.cache c)),
             miss_occurred_write := true } c A cmd_on_the_bus.busRdX
  rw [hR, hW]
  simp only [Function.update_same] at hRc hRq hWc hWq
  have hoff : fields_offset (evict_packet s c A).bus_addr = 0 := by
    show fields_offset ((((s.cache c).tsram (fields_index A)).tag <<< 8) |||
      (fields_index A <<< 2)) = 0
    rw [evict_addr_eq _ _ (fields_index_lt A)]
    unfold fields_offset
    omega
  refine ⟨⟨rfl, rfl⟩, ⟨rfl, rfl, hoff⟩, ?_, ?_, ⟨?_, ?_⟩, ?_, ?_, ?_, ?_⟩
  · intro hM
    refine ⟨?_, ?_⟩
    · rw [hRq]
      simp [bump_read_misses, hM, evict_packet]
    · rw [hWq]
      simp [bump_write_misses, hM, evict_packet]
  · intro hM
    refine ⟨?_, ?_⟩
    · rw [hRq]
      simp [bump_read_misses, hM]
    · rw [hWq]
      simp [bump_write_misses, hM]
  · simp only [hRc, Function.update_same]
    rfl
  · simp only [hWc, Function.update_same]
    rfl
  · simp only [hRc, Function.update_same]
    rfl
  · simp only [hRc, Function.update_same]
    rfl
  · simp only [hWc, Function.update_same]
    rfl
  · simp only [hWc, Function.update_same]
    rfl

theorem C15_miss_requests_witness :
    (Read_Data_from_Cache (one_line MESIState.MESI_STATE_MODIFIED) 0 0x141 9).1.queue.reverse =
      (one_line MESIState.MESI_STATE_MODIFIED).queue.reverse ++
        [evict_packet (one_line MESIState.MESI_STATE_MODIFIED) 0 0x141,
         request_packet ((one_line MESIState.MESI_STATE_MODIFIED).cache 0).id
           cmd_on_the_bus.busRd 0x141] :=
  ((C15_miss_requests (one_line MESIState.MESI_STATE_MODIFIED) 0 0x141 9 7
    (by decide) (by decide)).2.2.1 (by decide)).1

/-- C16. While the core of a cache is not idle on the bus (its transaction state is `wait_cmd`,
`operation` or `finally`), `read` and `write` are not done and change nothing: the globals (the
counters, words and lines of every cache, the bus queue) and `*data` are as before the call. -/
theorem C16_busy_rejection (s : Sim) (c A d V : Nat)
    (hc : (s.cache c).id < NUM_OF_CORES)
    (hst : s.gTransactionStatePerCore (s.cache c).id ≠ state_of_transaction.idle) :
    Read_Data_from_Cache s c A d = (s, false, d) ∧
    Write_Data_to_Cache s c A V = (s, false) := by
  have hb : is_cache_busy s c = true := by
    unfold is_cache_busy IsBusInTransaction IsBusWaitForTransaction state_get
    rw [if_pos hc]
    simp [hst]
  unfold Read_Data_from_Cache Write_Data_to_Cache
  simp [hb]

theorem C16_busy_rejection_witness :
    Read_Data_from_Cache C9_example 0 0x80 5 = (C9_example, false, 5) ∧
    Write_Data_to_Cache C9_example 0 0x80 6 = (C9_example, false) :=
  C16_busy_rejection C9_example 0 0x80 5 6 (by decide) (by decide)

/-! ## The flag `direct_transaction` of the memory callback -/

/-- The serving part of a bus tick is the call of the memory on `serve_memory_call` followed by
`serve_after_memory`; without a call only the first-access flag is cleared. -/
theorem Run_Bus_Iteration_serve_eq (s : Sim) :
    Run_Bus_Iteration_serve s =
      match serve_memory_call s with
      | none => { s with is_first_access_shared := false }
      | some a => serve_after_memory (bus_transaction_handler a.1 a.2.1 a.2.2) := by
  unfold Run_Bus_Iteration_serve serve_memory_call serve_after_memory
  by_cases h : ((is_shared_line s s.gOngoingTransaction).2 && s.is_first_access_shared) = true
  · simp only [h, if_true]
  · simp only [h, Bool.false_eq_true, if_false]

/-- The flag that the serving part passes to the memory is raised exactly when a cache other
than the originator has its line at the index of the address in `M`, whatever its tag. -/
theorem serve_memory_call_flag (s : Sim) (a : Sim × bus_transaction × Bool)
    (h : serve_memory_call s = some a) :
    a.2.2 = true ↔
      ∃ i, i < NUM_OF_CORES ∧ ((s.cache i).id ≠ s.gOngoingTransaction.origid ∧
        ((s.cache i).tsram (fields_index s.gOngoingTransaction.bus_addr)).mesi
          = MESIState.MESI_STATE_MODIFIED) := by
  unfold serve_memory_call at h
  by_cases hd : ((is_shared_line s s.gOngoingTransaction).2 && s.is_first_access_shared) = true
  · simp [hd] at h
  · simp only [hd, Bool.false_eq_true, if_false, Option.some.injEq] at h
    rw [← h]
    exact is_shared_line_snd s s.gOngoingTransaction

/-- C11, the failing run.  Cache 0 holds block `0x40` (tag 0, index 16) in `M` and core 1 has
asked for `0x141` (tag 1, index 16), a block that no cache holds.  The second bus tick after
the request serves core 1's `BusRd` and passes `direct = true` to the memory; four ticks later
cache 1 holds the block in `E`, filled from memory without the 16 cycles of latency. -/
theorem C11_failing_run :
    Reachable (after_read_behind_owner 1) ∧
    served_transaction (after_read_behind_owner 1) =
      some { original_caller := 1, origid := 1, bus_cmd := cmd_on_the_bus.busRd,
             bus_addr := 0x141, bus_data := 0, bus_shared := false } ∧
    direct_flag (after_read_behind_owner 1) = some true ∧
    (∀ i, i < NUM_OF_CORES →
      ¬ holds (after_read_behind_owner 1) i (fields_tag 0x141) (fields_index 0x141)
        MESIState.MESI_STATE_MODIFIED) ∧
    holds (after_read_behind_owner 1) 0 0 16 MESIState.MESI_STATE_MODIFIED ∧
    holds (after_read_behind_owner 5) 1 1 16 MESIState.MESI_STATE_EXCLUSIVE :=
  ⟨Reachable.run_events (Reachable.init _) _ (by decide!), by decide!, by decide!, by decide!,
    by decide!, by decide!⟩

theorem memory_call_active (s : Sim) (h : s.gIsBusTransactionActive = true) :
    memory_call s = serve_memory_call (tick_begin s) := by
  have h2 := tick_begin_active s
  unfold tick_begin at h2 ⊢
  unfold memory_call
  dsimp only at h2 ⊢
  rw [h2, h]
  simp

theorem memory_call_idle (s : Sim) (h : s.gIsBusTransactionActive = false)
    (hq : s.queue = []) : memory_call s = none := by
  have h2 := tick_begin_active s
  have h3 := tick_begin_queue s
  unfold tick_begin at h2 h3
  unfold memory_call is_queue_empty
  dsimp only at h2 h3 ⊢
  rw [h2, h3, h, hq]
  simp

theorem memory_call_start (s : Sim) (q : List bus_transaction) (t : bus_transaction)
    (h : s.gIsBusTransactionActive = false) (hq : s.queue = q ++ [t])
    (ht : t.origid ≠ invalid_caller) :
    memory_call s = serve_memory_call (tick_start s t q) := by
  have h2 := tick_begin_active s
  have h3 := tick_begin_queue s
  unfold tick_start
  unfold tick_begin at h2 h3 ⊢
  unfold memory_call is_queue_empty queue_dequeue
  dsimp only at h2 h3 ⊢
  rw [h2, h3, h, hq]
  simp [ht]

theorem memory_call_delay (s : Sim) (q : List bus_transaction) (t : bus_transaction)
    (h : s.gIsBusTransactionActive = false) (hq : s.queue = q ++ [t])
    (ht : t.origid = invalid_caller) : memory_call s = none := by
  have h2 := tick_begin_active s
  have h3 := tick_begin_queue s
  unfold tick_begin at h2 h3
  unfold memory_call is_queue_empty queue_dequeue
  dsimp only at h2 h3 ⊢
  rw [h2, h3, h, hq]
  simp [ht]

/-- A bus tick that calls the memory is that call followed by `serve_after_memory`. -/
theorem Run_Bus_Iteration_memory_call (s : Sim) (a : Sim × bus_transaction × Bool)
    (h : memory_call s = some a) :
    Run_Bus_Iteration s = serve_after_memory (bus_transaction_handler a.1 a.2.1 a.2.2) := by
  by_cases hact : s.gIsBusTransactionActive = true
  · rw [memory_call_active s hact] at h
    rw [Run_Bus_Iteration_active s hact, Run_Bus_Iteration_serve_eq, h]
  · have hact : s.gIsBusTransactionActive = false := by simpa using hact
    rcases List.eq_nil_or_concat s.queue with hq | ⟨q, t, hq⟩
    · rw [memory_call_idle s hact hq] at h
      exact absurd h (by simp)
    · rw [List.concat_eq_append] at hq
      by_cases ht : t.origid = invalid_caller
      · rw [memory_call_delay s q t hact hq ht] at h
        exact absurd h (by simp)
      · rw [memory_call_start s q t hact hq ht] at h
        rw [Run_Bus_Iteration_start s q t hact hq ht, Run_Bus_Iteration_serve_eq, h]

/-! ## The linked queue is first-in first-out -/

namespace Linked

theorem chain_congr {heap heap1 : Nat → Option queue_for_bus} :
    ∀ (l : List (Nat × bus_transaction)) (prev nxt : Option Nat),
      (∀ x, x ∈ l.map Prod.fst → heap1 x = heap x) →
      chain heap prev l nxt → chain heap1 prev l nxt
  | [], _, _, _, _ => trivial
  | (a, t) :: rest, prev, nxt, hx, h => by
    obtain ⟨h1, h2⟩ := h
    refine ⟨?_, chain_congr rest (some a) nxt (fun x hm => hx x ?_) h2⟩
    · rw [hx a (by simp)]
      exact h1
    · simp only [List.map_cons, List.mem_cons]
      exact Or.inr hm

theorem chain_allocated {heap : Nat → Option queue_for_bus} :
    ∀ (l : List (Nat × bus_transaction)) (prev nxt : Option Nat),
      chain heap prev l nxt → ∀ x, x ∈ l.map Prod.fst → heap x ≠ none
  | [], _, _, _, x, hx => by simp at hx
  | (a, t) :: rest, prev, nxt, h, x, hx => by
    obtain ⟨h1, h2⟩ := h
    simp only [List.map_cons, List.mem_cons] at hx
    rcases hx with e | hx
    · rw [e, h1]
      exact Option.some_ne_none _
    · exact chain_allocated rest (some a) nxt h2 x hx

/-- A chain that ends with the node `a`: the nodes before it end with `next = a`, and `a` has
the last of them as `prev`. -/
theorem chain_concat (heap : Nat → Option queue_for_bus) (a : Nat) (t : bus_transaction)
    (nxt : Option Nat) :
    ∀ (l : List (Nat × bus_transaction)) (prev : Option Nat),
      chain heap prev (l ++ [(a, t)]) nxt ↔
        (chain heap prev l (some a) ∧
          heap a = some { item := t, prev := last_or prev l, next := nxt })
  | [], prev => by
    simp [chain, last_or, first_or]
  | [(b, u)], prev => by
    simp [chain, last_or, first_or]
  | (b, u) :: c :: rest, prev => by
    have ih := chain_concat heap a t nxt (c :: rest) (some b)
    have hl : last_or prev ((b, u) :: c :: rest) = last_or (some b) (c :: rest) := by
      unfold last_or
      rw [List.getLast?_cons_cons]
      cases h : (c :: rest).getLast? with
      | none => simp at h
      | some d => rfl
    show (_ ∧ chain heap (some b) ((c :: rest) ++ [(a, t)]) nxt) ↔ _
    rw [ih, hl]
    show _ ↔ ((_ ∧ chain heap (some b) (c :: rest) (some a)) ∧ _)
    simp only [List.cons_append, and_assoc]
    exact Iff.rfl

theorem Holds.of_start : Holds start [] where
  nodup := List.nodup_nil
  head := rfl
  tail := rfl
  links := trivial

/-- An enqueue whose `malloc` fails changes nothing and returns false. -/
theorem queue_enqueue_null (q : BusQueue) (t : bus_transaction) :
    queue_enqueue q none t = some (q, false) := rfl

/-- An enqueue with a fresh node puts the node in front of the cells. -/
theorem Holds.enqueue_fresh {q : BusQueue} {cells : List (Nat × bus_transaction)}
    (h : Holds q cells)
    (p : Nat) (t : bus_transaction) (hp : q.heap p = none) :
    ∃ q1, queue_enqueue q (some p) t = some (q1, true) ∧ Holds q1 ((p, t) :: cells) := by
  have hfresh : ∀ x, x ∈ cells.map Prod.fst → x ≠ p := by
    intro x hx e
    exact chain_allocated cells none none h.links x hx (e ▸ hp)
  have hnd : (((p, t) :: cells).map Prod.fst).Nodup := by
    rw [List.map_cons, List.nodup_cons]
    exact ⟨fun hm => hfresh p hm rfl, h.nodup⟩
  cases cells with
  | nil =>
    have hh : q.head_of_queue = none := h.head
    refine ⟨_, by unfold queue_enqueue; simp only [hh]; rfl, ?_⟩
    exact
      { nodup := hnd
        head := rfl
        tail := rfl
        links := ⟨by simp [first_or], trivial⟩ }
  | cons c rest =>
    obtain ⟨b, u⟩ := c
    have hh : q.head_of_queue = some b := h.head
    obtain ⟨hb, hrest⟩ := h.links
    have hbp : b ≠ p := hfresh b (by simp)
    have hnd0 := h.nodup
    rw [List.map_cons, List.nodup_cons] at hnd0
    have e1 : set_prev (Function.update q.heap p
          (some { item := t, prev := none, next := none })) b (some p) =
        some (Function.update (Function.update q.heap p
          (some { item := t, prev := none, next := none })) b
          (some { item := u, prev := some p, next := first_or rest none })) := by
      unfold set_prev
      rw [Function.update_noteq hbp, hb]
    have e2 : set_next (Function.update (Function.update q.heap p
          (some { item := t, prev := none, next := none })) b
          (some { item := u, prev := some p, next := first_or rest none })) p (some b) =
        some (Function.update (Function.update (Function.update q.heap p
          (some { item := t, prev := none, next := none })) b
          (some { item := u, prev := some p, next := first_or rest none })) p
          (some { item := t, prev := none, next := some b })) := by
      unfold set_next
      rw [Function.update_noteq (Ne.symm hbp), Function.update_same]
    refine ⟨_, by unfold queue_enqueue; simp only [hh, e1, e2]; rfl, ?_⟩
    refine
      { nodup := hnd
        head := rfl
        tail := ?_
        links := ⟨by simp [first_or], ⟨?_, ?_⟩⟩ }
    · show q.tail_of_queue = _
      rw [h.tail, List.getLast?_cons_cons]
    · show Function.update _ p _ b = _
      rw [Function.update_noteq hbp, Function.update_same]
    · refine chain_congr rest (some b) none (fun x hx => ?_) hrest
      have hxp : x ≠ p := hfresh x (by simp only [List.map_cons, List.mem_cons]; exact Or.inr hx)
      have hxb : x ≠ b := fun e => hnd0.1 (e ▸ hx)
      show Function.update _ p _ x = _
      rw [Function.update_noteq hxp, Function.update_noteq hxb, Function.update_noteq hxp]

/-- A dequeue on the empty queue changes nothing, not even `*transaction`, and returns false. -/
theorem Holds.dequeue_empty {q : BusQueue} (h : Holds q []) (out : bus_transaction) :
    queue_dequeue q out = some (q, false, out) := by
  have ht : q.tail_of_queue = none := h.tail
  unfold queue_dequeue
  simp only [ht]

theorem last_or_concat (prev : Option Nat) (l : List (Nat × bus_transaction))
    (c : Nat × bus_transaction) : last_or prev (l ++ [c]) = some c.1 := by
  unfold last_or
  rw [List.getLast?_append]
  rfl

/-- A dequeue on a queue that is not empty removes the last cell, the oldest, and stores its
item in `*transaction`. -/
theorem Holds.dequeue_last {q : BusQueue} {cells : List (Nat × bus_transaction)} {a : Nat}
    {t : bus_transaction} (h : Holds q (cells ++ [(a, t)])) (out : bus_transaction) :
    ∃ q1, queue_dequeue q out = some (q1, true, t) ∧ Holds q1 cells := by
  have ht : q.tail_of_queue = some a := by
    rw [h.tail, List.getLast?_append]
    rfl
  have hnd := h.nodup
  rw [List.map_append, List.nodup_append] at hnd
  obtain ⟨hnd1, -, hdis⟩ := hnd
  have hna : ∀ x, x ∈ cells.map Prod.fst → x ≠ a := by
    intro x hx e
    exact hdis hx (by simp [e])
  obtain ⟨hl, hlast⟩ := (chain_concat q.heap a t none cells none).1 h.links
  rcases List.eq_nil_or_concat cells with e | ⟨l, c, e⟩
  · subst e
    have hlast0 : q.heap a = some { item := t, prev := none, next := none } := hlast
    refine ⟨BusQueue.mk (Function.update (Function.update q.heap a
        (some { item := t, prev := none, next := none })) a none) none none, ?_, ?_⟩
    · unfold queue_dequeue
      simp only [ht, hlast0, set_prev, Function.update_same]
    · exact
        { nodup := List.nodup_nil
          head := rfl
          tail := rfl
          links := trivial }
  · obtain ⟨b, u⟩ := c
    rw [List.concat_eq_append] at e
    subst e
    rw [last_or_concat] at hlast
    obtain ⟨hl1, hb⟩ := (chain_concat q.heap b u (some a) l none).1 hl
    have hba : b ≠ a := hna b (by simp)
    have hnd2 := hnd1
    rw [List.map_append, List.nodup_append] at hnd2
    obtain ⟨-, -, hdis2⟩ := hnd2
    have hnb : ∀ x, x ∈ l.map Prod.fst → x ≠ b := by
      intro x hx e
      exact hdis2 hx (by simp [e])
    have e1 : set_next q.heap b none =
        some (Function.update q.heap b
          (some { item := u, prev := last_or none l, next := none })) := by
      unfold set_next
      rw [hb]
    have e2 : set_prev (Function.update q.heap b
          (some { item := u, prev := last_or none l, next := none })) a none =
        some (Function.update (Function.update q.heap b
          (some { item := u, prev := last_or none l, next := none })) a
          (some { item := t, prev := none, next := none })) := by
      unfold set_prev
      rw [Function.update_noteq (Ne.symm hba), hlast]
    refine ⟨BusQueue.mk (Function.update (Function.update (Function.update q.heap b
        (some { item := u, prev := last_or none l, next := none })) a
        (some { item := t, prev := none, next := none })) a none) q.head_of_queue (some b),
      ?_, ?_⟩
    · unfold queue_dequeue
      simp only [ht, hlast, e1, e2, Function.update_same]
    · refine
        { nodup := hnd1
          head := ?_
          tail := ?_
          links := (chain_concat _ b u none l none).2 ⟨?_, ?_⟩ }
      · show q.head_of_queue = _
        rw [h.head, List.head?_append_of_ne_nil _ (by simp)]
      · show some b = _
        rw [List.getLast?_append]
        rfl
      · refine chain_congr l none (some b) (fun x hx => ?_) hl1
        dsimp only
        have hxa : x ≠ a := hna x (by
          rw [List.map_append]
          exact List.mem_append_left _ hx)
        rw [Function.update_noteq hxa, Function.update_noteq hxa,
          Function.update_noteq (hnb x hx)]
      · dsimp only
        rw [Function.update_noteq hba, Function.update_noteq hba, Function.update_same]

/-- From a queue that holds `cells`, a sequence of calls with fresh nodes runs to its end and
returns what the first-in first-out queue returns on the items of `cells`, the oldest first. -/
theorem Holds.calls_fifo : ∀ (ops : List Call) (q : BusQueue)
    (cells : List (Nat × bus_transaction)), Holds q cells → mallocs_fresh q ops = true →
    ∃ q1, calls q ops = some (q1, fifo_calls (cells.map Prod.snd).reverse ops)
  | [], q, cells, _, _ => ⟨q, rfl⟩
  | Call.enqueue t none :: rest, q, cells, h, hf => by
    have hf1 : mallocs_fresh q rest = true := by
      simpa [mallocs_fresh, call, queue_enqueue_null] using hf
    obtain ⟨q2, h2⟩ := Holds.calls_fifo rest q cells h hf1
    refine ⟨q2, ?_⟩
    simp [calls, call, queue_enqueue_null, h2, fifo_calls]
  | Call.enqueue t (some p) :: rest, q, cells, h, hf => by
    have hp : q.heap p = none := by
      simp only [mallocs_fresh, Bool.and_eq_true, Option.isNone_iff_eq_none] at hf
      exact hf.1
    obtain ⟨q1, e1, h1⟩ := h.enqueue_fresh p t hp
    have hf1 : mallocs_fresh q1 rest = true := by
      simp only [mallocs_fresh, call, e1, Bool.and_eq_true] at hf
      exact hf.2
    obtain ⟨q2, h2⟩ := Holds.calls_fifo rest q1 ((p, t) :: cells) h1 hf1
    refine ⟨q2, ?_⟩
    simp only [List.map_cons, List.reverse_cons] at h2
    simp [calls, call, e1, h2, fifo_calls]
  | Call.dequeue out :: rest, q, cells, h, hf => by
    rcases List.eq_nil_or_concat cells with e | ⟨l, c, e⟩
    · subst e
      have e1 := h.dequeue_empty out
      have hf1 : mallocs_fresh q rest = true := by
        simpa [mallocs_fresh, call, e1] using hf
      obtain ⟨q2, h2⟩ := Holds.calls_fifo rest q [] h hf1
      refine ⟨q2, ?_⟩
      simp only [List.map_nil, List.reverse_nil] at h2
      simp [calls, call, e1, h2, fifo_calls]
    · obtain ⟨a, t⟩ := c
      rw [List.concat_eq_append] at e
      subst e
      obtain ⟨q1, e1, h1⟩ := h.dequeue_last out
      have hf1 : mallocs_fresh q1 rest = true := by
        simpa [mallocs_fresh, call, e1] using hf
      obtain ⟨q2, h2⟩ := Holds.calls_fifo rest q1 l h1 hf1
      refine ⟨q2, ?_⟩
      simp [calls, call, e1, h2, fifo_calls]

/-- The list that the globals `Sim` keep as the bus queue follows the linked queue: when the
linked queue holds `cells` and the list has their items, `queue_dequeue` of the list takes the
item that `queue_dequeue` of the linked queue stores, and fails when that one returns false;
an enqueue with a fresh node puts its item in front of both. -/
theorem Holds.list_queue {q : BusQueue} {cells : List (Nat × bus_transaction)}
    (h : Holds q cells)
    (s : Sim) (hs : s.queue = cells.map Prod.snd) (out : bus_transaction) :
    (∃ r, queue_dequeue q out = some r ∧
      match MultiCore.queue_dequeue s with
      | none => r.2 = (false, out)
      | some (t, s1) => r.2 = (true, t) ∧ Holds r.1 (cells.dropLast) ∧
          s1.queue = cells.dropLast.map Prod.snd) ∧
    (∀ p t, q.heap p = none → ∃ q1, queue_enqueue q (some p) t = some (q1, true) ∧
      ∃ cells1, Holds q1 cells1 ∧ (MultiCore.queue_enqueue s t).queue = cells1.map Prod.snd) := by
  refine ⟨?_, ?_⟩
  · rcases List.eq_nil_or_concat cells with e | ⟨l, c, e⟩
    · subst e
      refine ⟨_, h.dequeue_empty out, ?_⟩
      simp [MultiCore.queue_dequeue, hs]
    · obtain ⟨a, t⟩ := c
      rw [List.concat_eq_append] at e
      subst e
      obtain ⟨q1, e1, h1⟩ := h.dequeue_last out
      refine ⟨_, e1, ?_⟩
      simp [MultiCore.queue_dequeue, hs, h1]
  · intro p t hp
    obtain ⟨q1, e1, h1⟩ := h.enqueue_fresh p t hp
    exact ⟨q1, e1, _, h1, by simp [MultiCore.queue_enqueue, hs]⟩

end Linked

/-- C12. The bus queue is first-in first-out.  From the empty queue of start-up, every
sequence of calls of `queue_enqueue` and `queue_dequeue` (each `malloc` that succeeds
returning an address that holds no node) runs to its end, and every call returns what the
first-in first-out queue of the specification returns: a dequeue returns true with the oldest
transaction that was enqueued and not yet dequeued, as it was enqueued, and returns false,
leaving `*transaction` as it was, exactly when no such transaction remains. -/
theorem C12_queue_first_in_first_out (ops : List Linked.Call)
    (h : Linked.mallocs_fresh Linked.start ops = true) :
    (Linked.calls Linked.start ops).map Prod.snd = some (Linked.fifo_calls [] ops) := by
  obtain ⟨q1, h1⟩ := Linked.Holds.calls_fifo ops Linked.start [] Linked.Holds.of_start h
  rw [h1]
  rfl

theorem C12_queue_first_in_first_out_witness :
    (Linked.calls Linked.start Linked.example_calls).map Prod.snd
      = some (Linked.fifo_calls [] Linked.example_calls) :=
  C12_queue_first_in_first_out Linked.example_calls (by decide)

/-! ## The pipeline: operands, registers and branches -/

namespace OpcodeHandlers

theorem store_rd_some {p p1 : Pipe_fig} {v : Nat} (h : store_rd p v = some p1) :
    ∃ k, p.params_of_op.rd = some k ∧ p1 = set_result p k v := by
  unfold store_rd at h
  cases hk : p.params_of_op.rd with
  | none => simp [hk] at h
  | some k =>
    simp only [hk, Option.some.injEq] at h
    exact ⟨k, rfl, h.symm⟩

theorem store_pc_some {p p1 : Pipe_fig} (h : store_pc p = some p1) :
    ∃ v, load_rd p = some v ∧ p1 = { p with pc := (v &&& 0x1FF) % 65536 } := by
  unfold store_pc at h
  cases hv : load_rd p with
  | none => simp [hv] at h
  | some v =>
    simp only [hv, Option.some.injEq] at h
    exact ⟨v, rfl, h.symm⟩

/-- No function of the table touches the registers, the flags, the instruction memory, the
parameters or the counters of the pipeline. -/
theorem call_frame {f : OpcodeFunction} {p p1 : Pipe_fig} (h : call f p = some p1) :
    p1.regs_pnt = p.regs_pnt ∧ p1.is_halted = p.is_halted ∧ p1.data_stall = p.data_stall ∧
    p1.mem_stall = p.mem_stall ∧ p1.insturcionts_pnt = p.insturcionts_pnt ∧
    p1.params_of_op = p.params_of_op ∧ p1.stats = p.stats := by
  have hrd : ∀ v, store_rd p v = some p1 →
      p1.regs_pnt = p.regs_pnt ∧ p1.is_halted = p.is_halted ∧ p1.data_stall = p.data_stall ∧
      p1.mem_stall = p.mem_stall ∧ p1.insturcionts_pnt = p.insturcionts_pnt ∧
      p1.params_of_op = p.params_of_op ∧ p1.stats = p.stats := by
    intro v hv
    obtain ⟨k, -, e⟩ := store_rd_some hv
    subst e
    exact ⟨rfl, rfl, rfl, rfl, rfl, rfl, rfl⟩
  have hpc : store_pc p = some p1 →
      p1.regs_pnt = p.regs_pnt ∧ p1.is_halted = p.is_halted ∧ p1.data_stall = p.data_stall ∧
      p1.mem_stall = p.mem_stall ∧ p1.insturcionts_pnt = p.insturcionts_pnt ∧
      p1.params_of_op = p.params_of_op ∧ p1.stats = p.stats := by
    intro hv
    obtain ⟨v, -, e⟩ := store_pc_some hv
    subst e
    exact ⟨rfl, rfl, rfl, rfl, rfl, rfl, rfl⟩
  have hid : some p = some p1 →
      p1.regs_pnt = p.regs_pnt ∧ p1.is_halted = p.is_halted ∧ p1.data_stall = p.data_stall ∧
      p1.mem_stall = p.mem_stall ∧ p1.insturcionts_pnt = p.insturcionts_pnt ∧
      p1.params_of_op = p.params_of_op ∧ p1.stats = p.stats := by
    intro hv
    simp only [Option.some.injEq] at hv
    subst hv
    exact ⟨rfl, rfl, rfl, rfl, rfl, rfl, rfl⟩
  cases f
  case add => exact hrd _ h
  case sub => exact hrd _ h
  case and => exact hrd _ h
  case or => exact hrd _ h
  case xor => exact hrd _ h
  case mul => exact hrd _ h
  case logicShiftLeft =>
    simp only [call, logicShiftLeft] at h
    split_ifs at h
    exact hrd _ h
  case arithmeticShiftRight =>
    simp only [call, arithmeticShiftRight] at h
    split_ifs at h
    · exact hrd _ h
    · exact hrd _ h
  case logicShiftRight =>
    simp only [call, logicShiftRight] at h
    split_ifs at h
    exact hrd _ h
  case branchEqual =>
    simp only [call, branchEqual] at h
    split_ifs at h
    · exact hpc h
    · exact hid h
  case branchNotEqual =>
    simp only [call, branchNotEqual] at h
    split_ifs at h
    · exact hpc h
    · exact hid h
  case branchLessThan =>
    simp only [call, branchLessThan] at h
    split_ifs at h
    · exact hpc h
    · exact hid h
  case branchGreaterThan =>
    simp only [call, branchGreaterThan] at h
    split_ifs at h
    · exact hpc h
    · exact hid h
  case branchLessEqual =>
    simp only [call, branchLessEqual] at h
    split_ifs at h
    · exact hpc h
    · exact hid h
  case branchGreaterEqual =>
    simp only [call, branchGreaterEqual] at h
    split_ifs at h
    · exact hpc h
    · exact hid h
  case jump => exact hpc h

/-- A function of the table that is not a branch leaves `*params->pc` alone. -/
theorem call_pc {f : OpcodeFunction} {p p1 : Pipe_fig} (hf : f.assigns_pc = false)
    (h : call f p = some p1) : p1.pc = p.pc := by
  have hrd : ∀ v, store_rd p v = some p1 → p1.pc = p.pc := by
    intro v hv
    obtain ⟨k, -, e⟩ := store_rd_some hv
    subst e
    rfl
  cases f
  case add => exact hrd _ h
  case sub => exact hrd _ h
  case and => exact hrd _ h
  case or => exact hrd _ h
  case xor => exact hrd _ h
  case mul => exact hrd _ h
  case logicShiftLeft =>
    simp only [call, logicShiftLeft] at h
    split_ifs at h
    exact hrd _ h
  case arithmeticShiftRight =>
    simp only [call, arithmeticShiftRight] at h
    split_ifs at h
    · exact hrd _ h
    · exact hrd _ h
  case logicShiftRight =>
    simp only [call, logicShiftRight] at h
    split_ifs at h
    exact hrd _ h
  all_goals exact absurd hf (by decide)

/-- The entries of the table for the opcodes that are not branches do not assign the `pc`. -/
theorem table_assigns_pc {opcode : Nat} {f : OpcodeFunction}
    (h : OpcodeFunctionTable opcode = some (some f)) (hb : IsOpcodeBranch opcode = false) :
    f.assigns_pc = false := by
  unfold OpcodeFunctionTable at h
  split at h
  all_goals first
    | (simp only [Option.some.injEq] at h; subst h; rfl)
    | (exfalso; revert hb; decide)
    | (split_ifs at h; simp at h)

end OpcodeHandlers

namespace PipelineController

open OpcodeHandlers

theorem enter_params_to_regs_regs (p : Pipe_fig) (stage : Nat) :
    (enter_params_to_regs p stage).regs_pnt =
      Function.update p.regs_pnt IMM_REG
        (Format_of_instruction.imm (p.stages_in_pipe stage).instruction) := rfl

theorem enter_params_to_regs_pc (p : Pipe_fig) (stage : Nat) :
    (enter_params_to_regs p stage).pc = p.pc := rfl

theorem enter_params_to_regs_rd (p : Pipe_fig) (stage : Nat) :
    load_rd (enter_params_to_regs p stage) =
      some (Function.update p.regs_pnt IMM_REG
        (Format_of_instruction.imm (p.stages_in_pipe stage).instruction)
        (Format_of_instruction.rd (p.stages_in_pipe stage).instruction)) := by
  simp [load_rd, enter_params_to_regs, set_result]

theorem enter_params_to_regs_operation (p : Pipe_fig) (stage : Nat) :
    ((enter_params_to_regs p stage).stages_in_pipe stage).operation =
      (p.stages_in_pipe stage).operation := by
  simp [enter_params_to_regs, set_result]

/-- The call of the operation of a stage keeps the registers. -/
theorem call_operation_regs {p p1 : Pipe_fig} {stage : Nat}
    (h : call_operation p stage = some p1) : p1.regs_pnt = p.regs_pnt := by
  unfold call_operation at h
  cases hf : (p.stages_in_pipe stage).operation with
  | none => simp [hf] at h
  | some f =>
    simp only [hf] at h
    exact (call_frame h).1

/-- The function `execute` sets `R1` to the immediate of its instruction when it loads the
operands, and leaves it alone otherwise. -/
theorem execute_regs {p p1 : Pipe_fig} (h : execute p = some p1) :
    p1.regs_pnt =
      if (!IsOpcodeBranch (Format_of_instruction.opcode (p.stages_in_pipe EXECUTE).instruction)
          && !IsOpcodeMemory (Format_of_instruction.opcode (p.stages_in_pipe EXECUTE).instruction)
          && decide (Format_of_instruction.opcode (p.stages_in_pipe EXECUTE).instruction ≠ HALT))
          = true then
        Function.update p.regs_pnt IMM_REG
          (Format_of_instruction.imm (p.stages_in_pipe EXECUTE).instruction)
      else p.regs_pnt := by
  unfold execute at h
  dsimp only at h
  split_ifs at h with hc
  · rw [if_pos hc, call_operation_regs h, enter_params_to_regs_regs]
  · rw [if_neg hc]
    simp only [Option.some.injEq] at h
    rw [← h]

/-- The function `execute` keeps the `pc` when the operation of its stage fits the opcode. -/
theorem execute_pc {p p1 : Pipe_fig} (hfit : operation_fits p EXECUTE)
    (h : execute p = some p1) : p1.pc = p.pc := by
  unfold execute at h
  dsimp only at h
  split_ifs at h with hc
  · unfold call_operation at h
    rw [enter_params_to_regs_operation] at h
    cases hf : (p.stages_in_pipe EXECUTE).operation with
    | none => simp [hf] at h
    | some f =>
      simp only [hf] at h
      rcases hfit with hn | ht
      · rw [hf] at hn
        exact absurd hn (Option.some_ne_none f)
      · rw [hf] at ht
        have hb : IsOpcodeBranch
            (Format_of_instruction.opcode (p.stages_in_pipe EXECUTE).instruction) = false := by
          simp only [Bool.and_eq_true, Bool.not_eq_true', decide_eq_true_eq] at hc
          exact hc.1.1
        rw [call_pc (table_assigns_pc ht hb) h, enter_params_to_regs_pc]
  · simp only [Option.some.injEq] at h
    rw [← h]

theorem mem_pc (c : Nat) (x : Pipe_fig × Sim) : (mem c x).1.pc = x.1.pc := by
  unfold mem
  dsimp only
  split_ifs <;> rfl

theorem mem_fetch_stage (c : Nat) (x : Pipe_fig × Sim) :
    (mem c x).1.stages_in_pipe FETCH = x.1.stages_in_pipe FETCH := by
  unfold mem
  dsimp only
  split_ifs
  · simp [enter_params_to_regs, set_result, FETCH, MEM]
  · simp [enter_params_to_regs, set_result, FETCH, MEM]
  · rfl

/-- The function `mem` sets `R1` to the immediate of its instruction when it loads the
operands, that is for `LW` and `SW`. -/
theorem mem_regs (c : Nat) (x : Pipe_fig × Sim) :
    (mem c x).1.regs_pnt =
      if IsOpcodeMemory (Format_of_instruction.opcode (x.1.stages_in_pipe MEM).instruction)
          = true then
        Function.update x.1.regs_pnt IMM_REG
          (Format_of_instruction.imm (x.1.stages_in_pipe MEM).instruction)
      else x.1.regs_pnt := by
  unfold mem
  dsimp only
  split_ifs <;> rfl

/-- The pipeline when `decode` has selected the operation `f` and loaded the operands. -/
theorem decode_call (p : Pipe_fig) (f : OpcodeFunction)
    (ht : OpcodeFunctionTable (Format_of_instruction.opcode (p.stages_in_pipe DECODE).instruction)
      = some (some f))
    (hb : IsOpcodeBranch (Format_of_instruction.opcode (p.stages_in_pipe DECODE).instruction)
      = true) :
    decode p = call f (enter_params_to_regs
      { p with
        stages_in_pipe :=
          Function.update p.stages_in_pipe DECODE
            { p.stages_in_pipe DECODE with operation := some f } } DECODE) := by
  have hne : Format_of_instruction.opcode (p.stages_in_pipe DECODE).instruction ≠ HALT := by
    intro e
    rw [e] at hb
    revert hb
    decide
  unfold decode
  dsimp only
  rw [if_neg hne, ht]
  dsimp only
  rw [if_pos hb]
  unfold call_operation
  rw [enter_params_to_regs_operation]
  simp

theorem store_pc_enter_params (p : Pipe_fig) (stage : Nat) :
    store_pc (enter_params_to_regs p stage) =
      some { enter_params_to_regs p stage with
        pc := (Function.update p.regs_pnt IMM_REG
          (Format_of_instruction.imm (p.stages_in_pipe stage).instruction)
          (Format_of_instruction.rd (p.stages_in_pipe stage).instruction)) &&& 0x1FF } := by
  unfold store_pc
  rw [enter_params_to_regs_rd]
  dsimp only
  rw [Nat.mod_eq_of_lt (lt_of_le_of_lt Nat.and_le_right (by decide))]

/-- What `decode` calls for a branch: the function `f` of the table on a pipeline `q` in which
`R1` holds the immediate and the operands are loaded. -/
theorem decode_operands (p : Pipe_fig) (f : OpcodeFunction)
    (ht : OpcodeFunctionTable (Format_of_instruction.opcode (p.stages_in_pipe DECODE).instruction)
      = some (some f))
    (hb : IsOpcodeBranch (Format_of_instruction.opcode (p.stages_in_pipe DECODE).instruction)
      = true) :
    ∃ q, decode p = call f q ∧
      q.regs_pnt = Function.update p.regs_pnt IMM_REG
        (Format_of_instruction.imm (p.stages_in_pipe DECODE).instruction) ∧
      q.pc = p.pc ∧
      q.params_of_op.rs = Function.update p.regs_pnt IMM_REG
        (Format_of_instruction.imm (p.stages_in_pipe DECODE).instruction)
        (Format_of_instruction.rs (p.stages_in_pipe DECODE).instruction) ∧
      q.params_of_op.rt = Function.update p.regs_pnt IMM_REG
        (Format_of_instruction.imm (p.stages_in_pipe DECODE).instruction)
        (Format_of_instruction.rt (p.stages_in_pipe DECODE).instruction) ∧
      ∃ q1, store_pc q = some q1 ∧ q1.regs_pnt = q.regs_pnt ∧
        q1.pc = (Function.update p.regs_pnt IMM_REG
          (Format_of_instruction.imm (p.stages_in_pipe DECODE).instruction)
          (Format_of_instruction.rd (p.stages_in_pipe DECODE).instruction)) &&& 0x1FF := by
  refine ⟨_, decode_call p f ht hb, ?_, rfl, ?_, ?_, _, store_pc_enter_params _ _, rfl, ?_⟩
  · simp only [enter_params_to_regs_regs, Function.update_same]
  · simp only [enter_params_to_regs, set_result, Function.update_same]
  · simp only [enter_params_to_regs, set_result, Function.update_same]
  · rfl

/-- A conditional branch function on loaded operands. -/
theorem branch_result {q : Pipe_fig} {R : Nat → Nat} {T pc0 : Nat} (cond : Prop)
    [Decidable cond] (taken : Bool) (htk : taken = decide cond)
    (hr : q.regs_pnt = R) (hpc : q.pc = pc0)
    (hst : ∃ q1, store_pc q = some q1 ∧ q1.regs_pnt = q.regs_pnt ∧ q1.pc = T) :
    ∃ p1, (if cond then store_pc q else some q) = some p1 ∧ p1.regs_pnt = R ∧
      p1.pc = if taken = true then T else pc0 := by
  obtain ⟨q1, h1, h2, h3⟩ := hst
  by_cases hc : cond
  · rw [if_pos hc, htk, if_pos (decide_eq_true hc)]
    exact ⟨q1, h1, h2.trans hr, h3⟩
  · rw [if_neg hc, htk, if_neg (by simpa using hc)]
    exact ⟨q, rfl, hr, hpc⟩

/-- A branch in `DECODE`: `decode` returns, `R1` holds the immediate, and the `pc` is the value
of `rd` masked with `0x1FF` when the branch is taken, unchanged when it is not. -/
theorem decode_branch (p : Pipe_fig)
    (hb : IsOpcodeBranch (Format_of_instruction.opcode (p.stages_in_pipe DECODE).instruction)
      = true) :
    ∃ p1, decode p = some p1 ∧
      p1.regs_pnt = Function.update p.regs_pnt IMM_REG
        (Format_of_instruction.imm (p.stages_in_pipe DECODE).instruction) ∧
      p1.pc =
        if branch_taken (Format_of_instruction.opcode (p.stages_in_pipe DECODE).instruction)
            (Function.update p.regs_pnt IMM_REG
              (Format_of_instruction.imm (p.stages_in_pipe DECODE).instruction)
              (Format_of_instruction.rs (p.stages_in_pipe DECODE).instruction))
            (Function.update p.regs_pnt IMM_REG
              (Format_of_instruction.imm (p.stages_in_pipe DECODE).instruction)
              (Format_of_instruction.rt (p.stages_in_pipe DECODE).instruction)) = true then
          (Function.update p.regs_pnt IMM_REG
            (Format_of_instruction.imm (p.stages_in_pipe DECODE).instruction)
            (Format_of_instruction.rd (p.stages_in_pipe DECODE).instruction)) &&& 0x1FF
        else p.pc := by
  have hop : 9 ≤ Format_of_instruction.opcode (p.stages_in_pipe DECODE).instruction ∧
      Format_of_instruction.opcode (p.stages_in_pipe DECODE).instruction ≤ 15 := by
    simpa [IsOpcodeBranch, BEQ, JAL] using hb
  have key := decode_operands p
  obtain ⟨h9, h15⟩ := hop
  generalize Format_of_instruction.opcode (p.stages_in_pipe DECODE).instruction = op
    at h9 h15 key hb
  generalize Function.update p.regs_pnt IMM_REG
    (Format_of_instruction.imm (p.stages_in_pipe DECODE).instruction) = R at key ⊢
  interval_cases op
  · obtain ⟨q, hd, hr, hpc, hrs, hrt, hst⟩ := key _ rfl hb
    rw [hd]
    exact branch_result (q.params_of_op.rs = q.params_of_op.rt) _
      (by rw [hrs, hrt]; rfl) hr hpc hst
  · obtain ⟨q, hd, hr, hpc, hrs, hrt, hst⟩ := key _ rfl hb
    rw [hd]
    exact branch_result (q.params_of_op.rs ≠ q.params_of_op.rt) _
      (by rw [hrs, hrt]; rfl) hr hpc hst
  · obtain ⟨q, hd, hr, hpc, hrs, hrt, hst⟩ := key _ rfl hb
    rw [hd]
    exact branch_result (q.params_of_op.rs < q.params_of_op.rt) _
      (by rw [hrs, hrt]; rfl) hr hpc hst
  · obtain ⟨q, hd, hr, hpc, hrs, hrt, hst⟩ := key _ rfl hb
    rw [hd]
    exact branch_result (q.params_of_op.rs > q.params_of_op.rt) _
      (by rw [hrs, hrt]; rfl) hr hpc hst
  · obtain ⟨q, hd, hr, hpc, hrs, hrt, hst⟩ := key _ rfl hb
    rw [hd]
    exact branch_result (q.params_of_op.rs ≤ q.params_of_op.rt) _
      (by rw [hrs, hrt]; rfl) hr hpc hst
  · obtain ⟨q, hd, hr, hpc, hrs, hrt, hst⟩ := key _ rfl hb
    rw [hd]
    exact branch_result (q.params_of_op.rs ≥ q.params_of_op.rt) _
      (by rw [hrs, hrt]; rfl) hr hpc hst
  · obtain ⟨q, hd, hr, hpc, hrs, hrt, q1, h1, h2, h3⟩ := key _ rfl hb
    rw [hd]
    exact ⟨q1, h1, h2.trans hr, h3⟩

end PipelineController

namespace PipelineController

open OpcodeHandlers

theorem Pipe_Bubbles_loop_pc (fuel : Nat) : ∀ (p : Pipe_fig) (stage : Nat),
    (Pipe_Bubbles_loop p fuel stage).pc = p.pc := by
  induction fuel with
  | zero => intro p stage; rfl
  | succ n ih =>
    intro p stage
    unfold Pipe_Bubbles_loop
    split_ifs
    · rfl
    · rfl
    · rw [ih]; rfl
    · rw [ih]
    · rfl

theorem Pipe_Bubbles_pc (p : Pipe_fig) : (Pipe_Bubbles p).pc = p.pc := by
  unfold Pipe_Bubbles
  dsimp only
  split_ifs
  · exact Pipe_Bubbles_loop_pc _ _ _
  · exact Pipe_Bubbles_loop_pc _ _ _

/-- The stages `MEM` and `WRITE_BACK` keep the `pc`. -/
theorem run_stages_tail_pc (c : Nat) (z y : Pipe_fig × Sim)
    (h : run_stages c [MEM, WRITE_BACK] z = some y) : y.1.pc = z.1.pc := by
  have h4 : ∀ w : Pipe_fig × Sim, run_stages c [WRITE_BACK] w = some y → y.1.pc = w.1.pc := by
    intro w hw
    simp only [run_stages, stage_to_exe, WRITE_BACK] at hw
    split_ifs at hw
    · simp only [Option.some.injEq] at hw
      rw [← hw]
      rfl
    · simp only [Option.some.injEq] at hw
      rw [← hw]
  rw [run_stages] at h
  split_ifs at h
  · simp only [stage_to_exe, MEM] at h
    rw [h4 _ h]
    exact mem_pc c z
  · exact h4 _ h

/-- The stages `EXECUTE`, `MEM` and `WRITE_BACK` keep the `pc` when the operation in `EXECUTE`
fits its opcode. -/
theorem run_stages_rest_pc (c : Nat) (x y : Pipe_fig × Sim) (hfit : operation_fits x.1 EXECUTE)
    (h : run_stages c [EXECUTE, MEM, WRITE_BACK] x = some y) : y.1.pc = x.1.pc := by
  rw [run_stages] at h
  split_ifs at h
  · simp only [stage_to_exe, EXECUTE] at h
    cases he : execute x.1 with
    | none => simp [he] at h
    | some p2 =>
      simp only [he, Option.map_some'] at h
      rw [run_stages_tail_pc c _ _ h]
      exact execute_pc hfit he
  · exact run_stages_tail_pc c _ _ h

theorem execute_pipe_stages_stalled_pc (c : Nat) (x z : Pipe_fig × Sim)
    (hs : x.1.mem_stall = true) (h : execute_pipe_stages c x = some z) : z.1.pc = x.1.pc := by
  unfold execute_pipe_stages at h
  have hl : List.range' MEM (PIPE_SIZE - MEM) = [MEM, WRITE_BACK] := by decide
  have hf : fetch x.1 = some x.1 := by
    unfold fetch
    rw [if_pos hs]
  simp only [hs, if_true, stage_to_exe, FETCH, hf, hl, Option.map_some'] at h
  split_ifs at h
  · exact run_stages_tail_pc c _ _ h
  · exact run_stages_tail_pc c _ _ h

/-- A cycle that starts with `mem_stall` set does not run `fetch` nor `decode`: it keeps the
`pc`. -/
theorem Pipe_iteration_exe_stalled_pc (c : Nat) (x y : Pipe_fig × Sim)
    (hs : x.1.mem_stall = true) (h : Pipe_iteration_exe c x = some y) : y.1.pc = x.1.pc := by
  unfold Pipe_iteration_exe at h
  dsimp only at h
  cases he : execute_pipe_stages c
      ({ x.1 with data_stall := checkfor_data_hazards x.1 }, x.2) with
  | none => simp [he] at h
  | some z =>
    simp only [he, Option.some.injEq] at h
    rw [← h]
    exact execute_pipe_stages_stalled_pc c
      ({ x.1 with data_stall := checkfor_data_hazards x.1 }, x.2) z hs he

/-- When `fetch` runs, it latches the `pc` and the instruction at the `pc` into `FETCH`. -/
theorem fetch_latches (q : Pipe_fig) (hs : q.mem_stall = false)
    (hpc : q.pc < INSTRUCTIONMEMORYSIZE) :
    ∃ q1, fetch q = some q1 ∧ (q1.stages_in_pipe FETCH).pc = q.pc ∧
      (q1.stages_in_pipe FETCH).instruction = q.insturcionts_pnt q.pc := by
  unfold fetch
  simp only [hs, Bool.false_eq_true, if_false, hpc, if_true]
  refine ⟨_, rfl, ?_, ?_⟩
  · split_ifs <;> simp [set_stage_pc]
  · split_ifs <;> simp [set_stage_pc]

theorem writeback_regs (p : Pipe_fig) :
    (writeback p).regs_pnt =
      Function.update p.regs_pnt
        (if Format_of_instruction.opcode (p.stages_in_pipe WRITE_BACK).instruction = JAL
          then PC_REG else Format_of_instruction.rd (p.stages_in_pipe WRITE_BACK).instruction)
        (p.stages_in_pipe WRITE_BACK).result_of_execution := rfl

end PipelineController

/-! ## The operation of a stage is the one of its opcode -/

namespace OpcodeHandlers

/-- A function of the table changes at most `result_of_execution` of the stage that
`params->rd` points to. -/
theorem call_stages {f : OpcodeFunction} {p p1 : Pipe_fig} (h : call f p = some p1)
    (stage : Nat) :
    (p1.stages_in_pipe stage).operation = (p.stages_in_pipe stage).operation ∧
    (p1.stages_in_pipe stage).instruction = (p.stages_in_pipe stage).instruction ∧
    (p1.stages_in_pipe stage).pc = (p.stages_in_pipe stage).pc ∧
    (p.params_of_op.rd ≠ some stage → p1.stages_in_pipe stage = p.stages_in_pipe stage) := by
  have hrd : ∀ v, store_rd p v = some p1 →
      (p1.stages_in_pipe stage).operation = (p.stages_in_pipe stage).operation ∧
      (p1.stages_in_pipe stage).instruction = (p.stages_in_pipe stage).instruction ∧
      (p1.stages_in_pipe stage).pc = (p.stages_in_pipe stage).pc ∧
      (p.params_of_op.rd ≠ some stage → p1.stages_in_pipe stage = p.stages_in_pipe stage) := by
    intro v hv
    obtain ⟨k, hk, e⟩ := store_rd_some hv
    subst e
    by_cases hs : stage = k
    · subst hs
      simp [set_result, hk]
    · simp [set_result, Function.update_noteq hs]
  have hpc : store_pc p = some p1 →
      (p1.stages_in_pipe stage).operation = (p.stages_in_pipe stage).operation ∧
      (p1.stages_in_pipe stage).instruction = (p.stages_in_pipe stage).instruction ∧
      (p1.stages_in_pipe stage).pc = (p.stages_in_pipe stage).pc ∧
      (p.params_of_op.rd ≠ some stage → p1.stages_in_pipe stage = p.stages_in_pipe stage) := by
    intro hv
    obtain ⟨v, -, e⟩ := store_pc_some hv
    subst e
    exact ⟨rfl, rfl, rfl, fun _ => rfl⟩
  have hid : some p = some p1 →
      (p1.stages_in_pipe stage).operation = (p.stages_in_pipe stage).operation ∧
      (p1.stages_in_pipe stage).instruction = (p.stages_in_pipe stage).instruction ∧
      (p1.stages_in_pipe stage).pc = (p.stages_in_pipe stage).pc ∧
      (p.params_of_op.rd ≠ some stage → p1.stages_in_pipe stage = p.stages_in_pipe stage) := by
    intro hv
    simp only [Option.some.injEq] at hv
    subst hv
    exact ⟨rfl, rfl, rfl, fun _ => rfl⟩
  cases f
  case add => exact hrd _ h
  case sub => exact hrd _ h
  case and => exact hrd _ h
  case or => exact hrd _ h
  case xor => exact hrd _ h
  case mul => exact hrd _ h
  case logicShiftLeft =>
    simp only [call, logicShiftLeft] at h
    split_ifs at h
    exact hrd _ h
  case arithmeticShiftRight =>
    simp only [call, arithmeticShiftRight] at h
    split_ifs at h
    · exact hrd _ h
    · exact hrd _ h
  case logicShiftRight =>
    simp only [call, logicShiftRight] at h
    split_ifs at h
    exact hrd _ h
  case branchEqual =>
    simp only [call, branchEqual] at h
    split_ifs at h
    · exact hpc h
    · exact hid h
  case branchNotEqual =>
    simp only [call, branchNotEqual] at h
    split_ifs at h
    · exact hpc h
    · exact hid h
  case branchLessThan =>
    simp only [call, branchLessThan] at h
    split_ifs at h
    · exact hpc h
    · exact hid h
  case branchGreaterThan =>
    simp only [call, branchGreaterThan] at h
    split_ifs at h
    · exact hpc h
    · exact hid h
  case branchLessEqual =>
    simp only [call, branchLessEqual] at h
    split_ifs at h
    · exact hpc h
    · exact hid h
  case branchGreaterEqual =>
    simp only [call, branchGreaterEqual] at h
    split_ifs at h
    · exact hpc h
    · exact hid h
  case jump => exact hpc h

end OpcodeHandlers

namespace PipelineController

open OpcodeHandlers

/-- Two pipelines whose stages carry the same instructions and operations fit together. -/
theorem operations_fit_congr {p p1 : Pipe_fig} (h : operations_fit p)
    (ho : ∀ stage, (p1.stages_in_pipe stage).operation = (p.stages_in_pipe stage).operation)
    (hi : ∀ stage, stage ≠ FETCH →
      (p1.stages_in_pipe stage).instruction = (p.stages_in_pipe stage).instruction) :
    operations_fit p1 := by
  refine ⟨by rw [ho]; exact h.1, fun stage => ?_⟩
  by_cases hs : stage = FETCH
  · subst hs
    exact Or.inl (by rw [ho]; exact h.1)
  · unfold operation_fits
    rw [ho, hi stage hs]
    exact h.2 stage

theorem enter_params_to_regs_stage (p : Pipe_fig) (stage k : Nat) :
    ((enter_params_to_regs p stage).stages_in_pipe k).operation =
      (p.stages_in_pipe k).operation ∧
    ((enter_params_to_regs p stage).stages_in_pipe k).instruction =
      (p.stages_in_pipe k).instruction ∧
    ((enter_params_to_regs p stage).stages_in_pipe k).pc = (p.stages_in_pipe k).pc ∧
    (k ≠ stage → (enter_params_to_regs p stage).stages_in_pipe k = p.stages_in_pipe k) := by
  by_cases hk : k = stage
  · subst hk
    simp [enter_params_to_regs, set_result]
  · simp [enter_params_to_regs, set_result, Function.update_noteq hk]

theorem call_operation_stage {p p1 : Pipe_fig} {stage : Nat}
    (h : call_operation p stage = some p1) (k : Nat) :
    (p1.stages_in_pipe k).operation = (p.stages_in_pipe k).operation ∧
    (p1.stages_in_pipe k).instruction = (p.stages_in_pipe k).instruction ∧
    (p1.stages_in_pipe k).pc = (p.stages_in_pipe k).pc ∧
    (p.params_of_op.rd ≠ some k → p1.stages_in_pipe k = p.stages_in_pipe k) := by
  unfold call_operation at h
  cases hf : (p.stages_in_pipe stage).operation with
  | none => simp [hf] at h
  | some f =>
    simp only [hf] at h
    exact call_stages h k

theorem fetch_fits {p p1 : Pipe_fig} (hfit : operations_fit p) (h : fetch p = some p1) :
    operations_fit p1 := by
  unfold fetch at h
  split_ifs at h with h1 h2
  · simp only [Option.some.injEq] at h
    rw [← h]
    exact hfit
  · simp only [Option.some.injEq] at h
    refine operations_fit_congr hfit (fun stage => ?_) (fun stage hs => ?_)
    · rw [← h]
      by_cases hs : stage = FETCH
      · subst hs
        split_ifs <;> simp [set_stage_pc]
      · split_ifs <;> simp [set_stage_pc, Function.update_noteq hs]
    · rw [← h]
      split_ifs <;> simp [set_stage_pc, Function.update_noteq hs]

/-- The three ways in which `decode` returns. -/
theorem decode_cases {p p1 : Pipe_fig} (h : decode p = some p1) :
    (Format_of_instruction.opcode (p.stages_in_pipe DECODE).instruction = HALT ∧
      p1 = { p with is_halted := true }) ∨
    ∃ f, OpcodeFunctionTable
        (Format_of_instruction.opcode (p.stages_in_pipe DECODE).instruction) = some f ∧
      ((IsOpcodeBranch (Format_of_instruction.opcode (p.stages_in_pipe DECODE).instruction)
          = true ∧
        call_operation (enter_params_to_regs
          { p with
            stages_in_pipe :=
              Function.update p.stages_in_pipe DECODE
                { p.stages_in_pipe DECODE with operation := f } } DECODE) DECODE = some p1) ∨
       p1 = { p with
          stages_in_pipe :=
            Function.update p.stages_in_pipe DECODE
              { p.stages_in_pipe DECODE with operation := f } }) := by
  unfold decode at h
  dsimp only at h
  by_cases h1 : Format_of_instruction.opcode (p.stages_in_pipe DECODE).instruction = HALT
  · rw [if_pos h1] at h
    simp only [Option.some.injEq] at h
    exact Or.inl ⟨h1, h.symm⟩
  · rw [if_neg h1] at h
    cases ht : OpcodeFunctionTable
        (Format_of_instruction.opcode (p.stages_in_pipe DECODE).instruction) with
    | none => simp [ht] at h
    | some f =>
      simp only [ht] at h
      refine Or.inr ⟨f, rfl, ?_⟩
      by_cases h2 : IsOpcodeBranch
          (Format_of_instruction.opcode (p.stages_in_pipe DECODE).instruction) = true
      · rw [if_pos h2] at h
        exact Or.inl ⟨h2, h⟩
      · rw [if_neg h2] at h
        simp only [Option.some.injEq] at h
        exact Or.inr h.symm

/-- The function `decode` touches no stage but `DECODE`. -/
theorem decode_other_stages {p p1 : Pipe_fig} (h : decode p = some p1) (k : Nat)
    (hk : k ≠ DECODE) : p1.stages_in_pipe k = p.stages_in_pipe k := by
  rcases decode_cases h with ⟨-, e⟩ | ⟨f, -, ⟨-, hc⟩ | e⟩
  · rw [e]
  · have h3 := (call_operation_stage hc k).2.2.2 (by
      simp only [enter_params_to_regs, ne_eq, Option.some.injEq]
      exact fun e => hk e.symm)
    rw [h3, (enter_params_to_regs_stage _ DECODE k).2.2.2 hk]
    exact Function.update_noteq hk _ _
  · rw [e]
    exact Function.update_noteq hk _ _

theorem decode_fits {p p1 : Pipe_fig} (hfit : operations_fit p) (h : decode p = some p1) :
    operations_fit p1 := by
  have hother := decode_other_stages h
  refine ⟨by rw [hother FETCH (by decide)]; exact hfit.1, fun stage => ?_⟩
  by_cases hs : stage = DECODE
  · subst hs
    rcases decode_cases h with ⟨-, e⟩ | ⟨f, ht, ⟨-, hc⟩ | e⟩
    · rw [e]
      exact hfit.2 DECODE
    · right
      obtain ⟨ho, hi, -⟩ := call_operation_stage hc DECODE
      obtain ⟨ho1, hi1, -⟩ := enter_params_to_regs_stage
        { p with
          stages_in_pipe :=
            Function.update p.stages_in_pipe DECODE
              { p.stages_in_pipe DECODE with operation := f } } DECODE DECODE
      rw [ho, hi, ho1, hi1]
      simpa using ht
    · right
      rw [e]
      simpa using ht
  · unfold operation_fits
    rw [hother stage hs]
    exact hfit.2 stage

theorem execute_fits {p p1 : Pipe_fig} (hfit : operations_fit p) (h : execute p = some p1) :
    operations_fit p1 := by
  unfold execute at h
  dsimp only at h
  split_ifs at h
  · refine operations_fit_congr hfit (fun stage => ?_) (fun stage _ => ?_)
    · rw [(call_operation_stage h stage).1, (enter_params_to_regs_stage p EXECUTE stage).1]
    · rw [(call_operation_stage h stage).2.1, (enter_params_to_regs_stage p EXECUTE stage).2.1]
  · simp only [Option.some.injEq] at h
    rw [← h]
    exact hfit

theorem mem_fits (c : Nat) {x : Pipe_fig × Sim} (hfit : operations_fit x.1) :
    operations_fit (mem c x).1 := by
  unfold mem
  dsimp only
  split_ifs
  · refine operations_fit_congr hfit (fun stage => ?_) (fun stage _ => ?_)
    · by_cases hs : stage = MEM
      · subst hs
        simp [set_result, (enter_params_to_regs_stage x.1 MEM MEM).1]
      · simp [set_result, Function.update_noteq hs, (enter_params_to_regs_stage x.1 MEM stage).1]
    · by_cases hs : stage = MEM
      · subst hs
        simp [set_result, (enter_params_to_regs_stage x.1 MEM MEM).2.1]
      · simp [set_result, Function.update_noteq hs,
          (enter_params_to_regs_stage x.1 MEM stage).2.1]
  · exact operations_fit_congr hfit
      (fun stage => (enter_params_to_regs_stage x.1 MEM stage).1)
      (fun stage _ => (enter_params_to_regs_stage x.1 MEM stage).2.1)
  · exact hfit

theorem writeback_fits {p : Pipe_fig} (hfit : operations_fit p) :
    operations_fit (writeback p) := hfit

end PipelineController

namespace PipelineController

open OpcodeHandlers

theorem set_stage_pc_fits {p : Pipe_fig} (hfit : operations_fit p) (stage v : Nat) :
    operations_fit (set_stage_pc p stage v) := by
  refine operations_fit_congr hfit (fun k => ?_) (fun k _ => ?_)
  · by_cases hk : k = stage
    · subst hk
      simp [set_stage_pc]
    · simp [set_stage_pc, Function.update_noteq hk]
  · by_cases hk : k = stage
    · subst hk
      simp [set_stage_pc]
    · simp [set_stage_pc, Function.update_noteq hk]

/-- The copy of a stage into the next one takes the instruction with its operation. -/
theorem BubbleStage_fits {p : Pipe_fig} (hfit : operations_fit p) (stage : Nat)
    (hs : stage > FETCH) :
    operations_fit
      { p with
        stages_in_pipe :=
          Function.update p.stages_in_pipe stage
            (BubbleStage (p.stages_in_pipe stage) (p.stages_in_pipe (stage - 1))) } := by
  have hne : FETCH ≠ stage := Nat.ne_of_lt hs
  refine ⟨?_, fun k => ?_⟩
  · show (Function.update p.stages_in_pipe stage _ FETCH).operation = none
    rw [Function.update_noteq hne]
    exact hfit.1
  · unfold operation_fits
    by_cases hk : k = stage
    · subst hk
      simp only [Function.update_same, BubbleStage]
      exact hfit.2 (k - 1)
    · simp only [Function.update_noteq hk]
      exact hfit.2 k

theorem Pipe_Bubbles_loop_fits (fuel : Nat) : ∀ (p : Pipe_fig) (stage : Nat),
    operations_fit p → operations_fit (Pipe_Bubbles_loop p fuel stage) := by
  induction fuel with
  | zero => intro p stage h; exact h
  | succ n ih =>
    intro p stage h
    unfold Pipe_Bubbles_loop
    split_ifs with h1
    · exact set_stage_pc_fits h _ _
    · exact set_stage_pc_fits h _ _
    · exact ih _ _ (set_stage_pc_fits h _ _)
    · exact ih _ _ (BubbleStage_fits h stage h1)
    · exact h

theorem Pipe_Bubbles_fits {p : Pipe_fig} (hfit : operations_fit p) :
    operations_fit (Pipe_Bubbles p) := by
  unfold Pipe_Bubbles
  dsimp only
  split_ifs
  · exact set_stage_pc_fits (set_stage_pc_fits (Pipe_Bubbles_loop_fits _ _ _ hfit) _ _) _ _
  · exact Pipe_Bubbles_loop_fits _ _ _ hfit

theorem stage_to_exe_fits (c stage : Nat) {x y : Pipe_fig × Sim} (hfit : operations_fit x.1)
    (h : stage_to_exe c stage x = some y) : operations_fit y.1 := by
  unfold stage_to_exe at h
  split at h
  · cases hf : fetch x.1 with
    | none => simp [hf] at h
    | some q =>
      simp only [hf, Option.map_some', Option.some.injEq] at h
      rw [← h]
      exact fetch_fits hfit hf
  · cases hf : decode x.1 with
    | none => simp [hf] at h
    | some q =>
      simp only [hf, Option.map_some', Option.some.injEq] at h
      rw [← h]
      exact decode_fits hfit hf
  · cases hf : execute x.1 with
    | none => simp [hf] at h
    | some q =>
      simp only [hf, Option.map_some', Option.some.injEq] at h
      rw [← h]
      exact execute_fits hfit hf
  · simp only [Option.some.injEq] at h
    rw [← h]
    exact mem_fits c hfit
  · simp only [Option.some.injEq] at h
    rw [← h]
    exact writeback_fits hfit
  · simp at h

theorem run_stages_fits (c : Nat) : ∀ (l : List Nat) (x y : Pipe_fig × Sim),
    operations_fit x.1 → run_stages c l x = some y → operations_fit y.1
  | [], x, y, hfit, h => by
    simp only [run_stages, Option.some.injEq] at h
    rw [← h]
    exact hfit
  | stage :: rest, x, y, hfit, h => by
    rw [run_stages] at h
    split_ifs at h
    · cases hs : stage_to_exe c stage x with
      | none => simp [hs] at h
      | some z =>
        simp only [hs] at h
        exact run_stages_fits c rest z y (stage_to_exe_fits c stage hfit hs) h
    · exact run_stages_fits c rest x y hfit h

theorem execute_pipe_stages_fits (c : Nat) {x y : Pipe_fig × Sim} (hfit : operations_fit x.1)
    (h : execute_pipe_stages c x = some y) : operations_fit y.1 := by
  unfold execute_pipe_stages at h
  dsimp only at h
  by_cases hh : (!x.1.is_halted) = true
  · rw [if_pos hh] at h
    cases hf : stage_to_exe c FETCH x with
    | none => simp [hf] at h
    | some z =>
      simp only [hf] at h
      exact run_stages_fits c _ z y (stage_to_exe_fits c FETCH hfit hf) h
  · rw [if_neg hh] at h
    exact run_stages_fits c _ x y hfit h

theorem Pipe_iteration_exe_fits (c : Nat) {x y : Pipe_fig × Sim} (hfit : operations_fit x.1)
    (h : Pipe_iteration_exe c x = some y) : operations_fit y.1 := by
  unfold Pipe_iteration_exe at h
  dsimp only at h
  cases he : execute_pipe_stages c
      ({ x.1 with data_stall := checkfor_data_hazards x.1 }, x.2) with
  | none => simp [he] at h
  | some z =>
    simp only [he, Option.some.injEq] at h
    rw [← h]
    have hz : operations_fit z.1 :=
      execute_pipe_stages_fits c
        (show operations_fit ({ x.1 with data_stall := checkfor_data_hazards x.1 }, x.2).1
          from hfit) he
    exact hz

theorem Pipe_Init_fits (instruction_memory : Nat → Nat) :
    operations_fit (Pipe_Init instruction_memory) :=
  ⟨rfl, fun _ => Or.inl rfl⟩

end PipelineController

theorem core_run_single_cycle_fits {x y : ProcessorCore × Sim}
    (hfit : operations_fit x.1.pipelineController) (h : core_run_single_cycle x = some y) :
    operations_fit y.1.pipelineController := by
  unfold core_run_single_cycle at h
  split_ifs at h
  · simp only [Option.some.injEq] at h
    rw [← h]
    exact hfit
  · simp only [Option.some.injEq] at h
    rw [← h]
    exact hfit
  · dsimp only at h
    cases he : PipelineController.Pipe_iteration_exe (update_tracking_info x.1).coreId
        ((update_tracking_info x.1).pipelineController, x.2) with
    | none => simp [he] at h
    | some z =>
      simp only [he, Option.some.injEq] at h
      rw [← h]
      exact PipelineController.Pipe_Bubbles_fits
        (PipelineController.Pipe_iteration_exe_fits _
          (show operations_fit ((update_tracking_info x.1).pipelineController, x.2).1
            from hfit) he)

/-- In every pipeline that the cycles of a core reach from start-up, each stage carries no
operation or the entry of `OpcodeFunctionTable` for the opcode of its instruction. -/
theorem core_cycles_fits : ∀ (n : Nat) (x y : ProcessorCore × Sim),
    operations_fit x.1.pipelineController → core_cycles n x = some y →
    operations_fit y.1.pipelineController
  | 0, x, y, hfit, h => by
    simp only [core_cycles, Option.some.injEq] at h
    rw [← h]
    exact hfit
  | n + 1, x, y, hfit, h => by
    rw [core_cycles] at h
    cases hc : core_cycle x with
    | none => simp [hc] at h
    | some z =>
      simp only [hc] at h
      exact core_cycles_fits n z y
        (core_run_single_cycle_fits
          (show operations_fit (x.1, Run_Bus_Iteration x.2).1.pipelineController from hfit) hc) h

/-- The invariant holds in every pipeline that core 0 reaches from start-up. -/
theorem pipeline_after_fits (prog : List Nat) (n : Nat) (p : Pipe_fig)
    (h : pipeline_after prog n = some p) : operations_fit p := by
  unfold pipeline_after at h
  cases hc : core_cycles n (boot prog) with
  | none => simp [hc] at h
  | some y =>
    simp only [hc, Option.map_some', Option.some.injEq] at h
    rw [← h]
    exact core_cycles_fits n (boot prog) y (PipelineController.Pipe_Init_fits _) hc

namespace PipelineController

open OpcodeHandlers

/-- The function `execute` returns on an ALU instruction (opcodes `ADD` to `SRL`) that carries
the operation of its opcode, provided a shift is by less than 32 bits. -/
theorem execute_returns (p : Pipe_fig)
    (hop : Format_of_instruction.opcode (p.stages_in_pipe EXECUTE).instruction ≤ SRL)
    (hfit : OpcodeFunctionTable
      (Format_of_instruction.opcode (p.stages_in_pipe EXECUTE).instruction)
      = some (p.stages_in_pipe EXECUTE).operation)
    (hshift : SLL ≤ Format_of_instruction.opcode (p.stages_in_pipe EXECUTE).instruction →
      (enter_params_to_regs p EXECUTE).params_of_op.rt < 32) :
    ∃ p1, execute p = some p1 := by
  have hrd : ∀ v, ∃ p1, store_rd (enter_params_to_regs p EXECUTE) v = some p1 :=
    fun v => ⟨_, rfl⟩
  have hcall : execute p = call_operation (enter_params_to_regs p EXECUTE) EXECUTE := by
    unfold execute
    dsimp only
    rw [if_pos]
    have h8 : Format_of_instruction.opcode (p.stages_in_pipe EXECUTE).instruction ≤ 8 := hop
    generalize Format_of_instruction.opcode (p.stages_in_pipe EXECUTE).instruction = op at h8
    interval_cases op <;> decide
  rw [hcall]
  unfold call_operation
  rw [enter_params_to_regs_operation]
  have h8 : Format_of_instruction.opcode (p.stages_in_pipe EXECUTE).instruction ≤ 8 := hop
  generalize Format_of_instruction.opcode (p.stages_in_pipe EXECUTE).instruction = op
    at h8 hfit hshift
  generalize (p.stages_in_pipe EXECUTE).operation = f at hfit
  interval_cases op
  all_goals
    simp only [OpcodeFunctionTable, Option.some.injEq] at hfit
    subst hfit
  · exact hrd _
  · exact hrd _
  · exact hrd _
  · exact hrd _
  · exact hrd _
  · exact hrd _
  · simp only [call, logicShiftLeft, if_pos (hshift (by decide))]
    exact hrd _
  · simp only [call, arithmeticShiftRight, if_pos (hshift (by decide))]
    exact hrd _
  · simp only [call, logicShiftRight, if_pos (hshift (by decide))]
    exact hrd _

end PipelineController

/-! ## The claims on `R1`, `R0` and the branches -/

/-- C17, amended.  Whenever an instruction's operands are loaded (a branch in `DECODE`, an
instruction that is neither a branch nor `LW`, `SW` or `HALT` in `EXECUTE`, which covers the
ALU opcodes, `LW` or `SW` in `MEM`), `R1` is set to the zero-extension of the 12-bit `imm`
field of that instruction: the number `cmd % 4096`, between 0 and 4095, which is also what
`enter_params_to_regs` alone leaves in `R1`. -/
theorem C17_imm_zero_extended (p p1 : Pipe_fig) (c : Nat) (s : Sim) (stage : Nat)
    (hload :
      (stage = DECODE ∧
        OpcodeHandlers.IsOpcodeBranch
          (Format_of_instruction.opcode (p.stages_in_pipe DECODE).instruction) = true ∧
        PipelineController.decode p = some p1) ∨
      (stage = EXECUTE ∧
        OpcodeHandlers.IsOpcodeBranch
          (Format_of_instruction.opcode (p.stages_in_pipe EXECUTE).instruction) = false ∧
        OpcodeHandlers.IsOpcodeMemory
          (Format_of_instruction.opcode (p.stages_in_pipe EXECUTE).instruction) = false ∧
        Format_of_instruction.opcode (p.stages_in_pipe EXECUTE).instruction ≠ HALT ∧
        PipelineController.execute p = some p1) ∨
      (stage = MEM ∧
        OpcodeHandlers.IsOpcodeMemory
          (Format_of_instruction.opcode (p.stages_in_pipe MEM).instruction) = true ∧
        (PipelineController.mem c (p, s)).1 = p1)) :
    p1.regs_pnt IMM_REG = (p.stages_in_pipe stage).instruction % 4096 ∧
    p1.regs_pnt IMM_REG < 4096 ∧
    p1.regs_pnt IMM_REG = (PipelineController.enter_params_to_regs p stage).regs_pnt IMM_REG := by
  have key : p1.regs_pnt = Function.update p.regs_pnt IMM_REG
      (Format_of_instruction.imm (p.stages_in_pipe stage).instruction) := by
    rcases hload with ⟨hs, hb, hd⟩ | ⟨hs, hb, hm, hh, he⟩ | ⟨hs, hm, he⟩
    · subst hs
      obtain ⟨q, hq, hr, -⟩ := PipelineController.decode_branch p hb
      rw [hd] at hq
      simp only [Option.some.injEq] at hq
      rw [hq, hr]
    · subst hs
      rw [PipelineController.execute_regs he, if_pos (by simp [hb, hm, hh])]
    · subst hs
      rw [← he, PipelineController.mem_regs, if_pos hm]
  rw [key, PipelineController.enter_params_to_regs_regs]
  simp only [Function.update_same, Format_of_instruction.imm]
  exact ⟨trivial, Nat.mod_lt _ (by decide), trivial⟩

theorem C17_imm_zero_extended_witness :
    (PipelineController.mem 0 (operands_example, Sim_Init (fun _ => 0))).1.regs_pnt IMM_REG
      = (operands_example.stages_in_pipe MEM).instruction % 4096 ∧
    (PipelineController.mem 0 (operands_example, Sim_Init (fun _ => 0))).1.regs_pnt IMM_REG
      < 4096 :=
  have h := C17_imm_zero_extended operands_example
    (PipelineController.mem 0 (operands_example, Sim_Init (fun _ => 0))).1 0
    (Sim_Init (fun _ => 0)) MEM (Or.inr (Or.inr ⟨rfl, by decide, rfl⟩))
  ⟨h.1, h.2.1⟩

/-- C19. When `DECODE` holds a branch (`BEQ` to `BGE`, or `JAL`), `decode` returns with `R1`
set to the immediate and with the `pc` equal to the value of register `rd`, read after the
immediate is stored in `R1`, masked with `0x1FF`, when the condition holds on the values of
`rs` and `rt` or the instruction is `JAL`; when the condition fails the `pc` is as `fetch`
left it.  The rest of the cycle (the stages `EXECUTE`, `MEM`, `WRITE_BACK`, `stats_update`,
`Pipe_Bubbles`) keeps the `pc`, so does a whole cycle that starts with `mem_stall` set, in
which `fetch` does not run, and a `fetch` that runs latches the `pc` into its stage (the
target of a taken branch is inside the instruction memory).  The
stage `EXECUTE` is taken as every cycle leaves it (`core_cycles_fits`): with no operation or
with the one of its opcode. -/
theorem C19_branch_in_decode (p : Pipe_fig)
    (hb : OpcodeHandlers.IsOpcodeBranch
      (Format_of_instruction.opcode (p.stages_in_pipe DECODE).instruction) = true)
    (hfit : operation_fits p EXECUTE) :
    ∃ p1, PipelineController.decode p = some p1 ∧
      p1.regs_pnt = Function.update p.regs_pnt IMM_REG
        (Format_of_instruction.imm (p.stages_in_pipe DECODE).instruction) ∧
      p1.pc =
        (if branch_taken (Format_of_instruction.opcode (p.stages_in_pipe DECODE).instruction)
            (p1.regs_pnt (Format_of_instruction.rs (p.stages_in_pipe DECODE).instruction))
            (p1.regs_pnt (Format_of_instruction.rt (p.stages_in_pipe DECODE).instruction))
            = true then
          p1.regs_pnt (Format_of_instruction.rd (p.stages_in_pipe DECODE).instruction) &&& 0x1FF
        else p.pc) ∧
      (∀ c s y,
        PipelineController.run_stages c [EXECUTE, MEM, WRITE_BACK] (p1, s) = some y →
        (PipelineController.Pipe_Bubbles (PipelineController.stats_update y.1)).pc = p1.pc) ∧
      (∀ c x y, x.1.mem_stall = true → PipelineController.Pipe_iteration_exe c x = some y →
        (PipelineController.Pipe_Bubbles y.1).pc = x.1.pc) ∧
      (∀ q : Pipe_fig, q.mem_stall = false → q.pc = p1.pc → q.pc < INSTRUCTIONMEMORYSIZE →
        ∃ q1, PipelineController.fetch q = some q1 ∧
          (q1.stages_in_pipe FETCH).pc = p1.pc) ∧
      (branch_taken (Format_of_instruction.opcode (p.stages_in_pipe DECODE).instruction)
          (p1.regs_pnt (Format_of_instruction.rs (p.stages_in_pipe DECODE).instruction))
          (p1.regs_pnt (Format_of_instruction.rt (p.stages_in_pipe DECODE).instruction))
          = true → p1.pc < INSTRUCTIONMEMORYSIZE) := by
  obtain ⟨p1, hd, hr, hpc⟩ := PipelineController.decode_branch p hb
  refine ⟨p1, hd, hr, ?_, ?_, ?_, ?_, ?_⟩
  · rw [hpc, hr]
  · intro c s y hy
    rw [PipelineController.Pipe_Bubbles_pc]
    have hfit1 : operation_fits p1 EXECUTE := by
      unfold operation_fits
      rw [PipelineController.decode_other_stages hd EXECUTE (by decide)]
      exact hfit
    exact PipelineController.run_stages_rest_pc c (p1, s) y hfit1 hy
  · intro c x y hs hy
    rw [PipelineController.Pipe_Bubbles_pc]
    exact PipelineController.Pipe_iteration_exe_stalled_pc c x y hs hy
  · intro q hs hq hlt
    obtain ⟨q1, h1, h2, -⟩ := PipelineController.fetch_latches q hs hlt
    exact ⟨q1, h1, h2.trans hq⟩
  · intro ht
    rw [hr] at ht
    rw [hpc, if_pos ht]
    exact lt_of_le_of_lt Nat.and_le_right (by decide)

theorem C19_branch_in_decode_witness :
    ∃ p1, PipelineController.decode operands_example = some p1 ∧ p1.regs_pnt IMM_REG = 0xFFF ∧
      p1.pc = 7 :=
  match C19_branch_in_decode operands_example (by decide) (by decide) with
  | ⟨p1, h1, h2, h3, _⟩ =>
    ⟨p1, h1, by rw [h2]; rfl, by rw [h3, h2]; rfl⟩

/-! ## Concrete runs of the pipeline -/

/-- C17, counterexample.  Core 0 runs `imm_program`.  After two cycles the `ADD R2, R1, R0`
with `imm = 0xFFF` is in `EXECUTE`; the third cycle loads its operands and leaves
`0x00000FFF` in `R1`, not `0xFFFFFFFF`; two cycles later `WRITE_BACK` has stored the sum
`0x00000FFF` in `R2`. -/
theorem C17_counterexample :
    (pipeline_after imm_program 2).map
      (fun p => (Format_of_instruction.opcode (p.stages_in_pipe EXECUTE).instruction,
        Format_of_instruction.imm (p.stages_in_pipe EXECUTE).instruction))
      = some (ADD, 0xFFF) ∧
    (pipeline_after imm_program 3).map (fun p => p.regs_pnt IMM_REG) = some 0x00000FFF ∧
    (pipeline_after imm_program 5).map (fun p => p.regs_pnt 2) = some 0x00000FFF :=
  ⟨by decide!, by decide!, by decide!⟩

/-- C18, the failing run.  Core 0 runs `zero_reg_program`, whose first instruction is
`ADD R0, R1, R1` with the immediate 5.  After five cycles `WRITE_BACK` has stored 10 in `R0`,
and the core halts two cycles later with 10 in `R0`. -/
theorem C18_failing_run :
    (pipeline_after zero_reg_program 4).map (fun p => p.regs_pnt ZERO_REG) = some 0 ∧
    (pipeline_after zero_reg_program 5).map (fun p => p.regs_pnt ZERO_REG) = some 10 ∧
    (core_cycles 7 (boot zero_reg_program)).map
      (fun y => (y.1.isHalted, y.1.pipelineController.regs_pnt ZERO_REG)) = some (true, 10) :=
  ⟨by decide!, by decide!, by decide!⟩

/-- C20, the failing run.  Core 0 runs `jump_program`.  After five cycles `R2` holds `0x200`
and the `JAL` through `R2` waits in `DECODE`; the sixth cycle decodes it and leaves the `pc`
at 0, which is `0x200 & 0x1FF`, not at `0x200 & 0x3FF = 0x200`.  No branch reaches an address
from 512 on: whenever a branch function assigns the `pc`, the new `pc` is below 512. -/
theorem C20_failing_run :
    (pipeline_after jump_program 5).map
      (fun p => (p.regs_pnt 2,
        Format_of_instruction.opcode (p.stages_in_pipe DECODE).instruction,
        Format_of_instruction.rd (p.stages_in_pipe DECODE).instruction))
      = some (0x200, JAL, 2) ∧
    (pipeline_after jump_program 6).map (fun p => p.pc) = some 0 ∧
    0x200 &&& 0x3FF = 0x200 ∧
    (∀ p p1, OpcodeHandlers.store_pc p = some p1 → p1.pc < 512) := by
  refine ⟨by decide!, by decide!, by decide, ?_⟩
  intro p p1 h
  obtain ⟨v, -, e⟩ := OpcodeHandlers.store_pc_some h
  subst e
  exact lt_of_le_of_lt (Nat.mod_le _ _) (lt_of_le_of_lt Nat.and_le_right (by decide))

/-! ## The address fields, the memory image and the owner's answer -/

/-- The two conditions of `is_block_valid_and_matching` look at the line `fields_index` of the
address: a state written to the line of `a` is read back at the line of `b` for every cache
exactly when the two index fields are equal. -/
theorem same_line_iff (a b : Nat) :
    fields_index a = fields_index b ↔
      ∀ (cd : Cache_Data) (m : MESIState),
        ((set_mesi cd (fields_index a) m).tsram (fields_index b)).mesi = m := by
  constructor
  · intro h cd m
    rw [h]
    simp [set_mesi]
  · intro h
    by_contra hne
    have := h (CacheController_Init 0) MESIState.MESI_STATE_MODIFIED
    simp [set_mesi, Function.update_noteq (Ne.symm hne), CacheController_Init] at this

/-- C28.  For an address `a` below `2 ^ 20` the fields are `offset = a mod 4`,
`index = (a div 4) mod 64` and `tag = a div 256`; `(tag << 8) | (index << 2) | offset` is `a`;
the DSRAM position `index * 4 + offset` is `a mod 256`, below 256; the index is below 64; and
`a` and another address `b` select the same TSRAM line (a state written to the line of `a` is
read at the line of `b`, in every cache) exactly when their index fields are equal. -/
theorem C28_address_fields (a : Nat) (h : a < 2 ^ 20) :
    fields_offset a = a % 4 ∧ fields_index a = (a / 4) % 64 ∧ fields_tag a = a / 256 ∧
    ((fields_tag a <<< 8) ||| (fields_index a <<< 2) ||| fields_offset a) = a ∧
    fields_index a * BLOCK_SIZE + fields_offset a = a % 256 ∧
    fields_index a * BLOCK_SIZE + fields_offset a < CACHE_SIZE ∧
    fields_index a < NUM_BLOCKS ∧
    ∀ b, b < 2 ^ 20 →
      (fields_index a = fields_index b ↔
        ∀ (cd : Cache_Data) (m : MESIState),
          ((set_mesi cd (fields_index a) m).tsram (fields_index b)).mesi = m) := by
  have htag : fields_tag a = a / 256 := by unfold fields_tag; omega
  refine ⟨rfl, rfl, htag, ?_, ?_, ?_, ?_, fun b _ => same_line_iff a b⟩
  · rw [evict_addr_eq _ _ (fields_index_lt a)]
    have h4 : fields_offset a < 2 ^ 2 := by unfold fields_offset; omega
    have := Nat.mul_add_lt_is_or h4 (fields_tag a * 64 + fields_index a)
    have e : fields_tag a * 256 + fields_index a * 4 =
        2 ^ 2 * (fields_tag a * 64 + fields_index a) := by ring
    rw [e, ← this, htag]
    unfold fields_index fields_offset
    omega
  · unfold fields_index fields_offset BLOCK_SIZE
    omega
  · unfold fields_index fields_offset BLOCK_SIZE CACHE_SIZE
    omega
  · unfold fields_index NUM_BLOCKS CACHE_SIZE BLOCK_SIZE
    omega

/-- C28, witness: the address `0x12345`. -/
theorem C28_address_fields_witness :
    fields_offset 0x12345 = 0x12345 % 4 ∧ fields_index 0x12345 = (0x12345 / 4) % 64 ∧
    fields_tag 0x12345 = 0x12345 / 256 ∧
    ((fields_tag 0x12345 <<< 8) ||| (fields_index 0x12345 <<< 2) ||| fields_offset 0x12345)
      = 0x12345 ∧
    fields_index 0x12345 * BLOCK_SIZE + fields_offset 0x12345 = 0x12345 % 256 ∧
    fields_index 0x12345 * BLOCK_SIZE + fields_offset 0x12345 < CACHE_SIZE ∧
    fields_index 0x12345 < NUM_BLOCKS ∧
    ∀ b, b < 2 ^ 20 →
      (fields_index 0x12345 = fields_index b ↔
        ∀ (cd : Cache_Data) (m : MESIState),
          ((set_mesi cd (fields_index 0x12345) m).tsram (fields_index b)).mesi = m) :=
  C28_address_fields 0x12345 (by decide)

/-- The loop of `countMemoryLines` returns at most the number of words it was given. -/
theorem countMemoryLines_from_le (mem : Nat → Nat) (n : Nat) :
    countMemoryLines_from mem n ≤ n := by
  induction n with
  | zero => exact Nat.le_refl 0
  | succ n ih =>
    unfold countMemoryLines_from
    split_ifs
    · exact Nat.le_refl _
    · exact Nat.le_succ_of_le ih

/-- Every word from the result of the loop up to its bound is zero. -/
theorem countMemoryLines_from_zero (mem : Nat → Nat) (n j : Nat)
    (h1 : countMemoryLines_from mem n ≤ j) (h2 : j < n) : mem j = 0 := by
  induction n with
  | zero => omega
  | succ n ih =>
    unfold countMemoryLines_from at h1
    split_ifs at h1 with hz
    · omega
    · by_cases hj : j = n
      · subst hj
        exact not_not.mp hz
      · exact ih h1 (by omega)

/-- The loop returns `i + 1` for the highest index `i` below the bound with a nonzero word. -/
theorem countMemoryLines_from_highest (mem : Nat → Nat) (n i : Nat) (hi : i < n)
    (hnz : mem i ≠ 0) (hz : ∀ j, i < j → j < n → mem j = 0) :
    countMemoryLines_from mem n = i + 1 := by
  induction n with
  | zero => omega
  | succ n ih =>
    unfold countMemoryLines_from
    by_cases hn : i = n
    · subst hn
      rw [if_pos hnz]
    · have h0 : mem n = 0 := hz n (by omega) (Nat.lt_succ_self n)
      rw [if_neg (not_not.mpr h0)]
      exact ih (by omega) (fun j h1 h2 => hz j h1 (Nat.lt_succ_of_lt h2))

/-- The loop returns 0 when every word below the bound is zero. -/
theorem countMemoryLines_from_empty (mem : Nat → Nat) (n : Nat)
    (hz : ∀ j, j < n → mem j = 0) : countMemoryLines_from mem n = 0 := by
  induction n with
  | zero => rfl
  | succ n ih =>
    unfold countMemoryLines_from
    rw [if_neg (not_not.mpr (hz n (Nat.lt_succ_self n)))]
    exact ih (fun j hj => hz j (Nat.lt_succ_of_lt hj))

/-- C29.  `MainMemoryPrint` writes `i + 1` words, the words `mainMemory[0..i]` in order, where
`i` is the highest index of the array holding a nonzero word; it writes nothing when every
word is zero; and every word of the array from the number of words written on is zero. -/
theorem C29_memout_length (s : Sim) :
    (∀ i, i < MAIN_MEMORY_SIZE → s.mainMemory i ≠ 0 →
      (∀ j, i < j → j < MAIN_MEMORY_SIZE → s.mainMemory j = 0) →
      (MainMemoryPrint s).length = i + 1 ∧
      MainMemoryPrint s = (List.range (i + 1)).map s.mainMemory) ∧
    ((∀ j, j < MAIN_MEMORY_SIZE → s.mainMemory j = 0) → MainMemoryPrint s = []) ∧
    (∀ j, (MainMemoryPrint s).length ≤ j → j < MAIN_MEMORY_SIZE → s.mainMemory j = 0) ∧
    (MainMemoryPrint s).length ≤ MAIN_MEMORY_SIZE := by
  refine ⟨?_, ?_, ?_, ?_⟩
  · intro i hi hnz hz
    have e : countMemoryLines s = i + 1 := countMemoryLines_from_highest _ _ i hi hnz hz
    unfold MainMemoryPrint
    rw [e]
    simp
  · intro hz
    have e : countMemoryLines s = 0 := countMemoryLines_from_empty _ _ hz
    unfold MainMemoryPrint
    rw [e]
    rfl
  · intro j h1 h2
    unfold MainMemoryPrint at h1
    simp only [List.length_map, List.length_range] at h1
    exact countMemoryLines_from_zero _ _ j h1 h2
  · unfold MainMemoryPrint
    simp only [List.length_map, List.length_range]
    exact countMemoryLines_from_le _ _

/-- C29, witness: on the start-up globals with the memory image `one_word_memory` (the word
`0x42` at `0x100`, zero elsewhere) 257 words are written, the words `0 .. 0x100`. -/
theorem C29_memout_length_witness :
    (MainMemoryPrint (Sim_Init one_word_memory)).length = 0x100 + 1 ∧
    MainMemoryPrint (Sim_Init one_word_memory) =
      (List.range (0x100 + 1)).map (Sim_Init one_word_memory).mainMemory :=
  (C29_memout_length (Sim_Init one_word_memory)).1 0x100 (by decide)
    (by show one_word_memory 0x100 ≠ 0; decide)
    (fun j h1 _ => by
      show one_word_memory j = 0
      unfold one_word_memory
      rw [if_neg (by omega)])

/-- The answer of `MSEI_modified` to a `BusRd`, a `BusRdX` or a `Flush`. -/
theorem MSEI_modified_packet (c : Cache_Data) (t : bus_transaction)
    (hcmd : t.bus_cmd = cmd_on_the_bus.busRd ∨ t.bus_cmd = cmd_on_the_bus.busRdX ∨
      t.bus_cmd = cmd_on_the_bus.flush) :
    (MSEI_modified c t).2 = flush_data c t := by
  unfold MSEI_modified
  rcases hcmd with h | h | h <;> simp [h]

/-- C30, as the code has it.  A snooping cache (not the caller of a command other than
`Flush`) that holds the line of the transaction address in `M` and sees `BusRd`, `BusRdX` or
`Flush` rewrites the transaction in flight to `origid` = its own cache id, `cmd = Flush` and
`data` = its DSRAM word at `index * 4 + offset` of the transaction address; the address, the
caller and the shared flag are unchanged. -/
theorem C30_owner_signs_flush (c : Cache_Data) (t : bus_transaction) (o : Nat)
    (htag : (c.tsram (fields_index t.bus_addr)).tag = fields_tag t.bus_addr)
    (hm : (c.tsram (fields_index t.bus_addr)).mesi = MESIState.MESI_STATE_MODIFIED)
    (hcmd : t.bus_cmd = cmd_on_the_bus.busRd ∨ t.bus_cmd = cmd_on_the_bus.busRdX ∨
      t.bus_cmd = cmd_on_the_bus.flush)
    (hsnoop : ¬ (c.id = t.original_caller ∧ t.bus_cmd ≠ cmd_on_the_bus.flush)) :
    (snooping_handler c t o).2.1 =
      { original_caller := t.original_caller, origid := c.id, bus_cmd := cmd_on_the_bus.flush,
        bus_addr := t.bus_addr,
        bus_data := c.dram (fields_index t.bus_addr * BLOCK_SIZE + fields_offset t.bus_addr),
        bus_shared := t.bus_shared } ∧
    (snooping_handler c t o).2.2 = true := by
  unfold snooping_handler
  rw [if_neg hsnoop]
  unfold snooped_transaction
  rw [if_neg (by rw [htag, hm]; simp)]
  have e : (state_handler (c.tsram (fields_index t.bus_addr)).mesi c t).2 = flush_data c t := by
    rw [hm]
    exact MSEI_modified_packet c t hcmd
  dsimp only
  split_ifs <;> exact ⟨by rw [e]; rfl, rfl⟩

/-- C30, witness: the cache `owner_cache` (id 0, line 16 in `M`) snoops the `BusRd` of core 1
for `0x41`. -/
theorem C30_owner_signs_flush_witness :
    (snooping_handler owner_cache read_packet 0).2.1 =
      { original_caller := read_packet.original_caller, origid := owner_cache.id,
        bus_cmd := cmd_on_the_bus.flush, bus_addr := read_packet.bus_addr,
        bus_data := owner_cache.dram
          (fields_index read_packet.bus_addr * BLOCK_SIZE + fields_offset read_packet.bus_addr),
        bus_shared := read_packet.bus_shared } ∧
    (snooping_handler owner_cache read_packet 0).2.2 = true :=
  C30_owner_signs_flush owner_cache read_packet 0 (by decide) (by decide)
    (Or.inl rfl) (by decide)

/-- C30, counterexample.  The cache `owner_cache` (id 0) holds the line of `0x41` in `M` and
snoops the `BusRd` of core 1 for `0x41`; it answers with `cmd = Flush`, the word `0xAA`, the
same address, and `origid = 0`, its own id, which is not `main_memory` (4). -/
theorem C30_counterexample :
    (owner_cache.tsram (fields_index read_packet.bus_addr)).tag
      = fields_tag read_packet.bus_addr ∧
    (owner_cache.tsram (fields_index read_packet.bus_addr)).mesi
      = MESIState.MESI_STATE_MODIFIED ∧
    read_packet.bus_cmd = cmd_on_the_bus.busRd ∧
    owner_cache.id ≠ read_packet.original_caller ∧
    (snooping_handler owner_cache read_packet 0).2.1.bus_cmd = cmd_on_the_bus.flush ∧
    (snooping_handler owner_cache read_packet 0).2.1.bus_data = 0xAA ∧
    (snooping_handler owner_cache read_packet 0).2.1.bus_addr = 0x41 ∧
    (snooping_handler owner_cache read_packet 0).2.1.origid = 0 ∧
    (snooping_handler owner_cache read_packet 0).2.1.origid ≠ main_memory := by
  refine ⟨by decide, by decide, rfl, by decide, by decide, by decide, by decide, by decide,
    by decide⟩

/-! ## The data hazards -/

namespace PipelineController

open OpcodeHandlers

theorem call_operation_data_stall {p p1 : Pipe_fig} {stage : Nat}
    (h : call_operation p stage = some p1) : p1.data_stall = p.data_stall := by
  unfold call_operation at h
  cases hf : (p.stages_in_pipe stage).operation with
  | none => simp [hf] at h
  | some f =>
    simp only [hf] at h
    exact (call_frame h).2.2.1

theorem fetch_data_stall {p p1 : Pipe_fig} (h : fetch p = some p1) :
    p1.data_stall = p.data_stall := by
  unfold fetch at h
  dsimp only at h
  split_ifs at h <;> simp only [Option.some.injEq] at h <;> rw [← h] <;> rfl

theorem decode_data_stall {p p1 : Pipe_fig} (h : decode p = some p1) :
    p1.data_stall = p.data_stall := by
  rcases decode_cases h with ⟨-, e⟩ | ⟨f, -, ⟨-, hc⟩ | e⟩
  · rw [e]
  · rw [call_operation_data_stall hc]
    rfl
  · rw [e]

theorem execute_data_stall {p p1 : Pipe_fig} (h : execute p = some p1) :
    p1.data_stall = p.data_stall := by
  unfold execute at h
  dsimp only at h
  split_ifs at h
  · rw [call_operation_data_stall h]
    rfl
  · simp only [Option.some.injEq] at h
    rw [← h]

theorem mem_data_stall (c : Nat) (x : Pipe_fig × Sim) :
    (mem c x).1.data_stall = x.1.data_stall := by
  unfold mem
  dsimp only
  split_ifs <;> rfl

theorem stage_to_exe_data_stall (c stage : Nat) {x y : Pipe_fig × Sim}
    (h : stage_to_exe c stage x = some y) : y.1.data_stall = x.1.data_stall := by
  unfold stage_to_exe at h
  split at h
  · cases hf : fetch x.1 with
    | none => simp [hf] at h
    | some q =>
      simp only [hf, Option.map_some', Option.some.injEq] at h
      rw [← h]
      exact fetch_data_stall hf
  · cases hf : decode x.1 with
    | none => simp [hf] at h
    | some q =>
      simp only [hf, Option.map_some', Option.some.injEq] at h
      rw [← h]
      exact decode_data_stall hf
  · cases hf : execute x.1 with
    | none => simp [hf] at h
    | some q =>
      simp only [hf, Option.map_some', Option.some.injEq] at h
      rw [← h]
      exact execute_data_stall hf
  · simp only [Option.some.injEq] at h
    rw [← h]
    exact mem_data_stall c x
  · simp only [Option.some.injEq] at h
    rw [← h]
    rfl
  · simp at h

theorem run_stages_data_stall (c : Nat) : ∀ (l : List Nat) (x y : Pipe_fig × Sim),
    run_stages c l x = some y → y.1.data_stall = x.1.data_stall
  | [], x, y, h => by
    simp only [run_stages, Option.some.injEq] at h
    rw [← h]
  | stage :: rest, x, y, h => by
    rw [run_stages] at h
    split_ifs at h
    · cases hs : stage_to_exe c stage x with
      | none => simp [hs] at h
      | some z =>
        simp only [hs] at h
        rw [run_stages_data_stall c rest z y h, stage_to_exe_data_stall c stage hs]
    · exact run_stages_data_stall c rest x y h

theorem execute_pipe_stages_data_stall (c : Nat) {x y : Pipe_fig × Sim}
    (h : execute_pipe_stages c x = some y) : y.1.data_stall = x.1.data_stall := by
  unfold execute_pipe_stages at h
  dsimp only at h
  by_cases hh : (!x.1.is_halted) = true
  · rw [if_pos hh] at h
    cases hf : stage_to_exe c FETCH x with
    | none => simp [hf] at h
    | some z =>
      simp only [hf] at h
      rw [run_stages_data_stall c _ z y h, stage_to_exe_data_stall c FETCH hf]
  · rw [if_neg hh] at h
    exact run_stages_data_stall c _ x y h

/-- The flag `data_stall` that `Pipe_iteration_exe` leaves is the value of
`checkfor_data_hazards` on the pipeline it was given: no stage assigns it. -/
theorem Pipe_iteration_exe_data_stall (c : Nat) {x y : Pipe_fig × Sim}
    (h : Pipe_iteration_exe c x = some y) : y.1.data_stall = checkfor_data_hazards x.1 := by
  unfold Pipe_iteration_exe at h
  dsimp only at h
  cases he : execute_pipe_stages c
      ({ x.1 with data_stall := checkfor_data_hazards x.1 }, x.2) with
  | none => simp [he] at h
  | some z =>
    simp only [he, Option.some.injEq] at h
    rw [← h]
    exact execute_pipe_stages_data_stall c he

/-- The comparison of `check_hazrads_by_comparing_regs` when the instruction in `DECODE` takes
the branch of the operations that use `rs` and `rt`. -/
theorem check_hazrads_two (p : Pipe_fig) (stage : Nat)
    (h : Format_of_instruction.opcode (p.stages_in_pipe DECODE).instruction ≤ SRL ∨
      Format_of_instruction.opcode (p.stages_in_pipe DECODE).instruction = LW ∨
      (Format_of_instruction.opcode (p.stages_in_pipe DECODE).instruction = SW ∧
        Format_of_instruction.opcode (p.stages_in_pipe WRITE_BACK).instruction = SW)) :
    (check_hazrads_by_comparing_regs p stage = true ↔
      (p.stages_in_pipe stage).pc ≠ UINT16_MAX ∧
      Format_of_instruction.rd (p.stages_in_pipe stage).instruction ≠ ZERO_REG ∧
      Format_of_instruction.rd (p.stages_in_pipe stage).instruction ≠ IMM_REG ∧
      (Format_of_instruction.rd (p.stages_in_pipe stage).instruction
          = Format_of_instruction.rs (p.stages_in_pipe DECODE).instruction ∨
        Format_of_instruction.rd (p.stages_in_pipe stage).instruction
          = Format_of_instruction.rt (p.stages_in_pipe DECODE).instruction)) := by
  unfold check_hazrads_by_comparing_regs
  dsimp only
  by_cases h1 : (p.stages_in_pipe stage).pc = UINT16_MAX
  · simp [h1]
  · rw [if_neg h1]
    by_cases h2 : Format_of_instruction.rd (p.stages_in_pipe stage).instruction = IMM_REG ∨
        Format_of_instruction.rd (p.stages_in_pipe stage).instruction = ZERO_REG
    · rw [if_pos h2]
      rcases h2 with h2 | h2 <;> simp [h2]
    · rw [if_neg h2, if_pos h]
      have h3 := not_or.mp h2
      simp [h1, h3.1, h3.2]

/-- The comparison of `check_hazrads_by_comparing_regs` when the instruction in `DECODE` takes
the branch of the operations that use `rd` as well. -/
theorem check_hazrads_three (p : Pipe_fig) (stage : Nat)
    (h : ¬ (Format_of_instruction.opcode (p.stages_in_pipe DECODE).instruction ≤ SRL ∨
      Format_of_instruction.opcode (p.stages_in_pipe DECODE).instruction = LW ∨
      (Format_of_instruction.opcode (p.stages_in_pipe DECODE).instruction = SW ∧
        Format_of_instruction.opcode (p.stages_in_pipe WRITE_BACK).instruction = SW))) :
    (check_hazrads_by_comparing_regs p stage = true ↔
      (p.stages_in_pipe stage).pc ≠ UINT16_MAX ∧
      Format_of_instruction.rd (p.stages_in_pipe stage).instruction ≠ ZERO_REG ∧
      Format_of_instruction.rd (p.stages_in_pipe stage).instruction ≠ IMM_REG ∧
      (Format_of_instruction.rd (p.stages_in_pipe stage).instruction
          = Format_of_instruction.rd (p.stages_in_pipe DECODE).instruction ∨
        Format_of_instruction.rd (p.stages_in_pipe stage).instruction
          = Format_of_instruction.rs (p.stages_in_pipe DECODE).instruction ∨
        Format_of_instruction.rd (p.stages_in_pipe stage).instruction
          = Format_of_instruction.rt (p.stages_in_pipe DECODE).instruction)) := by
  unfold check_hazrads_by_comparing_regs
  dsimp only
  by_cases h1 : (p.stages_in_pipe stage).pc = UINT16_MAX
  · simp [h1]
  · rw [if_neg h1]
    by_cases h2 : Format_of_instruction.rd (p.stages_in_pipe stage).instruction = IMM_REG ∨
        Format_of_instruction.rd (p.stages_in_pipe stage).instruction = ZERO_REG
    · rw [if_pos h2]
      rcases h2 with h2 | h2 <;> simp [h2]
    · rw [if_neg h2, if_neg h]
      have h3 := not_or.mp h2
      simp [h1, h3.1, h3.2, or_assoc]

/-- The value of `checkfor_data_hazards`: one of the three stages reports a hazard. -/
theorem checkfor_data_hazards_iff (p : Pipe_fig) :
    checkfor_data_hazards p = true ↔
      ∃ stage, (stage = EXECUTE ∨ stage = MEM ∨ stage = WRITE_BACK) ∧
        check_hazrads_by_comparing_regs p stage = true := by
  unfold checkfor_data_hazards
  simp only [Bool.or_eq_true]
  constructor
  · rintro ((h | h) | h)
    · exact ⟨EXECUTE, Or.inl rfl, h⟩
    · exact ⟨MEM, Or.inr (Or.inl rfl), h⟩
    · exact ⟨WRITE_BACK, Or.inr (Or.inr rfl), h⟩
  · rintro ⟨stage, hs | hs | hs, h⟩
    · subst hs; exact Or.inl (Or.inl h)
    · subst hs; exact Or.inl (Or.inr h)
    · subst hs; exact Or.inr h

end PipelineController

/-- C22.  When the instruction in `DECODE` is an ALU operation (`ADD` to `SRL`) or `LW`,
`checkfor_data_hazards` is true if and only if some stage among `EXECUTE`, `MEM` and
`WRITE_BACK` that is not a bubble has an `rd` field other than `R0` and `R1` equal to the `rs`
or the `rt` of the instruction in `DECODE`; and this value is the `data_stall` that
`Pipe_iteration_exe` computes and leaves. -/
theorem C22_data_stall_sources (p : Pipe_fig)
    (h : Format_of_instruction.opcode (p.stages_in_pipe DECODE).instruction ≤ SRL ∨
      Format_of_instruction.opcode (p.stages_in_pipe DECODE).instruction = LW) :
    (PipelineController.checkfor_data_hazards p = true ↔
      ∃ stage, (stage = EXECUTE ∨ stage = MEM ∨ stage = WRITE_BACK) ∧
        (p.stages_in_pipe stage).pc ≠ UINT16_MAX ∧
        Format_of_instruction.rd (p.stages_in_pipe stage).instruction ≠ ZERO_REG ∧
        Format_of_instruction.rd (p.stages_in_pipe stage).instruction ≠ IMM_REG ∧
        (Format_of_instruction.rd (p.stages_in_pipe stage).instruction
            = Format_of_instruction.rs (p.stages_in_pipe DECODE).instruction ∨
          Format_of_instruction.rd (p.stages_in_pipe stage).instruction
            = Format_of_instruction.rt (p.stages_in_pipe DECODE).instruction)) ∧
    ∀ (c : Nat) (sim : Sim) (y : Pipe_fig × Sim),
      PipelineController.Pipe_iteration_exe c (p, sim) = some y →
        y.1.data_stall = PipelineController.checkfor_data_hazards p := by
  have h2 : Format_of_instruction.opcode (p.stages_in_pipe DECODE).instruction ≤ SRL ∨
      Format_of_instruction.opcode (p.stages_in_pipe DECODE).instruction = LW ∨
      (Format_of_instruction.opcode (p.stages_in_pipe DECODE).instruction = SW ∧
        Format_of_instruction.opcode (p.stages_in_pipe WRITE_BACK).instruction = SW) := by
    rcases h with h | h
    · exact Or.inl h
    · exact Or.inr (Or.inl h)
  refine ⟨?_, fun c sim y hy => PipelineController.Pipe_iteration_exe_data_stall c hy⟩
  rw [PipelineController.checkfor_data_hazards_iff]
  constructor
  · rintro ⟨stage, hs, hc⟩
    exact ⟨stage, hs, (PipelineController.check_hazrads_two p stage h2).mp hc⟩
  · rintro ⟨stage, hs, hc⟩
    exact ⟨stage, hs, (PipelineController.check_hazrads_two p stage h2).mpr hc⟩

/-- The comparison with `rd` of the instruction in `DECODE`, where the code makes it.  When the
instruction in `DECODE` is a branch (`BEQ` to `JAL`), or is `SW` while the instruction in
`WRITE_BACK` is not `SW`, `checkfor_data_hazards` is true whenever some stage among `EXECUTE`,
`MEM` and `WRITE_BACK` that is not a bubble has an `rd` field other than `R0` and `R1` equal to
the `rd` of the instruction in `DECODE`; and this value is the `data_stall` that
`Pipe_iteration_exe` leaves.  The case left out, `SW` in `DECODE` with `SW` in `WRITE_BACK`, is
the one that the run of `store_program` meets. -/
theorem data_stall_destination (p : Pipe_fig) (stage : Nat)
    (h : OpcodeHandlers.IsOpcodeBranch
          (Format_of_instruction.opcode (p.stages_in_pipe DECODE).instruction) = true ∨
      (Format_of_instruction.opcode (p.stages_in_pipe DECODE).instruction = SW ∧
        Format_of_instruction.opcode (p.stages_in_pipe WRITE_BACK).instruction ≠ SW))
    (hs : stage = EXECUTE ∨ stage = MEM ∨ stage = WRITE_BACK)
    (hpc : (p.stages_in_pipe stage).pc ≠ UINT16_MAX)
    (h0 : Format_of_instruction.rd (p.stages_in_pipe stage).instruction ≠ ZERO_REG)
    (h1 : Format_of_instruction.rd (p.stages_in_pipe stage).instruction ≠ IMM_REG)
    (hrd : Format_of_instruction.rd (p.stages_in_pipe stage).instruction
      = Format_of_instruction.rd (p.stages_in_pipe DECODE).instruction) :
    PipelineController.checkfor_data_hazards p = true ∧
    ∀ (c : Nat) (sim : Sim) (y : Pipe_fig × Sim),
      PipelineController.Pipe_iteration_exe c (p, sim) = some y → y.1.data_stall = true := by
  have h3 : ¬ (Format_of_instruction.opcode (p.stages_in_pipe DECODE).instruction ≤ SRL ∨
      Format_of_instruction.opcode (p.stages_in_pipe DECODE).instruction = LW ∨
      (Format_of_instruction.opcode (p.stages_in_pipe DECODE).instruction = SW ∧
        Format_of_instruction.opcode (p.stages_in_pipe WRITE_BACK).instruction = SW)) := by
    rcases h with h | ⟨h, hw⟩
    · unfold OpcodeHandlers.IsOpcodeBranch at h
      simp only [BEQ, JAL, Bool.and_eq_true, decide_eq_true_eq] at h
      simp only [SRL, LW, SW]
      omega
    · rintro (hc | hc | ⟨-, hc⟩)
      · rw [h] at hc
        exact absurd hc (by decide)
      · rw [h] at hc
        exact absurd hc (by decide)
      · exact hw hc
  have hc : PipelineController.checkfor_data_hazards p = true :=
    (PipelineController.checkfor_data_hazards_iff p).mpr
      ⟨stage, hs,
        (PipelineController.check_hazrads_three p stage h3).mpr ⟨hpc, h0, h1, Or.inl hrd⟩⟩
  exact ⟨hc, fun c sim y hy => by
    rw [PipelineController.Pipe_iteration_exe_data_stall c hy, hc]⟩

/-! ## Runs of the pipeline and of the caches -/

/-- C22, witness: `alu_hazard_example` has `ADD R3 = R2 + R1` in `DECODE`. -/
theorem C22_data_stall_sources_witness :
    (PipelineController.checkfor_data_hazards alu_hazard_example = true ↔
      ∃ stage, (stage = EXECUTE ∨ stage = MEM ∨ stage = WRITE_BACK) ∧
        (alu_hazard_example.stages_in_pipe stage).pc ≠ UINT16_MAX ∧
        Format_of_instruction.rd (alu_hazard_example.stages_in_pipe stage).instruction
          ≠ ZERO_REG ∧
        Format_of_instruction.rd (alu_hazard_example.stages_in_pipe stage).instruction
          ≠ IMM_REG ∧
        (Format_of_instruction.rd (alu_hazard_example.stages_in_pipe stage).instruction
            = Format_of_instruction.rs
                (alu_hazard_example.stages_in_pipe DECODE).instruction ∨
          Format_of_instruction.rd (alu_hazard_example.stages_in_pipe stage).instruction
            = Format_of_instruction.rt
                (alu_hazard_example.stages_in_pipe DECODE).instruction)) ∧
    ∀ (c : Nat) (sim : Sim) (y : Pipe_fig × Sim),
      PipelineController.Pipe_iteration_exe c (alu_hazard_example, sim) = some y →
        y.1.data_stall = PipelineController.checkfor_data_hazards alu_hazard_example :=
  C22_data_stall_sources alu_hazard_example (Or.inl (by decide))

/-- An instance of `data_stall_destination`: `operands_example` has `BEQ R2, R0, R0` in
`DECODE` and `ADD R2 = R1 + R0` in `EXECUTE`. -/
theorem data_stall_destination_example :
    PipelineController.checkfor_data_hazards operands_example = true ∧
    ∀ (c : Nat) (sim : Sim) (y : Pipe_fig × Sim),
      PipelineController.Pipe_iteration_exe c (operands_example, sim) = some y →
        y.1.data_stall = true :=
  data_stall_destination operands_example EXECUTE (Or.inl (by decide)) (Or.inl rfl)
    (by decide) (by decide) (by decide) (by decide)

/-- C23, the failing run.  After 29 cycles of `store_program` the second `SW R2` (address 4) is
in `DECODE`, the `ADD R2 = R0 + R1` with the immediate 7 (address 3) is in `EXECUTE` with
`rd = 2`, and the first `SW` (address 1) is in `WRITE_BACK`: `checkfor_data_hazards` is false
and the cycle leaves `data_stall` false, although a stage that is not a bubble has the
destination `R2`, the `rd` of the `SW` in `DECODE`.  The `SW` reads `R2 = 5` in `MEM` in the
cycle in which the `ADD` writes 7 back (after 32 cycles `R2` is 7), stores 5 at `0x10`, and
writes 5 back to `R2`: when the core has halted the word at `0x10` of the cache and `R2` are
5, not 7. -/
theorem C23_failing_run :
    (core_after store_program 29).map (fun y => stage_view y.1.pipelineController DECODE)
      = some (4, SW, 2, 0) ∧
    (core_after store_program 29).map (fun y => stage_view y.1.pipelineController EXECUTE)
      = some (3, ADD, 2, 0) ∧
    (core_after store_program 29).map (fun y => stage_view y.1.pipelineController WRITE_BACK)
      = some (1, SW, 2, 5) ∧
    (core_after store_program 29).map
      (fun y => (PipelineController.checkfor_data_hazards y.1.pipelineController,
        y.1.pipelineController.regs_pnt 2)) = some (false, 5) ∧
    (core_after store_program 30).map (fun y => y.1.pipelineController.data_stall)
      = some false ∧
    (core_after store_program 32).map (fun y => y.1.pipelineController.regs_pnt 2)
      = some 7 ∧
    (core_after store_program 35).map
      (fun y => (y.1.isHalted, (y.2.cache 0).dram 0x10, y.1.pipelineController.regs_pnt 2))
      = some (true, 5, 5) :=
  ⟨by decide!, by decide!, by decide!, by decide!, by decide!, by decide!, by decide!⟩

/-- C21, the failing run.  In `jump_program` the `JAL` through `R2` is fetched at address 1
while `R2` gets `0x200` from the `ADD` before it.  After 8 cycles the `JAL` is in
`WRITE_BACK` with `result_of_execution = 0x200`, the value of `R2` that `decode` latched, and
`R15` is 0; the next cycle writes `0x200` to `R15`, and `R15` is `0x200`, not the return
address 2, when the pipeline has drained. -/
theorem C21_failing_run :
    (pipeline_after jump_program 2).map (fun p => stage_view p FETCH)
      = some (1, JAL, 2, 0) ∧
    (pipeline_after jump_program 8).map
      (fun p => (stage_view p WRITE_BACK, p.regs_pnt 2, p.regs_pnt PC_REG))
      = some ((1, JAL, 2, 0x200), 0x200, 0) ∧
    (pipeline_after jump_program 9).map (fun p => p.regs_pnt PC_REG) = some 0x200 ∧
    (pipeline_after jump_program 11).map
      (fun p => (PipelineController.Pipe_Flush p, p.regs_pnt PC_REG)) = some (true, 0x200) :=
  ⟨by decide!, by decide!, by decide!, by decide!⟩

/-- The loop of `main` stays where it is once every core is halted. -/
theorem main_loop_halted (fuel : Nat) (m : Machine) (h : isProcessorHalted m = true) :
    main_loop fuel m = some m := by
  cases fuel with
  | zero => rfl
  | succ n => rw [main_loop, if_pos h]

/-- More turns do not change the result of a loop of `main` that has ended with every core
halted. -/
theorem main_loop_add (k : Nat) : ∀ (n : Nat) (m m1 : Machine),
    main_loop n m = some m1 → isProcessorHalted m1 = true → main_loop (n + k) m = some m1
  | 0, m, m1, h, hh => by
    simp only [main_loop, Option.some.injEq] at h
    subst h
    exact main_loop_halted _ _ hh
  | n + 1, m, m1, h, hh => by
    rw [Nat.add_right_comm, main_loop]
    rw [main_loop] at h
    split_ifs at h with h1
    · rw [if_pos h1]
      exact h
    · rw [if_neg h1]
      cases hc : main_cycle m with
      | none => simp [hc] at h
      | some m2 =>
        simp only [hc] at h ⊢
        exact main_loop_add k n m2 m1 h hh

/-- C24.  The loop of `main` on `load_use_machine` ends after 32 turns (and stays there for
every larger bound) with every core halted, `R2 = 0x42` and `R3 = 0x43` in core 0, and the
counter `stalls_in_decode` of core 0 at 3, which is at least 3. -/
theorem C24_load_use (k : Nat) :
    ∃ m, main_loop (32 + k) load_use_machine = some m ∧ isProcessorHalted m = true ∧
      (m.cores 0).pipelineController.regs_pnt 2 = 0x42 ∧
      (m.cores 0).pipelineController.regs_pnt 3 = 0x43 ∧
      (m.cores 0).pipelineController.stats.stalls_in_decode = 3 ∧
      3 ≤ (m.cores 0).pipelineController.stats.stalls_in_decode := by
  have h : (main_loop 32 load_use_machine).map load_use_view = some (true, 0x42, 0x43, 3) := by
    decide!
  cases hm : main_loop 32 load_use_machine with
  | none => simp [hm] at h
  | some m =>
    simp only [hm, Option.map_some', Option.some.injEq, load_use_view, Prod.mk.injEq] at h
    exact ⟨m, main_loop_add k 32 _ m hm h.1, h.1, h.2.1, h.2.2.1, h.2.2.2,
      Nat.le_of_eq h.2.2.2.symm⟩

set_option maxHeartbeats 1600000 in
/-- C25, the failing run.  The four cores run `stale_flush_programs` on a zeroed memory.
After 31 turns of the loop of `main`, cache 0 holds block `0x40` (index 16, tag 0) in `M`,
the `BusRd` of core 1 for `0x40` is being served, and the queue holds, in the order of
service, the `BusRd` of core 3, the `BusRdX` of core 2 for `0x40`, and the `Flush` of block
`0x40` with the `BusRd` of `0x141` that core 0 has queued for its miss on the dirty line.
After 74 turns cache 2 has been filled: its line 16 is `(tag 0, E)` with the words
`0, 0xAA, 0, 0`, which are the words of main memory; the `SW` of core 2 is still in `MEM`, and
`R0` of core 2 is 4.  In turn 75 the `SW` is presented for `R0 + R1 = 0x44` and misses;
the `Flush` of core 0 is started, for a line that cache 0 no longer holds.  After 94 turns
the `Flush` is over and main memory holds `0xAA` in the four words of the block.  After 138
turns every core is halted, the bus is idle and the queue is empty: the line 16 of cache 2 is
still `(tag 0, E)` with the words `0, 0xAA, 0, 0`, and main memory at `0x40 .. 0x43` holds
`0xAA, 0xAA, 0xAA, 0xAA`. -/
theorem C25_failing_run :
    (stale_flush_after 31).map (fun m => (bus_view_of m.sim, (m.sim.cache 0).tsram 16))
      = some ({ active := true, ongoing := (1, cmd_on_the_bus.busRd, 0x40),
                queue := [(0, cmd_on_the_bus.busRd, 0x141), (0, cmd_on_the_bus.flush, 0x40),
                  (2, cmd_on_the_bus.busRdX, 0x40), (3, cmd_on_the_bus.busRd, 0x80)] },
        { tag := 0, mesi := MESIState.MESI_STATE_MODIFIED }) ∧
    (stale_flush_after 74).map (fun m => line_and_memory m.sim 2 16)
      = some { line := { tag := 0, mesi := MESIState.MESI_STATE_EXCLUSIVE },
               words := [0, 0xAA, 0, 0], memory := [0, 0xAA, 0, 0] } ∧
    (stale_flush_after 74).map
      (fun m => (stage_view (m.cores 2).pipelineController MEM,
        (m.cores 2).pipelineController.mem_stall, (m.cores 2).pipelineController.regs_pnt 0))
      = some ((26, SW, 3, 0), true, 4) ∧
    (stale_flush_after 75).map (fun m => (bus_view_of m.sim, (m.sim.cache 0).tsram 16))
      = some ({ active := true, ongoing := (0, cmd_on_the_bus.flush, 0x40),
                queue := [(2, cmd_on_the_bus.busRdX, 0x44), (0, cmd_on_the_bus.busRd, 0x141)] },
        { tag := 0, mesi := MESIState.MESI_STATE_INVALID }) ∧
    (stale_flush_after 94).map (fun m => line_and_memory m.sim 2 16)
      = some { line := { tag := 0, mesi := MESIState.MESI_STATE_EXCLUSIVE },
               words := [0, 0xAA, 0, 0], memory := [0xAA, 0xAA, 0xAA, 0xAA] } ∧
    (stale_flush_after 138).map
      (fun m => (isProcessorHalted m, m.sim.gIsBusTransactionActive, m.sim.queue.length))
      = some (true, false, 0) ∧
    (stale_flush_after 138).map (fun m => line_and_memory m.sim 2 16)
      = some { line := { tag := 0, mesi := MESIState.MESI_STATE_EXCLUSIVE },
               words := [0, 0xAA, 0, 0], memory := [0xAA, 0xAA, 0xAA, 0xAA] } :=
  ⟨by decide!, by decide!, by decide!, by decide!, by decide!, by decide!, by decide!⟩

/-- C27, the failing run.  The runs `run_third_read` and `run_third_read_after_miss` differ
only in a read of core 1 (a miss of cache 1).  In both, the last request is a read hit of
cache 0 whose preceding read was a counted hit (`read_hits` of cache 0 is 1 before it).
Without the read of core 1 the hit is counted (`read_hits` of cache 0 becomes 2); with it the
hit is not counted (`read_hits` of cache 0 stays 1). -/
theorem C27_failing_run :
    run_third_read = run_read_twice ++ [Event.tick, Event.read 0 0x40] ∧
    run_third_read_after_miss
      = run_read_twice ++ [Event.read 1 0x80] ++ [Event.tick, Event.read 0 0x40] ∧
    (((Sim_Init (fun _ => 0)).run run_read_twice).cache 0).tracking.read_hits = 1 ∧
    (Read_Data_from_Cache ((Sim_Init (fun _ => 0)).run run_read_twice) 1 0x80 0).2.1
      = false ∧
    (Read_Data_from_Cache ((Sim_Init (fun _ => 0)).run (run_read_twice ++ [Event.tick]))
      0 0x40 0).2.1 = true ∧
    (Read_Data_from_Cache
      ((Sim_Init (fun _ => 0)).run (run_read_twice ++ [Event.read 1 0x80, Event.tick]))
      0 0x40 0).2.1 = true ∧
    (((Sim_Init (fun _ => 0)).run run_third_read).cache 0).tracking.read_hits = 2 ∧
    (((Sim_Init (fun _ => 0)).run run_third_read_after_miss).cache 0).tracking.read_hits
      = 1 :=
  ⟨rfl, rfl, by decide!, by decide!, by decide!, by decide!, by decide!, by decide!⟩

/-! ## A program without `HALT` -/

namespace PipelineController

open OpcodeHandlers

/-- No stage reports a hazard for an instruction whose `rd` field is `R0`. -/
theorem check_hazrads_nop (p : Pipe_fig) (stage : Nat)
    (h : (p.stages_in_pipe stage).instruction = 0) :
    check_hazrads_by_comparing_regs p stage = false := by
  unfold check_hazrads_by_comparing_regs
  dsimp only
  rw [h]
  by_cases h1 : (p.stages_in_pipe stage).pc = UINT16_MAX
  · rw [if_pos h1]
  · rw [if_neg h1, if_pos (Or.inr (by decide))]

theorem checkfor_data_hazards_nops (p : Pipe_fig)
    (h : ∀ k, (p.stages_in_pipe k).instruction = 0) : checkfor_data_hazards p = false := by
  unfold checkfor_data_hazards
  rw [check_hazrads_nop p _ (h _), check_hazrads_nop p _ (h _), check_hazrads_nop p _ (h _)]
  rfl

/-- The flags and the instruction memory after the call of the operation of a stage. -/
theorem call_operation_flags {p p1 : Pipe_fig} {stage : Nat}
    (h : call_operation p stage = some p1) :
    p1.is_halted = p.is_halted ∧ p1.mem_stall = p.mem_stall ∧
    p1.insturcionts_pnt = p.insturcionts_pnt := by
  unfold call_operation at h
  cases hf : (p.stages_in_pipe stage).operation with
  | none => simp [hf] at h
  | some f =>
    simp only [hf] at h
    exact ⟨(call_frame h).2.1, (call_frame h).2.2.2.1, (call_frame h).2.2.2.2.1⟩

theorem execute_flags {p p1 : Pipe_fig} (h : execute p = some p1) :
    p1.is_halted = p.is_halted ∧ p1.mem_stall = p.mem_stall ∧
    p1.insturcionts_pnt = p.insturcionts_pnt := by
  unfold execute at h
  dsimp only at h
  split_ifs at h
  · have h1 := call_operation_flags h
    exact h1
  · simp only [Option.some.injEq] at h
    rw [← h]
    exact ⟨rfl, rfl, rfl⟩

/-- The function `execute` keeps the operation, the instruction and the `pc` of every stage. -/
theorem execute_stages {p p1 : Pipe_fig} (h : execute p = some p1) (k : Nat) :
    (p1.stages_in_pipe k).operation = (p.stages_in_pipe k).operation ∧
    (p1.stages_in_pipe k).instruction = (p.stages_in_pipe k).instruction ∧
    (p1.stages_in_pipe k).pc = (p.stages_in_pipe k).pc := by
  unfold execute at h
  dsimp only at h
  split_ifs at h
  · have h1 := call_operation_stage h k
    have h2 := enter_params_to_regs_stage p EXECUTE k
    exact ⟨h1.1.trans h2.1, h1.2.1.trans h2.2.1, h1.2.2.1.trans h2.2.2.1⟩
  · simp only [Option.some.injEq] at h
    rw [← h]
    exact ⟨rfl, rfl, rfl⟩

end PipelineController

section NoHalt

open PipelineController OpcodeHandlers

theorem Nops.after_fetch {p : Pipe_fig} (h : Nops p) (hpc : p.pc < INSTRUCTIONMEMORYSIZE) :
    ∃ p1, fetch p = some p1 ∧ Nops p1 ∧ p1.pc = p.pc + 1 := by
  have e : fetch p = some
      { p with
        stages_in_pipe :=
          Function.update (set_stage_pc p FETCH p.pc).stages_in_pipe FETCH
            { (set_stage_pc p FETCH p.pc).stages_in_pipe FETCH with
              instruction := p.insturcionts_pnt p.pc }
        pc := (p.pc + 1) % 65536 } := by
    unfold fetch
    simp only [h.no_mem_stall, Bool.false_eq_true, if_false, hpc, if_true, set_stage_pc,
      h.no_data_stall, Bool.not_false]
  refine ⟨_, e, ?_, ?_⟩
  · refine ⟨h.running, h.no_mem_stall, h.no_data_stall, h.memory, fun k => ?_, ?_⟩
    · by_cases hk : k = FETCH
      · subst hk
        simp [h.memory]
      · simp only [Function.update_noteq hk, set_stage_pc]
        exact h.stages k
    · have hne : EXECUTE ≠ FETCH := by decide
      simp only [Function.update_noteq hne, set_stage_pc]
      exact h.decoded
  · show (p.pc + 1) % 65536 = p.pc + 1
    have : p.pc < 1024 := hpc
    omega

theorem Nops.fetch_fails {p : Pipe_fig} (h : Nops p) (hpc : INSTRUCTIONMEMORYSIZE ≤ p.pc) :
    fetch p = none := by
  unfold fetch
  simp only [h.no_mem_stall, Bool.false_eq_true, if_false, Nat.not_lt.mpr hpc]

theorem Nops.after_decode {p : Pipe_fig} (h : Nops p) :
    ∃ p1, decode p = some p1 ∧ Nops p1 ∧ Nops.decode_done p1 ∧ p1.pc = p.pc := by
  have e : decode p = some
      { p with
        stages_in_pipe :=
          Function.update p.stages_in_pipe DECODE
            { p.stages_in_pipe DECODE with operation := some OpcodeFunction.add } } := by
    unfold decode
    dsimp only
    rw [h.stages DECODE, if_neg (by decide)]
    rfl
  refine ⟨_, e, ?_, ?_, rfl⟩
  · refine ⟨h.running, h.no_mem_stall, h.no_data_stall, h.memory, fun k => ?_, ?_⟩
    · by_cases hk : k = DECODE
      · subst hk
        simp [h.stages]
      · simp only [Function.update_noteq hk]
        exact h.stages k
    · have hne : EXECUTE ≠ DECODE := by decide
      simp only [Function.update_noteq hne]
      exact h.decoded
  · intro _
    simp

theorem Nops.after_execute {p : Pipe_fig} (h : Nops p)
    (hpc : (p.stages_in_pipe EXECUTE).pc ≠ UINT16_MAX) (hd : Nops.decode_done p) :
    ∃ p1, execute p = some p1 ∧ Nops p1 ∧ Nops.decode_done p1 ∧ p1.pc = p.pc := by
  have hop : Format_of_instruction.opcode (p.stages_in_pipe EXECUTE).instruction = ADD := by
    rw [h.stages EXECUTE]
    decide
  have hfit : OpcodeFunctionTable
      (Format_of_instruction.opcode (p.stages_in_pipe EXECUTE).instruction)
      = some (p.stages_in_pipe EXECUTE).operation := by
    rw [hop, h.decoded hpc]
    rfl
  obtain ⟨p1, e⟩ := execute_returns p (by rw [hop]; decide) hfit
    (fun hs => by rw [hop] at hs; exact absurd hs (by decide))
  have hf := execute_flags e
  have hs := execute_stages e
  refine ⟨p1, e, ⟨?_, ?_, ?_, ?_, ?_, ?_⟩, ?_, execute_pc (Or.inr hfit) e⟩
  · rw [hf.1]; exact h.running
  · rw [hf.2.1]; exact h.no_mem_stall
  · rw [execute_data_stall e]; exact h.no_data_stall
  · rw [hf.2.2]; exact h.memory
  · intro k
    rw [(hs k).2.1]
    exact h.stages k
  · rw [(hs EXECUTE).2.2, (hs EXECUTE).1]
    exact h.decoded
  · unfold Nops.decode_done
    rw [(hs DECODE).2.2, (hs DECODE).1]
    exact hd

theorem Nops.after_mem (c : Nat) {x : Pipe_fig × Sim} (h : Nops x.1) : mem c x = x := by
  unfold mem
  dsimp only
  rw [h.stages MEM, if_neg (by decide)]

theorem Nops.after_writeback {p : Pipe_fig} (h : Nops p) : Nops (writeback p) :=
  ⟨h.running, h.no_mem_stall, h.no_data_stall, h.memory, h.stages, h.decoded⟩

/-- One turn of the loop of `execute_pipe_stages`. -/
theorem PipelineController.run_stages_cons (c stage : Nat) (rest : List Nat) (x z : Pipe_fig × Sim)
    (h : (if (x.1.stages_in_pipe stage).pc ≠ UINT16_MAX then stage_to_exe c stage x
      else some x) = some z) :
    run_stages c (stage :: rest) x = run_stages c rest z := by
  rw [run_stages]
  split_ifs at h ⊢
  · rw [h]
  · simp only [Option.some.injEq] at h
    rw [h]

/-- The stages `DECODE` to `WRITE_BACK` of a pipeline of `ADD R0 = R0 + R0`. -/
theorem Nops.after_stages (c : Nat) (x : Pipe_fig × Sim) (h : Nops x.1) :
    ∃ y, run_stages c [DECODE, EXECUTE, MEM, WRITE_BACK] x = some y ∧ Nops y.1 ∧
      Nops.decode_done y.1 ∧ y.1.pc = x.1.pc := by
  -- DECODE
  have h1 : ∃ z, (if (x.1.stages_in_pipe DECODE).pc ≠ UINT16_MAX then stage_to_exe c DECODE x
      else some x) = some z ∧ Nops z.1 ∧ Nops.decode_done z.1 ∧ z.1.pc = x.1.pc := by
    by_cases hp : (x.1.stages_in_pipe DECODE).pc ≠ UINT16_MAX
    · obtain ⟨p1, e, hn, hd, hpc⟩ := h.after_decode
      refine ⟨(p1, x.2), ?_, hn, hd, hpc⟩
      rw [if_pos hp]
      show (decode x.1).map (fun p => (p, x.2)) = _
      rw [e]
      rfl
    · exact ⟨x, by rw [if_neg hp], h, fun hq => absurd hq hp, rfl⟩
  obtain ⟨z1, e1, hn1, hd1, hpc1⟩ := h1
  -- EXECUTE
  have h2 : ∃ z, (if (z1.1.stages_in_pipe EXECUTE).pc ≠ UINT16_MAX then
      stage_to_exe c EXECUTE z1 else some z1) = some z ∧ Nops z.1 ∧ Nops.decode_done z.1 ∧
      z.1.pc = z1.1.pc := by
    by_cases hp : (z1.1.stages_in_pipe EXECUTE).pc ≠ UINT16_MAX
    · obtain ⟨p1, e, hn, hd, hpc⟩ := hn1.after_execute hp hd1
      refine ⟨(p1, z1.2), ?_, hn, hd, hpc⟩
      rw [if_pos hp]
      show (execute z1.1).map (fun p => (p, z1.2)) = _
      rw [e]
      rfl
    · exact ⟨z1, by rw [if_neg hp], hn1, hd1, rfl⟩
  obtain ⟨z2, e2, hn2, hd2, hpc2⟩ := h2
  -- MEM
  have h3 : (if (z2.1.stages_in_pipe MEM).pc ≠ UINT16_MAX then stage_to_exe c MEM z2
      else some z2) = some z2 := by
    split_ifs
    · show some (mem c z2) = some z2
      rw [hn2.after_mem c]
    · rfl
  -- WRITE_BACK
  have h4 : ∃ z, (if (z2.1.stages_in_pipe WRITE_BACK).pc ≠ UINT16_MAX then
      stage_to_exe c WRITE_BACK z2 else some z2) = some z ∧ Nops z.1 ∧ Nops.decode_done z.1 ∧
      z.1.pc = z2.1.pc := by
    by_cases hp : (z2.1.stages_in_pipe WRITE_BACK).pc ≠ UINT16_MAX
    · exact ⟨(writeback z2.1, z2.2), by rw [if_pos hp]; rfl, hn2.after_writeback, hd2, rfl⟩
    · exact ⟨z2, by rw [if_neg hp], hn2, hd2, rfl⟩
  obtain ⟨z4, e4, hn4, hd4, hpc4⟩ := h4
  refine ⟨z4, ?_, hn4, hd4, by rw [hpc4, hpc2, hpc1]⟩
  rw [run_stages_cons c _ _ x z1 e1, run_stages_cons c _ _ z1 z2 e2,
    run_stages_cons c _ _ z2 z2 h3, run_stages_cons c _ _ z2 z4 e4]
  rfl

/-- The loop of `Pipe_Bubbles` without stalls keeps the flags, the instruction memory, `FETCH`
and the stages above `stage`; each stage from `stage` down to `DECODE` becomes a bubble (its
`pc` only is assigned) or the copy by `BubbleStage` of the stage before it, which is not a
bubble. -/
theorem PipelineController.Pipe_Bubbles_loop_shift (fuel : Nat) : ∀ (p : Pipe_fig) (stage : Nat),
    p.mem_stall = false → p.data_stall = false → stage < fuel →
    (Pipe_Bubbles_loop p fuel stage).is_halted = p.is_halted ∧
    (Pipe_Bubbles_loop p fuel stage).mem_stall = p.mem_stall ∧
    (Pipe_Bubbles_loop p fuel stage).data_stall = p.data_stall ∧
    (Pipe_Bubbles_loop p fuel stage).insturcionts_pnt = p.insturcionts_pnt ∧
    (∀ k, k = FETCH ∨ stage < k →
      (Pipe_Bubbles_loop p fuel stage).stages_in_pipe k = p.stages_in_pipe k) ∧
    (∀ k, FETCH < k → k ≤ stage →
      (Pipe_Bubbles_loop p fuel stage).stages_in_pipe k
          = { p.stages_in_pipe k with pc := UINT16_MAX } ∨
        ((p.stages_in_pipe (k - 1)).pc ≠ UINT16_MAX ∧
          (Pipe_Bubbles_loop p fuel stage).stages_in_pipe k
            = BubbleStage (p.stages_in_pipe k) (p.stages_in_pipe (k - 1)))) := by
  induction fuel with
  | zero => intro p stage _ _ hlt; omega
  | succ n ih =>
    intro p stage hm hd hlt
    rw [Pipe_Bubbles_loop]
    by_cases hs : stage > FETCH
    · have hs0 : 0 < stage := hs
      rw [if_pos hs, if_neg (by simp [hm]), if_neg (by simp [hd])]
      by_cases hb : (p.stages_in_pipe (stage - 1)).pc = UINT16_MAX
      · rw [if_pos hb]
        obtain ⟨i1, i2, i3, i4, i5, i6⟩ :=
          ih (set_stage_pc p stage UINT16_MAX) (stage - 1) hm hd (by omega)
        refine ⟨i1, i2, i3, i4, fun k hk => ?_, fun k hk1 hk2 => ?_⟩
        · rw [i5 k (by rcases hk with hk | hk; exact Or.inl hk; exact Or.inr (by omega))]
          have hne : k ≠ stage := by
            rcases hk with hk | hk
            · rw [hk]; exact Nat.ne_of_lt hs
            · omega
          simp only [set_stage_pc, Function.update_noteq hne]
        · by_cases hk : k = stage
          · subst hk
            left
            rw [i5 k (Or.inr (by omega))]
            simp [set_stage_pc]
          · have hk3 : k ≤ stage - 1 := by omega
            have hne1 : k - 1 ≠ stage := by omega
            rcases i6 k hk1 hk3 with h6 | ⟨h6, h7⟩
            · left
              rw [h6]
              simp only [set_stage_pc, Function.update_noteq hk]
            · right
              simp only [set_stage_pc, Function.update_noteq hk, Function.update_noteq hne1]
                at h6 h7
              exact ⟨h6, h7⟩
      · rw [if_neg hb]
        obtain ⟨i1, i2, i3, i4, i5, i6⟩ :=
          ih { p with
              stages_in_pipe :=
                Function.update p.stages_in_pipe stage
                  (BubbleStage (p.stages_in_pipe stage) (p.stages_in_pipe (stage - 1))) }
            (stage - 1) hm hd (by omega)
        refine ⟨i1, i2, i3, i4, fun k hk => ?_, fun k hk1 hk2 => ?_⟩
        · rw [i5 k (by rcases hk with hk | hk; exact Or.inl hk; exact Or.inr (by omega))]
          have hne : k ≠ stage := by
            rcases hk with hk | hk
            · rw [hk]; exact Nat.ne_of_lt hs
            · omega
          simp only [Function.update_noteq hne]
        · by_cases hk : k = stage
          · subst hk
            right
            rw [i5 k (Or.inr (by omega))]
            exact ⟨hb, by simp⟩
          · have hk3 : k ≤ stage - 1 := by omega
            have hne1 : k - 1 ≠ stage := by omega
            rcases i6 k hk1 hk3 with h6 | ⟨h6, h7⟩
            · left
              rw [h6]
              simp only [Function.update_noteq hk]
            · right
              simp only [Function.update_noteq hk, Function.update_noteq hne1] at h6 h7
              exact ⟨h6, h7⟩
    · rw [if_neg hs]
      refine ⟨rfl, rfl, rfl, rfl, fun k _ => rfl, fun k hk1 hk2 => ?_⟩
      have : stage = 0 := by
        have : ¬ 0 < stage := hs
        omega
      have hk0 : 0 < k := hk1
      omega

/-- The shift of `Pipe_Bubbles` on a pipeline of `ADD R0 = R0 + R0` whose `DECODE` stage has
been decoded. -/
theorem Nops.after_bubbles {p : Pipe_fig} (h : Nops p) (hd : Nops.decode_done p) :
    Nops (Pipe_Bubbles p) := by
  obtain ⟨i1, i2, i3, i4, i5, i6⟩ :=
    Pipe_Bubbles_loop_shift PIPE_SIZE p (PIPE_SIZE - 1) h.no_mem_stall h.no_data_stall
      (by decide)
  have e : Pipe_Bubbles p = Pipe_Bubbles_loop p PIPE_SIZE (PIPE_SIZE - 1) := by
    unfold Pipe_Bubbles
    dsimp only
    rw [if_neg]
    rw [i1, h.running]
    decide
  rw [e]
  refine ⟨by rw [i1]; exact h.running, by rw [i2]; exact h.no_mem_stall,
    by rw [i3]; exact h.no_data_stall, by rw [i4]; exact h.memory, fun k => ?_, fun hpc => ?_⟩
  · by_cases hk : FETCH < k ∧ k ≤ PIPE_SIZE - 1
    · rcases i6 k hk.1 hk.2 with h6 | ⟨-, h6⟩
      · rw [h6]
        exact h.stages k
      · rw [h6]
        exact h.stages (k - 1)
    · rw [i5 k (by
        have hk0 : ¬ (0 < k ∧ k ≤ PIPE_SIZE - 1) := hk
        by_cases h0 : k = FETCH
        · exact Or.inl h0
        · right
          have : k ≠ 0 := h0
          omega)]
      exact h.stages k
  · rcases i6 EXECUTE (by decide) (by decide) with h6 | ⟨h7, h6⟩
    · rw [h6] at hpc
      exact absurd rfl hpc
    · rw [h6]
      exact hd h7

theorem Nops.after_pipe_stages (c : Nat) (x : Pipe_fig × Sim) (h : Nops x.1)
    (hpc : x.1.pc < INSTRUCTIONMEMORYSIZE) :
    ∃ y, execute_pipe_stages c x = some y ∧ Nops y.1 ∧ Nops.decode_done y.1 ∧
      y.1.pc = x.1.pc + 1 := by
  obtain ⟨p1, e1, hn1, hpc1⟩ := h.after_fetch hpc
  obtain ⟨y, e2, hn2, hd2, hpc2⟩ := Nops.after_stages c (p1, x.2) hn1
  refine ⟨y, ?_, hn2, hd2, by rw [hpc2]; exact hpc1⟩
  unfold execute_pipe_stages
  dsimp only
  rw [h.no_mem_stall, h.no_data_stall, h.running]
  have ef : stage_to_exe c FETCH x = some (p1, x.2) := by
    show (fetch x.1).map (fun p => (p, x.2)) = _
    rw [e1]
    rfl
  simp only [Bool.not_false, if_true, Bool.false_eq_true, if_false, ef]
  exact e2

theorem Nops.pipe_stages_fail (c : Nat) (x : Pipe_fig × Sim) (h : Nops x.1)
    (hpc : INSTRUCTIONMEMORYSIZE ≤ x.1.pc) : execute_pipe_stages c x = none := by
  unfold execute_pipe_stages
  dsimp only
  rw [h.no_mem_stall, h.no_data_stall, h.running]
  have ef : stage_to_exe c FETCH x = none := by
    show (fetch x.1).map (fun p => (p, x.2)) = _
    rw [h.fetch_fails hpc]
    rfl
  simp only [Bool.not_false, if_true, ef]

theorem Nops.after_iteration (c : Nat) (x : Pipe_fig × Sim) (h : Nops x.1)
    (hpc : x.1.pc < INSTRUCTIONMEMORYSIZE) :
    ∃ y, Pipe_iteration_exe c x = some y ∧ Nops y.1 ∧ Nops.decode_done y.1 ∧
      y.1.pc = x.1.pc + 1 := by
  have h1 : Nops ({ x.1 with data_stall := checkfor_data_hazards x.1 }, x.2).1 :=
    ⟨h.running, h.no_mem_stall, checkfor_data_hazards_nops _ h.stages, h.memory, h.stages,
      h.decoded⟩
  obtain ⟨y, e, hn, hd, hy⟩ := Nops.after_pipe_stages c _ h1 hpc
  refine ⟨(stats_update y.1, y.2), ?_,
    ⟨hn.running, hn.no_mem_stall, hn.no_data_stall, hn.memory, hn.stages, hn.decoded⟩, hd, hy⟩
  unfold Pipe_iteration_exe
  dsimp only
  rw [e]

theorem Nops.iteration_fails (c : Nat) (x : Pipe_fig × Sim) (h : Nops x.1)
    (hpc : INSTRUCTIONMEMORYSIZE ≤ x.1.pc) : Pipe_iteration_exe c x = none := by
  have h1 : Nops ({ x.1 with data_stall := checkfor_data_hazards x.1 }, x.2).1 :=
    ⟨h.running, h.no_mem_stall, checkfor_data_hazards_nops _ h.stages, h.memory, h.stages,
      h.decoded⟩
  unfold Pipe_iteration_exe
  dsimp only
  rw [Nops.pipe_stages_fail c _ h1 hpc]

theorem Nops.not_flushed {p : Pipe_fig} (h : Nops p) : Pipe_Flush p = false := by
  unfold Pipe_Flush
  rw [h.running]
  rfl

/-- The cycle `n + 1` of a core is one cycle after the first `n`. -/
theorem core_cycles_succ : ∀ (n : Nat) (x : ProcessorCore × Sim),
    core_cycles (n + 1) x = (core_cycles n x).bind core_cycle
  | 0, x => by
    rw [core_cycles, core_cycles]
    show _ = core_cycle x
    cases core_cycle x <;> rfl
  | n + 1, x => by
    rw [core_cycles]
    cases h : core_cycle x with
    | none => rw [core_cycles, h]; rfl
    | some y =>
      simp only []
      rw [core_cycles_succ n y]
      conv_rhs => rw [core_cycles, h]

/-- One cycle of a core that runs `ADD R0 = R0 + R0` only: the `pc` advances by one. -/
theorem Nops.after_cycle (x : ProcessorCore × Sim) (hh : x.1.isHalted = false)
    (h : Nops x.1.pipelineController)
    (hpc : x.1.pipelineController.pc < INSTRUCTIONMEMORYSIZE) :
    ∃ y, core_cycle x = some y ∧ y.1.isHalted = false ∧ Nops y.1.pipelineController ∧
      y.1.pipelineController.pc = x.1.pipelineController.pc + 1 := by
  obtain ⟨z, e, hn, hd, hz⟩ := Nops.after_iteration (update_tracking_info x.1).coreId
    ((update_tracking_info x.1).pipelineController, Run_Bus_Iteration x.2) h hpc
  refine ⟨({ update_tracking_info x.1 with pipelineController := Pipe_Bubbles z.1 }, z.2),
    ?_, hh, hn.after_bubbles hd, ?_⟩
  · unfold core_cycle core_run_single_cycle
    dsimp only
    rw [hh, h.not_flushed]
    simp only [Bool.false_eq_true, if_false]
    rw [e]
  · show (Pipe_Bubbles z.1).pc = _
    rw [Pipe_Bubbles_pc]
    exact hz

/-- The cycle in which the `pc` has left the instruction memory: `fetch` reads outside it. -/
theorem Nops.cycle_fails (x : ProcessorCore × Sim) (hh : x.1.isHalted = false)
    (h : Nops x.1.pipelineController)
    (hpc : INSTRUCTIONMEMORYSIZE ≤ x.1.pipelineController.pc) : core_cycle x = none := by
  unfold core_cycle core_run_single_cycle
  dsimp only
  rw [hh, h.not_flushed]
  simp only [Bool.false_eq_true, if_false]
  rw [Nops.iteration_fails (update_tracking_info x.1).coreId
    ((update_tracking_info x.1).pipelineController, Run_Bus_Iteration x.2) h hpc]

/-- The `pc` of a core that runs `ADD R0 = R0 + R0` only advances by one in every cycle, as
long as it is inside the instruction memory. -/
theorem Nops.after_cycles : ∀ (n : Nat) (x : ProcessorCore × Sim), x.1.isHalted = false →
    Nops x.1.pipelineController → x.1.pipelineController.pc + n ≤ INSTRUCTIONMEMORYSIZE →
    ∃ y, core_cycles n x = some y ∧ y.1.isHalted = false ∧ Nops y.1.pipelineController ∧
      y.1.pipelineController.pc = x.1.pipelineController.pc + n
  | 0, x, hh, h, _ => ⟨x, rfl, hh, h, rfl⟩
  | n + 1, x, hh, h, hpc => by
    obtain ⟨y, e, hy, hn, hp⟩ := Nops.after_cycle x hh h (by omega)
    obtain ⟨z, ez, hz, hnz, hpz⟩ := Nops.after_cycles n y hy hn (by omega)
    refine ⟨z, ?_, hz, hnz, by omega⟩
    rw [core_cycles, e]
    exact ez

theorem Nops.at_boot : Nops (boot no_halt_program).1.pipelineController := by
  refine ⟨rfl, rfl, rfl, fun a => ?_, fun k => rfl, fun hp => absurd rfl hp⟩
  show no_halt_program.getD a 0 = 0
  cases a with
  | zero => rfl
  | succ a => rfl

end NoHalt

/-- C26, the failing run.  The program `no_halt_program` is one `ADD R0 = R0 + R0` and no
`HALT`; the rest of the instruction memory is zero, the same instruction.  The core is never
halted or stalled and the `pc` advances in every cycle: after 1024 cycles it is 1024, which is
not below `INSTRUCTIONMEMORYSIZE`, and in the next cycle `fetch` reads
`insturcionts_pnt[1024]`, outside the instruction memory (no result in the model). -/
theorem C26_failing_run :
    (core_after no_halt_program 1024).map
      (fun y => (y.1.isHalted, y.1.pipelineController.is_halted, y.1.pipelineController.pc))
      = some (false, false, 1024) ∧
    ¬ (1024 < INSTRUCTIONMEMORYSIZE) ∧
    core_after no_halt_program 1025 = none := by
  obtain ⟨y, e, hy, hn, hp⟩ :=
    Nops.after_cycles 1024 (boot no_halt_program) rfl Nops.at_boot (by decide)
  have hp1 : y.1.pipelineController.pc = 1024 := hp
  refine ⟨?_, by decide, ?_⟩
  · unfold core_after
    rw [e]
    simp only [Option.map_some', hy, hn.running, hp1]
  · have hf := Nops.cycle_fails y hy hn (by rw [hp1]; decide)
    have e1 : core_after no_halt_program 1025
        = (core_after no_halt_program 1024).bind core_cycle := by
      unfold core_after
      exact core_cycles_succ 1024 (boot no_halt_program)
    rw [e1]
    unfold core_after
    rw [e]
    exact hf

/-! ## The snoop and the response of a cache -/

/-- C31.  A cache that is the original caller of a command other than `Flush`, or whose line
at the index of the transaction address has another tag or is `I`, is left unchanged by
`snooping_handler` and leaves the transaction unchanged (result `false`).  Otherwise the cache
holds the line of the transaction: the packet becomes the one of the table `state_handler`,
the result is `true`, and the next state of the table is written to the line if the bus offset
is 3 or the line is not `M`; if the offset is not 3 and the line is `M` the cache is unchanged,
so that a line in `M` stays `M` at the offsets 0 to 2. -/
theorem C31_snoop_commit (c : Cache_Data) (t : bus_transaction) (o : Nat) :
    (((c.id = t.original_caller ∧ t.bus_cmd ≠ cmd_on_the_bus.flush) ∨
        (c.tsram (fields_index t.bus_addr)).tag ≠ fields_tag t.bus_addr ∨
        (c.tsram (fields_index t.bus_addr)).mesi = MESIState.MESI_STATE_INVALID) →
      snooping_handler c t o = (c, t, false)) ∧
    (¬ (c.id = t.original_caller ∧ t.bus_cmd ≠ cmd_on_the_bus.flush) →
      (c.tsram (fields_index t.bus_addr)).tag = fields_tag t.bus_addr →
      (c.tsram (fields_index t.bus_addr)).mesi ≠ MESIState.MESI_STATE_INVALID →
      (snooping_handler c t o).2.2 = true ∧
      (snooping_handler c t o).2.1
        = (state_handler (c.tsram (fields_index t.bus_addr)).mesi c t).2 ∧
      ((o = BLOCK_SIZE - 1 ∨
          (c.tsram (fields_index t.bus_addr)).mesi ≠ MESIState.MESI_STATE_MODIFIED) →
        (snooping_handler c t o).1
          = set_mesi c (fields_index t.bus_addr)
              (state_handler (c.tsram (fields_index t.bus_addr)).mesi c t).1) ∧
      (¬ (o = BLOCK_SIZE - 1 ∨
          (c.tsram (fields_index t.bus_addr)).mesi ≠ MESIState.MESI_STATE_MODIFIED) →
        (snooping_handler c t o).1 = c) ∧
      ((c.tsram (fields_index t.bus_addr)).mesi = MESIState.MESI_STATE_MODIFIED →
        o ≠ BLOCK_SIZE - 1 →
        ((snooping_handler c t o).1.tsram (fields_index t.bus_addr)).mesi
          = MESIState.MESI_STATE_MODIFIED)) := by
  constructor
  · intro h
    unfold snooping_handler
    by_cases h1 : c.id = t.original_caller ∧ t.bus_cmd ≠ cmd_on_the_bus.flush
    · rw [if_pos h1]
    · rw [if_neg h1]
      unfold snooped_transaction
      rw [if_pos (by
        rcases h with h | h | h
        · exact absurd h h1
        · exact Or.inl h
        · exact Or.inr h)]
  · intro h1 h2 h3
    have e : snooping_handler c t o =
        if o = BLOCK_SIZE - 1 ∨
            (c.tsram (fields_index t.bus_addr)).mesi ≠ MESIState.MESI_STATE_MODIFIED then
          (set_mesi c (fields_index t.bus_addr)
              (state_handler (c.tsram (fields_index t.bus_addr)).mesi c t).1,
            (state_handler (c.tsram (fields_index t.bus_addr)).mesi c t).2, true)
        else (c, (state_handler (c.tsram (fields_index t.bus_addr)).mesi c t).2, true) := by
      unfold snooping_handler
      rw [if_neg h1]
      unfold snooped_transaction
      rw [if_neg (by
        intro h
        rcases h with h | h
        · exact h h2
        · exact h3 h)]
    rw [e]
    refine ⟨?_, ?_, ?_, ?_, ?_⟩
    · split_ifs <;> rfl
    · split_ifs <;> rfl
    · intro hc
      rw [if_pos hc]
    · intro hc
      rw [if_neg hc]
    · intro hm ho
      rw [if_neg (by
        intro h
        rcases h with h | h
        · exact ho h
        · exact h hm)]
      exact hm

/-- C31, witness: the cache `owner_cache` holds the line of `0x41` in `M` and snoops the
`BusRd` of core 1 at the offset 0: the packet is rewritten and the cache is unchanged. -/
theorem C31_snoop_commit_witness :
    (snooping_handler owner_cache read_packet 0).2.2 = true ∧
    (snooping_handler owner_cache read_packet 0).2.1
      = (state_handler (owner_cache.tsram (fields_index read_packet.bus_addr)).mesi
          owner_cache read_packet).2 ∧
    ((0 = BLOCK_SIZE - 1 ∨
        (owner_cache.tsram (fields_index read_packet.bus_addr)).mesi
          ≠ MESIState.MESI_STATE_MODIFIED) →
      (snooping_handler owner_cache read_packet 0).1
        = set_mesi owner_cache (fields_index read_packet.bus_addr)
            (state_handler (owner_cache.tsram (fields_index read_packet.bus_addr)).mesi
              owner_cache read_packet).1) ∧
    (¬ (0 = BLOCK_SIZE - 1 ∨
        (owner_cache.tsram (fields_index read_packet.bus_addr)).mesi
          ≠ MESIState.MESI_STATE_MODIFIED) →
      (snooping_handler owner_cache read_packet 0).1 = owner_cache) ∧
    ((owner_cache.tsram (fields_index read_packet.bus_addr)).mesi
        = MESIState.MESI_STATE_MODIFIED →
      0 ≠ BLOCK_SIZE - 1 →
      ((snooping_handler owner_cache read_packet 0).1.tsram
          (fields_index read_packet.bus_addr)).mesi = MESIState.MESI_STATE_MODIFIED) :=
  (C31_snoop_commit owner_cache read_packet 0).2 (by decide) (by decide) (by decide)

/-- C32.  The response callback on a cache other than the sender (`origid` differs from the
cache id) of a `Flush` packet, with the offset counter `o` (any value of the 8-bit counter but
255; the bus calls with 0 to 3): the word `bus_data` is stored at `index * 4 + offset` of the
packet address and no other DSRAM word changes; the line `index` takes the tag of the address
and no other TSRAM line changes.  If the counter is 3 the line becomes `S` when `bus_shared`
is set and `E` otherwise, the result is `true` and the counter stays; otherwise the counter
grows by one, the MESI state of the line is unchanged and the result is `false`. -/
theorem C32_fill_response (c : Cache_Data) (t : bus_transaction) (o : Nat)
    (h : c.id ≠ t.origid) (hc : t.bus_cmd = cmd_on_the_bus.flush) (ho : o < 255) :
    (cache_response_handle c t o).1.dram
      = Function.update c.dram
          (fields_index t.bus_addr * BLOCK_SIZE + fields_offset t.bus_addr) t.bus_data ∧
    ((cache_response_handle c t o).1.tsram (fields_index t.bus_addr)).tag
      = fields_tag t.bus_addr ∧
    (∀ j, j ≠ fields_index t.bus_addr →
      (cache_response_handle c t o).1.tsram j = c.tsram j) ∧
    (cache_response_handle c t o).1.id = c.id ∧
    (cache_response_handle c t o).1.tracking = c.tracking ∧
    (o = BLOCK_SIZE - 1 →
      ((cache_response_handle c t o).1.tsram (fields_index t.bus_addr)).mesi
        = (if t.bus_shared then MESIState.MESI_STATE_SHARED
            else MESIState.MESI_STATE_EXCLUSIVE) ∧
      (cache_response_handle c t o).2.1 = o ∧
      (cache_response_handle c t o).2.2 = true) ∧
    (o ≠ BLOCK_SIZE - 1 →
      ((cache_response_handle c t o).1.tsram (fields_index t.bus_addr)).mesi
        = (c.tsram (fields_index t.bus_addr)).mesi ∧
      (cache_response_handle c t o).2.1 = o + 1 ∧
      (cache_response_handle c t o).2.2 = false) := by
  rw [cache_response_handle_fill c t o h hc]
  by_cases h3 : o = BLOCK_SIZE - 1
  · simp only [if_pos h3]
    refine ⟨rfl, ?_, fun j hj => ?_, rfl, rfl, fun _ => ⟨?_, trivial, decide_eq_true h3⟩,
      fun hn => absurd h3 hn⟩
    · simp [set_mesi, set_dram, set_tag]
    · simp [set_mesi, set_dram, set_tag, Function.update_noteq hj]
    · simp [set_mesi, set_dram, set_tag]
  · simp only [if_neg h3]
    refine ⟨rfl, ?_, fun j hj => ?_, rfl, rfl, fun hn => absurd hn h3,
      fun _ => ⟨?_, ?_, ?_⟩⟩
    · simp [set_dram, set_tag]
    · simp [set_dram, set_tag, Function.update_noteq hj]
    · simp [set_dram, set_tag]
    · exact Nat.mod_eq_of_lt (by omega)
    · exact decide_eq_false h3

/-- C32, witness: cache 0, as `CacheController_Init` leaves it, receives the word `0x55` of
`0x142` at the offset counter 2. -/
theorem C32_fill_response_witness :
    (cache_response_handle (CacheController_Init 0) fill_packet 2).1.dram
      = Function.update (CacheController_Init 0).dram
          (fields_index fill_packet.bus_addr * BLOCK_SIZE + fields_offset fill_packet.bus_addr)
          fill_packet.bus_data ∧
    ((cache_response_handle (CacheController_Init 0) fill_packet 2).1.tsram
        (fields_index fill_packet.bus_addr)).tag = fields_tag fill_packet.bus_addr ∧
    (cache_response_handle (CacheController_Init 0) fill_packet 2).2.1 = 2 + 1 ∧
    (cache_response_handle (CacheController_Init 0) fill_packet 2).2.2 = false :=
  match C32_fill_response (CacheController_Init 0) fill_packet 2 (by decide) rfl
    (by decide) with
  | ⟨h1, h2, _, _, _, _, h7⟩ => ⟨h1, h2, (h7 (by decide)).2.1, (h7 (by decide)).2.2⟩

/-! ## `Pipe_Bubbles` under a memory stall, and the comparisons of the branches -/

namespace PipelineController

open OpcodeHandlers

/-- The function `mem` keeps the `pc` of every stage. -/
theorem mem_stage_pc (c : Nat) (x : Pipe_fig × Sim) (k : Nat) :
    ((mem c x).1.stages_in_pipe k).pc = (x.1.stages_in_pipe k).pc := by
  unfold mem
  dsimp only
  split_ifs
  · by_cases hk : k = MEM
    · subst hk
      simp [set_result, (enter_params_to_regs_stage x.1 MEM MEM).2.2.1]
    · simp [set_result, Function.update_noteq hk,
        (enter_params_to_regs_stage x.1 MEM k).2.2.1]
  · exact (enter_params_to_regs_stage x.1 MEM k).2.2.1
  · rfl

/-- The function `Pipe_Bubbles` under `mem_stall`, the pipeline not halted: one assignment. -/
theorem Pipe_Bubbles_mem_stall (p : Pipe_fig) (hm : p.mem_stall = true)
    (hh : p.is_halted = false) :
    Pipe_Bubbles p = set_stage_pc p WRITE_BACK UINT16_MAX := by
  have e : Pipe_Bubbles_loop p PIPE_SIZE (PIPE_SIZE - 1)
      = set_stage_pc p WRITE_BACK UINT16_MAX := by
    show Pipe_Bubbles_loop p 5 4 = _
    rw [Pipe_Bubbles_loop, if_pos (by decide), if_pos hm]
  unfold Pipe_Bubbles
  dsimp only
  rw [e, if_neg]
  show ¬ p.is_halted = true
  rw [hh]
  decide

/-- The cycle of a pipeline with `mem_stall` set, not halted, whose `MEM` stage holds an
instruction and whose `WRITE_BACK` stage is a bubble: `fetch` returns at once, the loop starts
at `MEM`, and only `mem` runs. -/
theorem execute_pipe_stages_mem_stall (c : Nat) (x : Pipe_fig × Sim)
    (hm : x.1.mem_stall = true) (hpc : (x.1.stages_in_pipe MEM).pc ≠ UINT16_MAX)
    (hwb : (x.1.stages_in_pipe WRITE_BACK).pc = UINT16_MAX) :
    execute_pipe_stages c x = some (mem c x) := by
  have hf : stage_to_exe c FETCH x = some x := by
    show (fetch x.1).map (fun p => (p, x.2)) = _
    unfold fetch
    rw [if_pos hm]
    rfl
  have h3 : (if (x.1.stages_in_pipe MEM).pc ≠ UINT16_MAX then stage_to_exe c MEM x
      else some x) = some (mem c x) := by
    rw [if_pos hpc]
    rfl
  have h4 : (if ((mem c x).1.stages_in_pipe WRITE_BACK).pc ≠ UINT16_MAX then
      stage_to_exe c WRITE_BACK (mem c x) else some (mem c x)) = some (mem c x) := by
    rw [if_neg]
    rw [mem_stage_pc, hwb]
    exact fun h => h rfl
  have hr : run_stages c [MEM, WRITE_BACK] x = some (mem c x) := by
    rw [run_stages_cons c _ _ x _ h3, run_stages_cons c _ _ _ _ h4]
    rfl
  unfold execute_pipe_stages
  dsimp only
  rw [hm]
  by_cases hh : (!x.1.is_halted) = true
  · rw [if_pos hh, hf]
    exact hr
  · rw [if_neg hh]
    exact hr

end PipelineController

/-- C33.  `Pipe_Bubbles` on a pipeline with `mem_stall` set and not halted assigns the `pc` of
the `WRITE_BACK` stage only, which becomes `UINT16_MAX`: the records of `FETCH`, `DECODE`,
`EXECUTE` and `MEM` are unchanged, as are the instruction, the result and the operation of
`WRITE_BACK`, the registers, the flags, the counters and the `pc`.  When `MEM` holds an
instruction, the next cycle runs `mem` on it again and runs no other stage. -/
theorem C33_bubbles_under_mem_stall (p : Pipe_fig) (hm : p.mem_stall = true)
    (hh : p.is_halted = false) :
    (∀ k, k ≠ WRITE_BACK →
      (PipelineController.Pipe_Bubbles p).stages_in_pipe k = p.stages_in_pipe k) ∧
    (PipelineController.Pipe_Bubbles p).stages_in_pipe WRITE_BACK
      = { p.stages_in_pipe WRITE_BACK with pc := UINT16_MAX } ∧
    (PipelineController.Pipe_Bubbles p).regs_pnt = p.regs_pnt ∧
    (PipelineController.Pipe_Bubbles p).pc = p.pc ∧
    (PipelineController.Pipe_Bubbles p).mem_stall = true ∧
    (PipelineController.Pipe_Bubbles p).data_stall = p.data_stall ∧
    (PipelineController.Pipe_Bubbles p).is_halted = false ∧
    (PipelineController.Pipe_Bubbles p).insturcionts_pnt = p.insturcionts_pnt ∧
    (PipelineController.Pipe_Bubbles p).params_of_op = p.params_of_op ∧
    (PipelineController.Pipe_Bubbles p).stats = p.stats ∧
    ((p.stages_in_pipe MEM).pc ≠ UINT16_MAX →
      ∀ (c : Nat) (sim : Sim),
        PipelineController.Pipe_iteration_exe c (PipelineController.Pipe_Bubbles p, sim)
          = some
            (PipelineController.stats_update
              (PipelineController.mem c
                ({ PipelineController.Pipe_Bubbles p with
                    data_stall :=
                      PipelineController.checkfor_data_hazards
                        (PipelineController.Pipe_Bubbles p) }, sim)).1,
              (PipelineController.mem c
                ({ PipelineController.Pipe_Bubbles p with
                    data_stall :=
                      PipelineController.checkfor_data_hazards
                        (PipelineController.Pipe_Bubbles p) }, sim)).2)) := by
  have e := PipelineController.Pipe_Bubbles_mem_stall p hm hh
  refine ⟨fun k hk => ?_, ?_, ?_, ?_, ?_, ?_, ?_, ?_, ?_, ?_, fun hpc c sim => ?_⟩
  · rw [e]
    simp only [set_stage_pc, Function.update_noteq hk]
  · rw [e]
    simp only [set_stage_pc, Function.update_same]
  · rw [e]; rfl
  · rw [e]; rfl
  · rw [e]; exact hm
  · rw [e]; rfl
  · rw [e]; exact hh
  · rw [e]; rfl
  · rw [e]; rfl
  · rw [e]; rfl
  · unfold PipelineController.Pipe_iteration_exe
    dsimp only
    rw [PipelineController.execute_pipe_stages_mem_stall c _ (by rw [e]; exact hm)
      (by
        rw [e]
        have hne : MEM ≠ WRITE_BACK := by decide
        simp only [set_stage_pc, Function.update_noteq hne]
        exact hpc)
      (by
        rw [e]
        simp only [set_stage_pc, Function.update_same])]

/-- C33, witness: the pipeline `mem_stall_example`, with a `LW` stalled in `MEM`. -/
theorem C33_bubbles_under_mem_stall_witness :
    (∀ k, k ≠ WRITE_BACK →
      (PipelineController.Pipe_Bubbles mem_stall_example).stages_in_pipe k
        = mem_stall_example.stages_in_pipe k) ∧
    (PipelineController.Pipe_Bubbles mem_stall_example).stages_in_pipe WRITE_BACK
      = { mem_stall_example.stages_in_pipe WRITE_BACK with pc := UINT16_MAX } :=
  match C33_bubbles_under_mem_stall mem_stall_example rfl rfl with
  | ⟨h1, h2, _⟩ => ⟨h1, h2⟩

/-- C40.  With `BLT`, `BGT`, `BLE` or `BGE` in `DECODE`, `decode` returns, and the `pc` becomes
the value of `rd` masked with `0x1FF` exactly when the comparison of the opcode holds between
the values of `rs` and `rt`, taken as the numbers between 0 and `2 ^ 32 - 1` that the
registers hold (the operands are `uint32_t`); otherwise the `pc` is unchanged. -/
theorem C40_unsigned_compare (p : Pipe_fig)
    (hop : Format_of_instruction.opcode (p.stages_in_pipe DECODE).instruction = BLT ∨
      Format_of_instruction.opcode (p.stages_in_pipe DECODE).instruction = BGT ∨
      Format_of_instruction.opcode (p.stages_in_pipe DECODE).instruction = BLE ∨
      Format_of_instruction.opcode (p.stages_in_pipe DECODE).instruction = BGE) :
    ∃ p1, PipelineController.decode p = some p1 ∧
      p1.regs_pnt = Function.update p.regs_pnt IMM_REG
        (Format_of_instruction.imm (p.stages_in_pipe DECODE).instruction) ∧
      p1.pc =
        if (Format_of_instruction.opcode (p.stages_in_pipe DECODE).instruction = BLT ∧
              p1.regs_pnt (Format_of_instruction.rs (p.stages_in_pipe DECODE).instruction)
                < p1.regs_pnt (Format_of_instruction.rt (p.stages_in_pipe DECODE).instruction)) ∨
            (Format_of_instruction.opcode (p.stages_in_pipe DECODE).instruction = BGT ∧
              p1.regs_pnt (Format_of_instruction.rs (p.stages_in_pipe DECODE).instruction)
                > p1.regs_pnt (Format_of_instruction.rt (p.stages_in_pipe DECODE).instruction)) ∨
            (Format_of_instruction.opcode (p.stages_in_pipe DECODE).instruction = BLE ∧
              p1.regs_pnt (Format_of_instruction.rs (p.stages_in_pipe DECODE).instruction)
                ≤ p1.regs_pnt
                    (Format_of_instruction.rt (p.stages_in_pipe DECODE).instruction)) ∨
            (Format_of_instruction.opcode (p.stages_in_pipe DECODE).instruction = BGE ∧
              p1.regs_pnt (Format_of_instruction.rs (p.stages_in_pipe DECODE).instruction)
                ≥ p1.regs_pnt (Format_of_instruction.rt (p.stages_in_pipe DECODE).instruction))
        then
          p1.regs_pnt (Format_of_instruction.rd (p.stages_in_pipe DECODE).instruction) &&& 0x1FF
        else p.pc := by
  have hb : OpcodeHandlers.IsOpcodeBranch
      (Format_of_instruction.opcode (p.stages_in_pipe DECODE).instruction) = true := by
    rcases hop with h | h | h | h <;> rw [h] <;> decide
  obtain ⟨p1, hd, hr, hpc⟩ := PipelineController.decode_branch p hb
  refine ⟨p1, hd, hr, ?_⟩
  rw [hpc, hr]
  rcases hop with h | h | h | h <;>
    simp [h, branch_taken, BEQ, BNE, BLT, BGT, BLE, BGE]

/-- C40, witness: in `unsigned_example` the `BLT R4, R2, R3` finds `R2 = 0xFFFFFFFF` and
`R3 = 0`; the branch is not taken and the `pc` stays at 3. -/
theorem C40_unsigned_compare_witness :
    ∃ p1, PipelineController.decode unsigned_example = some p1 ∧
      p1.regs_pnt 2 = 0xFFFFFFFF ∧ p1.regs_pnt 3 = 0 ∧ p1.pc = 3 :=
  match C40_unsigned_compare unsigned_example (Or.inl (by decide)) with
  | ⟨p1, h1, h2, h3⟩ =>
    ⟨p1, h1, by rw [h2]; rfl, by rw [h2]; rfl, by rw [h3, h2]; rfl⟩

/-! ## The slots of the bus, the indices of the arrays, the operation table and the counters -/

/-- The slots of `gCoreCache` when every core has loaded an instruction: the four caches as
`CacheController_Init` leaves them, which are the caches of `Sim_Init`. -/
theorem initCores_slots_loaded (loaded : Nat → Nat)
    (h : ∀ i, i < NUM_OF_CORES → loaded i ≠ 0) (memin : Nat → Nat) (i : Nat)
    (hi : i < NUM_OF_CORES) :
    initCores_slots loaded i = some ((Sim_Init memin).cache i) := by
  have h0 := h 0 (by decide)
  have h1 := h 1 (by decide)
  have h2 := h 2 (by decide)
  have h3 := h 3 (by decide)
  have hi4 : i < 4 := hi
  unfold initCores_slots
  rw [range_cores]
  simp only [List.foldl_cons, List.foldl_nil, ProcessorCore_Init_slots, h0, h1, h2, h3,
    if_false, Bus_InitializeCache]
  interval_cases i <;> rfl

/-- The loop of `is_shared_line` over registered caches is the one over the caches of the
globals. -/
theorem is_shared_line_slots_loaded (s : Sim) (t : bus_transaction) :
    is_shared_line_slots (fun i => some (s.cache i)) t = some (is_shared_line s t) := by
  unfold is_shared_line_slots is_shared_line
  rw [range_cores]
  rfl

/-- C34, the failing input.  The instruction file of core 1 is empty and the other cores load
one instruction.  After `initCores` the slots 0, 2 and 3 of `gCoreCache` hold a cache and the
slot 1 holds the null pointer, and the loop of `is_shared_line`, which calls
`shared_or_modified_handler` on every slot, has no result for any transaction. -/
theorem C34_failing_run :
    one_empty_file 1 = 0 ∧
    (initCores_slots one_empty_file 0).isSome = true ∧
    initCores_slots one_empty_file 1 = none ∧
    (initCores_slots one_empty_file 2).isSome = true ∧
    (initCores_slots one_empty_file 3).isSome = true ∧
    ∀ t, is_shared_line_slots (initCores_slots one_empty_file) t = none := by
  refine ⟨rfl, rfl, rfl, rfl, rfl, fun t => ?_⟩
  have e : initCores_slots one_empty_file 1 = none := rfl
  unfold is_shared_line_slots
  rw [range_cores]
  simp only [List.foldl_cons, List.foldl_nil]
  have e1 : is_shared_line_slot (initCores_slots one_empty_file) t
      (is_shared_line_slot (initCores_slots one_empty_file) t (some (false, false)) 0) 1
      = none := by
    unfold is_shared_line_slot
    rw [e]
    split <;> simp_all
  rw [e1]
  rfl

/-- C35, the failing run.  Core 0 runs `far_program`: `R2` becomes `0x100000` and the `LW`
asks for the address `R2 + R0 = 0x100000`.  In the bus ticks that follow the cycles 28 to 31
the memory callback reads `mainMemory` at the indices `0x100000` to `0x100003`, which are not
below `MAIN_MEMORY_SIZE`. -/
theorem C35_failing_run :
    (core_after far_program 28).map
      (fun y => (stage_view y.1.pipelineController MEM, y.1.pipelineController.regs_pnt 2,
        y.1.pipelineController.regs_pnt 0))
      = some ((2, LW, 3, 0), 0x100000, 0) ∧
    (core_after far_program 28).map
      (fun y => (y.2.gOngoingTransaction.origid, y.2.gOngoingTransaction.bus_cmd,
        y.2.gOngoingTransaction.bus_addr))
      = some (0, cmd_on_the_bus.busRd, 0x100000) ∧
    (core_after far_program 28).map (fun y => tick_memory_access y.2)
      = some (some 0x100000) ∧
    (core_after far_program 29).map (fun y => tick_memory_access y.2)
      = some (some 0x100001) ∧
    (core_after far_program 30).map (fun y => tick_memory_access y.2)
      = some (some 0x100002) ∧
    (core_after far_program 31).map (fun y => tick_memory_access y.2)
      = some (some 0x100003) ∧
    ¬ (0x100000 < MAIN_MEMORY_SIZE) :=
  ⟨by decide!, by decide!, by decide!, by decide!, by decide!, by decide!, by decide⟩

/-- C36, the failing run.  At start-up `gOngoingTransaction.origid` is 0.  The first bus tick
finds the queue empty and no transaction active, and sets `origid` to `invalid_caller`
(`0xFFFF`); the same holds after a second tick.  So the second tick, and every tick that
follows an idle one, reads `gTransactionStatePerCore[0xFFFF]`, outside the four entries of
the array. -/
theorem C36_failing_run (memin : Nat → Nat) :
    state_index (Sim_Init memin) = 0 ∧
    state_index (Run_Bus_Iteration (Sim_Init memin)) = invalid_caller ∧
    state_index (Run_Bus_Iteration (Run_Bus_Iteration (Sim_Init memin))) = invalid_caller ∧
    ¬ (invalid_caller < NUM_OF_CORES) ∧
    state_get (Run_Bus_Iteration (Sim_Init memin)).gTransactionStatePerCore
      (state_index (Run_Bus_Iteration (Sim_Init memin))) = none :=
  ⟨rfl, rfl, rfl, by decide, rfl⟩

/-- C37, the failing runs.  The entry 18 of `OpcodeFunctionTable` is null; in
`unused_opcode_program` the instruction with opcode 18 is decoded with this entry for
operation, reaches `EXECUTE` after 2 cycles, and in the third cycle `execute`, which excepts
only the branches, `LW`, `SW` and `HALT`, calls the null pointer (no result).  The opcode 21
is outside the 21 entries of the table: in `large_opcode_program` the second cycle reads
`OpcodeFunctionTable[21]` in `decode` (no result). -/
theorem C37_failing_run :
    OpcodeHandlers.OpcodeFunctionTable 18 = some none ∧
    (core_after unused_opcode_program 2).map
      (fun y => (stage_view y.1.pipelineController EXECUTE,
        (y.1.pipelineController.stages_in_pipe EXECUTE).operation))
      = some ((0, 18, 2, 0), none) ∧
    (core_after unused_opcode_program 2).map
      (fun y => (PipelineController.execute y.1.pipelineController).isSome) = some false ∧
    (core_after unused_opcode_program 3).isSome = false ∧
    OpcodeHandlers.OpcodeFunctionTable 21 = none ∧
    (core_after large_opcode_program 1).map
      (fun y => stage_view y.1.pipelineController DECODE) = some (0, 21, 2, 0) ∧
    (core_after large_opcode_program 1).map
      (fun y => (PipelineController.decode y.1.pipelineController).isSome) = some false ∧
    (core_after large_opcode_program 2).isSome = false :=
  ⟨by decide, by decide!, by decide!, by decide!, by decide, by decide!, by decide!,
    by decide!⟩

/-- C38, the failing run.  After `run_owner_writes` cache 0 holds block `0x40` in `M`, the
miss flag of the writes is clear, no transaction is active or queued, and the write counters
of cache 1 are 0.  Core 1 presents its `SW` to `0x40` once per cycle and no other core issues
a request.  The first 27 attempts return `false` and the attempt 28 returns `true`; by then
`write_misses` of cache 1 has grown by 2 (`write_hits` by 0): the fill of the `BusRdX` leaves
the line in `S`, and the attempt that follows counts a second miss and asks again. -/
theorem C38_failing_run :
    Reachable (Write_Data_to_Cache (before_attempt 27) 1 0x40 9).1 ∧
    holds ((Sim_Init (fun _ => 0)).run run_owner_writes) 0 0 16
      MESIState.MESI_STATE_MODIFIED ∧
    ((Sim_Init (fun _ => 0)).run run_owner_writes).miss_occurred_write = false ∧
    ((Sim_Init (fun _ => 0)).run run_owner_writes).gIsBusTransactionActive = false ∧
    ((Sim_Init (fun _ => 0)).run run_owner_writes).queue = [] ∧
    (((Sim_Init (fun _ => 0)).run run_owner_writes).cache 1).tracking.write_hits = 0 ∧
    (((Sim_Init (fun _ => 0)).run run_owner_writes).cache 1).tracking.write_misses = 0 ∧
    (∀ n, n < 27 → (Write_Data_to_Cache (before_attempt n) 1 0x40 9).2 = false) ∧
    ((before_attempt 1).cache 1).tracking.write_misses = 1 ∧
    holds (before_attempt 6) 1 0 16 MESIState.MESI_STATE_SHARED ∧
    ((before_attempt 7).cache 1).tracking.write_misses = 2 ∧
    (Write_Data_to_Cache (before_attempt 27) 1 0x40 9).2 = true ∧
    ((Write_Data_to_Cache (before_attempt 27) 1 0x40 9).1.cache 1).tracking.write_hits = 0 ∧
    ((Write_Data_to_Cache (before_attempt 27) 1 0x40 9).1.cache 1).tracking.write_misses
      = 2 := by
  refine ⟨?_, by decide!, by decide!, by decide!, by decide!, by decide!, by decide!,
    by decide!, by decide!, by decide!, by decide!, by decide!, by decide!, by decide!⟩
  exact Reachable.step _ (Event.write 1 0x40 9)
    (Reachable.step _ Event.tick
      (Reachable.run_events (Reachable.init _) _ (by decide!)) trivial) (by decide)

/-- C39, the failing run.  In `stale_program` the `HALT` is decoded in the third cycle, in
which `fetch` has latched the word that follows it, `ADD R3 = R2 + R0`; `Pipe_Bubbles` copies
this word into `DECODE` and marks `FETCH` and `DECODE` as bubbles.  After 3 cycles `DECODE` is
a bubble holding that word, the `ADD R2` is in `MEM`, and `checkfor_data_hazards` is true:
the next two cycles have `data_stall` set with `DECODE` a bubble, and each adds one to
`stalls_in_decode`, which is 2 when the core halts. -/
theorem C39_failing_run :
    (core_after stale_program 3).map (fun y => stage_view y.1.pipelineController DECODE)
      = some (UINT16_MAX, ADD, 3, 0) ∧
    (core_after stale_program 3).map
      (fun y => (Format_of_instruction.rs
        (y.1.pipelineController.stages_in_pipe DECODE).instruction,
        stage_view y.1.pipelineController MEM)) = some (2, (0, ADD, 2, 5)) ∧
    (core_after stale_program 3).map
      (fun y => (PipelineController.checkfor_data_hazards y.1.pipelineController,
        y.1.pipelineController.stats.stalls_in_decode)) = some (true, 0) ∧
    (core_after stale_program 4).map
      (fun y => ((y.1.pipelineController.stages_in_pipe DECODE).pc,
        y.1.pipelineController.data_stall, y.1.pipelineController.mem_stall,
        y.1.pipelineController.stats.stalls_in_decode)) = some (UINT16_MAX, true, false, 1) ∧
    (core_after stale_program 5).map
      (fun y => ((y.1.pipelineController.stages_in_pipe DECODE).pc,
        y.1.pipelineController.data_stall, y.1.pipelineController.mem_stall,
        y.1.pipelineController.stats.stalls_in_decode)) = some (UINT16_MAX, true, false, 2) ∧
    (core_after stale_program 7).map
      (fun y => (y.1.isHalted, y.1.pipelineController.stats.stalls_in_decode))
      = some (true, 2) :=
  ⟨by decide!, by decide!, by decide!, by decide!, by decide!, by decide!⟩

end MultiCore
